import Mathlib

/-!
# MuseScore layout core (libmscore/layout.cpp): a shallow embedding

Floating point values (`qreal`) are embedded as rationals, so that the
arithmetic identities of the layout algorithms can be stated exactly.
Where an identity depends on the rounding of double precision, the
operations are embedded a second time with every result rounded
(`roundDouble`, definitions with the suffix `Double`).
Pointers into the score are embedded as values or as indices into lists.
-/

namespace MuseScore

/-! ## Horizontal spacing: springs, `sff2`, `respace` (layout.cpp 1853-1945) -/

/-- Spring of layout.cpp: `seg` is the index of the gap, `stretch` its stretch
coefficient and `fix` its minimum width. -/
structure Spring where
  seg : Nat
  stretch : ℚ
  fix : ℚ
  deriving DecidableEq, Repr

/-- The `std::multimap<qreal, Spring>` of layout.cpp, as the list of its
(key, spring) entries in iteration order (ascending key). -/
abbrev SpringMap := List (ℚ × Spring)

/-- Insertion into the multimap: the new entry goes behind every entry whose key is
not greater (the upper bound of its key). -/
def SpringMap.add (k : ℚ) (s : Spring) : SpringMap → SpringMap
  | [] => [(k, s)]
  | e :: rest => if k < e.1 then (k, s) :: e :: rest else e :: SpringMap.add k s rest

/-- The `for` loop of `sff2`, entered with the iterator at `cur` and `rest` behind it:
`xMin -= fix; f = (width - xMin) / c; ++i; if (i == end || f <= i->first) break;
c += i->second.stretch`. -/
def sff2Loop (width : ℚ) : ℚ → ℚ → Spring → SpringMap → ℚ
  | xMin, c, cur, [] => (width - (xMin - cur.fix)) / c
  | xMin, c, cur, nxt :: rest =>
      let xMin1 := xMin - cur.fix
      let f := (width - xMin1) / c
      if f ≤ nxt.1 then f else sff2Loop width xMin1 (c + nxt.2.stretch) nxt.2 rest

/-- The function `sff2(width, xMin, springs)`. The result is `none` where the source
dereferences `springs.begin()` of an empty map. -/
def sff2 (width xMin : ℚ) (springs : SpringMap) : Option ℚ :=
  if width ≤ xMin then some 0
  else
    match springs with
    | [] => none
    | i :: rest =>
        let c := if i.2.stretch = 0 then 11 / 10 else i.2.stretch
        some (sff2Loop width xMin c i.2 rest)

/-- Sum of the minimum widths of all springs. -/
def sumFix (springs : SpringMap) : ℚ := (springs.map fun e => e.2.fix).sum

/-- Width a spring takes under a force: `max(force * stretch, fix)`, as computed in
`respace` (`stretch = force * i->second.stretch; if (stretch < fix) stretch = fix`). -/
def springWidth (force : ℚ) (s : Spring) : ℚ :=
  let stretch := force * s.stretch
  if stretch < s.fix then s.fix else stretch

/-- Total width of all springs under a force. -/
def totalSpringWidth (force : ℚ) (springs : SpringMap) : ℚ :=
  (springs.map fun e => springWidth force e.2).sum

/-- Input of `respace`: the x positions of the first and the last element and, for
every gap `i < n-1`, the minimum distance `width[i]` and the duration `ticksList[i]`. -/
structure RespaceInput where
  x1 : ℚ
  x2 : ℚ
  gaps : List (ℚ × Int)

/-- The value `minTick` of `respace`: `qMin` over all tick values, starting at 100000. -/
def respaceMinTick (r : RespaceInput) : Int :=
  r.gaps.foldl (fun m g => min g.2 m) 100000

/-- The first loop over the gaps in `respace` that fills the spring map. The function
`str t minTick` stands for `1.0 + 0.865617 * log(qreal(t) / qreal(minTick))`. -/
def respaceSprings (str : Int → Int → ℚ) (minTick : Int) :
    List (ℚ × Int) → Nat → SpringMap → SpringMap
  | [], _, springs => springs
  | g :: gs, i, springs =>
      let s := str g.2 minTick
      let d := g.1 / s
      respaceSprings str minTick gs (i + 1) (SpringMap.add d ⟨i, s, g.1⟩ springs)

/-- The value `minimum` of `respace`: the sum of all `width[i]`. -/
def respaceMinimum (r : RespaceInput) : ℚ := (r.gaps.map fun g => g.1).sum

/-- The loop of `respace` that writes `width[i->second.seg] = stretch`. -/
def respaceAssign (force : ℚ) (springs : SpringMap) (width : List ℚ) : List ℚ :=
  springs.foldl (fun w e => w.set e.2.seg (springWidth force e.2)) width

/-- The array `width` at the end of `respace`; `none` where `sff2` fails. -/
def respaceWidths (str : Int → Int → ℚ) (r : RespaceInput) : Option (List ℚ) :=
  let springs := respaceSprings str (respaceMinTick r) r.gaps 0 []
  match sff2 (r.x2 - r.x1) (respaceMinimum r) springs with
  | none => none
  | some force => some (respaceAssign force springs (r.gaps.map fun g => g.1))

/-- The last loop of `respace`: the x positions given to the elements `1 .. n-2`
(`x += width[i-1]`), from the start position `x` and the array `width`. -/
def respacePositions : ℚ → List ℚ → List ℚ
  | _, [] => []
  | _, [_] => []
  | x, w :: w2 :: ws => (x + w) :: respacePositions (x + w) (w2 :: ws)

/-- Distances between consecutive positions of a list of x positions. -/
def gapsOf : List ℚ → List ℚ
  | [] => []
  | [_] => []
  | a :: b :: rest => (b - a) :: gapsOf (b :: rest)

/-! ## System collection: `collectSystem` (layout.cpp 3143-3449) -/

/-- The values of `Element::Type` that `collectSystem` distinguishes for a measure base. -/
inductive ElementType where
  | MEASURE
  | HBOX
  | VBOX
  | TBOX
  | FBOX
  | INVALID
  deriving DecidableEq, Repr

/-- The part of a `MeasureBase` read by `collectSystem`. `id` stands for the identity of
the object (pointer), `system` for the system it belongs to. `boxWidth` is
`point(boxWidth())` of a horizontal box. For a measure, `width`, `userStretch`, `ticks`,
`tick`, `hasSystemHeader` and `minWidth1` are its fields of the same name, and the
remaining fields are the values that the functions called by the collecting loop return
for it: `minWidthFirst` is `computeMinWidth(m->first(), true)` after `addSystemHeader`,
`minWidthOther` is `computeMinWidth(m->first(), false)`, `endBarLinesLast` and
`endBarLinesInner` are `createEndBarLines(true)` and `createEndBarLines(false)`, and
`cautionaryWidth` with `hasCourtesy` is the result of `cautionaryWidth(m, hasCourtesy)`. -/
structure MeasureBase where
  id : Nat := 0
  type : ElementType
  boxWidth : ℚ := 0
  width : ℚ := 0
  userStretch : ℚ := 1
  ticks : Int := 0
  tick : Int := 0
  system : Option Nat := none
  pageBreak : Bool := false
  lineBreak : Bool := false
  sectionBreak : Bool := false
  hasSystemHeader : Bool := false
  minWidth1 : ℚ := 0
  minWidthFirst : ℚ := 0
  minWidthOther : ℚ := 0
  endBarLinesLast : ℚ := 0
  endBarLinesInner : ℚ := 0
  cautionaryWidth : ℚ := 0
  hasCourtesy : Bool := false
  deriving DecidableEq, Repr

/-- The local `stretch` of the loops: `m->userStretch()`, raised to 1.0 if smaller. -/
def MeasureBase.stretch (m : MeasureBase) : ℚ :=
  if m.userStretch < 1 then 1 else m.userStretch

/-- First loop of the width distribution (layout.cpp 3388-3401): `minWidth` starts at the
left margin and `totalWeight` at 0; a horizontal box adds its width, a measure adds its
width and the weight `ticks * stretch`. -/
def systemMinWidthWeight (leftMargin : ℚ) (measures : List MeasureBase) : ℚ × ℚ :=
  measures.foldl
    (fun acc mb =>
      match mb.type with
      | ElementType.HBOX => (acc.1 + mb.boxWidth, acc.2)
      | ElementType.MEASURE => (acc.1 + mb.width, acc.2 + (mb.ticks : ℚ) * mb.stretch)
      | _ => acc)
    (leftMargin, 0)

/-- The value `rest` (layout.cpp 3404-3416): the extra width per unit of weight. In line
mode or without horizontal stretch it is 0; a ragged row takes `rest * .5` or `minWidth`
in place of the remaining width. The division is that of the rationals (the source
divides floating point numbers, which differs only for a zero weight). -/
def systemRest (lineMode noHorizontalStretch raggedRight : Bool) (systemWidth minWidth
    totalWeight : ℚ) : ℚ :=
  if lineMode || noHorizontalStretch then 0
  else
    let rest := systemWidth - minWidth
    let rest := if raggedRight then (if minWidth > rest then rest * (1 / 2) else minWidth)
                else rest
    rest / totalWeight

/-- The width `ww` by which `pos.rx()` advances for one measure base in the second loop
(layout.cpp 3419-3447); for a measure it is the width handed to `stretchMeasure`. -/
def stretchedWidth (lineMode : Bool) (rest : ℚ) (mb : MeasureBase) : ℚ :=
  match mb.type with
  | ElementType.MEASURE =>
      if !lineMode then mb.width + rest * (mb.ticks : ℚ) * mb.stretch else mb.width
  | ElementType.HBOX => mb.boxWidth
  | _ => 0

/-- Result of the width distribution: the widths `ww` of the measure bases in order, the
final `pos.x()` and the width of the system. -/
structure SystemLayout where
  widths : List ℚ
  posX : ℚ
  systemWidth : ℚ
  deriving DecidableEq, Repr

/-- The width distribution of `collectSystem` (layout.cpp 3385-3449). Outside line mode
the system width is set to `systemWidth`; in line mode it is set to the final `pos.x()`.
The operations on `qreal` are those of the rationals; `distributeSystemWidthDouble` is the
same distribution with every operation rounded to double precision. -/
def distributeSystemWidth (lineMode noHorizontalStretch raggedRight : Bool)
    (leftMargin systemWidth : ℚ) (measures : List MeasureBase) : SystemLayout :=
  let mw := systemMinWidthWeight leftMargin measures
  let rest := systemRest lineMode noHorizontalStretch raggedRight systemWidth mw.1 mw.2
  let posX := measures.foldl (fun x mb => x + stretchedWidth lineMode rest mb) leftMargin
  { widths := measures.map (stretchedWidth lineMode rest)
    posX := posX
    systemWidth := if lineMode then posX else systemWidth }

/-- Width a measure base has before the distribution: `width()` of a measure,
`point(boxWidth())` of a horizontal box. -/
def MeasureBase.minWidth (mb : MeasureBase) : ℚ :=
  match mb.type with
  | ElementType.HBOX => mb.boxWidth
  | ElementType.MEASURE => mb.width
  | _ => 0

/-- Weight of a measure base in the distribution: `ticks * stretch` for a measure. -/
def MeasureBase.weight (mb : MeasureBase) : ℚ :=
  match mb.type with
  | ElementType.MEASURE => (mb.ticks : ℚ) * mb.stretch
  | _ => 0

/-- Example system content: a measure of width 20 (1920 ticks), a horizontal box of width
5 and a measure of width 30 (960 ticks, user stretch 2). -/
def exampleSystemMeasures : List MeasureBase :=
  [{ type := ElementType.MEASURE, width := 20, userStretch := 1, ticks := 1920 },
   { type := ElementType.HBOX, boxWidth := 5 },
   { type := ElementType.MEASURE, width := 30, userStretch := 2, ticks := 960 }]

/-- The layout modes of a score. -/
inductive LayoutMode where
  | PAGE
  | FLOAT
  | LINE
  | SYSTEM
  deriving DecidableEq, Repr

/-- Values the collecting loop of `collectSystem` reads from the score, the style and
the layout context: the layout mode, `minMeasureWidth`, `measureSpacing`, the system
width `printableWidth() * DPI`, and `rangeLayout`, `endTick` and `systemOldMeasure` (the
identity of that measure, if any). -/
structure CollectConfig where
  layoutMode : LayoutMode
  minMeasureWidth : ℚ
  measureSpacing : ℚ
  systemWidth : ℚ
  rangeLayout : Bool := false
  endTick : Int := 0
  systemOldMeasure : Option Nat := none
  deriving DecidableEq, Repr

/-- State at the end of the collecting loop: `system->measures()`, the accumulated
`minWidth`, `lc.curMeasure`, `lc.prevMeasure`, the measure bases `getNextMeasure` has not
yet delivered, and `lc.rangeDone`. -/
structure CollectResult where
  measures : List MeasureBase
  minWidth : ℚ
  curMeasure : Option MeasureBase
  prevMeasure : Option MeasureBase
  stream : List MeasureBase
  rangeDone : Bool
  deriving DecidableEq, Repr

/-- The local `stretch` of the collecting loop: `m->userStretch() * measureSpacing`,
raised to 1.0 if smaller. -/
def collectStretch (cfg : CollectConfig) (m : MeasureBase) : ℚ :=
  let stretch := m.userStretch * cfg.measureSpacing
  if stretch < 1 then 1 else stretch

/-- The width `ww` of the current measure base before the fit check (layout.cpp
3172-3208), with the value given to `setWidth`, the local `cautionaryW` and the new
value of `firstMeasure`. -/
def collectWidth (cfg : CollectConfig) (firstMeasure : Bool) (cur : MeasureBase) :
    ℚ × ℚ × ℚ × Bool :=
  match cur.type with
  | ElementType.HBOX => (cur.boxWidth, cur.width, 0, firstMeasure)
  | ElementType.MEASURE =>
      let ww := if firstMeasure then cur.minWidthFirst
                else if cur.hasSystemHeader then cur.minWidth1
                else cur.minWidthOther
      let ww := ww + cur.endBarLinesLast
      let stretch := collectStretch cfg cur
      let ww := ww * stretch
      let ww := if ww < cfg.minMeasureWidth then cfg.minMeasureWidth else ww
      let cautionaryW := cur.cautionaryWidth * stretch
      (if !cur.hasCourtesy then ww + cautionaryW else ww, ww, cautionaryW, false)
  | _ => (0, cur.width, 0, firstMeasure)

/-- The flag `pbreak` (layout.cpp 3228-3243). -/
def collectPbreak (cfg : CollectConfig) (cur : MeasureBase) : Bool :=
  match cfg.layoutMode with
  | LayoutMode.PAGE | LayoutMode.SYSTEM =>
      cur.pageBreak || cur.lineBreak || cur.sectionBreak
        || cur.type == ElementType.VBOX || cur.type == ElementType.TBOX
  | _ => false

/-- The collecting loop `while (lc.curMeasure)` of `collectSystem` (layout.cpp
3167-3265) for the system `system`, entered with the current measure base `cur`.
`stream` holds the measure bases in the order in which the following calls of
`getNextMeasure` make them the current one; a call on the empty stream leaves no
current measure base. -/
def collectLoop (cfg : CollectConfig) (system : Nat) :
    List MeasureBase → MeasureBase → Option MeasureBase → List MeasureBase → ℚ → Bool →
      CollectResult
  | stream, cur, prev, measures, minWidth, firstMeasure =>
      let lineMode := cfg.layoutMode == LayoutMode.LINE
      let oldSystem := cur.system
      let w := collectWidth cfg firstMeasure cur
      let ww := w.1
      let cautionaryW := w.2.2.1
      let cur1 : MeasureBase := { cur with system := some system, width := w.2.1 }
      let measures1 := measures ++ [cur1]
      if !lineMode && decide (measures1.length > 1) && decide (minWidth + ww > cfg.systemWidth)
      then
        { measures := measures1.dropLast
          minWidth := minWidth
          curMeasure := some { cur1 with system := oldSystem }
          prevMeasure := prev
          stream := stream
          rangeDone := false }
      else
        let ww :=
          match prev with
          | some p =>
              if p.type == ElementType.MEASURE && p.system == some system
              then ww + p.endBarLinesInner * collectStretch cfg p
              else ww
          | none => ww
        let pbreak := collectPbreak cfg cur1
        if cfg.rangeLayout && decide (cfg.endTick < cur1.tick)
            && cfg.systemOldMeasure == some cur1.id
        then
          { measures := measures1
            minWidth := minWidth
            curMeasure := some cur1
            prevMeasure := prev
            stream := stream
            rangeDone := true }
        else
          let minWidth := minWidth + ww
          match stream with
          | [] =>
              { measures := measures1
                minWidth :=
                  if !lineMode && (pbreak
                      || decide (minWidth + cfg.minMeasureWidth > cfg.systemWidth))
                  then minWidth else minWidth - cautionaryW
                curMeasure := none
                prevMeasure := some cur1
                stream := []
                rangeDone := false }
          | nxt :: rest =>
              if !lineMode && (pbreak || nxt.type == ElementType.VBOX
                  || nxt.type == ElementType.TBOX || nxt.type == ElementType.FBOX
                  || decide (minWidth + cfg.minMeasureWidth > cfg.systemWidth))
              then
                { measures := measures1
                  minWidth := minWidth
                  curMeasure := some nxt
                  prevMeasure := some cur1
                  stream := rest
                  rangeDone := false }
              else
                collectLoop cfg system rest nxt (some cur1) measures1
                  (minWidth - cautionaryW) w.2.2.2

/-- The measures of the system returned by `collectSystem(lc)` with the state of the
loop at its end: `none` for a null current measure (the function returns 0). The system
delivered by `getNextSystem` has no measures, `minWidth` starts at the left margin of the
system and `firstMeasure` is true. -/
def collectSystem (cfg : CollectConfig) (system : Nat) (leftMargin : ℚ)
    (curMeasure prevMeasure : Option MeasureBase) (stream : List MeasureBase) :
    Option CollectResult :=
  match curMeasure with
  | none => none
  | some cur => some (collectLoop cfg system stream cur prevMeasure [] leftMargin true)

/-- The flag `raggedRight` of `collectSystem` after the collecting loop (layout.cpp 3149,
3273-3277): it starts as `MScore::noHorizontalStretch` and is set when there is no current
measure left and the accumulated `minWidth` fills the system width by at most
`lastSystemFillLimit`. -/
def collectRaggedRight (noHorizontalStretch : Bool) (curMeasure : Option MeasureBase)
    (minWidth systemWidth lastSystemFillLimit : ℚ) : Bool :=
  if curMeasure.isNone && decide (minWidth / systemWidth ≤ lastSystemFillLimit) then true
  else noHorizontalStretch

/-- The remaining width that a ragged row shares among its measures (layout.cpp
3409-3414): half of the remaining width if `minWidth` exceeds it, else `minWidth`. -/
def raggedRest (systemWidth minWidth : ℚ) : ℚ :=
  if minWidth > systemWidth - minWidth then (systemWidth - minWidth) * (1 / 2) else minWidth

/-- Example of a last system: page mode, system width 100, least measure width 5. -/
def exampleLastConfig : CollectConfig :=
  { layoutMode := LayoutMode.PAGE, minMeasureWidth := 5, measureSpacing := 1,
    systemWidth := 100 }

/-- Example of a last measure: least width 20 as the first measure of a system, 1920
ticks. -/
def exampleLastMeasure : MeasureBase :=
  { type := ElementType.MEASURE, minWidthFirst := 20, userStretch := 1, ticks := 1920 }

/-! ## Ticks of the measures: `getNextMeasure` (layout.cpp 2800-2810, 2952) -/

/-- Modelled from the spec: `Measure::moveTicks` is not part of the sources at hand. A
measure has a tick range, so moving it by `diff` adds `diff` to its tick (its length, and
with it `ticks()`, stays). -/
def MeasureBase.moveTicks (m : MeasureBase) (diff : Int) : MeasureBase :=
  { m with tick := m.tick + diff }

/-- The part of `getNextMeasure` that sets the tick of the current measure base `cur`
(layout.cpp 2800-2810, 2952), entered with `lc.tick`: a measure base that is not a measure
gets `setTick(lc.tick)`, a measure gets `moveTicks(lc.tick - measure->tick())`, and
`lc.tick` advances by `measure->ticks()`. The result is the measure base with its new tick
and the new `lc.tick`. -/
def getNextMeasureTick (lcTick : Int) (cur : MeasureBase) : MeasureBase × Int :=
  if cur.type ≠ ElementType.MEASURE then ({ cur with tick := lcTick }, lcTick)
  else (cur.moveTicks (lcTick - cur.tick), lcTick + cur.ticks)

/-- The ticks given by the calls of `getNextMeasure` of a layout pass: `stream` holds the
measure bases in the order in which the calls make them the current one (a multi-measure
rest stands for the measures it replaces), `lcTick` is `lc.tick` on entry, 0 in a full
layout pass. -/
def layoutPassTicks : List MeasureBase → Int → List MeasureBase
  | [], _ => []
  | cur :: rest, lcTick =>
      (getNextMeasureTick lcTick cur).1 :: layoutPassTicks rest (getNextMeasureTick lcTick cur).2

/-- The sum of `ticks()` of the measures among the measure bases. -/
def measureTicks (mbs : List MeasureBase) : Int :=
  ((mbs.filter fun mb => mb.type = ElementType.MEASURE).map fun mb => mb.ticks).sum

/-! ## Chord layout: `layoutChords1`, `layoutChords2` (layout.cpp 110-630) -/

/-- Horizontal direction `MScore::DirectionH` of the user mirror property. -/
inductive DirectionH where
  | AUTO
  | LEFT
  | RIGHT
  deriving DecidableEq, Repr

/-- Note head types `NoteHead::Type`. -/
inductive NoteHeadType where
  | HEAD_AUTO
  | HEAD_WHOLE
  | HEAD_HALF
  | HEAD_QUARTER
  | HEAD_BREVIS
  deriving DecidableEq, Repr

/-- The data of a chord that `layoutChords1` and `layoutChords2` read through
`note->chord()`: `track` identifies the chord, `stem` is `stem()->lineWidth()` of a chord
with a stem, `headType` is `durationType().headType()`. -/
structure ChordInfo where
  track : Nat
  up : Bool
  staffMove : Int := 0
  dots : Int := 0
  mag : ℚ := 1
  hook : Bool := false
  stem : Option ℚ := none
  small : Bool := false
  headType : NoteHeadType := NoteHeadType.HEAD_QUARTER
  isNudged : Bool := false
  deriving DecidableEq, Repr

/-- A note: `id` stands for the identity of the object, `chord` for the chord it belongs
to. `mirror`, `hidden` and `dotsHidden` are written by the layout. -/
structure Note where
  id : Nat
  chord : ChordInfo
  line : Int
  visible : Bool := true
  userMirror : DirectionH := DirectionH.AUTO
  headWidth : ℚ := 0
  headGroup : Nat := 0
  headType : NoteHeadType := NoteHeadType.HEAD_AUTO
  tpc : Int := 0
  small : Bool := false
  voice : Nat := 0
  mirror : Bool := false
  hidden : Bool := false
  dotsHidden : Bool := false
  deriving DecidableEq, Repr

/-- A chord of a segment: its data, whether one of its grace notes is a grace note before
the chord, its notes in the order of `notes()`, and its position `rxpos()`. -/
structure Chord where
  info : ChordInfo
  graceBefore : Bool := false
  notes : List Note
  x : ℚ := 0
  deriving DecidableEq, Repr

/-- Loop state of `layoutChords2`: `ll`, `lvisible`, `isLeft`, `lmove`, `maxWidth`. -/
structure Chords2State where
  ll : Int
  lvisible : Bool
  isLeft : Bool
  lmove : Int
  maxWidth : ℚ
  deriving DecidableEq, Repr

/-- One iteration of the loop of `layoutChords2`: the note with its new `mirror`,
`hidden` and `dotsHidden`, and the next loop state. -/
def layoutChords2Step (st : Chords2State) (note : Note) : Note × Chords2State :=
  let line := note.line
  let move := note.chord.staffMove
  let conflict := decide ((st.ll - line).natAbs < 2) && (st.lmove == move) && note.visible
    && st.lvisible
  let isLeft := if conflict || (note.chord.up != st.isLeft) then !st.isLeft else st.isLeft
  let nmirror := note.chord.up != isLeft
  let mirror :=
    if note.userMirror = DirectionH.AUTO then nmirror
    else if note.userMirror = DirectionH.LEFT then !note.chord.up else note.chord.up
  ({ note with hidden := false, dotsHidden := false, mirror := mirror },
   { ll := line
     lvisible := note.visible
     isLeft := isLeft
     lmove := move
     maxWidth := if !mirror then max st.maxWidth note.headWidth else st.maxWidth })

/-- The loop of `layoutChords2` over the notes in iteration order. -/
def layoutChords2Loop : Chords2State → List Note → List Note × ℚ
  | st, [] => ([], st.maxWidth)
  | st, note :: rest =>
      let r := layoutChords2Step st note
      let rs := layoutChords2Loop r.2 rest
      (r.1 :: rs.1, rs.2)

/-- The function `layoutChords2(notes, up)`: the notes with their mirror flags and the
maximum width of the heads that are not mirrored. For `up` the notes are visited from
index 0 upwards, else from the last index downwards. The source reads `notes[startIdx]`
before the loop; for an empty list, where that read is undefined, the result is the
empty list and 0. -/
def layoutChords2 (notes : List Note) (up : Bool) : List Note × ℚ :=
  let order := if up then notes else notes.reverse
  match order with
  | [] => ([], 0)
  | first :: _ =>
      let st : Chords2State :=
        { ll := 1000, lvisible := false, isLeft := first.chord.up,
          lmove := first.chord.staffMove, maxWidth := 0 }
      let r := layoutChords2Loop st order
      (if up then r.1 else r.1.reverse, r.2)

/-- The `qSort` calls of the chord layout, with the comparison
`n1->line() > n2->line()`: descending line. Notes on the same line, whose order the
source leaves to `qSort`, keep their order here. -/
def sortByLineDesc (notes : List Note) : List Note :=
  notes.insertionSort (fun a b => a.line ≥ b.line)

/-- Values `layoutChords1` reads from the staff, the score, the style and the segment:
`staff->isTabStaff()`, `noteHeadWidth()`, `staff->mag()`, `staff->spatium()`,
`styleP(dotNoteDistance)`, `styleP(dotDotDistance)` and
`segment->symWidth(SymId::augmentationDot)`. -/
structure Chords1Env where
  isTabStaff : Bool := false
  noteHeadWidth : ℚ
  staffMag : ℚ := 1
  sp : ℚ
  dotNoteDistance : ℚ := 0
  dotDotDistance : ℚ := 0
  dotWidth : ℚ := 0
  deriving DecidableEq, Repr

/-- State of the first loop of `layoutChords1` over the tracks of the staff. -/
structure Chords1Groups where
  upStemNotes : List Note := []
  downStemNotes : List Note := []
  upVoices : Nat := 0
  downVoices : Nat := 0
  maxUpMag : ℚ := 0
  maxDownMag : ℚ := 0
  upDots : Int := 0
  downDots : Int := 0
  upHooks : Bool := false
  downHooks : Bool := false
  upGrace : Bool := false
  downGrace : Bool := false
  deriving DecidableEq, Repr

/-- Body of the first loop of `layoutChords1` for one track holding a chord (the layout
of the notes of its grace chords, which are other objects, is left out). -/
def gatherChord (g : Chords1Groups) (chord : Chord) : Chords1Groups :=
  if chord.info.up then
    { g with
      upVoices := g.upVoices + 1
      upStemNotes := g.upStemNotes ++ chord.notes
      upDots := max g.upDots chord.info.dots
      maxUpMag := max g.maxUpMag chord.info.mag
      upHooks := if !g.upHooks then chord.info.hook else g.upHooks
      upGrace := if chord.graceBefore then true else g.upGrace }
  else
    { g with
      downVoices := g.downVoices + 1
      downStemNotes := g.downStemNotes ++ chord.notes
      downDots := max g.downDots chord.info.dots
      maxDownMag := max g.maxDownMag chord.info.mag
      downHooks := if !g.downHooks then chord.info.hook else g.downHooks
      downGrace := if chord.graceBefore then true else g.downGrace }

/-- The first loop of `layoutChords1`: `elements` are the elements of the tracks of the
staff, `none` for a track without a chord. -/
def gatherChords (elements : List (Option Chord)) : Chords1Groups :=
  elements.foldl (fun g e => match e with
    | some chord => gatherChord g chord
    | none => g) {}

/-- The centering adjustments for the up-stem chords (layout.cpp 223-252): the new
`maxUpWidth`, `centerUp`, `oversizeUp` and `centerAdjustDown`. -/
def centerUpstem (env : Chords1Env) (maxUpWidth maxUpMag : ℚ) : ℚ × ℚ × ℚ × ℚ :=
  let nominalWidth := env.noteHeadWidth * env.staffMag
  let centerThreshold := 1 / 100 * env.sp
  let headDiff := maxUpWidth - nominalWidth
  let headDiff2 := maxUpWidth - nominalWidth * (maxUpMag / env.staffMag)
  if headDiff > centerThreshold then
    let centerUp := headDiff * (-1 / 2)
    let maxUpWidth := maxUpWidth + centerUp
    if headDiff2 > centerThreshold then (maxUpWidth, centerUp + headDiff2, headDiff2, 0)
    else (maxUpWidth, centerUp, 0, 0)
  else if -headDiff > centerThreshold then
    let centerUp := -headDiff * (1 / 2)
    let r : ℚ × ℚ := if headDiff2 > centerThreshold then (centerUp + headDiff2, headDiff2)
                      else (centerUp, 0)
    (maxUpWidth, r.1, r.2, r.1)
  else (maxUpWidth, 0, 0, 0)

/-- The centering adjustments for the down-stem chords (layout.cpp 254-266): the new
`maxDownWidth`, `centerDown` and `centerAdjustUp`. -/
def centerDownstem (env : Chords1Env) (maxDownWidth : ℚ) : ℚ × ℚ × ℚ :=
  let nominalWidth := env.noteHeadWidth * env.staffMag
  let centerThreshold := 1 / 100 * env.sp
  let headDiff := maxDownWidth - nominalWidth
  if headDiff > centerThreshold then
    let centerDown := headDiff * (-1 / 2)
    (nominalWidth - centerDown, centerDown, 0)
  else if -headDiff > centerThreshold then
    let centerDown := -headDiff * (1 / 2)
    (maxDownWidth, centerDown, centerDown)
  else (maxDownWidth, 0, 0)

/-- The list `overlapNotes` (layout.cpp 296-309): the leading up-stem notes with
`line >= topDownNote->line() - 1`, then the trailing down-stem notes, from the last one
backwards, with `line <= bottomUpNote->line() + 1`, sorted by descending line. -/
def overlapNotesOf (upStemNotes downStemNotes : List Note) (bottomUpNote topDownNote : Note) :
    List Note :=
  sortByLineDesc
    (upStemNotes.takeWhile (fun n => decide (n.line ≥ topDownNote.line - 1))
      ++ downStemNotes.reverse.takeWhile (fun n => decide (n.line ≤ bottomUpNote.line + 1)))

/-- The flags of the loop that determines the nature of the overlap, with `lastLine`
and the previous note `p`. -/
structure OverlapState where
  shareHeads : Bool := true
  matchPending : Bool := false
  conflictUnison : Bool := false
  conflictSecondUpHigher : Bool := false
  conflictSecondDownHigher : Bool := false
  lastLine : Int := 1000
  p : Note
  deriving DecidableEq, Repr

/-- The head type used for the comparison of two heads: that of the chord's duration
for `HEAD_AUTO`, else the head type of the note. -/
def resolvedHeadType (n : Note) : NoteHeadType :=
  if n.headType = NoteHeadType.HEAD_AUTO then n.chord.headType else n.headType

/-- One iteration of the loop over `overlapNotes` (layout.cpp 319-385). -/
def overlapStep (separation : Int) (st : OverlapState) (n : Note) : OverlapState :=
  let p := st.p
  if n.mirror && decide (separation < 0) then { st with shareHeads := false }
  else
    let line := n.line
    let d := st.lastLine - line
    let st1 : OverlapState :=
      if d = 0 then
        let nHeadType := resolvedHeadType n
        let pHeadType := resolvedHeadType p
        let st0 := { st with conflictUnison := true, matchPending := false }
        if n.headGroup != p.headGroup || n.tpc != p.tpc || n.mirror || p.mirror
            || n.chord.small != p.chord.small then
          { st0 with shareHeads := false }
        else if (n.chord.dots != p.chord.dots || n.chord.stem.isNone || p.chord.stem.isNone
              || nHeadType != pHeadType || n.small || p.small)
            && ((n.headType == NoteHeadType.HEAD_AUTO && p.headType == NoteHeadType.HEAD_AUTO)
              || nHeadType != pHeadType)
            && (n.visible == p.visible) then
          { st0 with shareHeads := false }
        else st0
      else if d = 1 then
        if separation < 0 then
          if n.chord.up then { st with conflictSecondUpHigher := true, shareHeads := false }
          else { st with conflictSecondDownHigher := true, shareHeads := false }
        else st
      else
        { st with shareHeads := if st.matchPending then false else st.shareHeads,
                  matchPending := true }
    { st1 with p := n, lastLine := line }

/-- The loop over `overlapNotes` with the final `if (matchPending) shareHeads = false`.
The result is `none` where the source reads `overlapNotes[0]` of an empty list. -/
def overlapNature (separation : Int) (overlapNotes : List Note) : Option OverlapState :=
  match overlapNotes with
  | [] => none
  | first :: _ =>
      let st := overlapNotes.foldl (overlapStep separation) { p := first }
      some (if st.matchPending then { st with shareHeads := false } else st)

/-- The note ids whose dots are hidden when heads are shared (layout.cpp 391-417):
`rev` is `overlapNotes` reversed, visited in pairs `n = overlapNotes[i]`,
`p = overlapNotes[i-1]` for `i = size-1, size-3, ...` while `i >= 1`. -/
def sharedDotsHidden : List Note → List Nat
  | n :: p :: rest =>
      let hide : List Nat :=
        if !(p.chord.isNudged || n.chord.isNudged) then
          if p.chord.dots = n.chord.dots then
            let onLine := decide (p.line % 2 = 0)
            if onLine then (if p.voice % 2 = 1 then [p.id] else [n.id])
            else (if p.voice % 2 = 0 then [p.id] else [n.id])
          else []
        else []
      hide ++ sharedDotsHidden rest
  | _ => []

/-- Result of the collision handling of `layoutChords1` (layout.cpp 270-491). -/
structure Chords1Offsets where
  separation : Int
  upOffset : ℚ := 0
  downOffset : ℚ := 0
  dotAdjust : ℚ := 0
  dotAdjustThreshold : ℚ := 0
  centerDown : ℚ
  centerAdjustUp : ℚ
  downDots : Int
  hiddenDots : List Nat := []
  deriving DecidableEq, Repr

/-- The choice of the offsets for an overlap (layout.cpp 389-460), from the flags of the
overlap; `o` carries the values on entry. -/
def overlapOffsets (env : Chords1Env) (g : Chords1Groups) (st : OverlapState)
    (overlapNotes : List Note) (bottomUpNote topDownNote : Note)
    (maxUpWidth maxDownWidth : ℚ) (o : Chords1Offsets) : Chords1Offsets :=
  let sp := env.sp
  if st.shareHeads then
    { o with hiddenDots := sharedDotsHidden overlapNotes.reverse }
  else if st.conflictUnison && decide (o.separation = 0) && (!g.downGrace || g.upGrace) then
    { o with downOffset := maxUpWidth + 3 / 10 * sp }
  else if st.conflictUnison then
    { o with upOffset := maxDownWidth + 3 / 10 * sp }
  else if st.conflictSecondUpHigher then
    { o with upOffset := maxDownWidth + 2 / 10 * sp }
  else if (g.downHooks && !g.upHooks) && !(decide (g.upDots ≠ 0) && decide (g.downDots = 0)) then
    { o with downOffset := maxUpWidth + 3 / 10 * sp }
  else if st.conflictSecondDownHigher then
    if decide (g.downDots ≠ 0) && decide (g.upDots = 0) then
      { o with downOffset := maxUpWidth + 3 / 10 * sp }
    else
      let upOffset := maxDownWidth - 2 / 10 * sp
      { o with upOffset := if g.downHooks then upOffset + 3 / 10 * sp else upOffset }
  else
    let clearLeft : ℚ := match topDownNote.chord.stem with
      | some lineWidth => lineWidth + 3 / 10 * sp
      | none => 0
    let clearRight : ℚ := match bottomUpNote.chord.stem with
      | some lineWidth => lineWidth + max (maxDownWidth - maxUpWidth) 0 + 3 / 10 * sp
      | none => 0
    let downDots : Int := if bottomUpNote.chord.stem.isSome then o.downDots else 0
    let upOffset := max clearLeft clearRight
    let upOffset := if g.downHooks then max upOffset (maxDownWidth + 1 / 10 * sp) else upOffset
    let thr1 := if g.downHooks then maxUpWidth - 3 / 10 * sp else o.dotAdjustThreshold
    if o.centerDown > 0 then
      { o with upOffset := upOffset, downDots := downDots, centerDown := 0,
               centerAdjustUp := 0,
               dotAdjustThreshold := (upOffset - maxDownWidth) + maxUpWidth - 3 / 10 * sp }
    else
      { o with upOffset := upOffset, downDots := downDots, dotAdjustThreshold := thr1 }

/-- The dot adjustment (layout.cpp 464-489). -/
def dotAdjustOf (env : Chords1Env) (g : Chords1Groups) (o : Chords1Offsets) : ℚ :=
  let upDots := g.upDots
  let downDots := o.downDots
  let dotAdjust : ℚ :=
    if (decide (upDots ≠ 0) && decide (downDots = 0))
        || (decide (downDots ≠ 0) && decide (upDots = 0)) then
      let dots := if upDots ≠ 0 then upDots else downDots
      let mag := if upDots ≠ 0 then g.maxUpMag else g.maxDownMag
      let dotAdjust := env.dotNoteDistance + env.dotWidth
      let dotAdjust := if dots > 1 then dotAdjust + env.dotDotDistance * ((dots - 1 : Int) : ℚ)
                       else dotAdjust
      let dotAdjust := dotAdjust * mag
      max (dotAdjust - o.dotAdjustThreshold) 0
    else 0
  if o.separation = 1 then dotAdjust + 1 / 10 * env.sp else dotAdjust

/-- The handling of the conflict between up-stem and down-stem chords (layout.cpp
270-491), entered with both groups present. The result is `none` where the source reads
the first element of an empty list (`upStemNotes.front()`, `downStemNotes.back()`,
`overlapNotes[0]`). -/
def chordConflict (env : Chords1Env) (g : Chords1Groups) (upStemNotes downStemNotes : List Note)
    (maxUpWidth maxDownWidth centerDown centerAdjustUp : ℚ) : Option Chords1Offsets :=
  match upStemNotes.head?, downStemNotes.getLast? with
  | some bottomUpNote, some topDownNote =>
      let separation : Int :=
        if bottomUpNote.chord.staffMove = topDownNote.chord.staffMove
        then topDownNote.line - bottomUpNote.line else 2
      let o : Chords1Offsets :=
        { separation := separation, centerDown := centerDown,
          centerAdjustUp := centerAdjustUp, downDots := g.downDots }
      let o : Option Chords1Offsets :=
        if separation = 1 then
          let downOffset := maxUpWidth
          let downOffset := match topDownNote.chord.stem, bottomUpNote.chord.stem with
            | some lineWidth, some _ => downOffset - lineWidth
            | _, _ => downOffset + 1 / 10 * env.sp
          some { o with downOffset := downOffset }
        else if separation < 1 then
          let overlapNotes := overlapNotesOf upStemNotes downStemNotes bottomUpNote topDownNote
          match overlapNature separation overlapNotes with
          | none => none
          | some st =>
              some (overlapOffsets env g st overlapNotes bottomUpNote topDownNote maxUpWidth
                maxDownWidth o)
        else some o
      match o with
      | none => none
      | some o => some { o with dotAdjust := dotAdjustOf env g o }
  | _, _ => none

/-- Result of `layoutChords1` before the call of `layoutChords3`: the widths, offsets
and centering values, the up-stem and down-stem notes with their mirror flags, the
position `rxpos()` of the chord of every track, and the note list handed to
`layoutChords3`. -/
structure Chords1Result where
  maxUpWidth : ℚ
  maxDownWidth : ℚ
  centerUp : ℚ
  oversizeUp : ℚ
  centerAdjustDown : ℚ
  offsets : Chords1Offsets
  upStemNotes : List Note
  downStemNotes : List Note
  chordX : List (Option ℚ)
  notes : List Note
  deriving DecidableEq, Repr

/-- The loop that applies the chord offsets (layout.cpp 494-517) for one chord whose
position before is `x`. -/
def applyChordOffset (g : Chords1Groups) (o : Chords1Offsets) (centerUp oversizeUp
    centerAdjustDown : ℚ) (up : Bool) (x : ℚ) : ℚ :=
  if up then
    if o.upOffset ≠ 0 then
      let x := x + (o.upOffset + o.centerAdjustUp + oversizeUp)
      if o.downDots ≠ 0 ∧ g.upDots = 0 then x + o.dotAdjust else x
    else x + centerUp
  else
    if o.downOffset ≠ 0 then
      let x := x + (o.downOffset + centerAdjustDown)
      if g.upDots ≠ 0 ∧ o.downDots = 0 then x + o.dotAdjust else x
    else x + o.centerDown

/-- The function `layoutChords1(segment, staffIdx)` up to the call of `layoutChords3`.
`elements` are the elements of the tracks of the staff (`none` for a track without a
chord). The result is `none` for a tablature staff and when no track holds a chord
(nothing is laid out), and where the source reads the first element of an empty list. -/
def layoutChords1 (env : Chords1Env) (elements : List (Option Chord)) : Option Chords1Result :=
  if env.isTabStaff then none
  else
    let g := gatherChords elements
    if g.upVoices + g.downVoices = 0 then none
    else
      let nominalWidth := env.noteHeadWidth * env.staffMag
      let maxUpWidth := nominalWidth * g.maxUpMag
      let maxDownWidth := nominalWidth * g.maxDownMag
      let upSorted := if g.upVoices > 1 then sortByLineDesc g.upStemNotes else g.upStemNotes
      let up2 : List Note × ℚ :=
        if g.upVoices ≠ 0 then
          let r := layoutChords2 upSorted true
          (r.1, max maxUpWidth r.2)
        else (upSorted, maxUpWidth)
      let downSorted := if g.downVoices > 1 then sortByLineDesc g.downStemNotes
                        else g.downStemNotes
      let down2 : List Note × ℚ :=
        if g.downVoices ≠ 0 then
          let r := layoutChords2 downSorted false
          (r.1, max maxDownWidth r.2)
        else (downSorted, maxDownWidth)
      let cu := centerUpstem env up2.2 g.maxUpMag
      let cd := centerDownstem env down2.2
      let maxUpWidth := cu.1
      let maxDownWidth := cd.1
      let conflict : Option Chords1Offsets :=
        if g.upVoices ≠ 0 ∧ g.downVoices ≠ 0 then
          chordConflict env g up2.1 down2.1 maxUpWidth maxDownWidth cd.2.1 cd.2.2
        else
          some { separation := 2, centerDown := cd.2.1, centerAdjustUp := cd.2.2,
                 downDots := g.downDots }
      match conflict with
      | none => none
      | some o =>
          let hide := fun (n : Note) =>
            if n.id ∈ o.hiddenDots then { n with dotsHidden := true } else n
          let upNotes := up2.1.map hide
          let downNotes := down2.1.map hide
          let notes := (if g.upVoices ≠ 0 then upNotes else [])
            ++ (if g.downVoices ≠ 0 then downNotes else [])
          some
            { maxUpWidth := maxUpWidth
              maxDownWidth := maxDownWidth
              centerUp := cu.2.1
              oversizeUp := cu.2.2.1
              centerAdjustDown := cu.2.2.2
              offsets := o
              upStemNotes := upNotes
              downStemNotes := downNotes
              chordX := elements.map (fun e => e.map (fun chord =>
                applyChordOffset g o cu.2.1 cu.2.2.1 cu.2.2.2 chord.info.up
                  (if chord.notes = [] then chord.x else 0)))
              notes := if g.upVoices + g.downVoices > 1 then sortByLineDesc notes else notes }

/-- Example environment: staff space 1, nominal note head width 13/10. -/
def exampleChordsEnv : Chords1Env := { noteHeadWidth := 13 / 10, sp := 1 }

/-- Example up-stem chord in voice 1 with a stem of width 1/10 and notes on the lines 2
and 0 (in the order of `notes()`, lowest pitch first). -/
def exampleUpChord : Chord :=
  { info := { track := 0, up := true, stem := some (1 / 10) }
    notes := [{ id := 0, chord := { track := 0, up := true, stem := some (1 / 10) },
                line := 2, headWidth := 13 / 10 },
              { id := 1, chord := { track := 0, up := true, stem := some (1 / 10) },
                line := 0, headWidth := 13 / 10 }] }

/-- Example down-stem chord in voice 2 with a stem of width 1/10 and one note on the
line 1. -/
def exampleDownChord : Chord :=
  { info := { track := 1, up := false, stem := some (1 / 10) }
    notes := [{ id := 2, chord := { track := 1, up := false, stem := some (1 / 10) },
                line := 1, headWidth := 13 / 10, voice := 1 }] }

/-- Example down-stem chord in voice 2 with a stem of width 1/10 and one note on the
line 4, two lines below the bottom note of `exampleUpChord`. -/
def exampleLowDownChord : Chord :=
  { info := { track := 1, up := false, stem := some (1 / 10) }
    notes := [{ id := 2, chord := { track := 1, up := false, stem := some (1 / 10) },
                line := 4, headWidth := 13 / 10, voice := 1 }] }

/-- The result of `layoutChords1` for `exampleUpChord` and `exampleLowDownChord`. -/
def exampleSeparatedResult : Chords1Result :=
  { maxUpWidth := 13 / 10, maxDownWidth := 13 / 10, centerUp := 0, oversizeUp := 0,
    centerAdjustDown := 0,
    offsets := { separation := 2, centerDown := 0, centerAdjustUp := 0, downDots := 0 },
    upStemNotes := exampleUpChord.notes, downStemNotes := exampleLowDownChord.notes,
    chordX := [some 0, some 0, none, none],
    notes := exampleLowDownChord.notes ++ exampleUpChord.notes }

/-- Example down-stem chord in voice 2 with a stem of width 1/10 and one note on the
line 3, a second below the bottom note of `exampleUpChord`. -/
def exampleSecondDownChord : Chord :=
  { info := { track := 1, up := false, stem := some (1 / 10) }
    notes := [{ id := 2, chord := { track := 1, up := false, stem := some (1 / 10) },
                line := 3, headWidth := 13 / 10, voice := 1 }] }

/-- The result of `layoutChords1` for `exampleUpChord` and `exampleSecondDownChord`. -/
def exampleSecondResult : Chords1Result :=
  { maxUpWidth := 13 / 10, maxDownWidth := 13 / 10, centerUp := 0, oversizeUp := 0,
    centerAdjustDown := 0,
    offsets := { separation := 1, downOffset := 6 / 5, dotAdjust := 1 / 10, centerDown := 0,
                 centerAdjustUp := 0, downDots := 0 },
    upStemNotes := exampleUpChord.notes, downStemNotes := exampleSecondDownChord.notes,
    chordX := [some 0, some (6 / 5), none, none],
    notes := exampleSecondDownChord.notes ++ exampleUpChord.notes }

/-- Example of a unison: a note of an up-stem chord with a stem on the line 2. -/
def exampleUnisonUp : Note :=
  { id := 0, chord := { track := 0, up := true, stem := some (1 / 10) }, line := 2 }

/-- Example of a unison: a note of a down-stem chord with a stem on the line 2. -/
def exampleUnisonDown : Note :=
  { id := 1, chord := { track := 1, up := false, stem := some (1 / 10) }, line := 2,
    voice := 1 }

/-- Example environment with dots: staff space 1, nominal note head width 13/10, distance
1/5 from the note to the first dot, 1/4 between dots, and dots of width 3/10. -/
def exampleDotsEnv : Chords1Env :=
  { noteHeadWidth := 13 / 10, sp := 1, dotNoteDistance := 1 / 5, dotDotDistance := 1 / 4,
    dotWidth := 3 / 10 }

/-- Example up-stem chord in voice 1 with one dot, a stem of width 1/10 and one note on
the line 2. -/
def exampleDottedUpChord : Chord :=
  { info := { track := 0, up := true, dots := 1, stem := some (1 / 10) }
    notes := [{ id := 0, chord := { track := 0, up := true, dots := 1, stem := some (1 / 10) },
                line := 2, headWidth := 13 / 10 }] }

/-- The result of `layoutChords1` for `exampleDottedUpChord` and
`exampleSecondDownChord`. -/
def exampleDottedResult : Chords1Result :=
  { maxUpWidth := 13 / 10, maxDownWidth := 13 / 10, centerUp := 0, oversizeUp := 0,
    centerAdjustDown := 0,
    offsets := { separation := 1, downOffset := 6 / 5, dotAdjust := 3 / 5, centerDown := 0,
                 centerAdjustUp := 0, downDots := 0 },
    upStemNotes := exampleDottedUpChord.notes, downStemNotes := exampleSecondDownChord.notes,
    chordX := [some 0, some (9 / 5), none, none],
    notes := exampleSecondDownChord.notes ++ exampleDottedUpChord.notes }

/-! ## Beam grouping: `createBeams` (layout.cpp 2574-2733) -/

/-- The enumeration `TDuration::DurationType`, in the order of its declaration. -/
inductive DurationType where
  | V_LONG
  | V_BREVE
  | V_WHOLE
  | V_HALF
  | V_QUARTER
  | V_EIGHTH
  | V_16TH
  | V_32ND
  | V_64TH
  | V_128TH
  | V_256TH
  | V_512TH
  | V_1024TH
  | V_ZERO
  | V_MEASURE
  | V_INVALID
  deriving DecidableEq, Repr

/-- Position of a duration type in the enumeration, which `<=` compares. -/
def DurationType.ord : DurationType → Nat
  | V_LONG => 0
  | V_BREVE => 1
  | V_WHOLE => 2
  | V_HALF => 3
  | V_QUARTER => 4
  | V_EIGHTH => 5
  | V_16TH => 6
  | V_32ND => 7
  | V_64TH => 8
  | V_128TH => 9
  | V_256TH => 10
  | V_512TH => 11
  | V_1024TH => 12
  | V_ZERO => 13
  | V_MEASURE => 14
  | V_INVALID => 15

/-- The enumeration `Beam::Mode`. -/
inductive BeamMode where
  | AUTO
  | BEGIN
  | MID
  | END
  | NONE
  | BEGIN32
  | BEGIN64
  | INVALID
  deriving DecidableEq, Repr

/-- The enumeration `CrossMeasure`. -/
inductive CrossMeasure where
  | UNKNOWN
  | NONE
  | FIRST
  | SECOND
  deriving DecidableEq, Repr

/-- A duration `TDuration`: its type and its dots. -/
structure TDuration where
  type : DurationType
  dots : Int := 0
  deriving DecidableEq, Repr

/-- The data of a chord or rest read by `createBeams`: `id` stands for the identity of
the object, `durationType` for the value of `durationType()`, `hooks` for
`durationType().hooks()` and `segmentType` for `segment()->segmentType()`. -/
structure ChordRest where
  id : Nat
  track : Nat := 0
  tick : Int
  rtick : Int := 0
  actualTicks : Int := 0
  isChord : Bool := true
  durationType : TDuration
  hooks : Nat := 0
  crossMeasure : CrossMeasure := CrossMeasure.NONE
  segmentType : Nat := 0
  deriving DecidableEq, Repr

/-- A beam: `id` stands for the identity of the object; `elements` is the list
`elements()` of its chords and rests. -/
structure Beam where
  id : Nat
  track : Nat
  generated : Bool := true
  elements : List ChordRest
  deriving DecidableEq, Repr

/-- The beams of the score with the beam pointers of the chords and rests: `crBeam id`
is the identity of the beam `cr->beam()` of the chord or rest with the identity `id`.
`nextId` is the identity the next `new Beam` gets, `finished` lists the beams on which
`layout1()` was called, in the order of the calls. -/
structure BeamStore where
  beams : List Beam := []
  crBeam : Nat → Option Nat := fun _ => none
  nextId : Nat := 0
  finished : List Nat := []

/-- The beam `cr->beam()`, if any. -/
def BeamStore.beamOf (s : BeamStore) (cr : ChordRest) : Option Beam :=
  match s.crBeam cr.id with
  | none => none
  | some beam => s.beams.find? (fun b => b.id == beam)

/-- Modelled from the spec: `ChordRest::removeDeleteBeam` is not part of the sources at
hand. A beam holds non-owning references to the elements it spans and generated beams
are deleted freely, so the chord or rest is taken out of the elements of its beam, if it
has one, it has no beam afterwards, and a beam left without elements is removed from the
score. -/
def BeamStore.removeDeleteBeam (s : BeamStore) (cr : ChordRest) : BeamStore :=
  match s.crBeam cr.id with
  | none => s
  | some beam =>
      let s1 : BeamStore := { s with crBeam := Function.update s.crBeam cr.id none }
      match s.beams.find? (fun b => b.id == beam) with
      | none => s1
      | some b =>
          let els := b.elements.eraseP (fun e => e.id == cr.id)
          if els = [] then { s1 with beams := s.beams.filter (fun x => x.id != beam) }
          else { s1 with beams := s.beams.map (fun x =>
            if x.id == beam then { x with elements := els } else x) }

/-- Insertion of a chord or rest in front of the first element with a greater tick. -/
def insertByTick (cr : ChordRest) : List ChordRest → List ChordRest
  | [] => [cr]
  | e :: rest => if e.tick > cr.tick then cr :: e :: rest else e :: insertByTick cr rest

/-- Modelled from the spec: `Beam::add` is not part of the sources at hand. A beam owns
an ordered list of chord/rest references, so an element the beam does not hold yet is
inserted in the order of the score, in front of the first element with a greater tick. -/
def Beam.add (b : Beam) (cr : ChordRest) : Beam :=
  if b.elements.any (fun e => e.id == cr.id) then b
  else { b with elements := insertByTick cr b.elements }

/-- The call `beam->add(cr)` for the beam with the identity `beam`, which also sets the
beam of the chord or rest. -/
def BeamStore.addTo (s : BeamStore) (beam : Nat) (cr : ChordRest) : BeamStore :=
  { s with beams := s.beams.map (fun x => if x.id == beam then x.add cr else x)
           crBeam := Function.update s.crBeam cr.id (some beam) }

/-- The call `beam->layout1()` for the beam with the identity `beam`. -/
def BeamStore.layout1 (s : BeamStore) (beam : Nat) : BeamStore :=
  { s with finished := s.finished ++ [beam] }

/-- Values `createBeams` reads for one track: `endBeam` stands for `Groups::endBeam`,
`checkBeats` is `ts && ts->denominator() == 4`, `stretchNum / stretchDen` is the stretch
of the time signature, `division` is `MScore::division`, and `beatMin beat` is
`qMin(beatSubdivision[beat], beatSubdivision[beat - 1])` for the table of the prepass. -/
structure BeamEnv where
  endBeam : ChordRest → Option ChordRest → BeamMode
  checkBeats : Bool := false
  stretchNum : Int := 1
  stretchDen : Int := 1
  division : Int := 480
  beatMin : Int → TDuration := fun _ => { type := DurationType.V_INVALID }

/-- The macro `beamModeMid(a)` (layout.cpp 1123): the modes MID, BEGIN32 and BEGIN64. -/
def beamModeMid (bm : BeamMode) : Bool :=
  bm == BeamMode.MID || bm == BeamMode.BEGIN32 || bm == BeamMode.BEGIN64

/-- State of the loop of `createBeams` over the chords and rests of a track: the beams
of the score, the candidate `a1`, the active beam `beam` and `prev`. -/
structure BeamLoopState where
  store : BeamStore
  a1 : Option ChordRest := none
  beam : Option Nat := none
  prev : Option ChordRest := none

/-- The beam mode `bm` of a chord or rest (layout.cpp 2637-2668). -/
def resolvedBeamMode (env : BeamEnv) (cr : ChordRest) (prev : Option ChordRest) : BeamMode :=
  let bm := env.endBeam cr prev
  let bm :=
    if bm = BeamMode.AUTO then
      if env.checkBeats && decide (cr.rtick ≠ 0) then
        let tick := Int.tdiv (cr.rtick * env.stretchNum) env.stretchDen
        if Int.tmod tick env.division = 0 then
          let beat := Int.tdiv tick env.division
          env.endBeam { cr with durationType := env.beatMin beat } prev
        else bm
      else bm
    else bm
  if cr.hooks > 0 ∧ cr.crossMeasure = CrossMeasure.SECOND then BeamMode.NONE else bm

/-- The handling of the candidate `a1` (layout.cpp 2699-2726): the chord or rest `cr`
becomes the candidate, replaces the candidate, or starts a beam with it (the beam of the
candidate if the candidate is its first element, else a new beam). -/
def beamCandidate (track : Nat) (st : BeamLoopState) (cr : ChordRest) (bm : BeamMode) :
    BeamLoopState :=
  match st.a1 with
  | none => { st with a1 := some cr }
  | some a1 =>
      if !beamModeMid bm &&
          (bm == BeamMode.BEGIN || a1.segmentType != cr.segmentType
            || decide (a1.tick + a1.actualTicks < cr.tick)) then
        { st with store := st.store.removeDeleteBeam a1, a1 := some cr }
      else
        let reuse : Option Nat :=
          match st.store.beamOf a1 with
          | some b => if (b.elements.head?.map fun e => e.id) = some a1.id then some b.id
                      else none
          | none => none
        let r2 : BeamStore × Nat :=
          match reuse with
          | some beam => (st.store, beam)
          | none =>
              let beam := st.store.nextId
              let store := st.store.removeDeleteBeam a1
              let store : BeamStore :=
                { store with
                  beams := store.beams ++ [{ id := beam, track := track, elements := [] }]
                  nextId := beam + 1 }
              (store.addTo beam a1, beam)
        let store := (r2.1.removeDeleteBeam cr).addTo r2.2 cr
        { st with store := store, beam := some r2.2, a1 := none }

/-- The part of the loop body behind the closing branch (layout.cpp 2683-2726): with
an active beam the chord or rest is added to it unless the mode is BEGIN, and the beam is
finished for BEGIN and END; a chord or rest not added goes on to the handling of the
candidate. -/
def beamExtend (track : Nat) (st : BeamLoopState) (cr : ChordRest) (bm : BeamMode) :
    BeamLoopState :=
  match st.beam with
  | some beam =>
      if bm ≠ BeamMode.BEGIN then
        let store := (st.store.removeDeleteBeam cr).addTo beam cr
        if bm = BeamMode.END then { st with store := store.layout1 beam, beam := none }
        else { st with store := store }
      else beamCandidate track { st with store := st.store.layout1 beam, beam := none } cr bm
  | none => beamCandidate track st cr bm

/-- One iteration of the loop of `createBeams` for a chord or rest `cr` of the track
(layout.cpp 2617-2727) behind the handling of the grace notes: the two calls of
`beamGraceNotes` for a chord (2625-2630) come in front of it in `createBeamsSegment`. -/
def createBeamsStep (env : BeamEnv) (track : Nat) (st : BeamLoopState) (cr : ChordRest) :
    BeamLoopState :=
  let bm := resolvedBeamMode env cr st.prev
  let st := { st with prev := some cr }
  if cr.durationType.type.ord ≤ DurationType.V_QUARTER.ord ∨ bm = BeamMode.NONE then
    let store := match st.beam with
      | some beam => st.store.layout1 beam
      | none => st.store
    let store := match st.a1 with
      | some a1 => store.removeDeleteBeam a1
      | none => store
    { st with store := store.removeDeleteBeam cr, beam := none, a1 := none }
  else beamExtend track st cr bm

/-- The loop of `createBeams` for one track with the handling of the last beam or
candidate behind it: `crs` are the chords and rests `segment->cr(track)` of the
chord/rest segments of the measure, in the order of the segments. -/
def createBeamsTrack (env : BeamEnv) (track : Nat) (store : BeamStore)
    (crs : List ChordRest) : BeamStore :=
  let st := crs.foldl (createBeamsStep env track) { store := store }
  match st.beam, st.a1 with
  | some beam, _ => st.store.layout1 beam
  | none, some a1 => st.store.removeDeleteBeam a1
  | none, none => st.store

/-- The function `createBeams(measure)`: the loop over the tracks. Every track comes
with `skip` (`!stf->show() || (stf->isTabStaff() && stf->staffType()->slashStyle())`),
its values `BeamEnv` and its chords and rests. -/
def createBeams (store : BeamStore) (tracks : List (Bool × BeamEnv × List ChordRest)) :
    BeamStore :=
  (tracks.enum.foldl (fun s t =>
    if t.2.1 then s else createBeamsTrack t.2.2.1 t.1 s t.2.2.2) store)

/-- Example track of a 4/4 measure: four quarter-note chords at the ticks 0, 480, 960 and
1440. -/
def exampleQuarterChords : List ChordRest :=
  [{ id := 0, tick := 0, rtick := 0, actualTicks := 480,
     durationType := { type := DurationType.V_QUARTER } },
   { id := 1, tick := 480, rtick := 480, actualTicks := 480,
     durationType := { type := DurationType.V_QUARTER } },
   { id := 2, tick := 960, rtick := 960, actualTicks := 480,
     durationType := { type := DurationType.V_QUARTER } },
   { id := 3, tick := 1440, rtick := 1440, actualTicks := 480,
     durationType := { type := DurationType.V_QUARTER } }]

/-- Example values for a track in 4/4 where `Groups::endBeam` answers AUTO. -/
def exampleBeamEnv : BeamEnv :=
  { endBeam := fun _ _ => BeamMode.AUTO, checkBeats := true }

/-- Example state of the beam machine: no beams, an eighth-note chord at the tick 0 as the
candidate, no active beam. -/
def exampleCandidateState : BeamLoopState :=
  { store := {}, a1 := some { id := 0, tick := 0, rtick := 0, actualTicks := 240,
                              durationType := { type := DurationType.V_EIGHTH } } }

/-- Example quarter-note chord at the tick 240. -/
def exampleQuarterChord : ChordRest :=
  { id := 1, tick := 240, rtick := 240, actualTicks := 480,
    durationType := { type := DurationType.V_QUARTER } }

/-! ## Multi-measure rests: `createMMRest`, `getNextMeasure` (layout.cpp 2168-2197,
2558-2567, 2739-2798) -/

/-- The replacement measure `m->mmRest()` of a run of measures, as far as the counting
part of `createMMRest` writes it: its length, tick, `mmRestCount`, number and breaks. -/
structure MMRestMeasure where
  len : ℚ
  tick : Int
  mmRestCount : Int := 0
  no : Int := 0
  pageBreak : Bool := false
  lineBreak : Bool := false
  deriving DecidableEq, Repr

/-- A measure base of the score as `getNextMeasure` reads it. `id` stands for the
identity of the object; `isMeasure` tells a measure from a box. `valid` and `breaks` are
the values `validMMRestMeasure(m)` and `breakMultiMeasureRest(m)` return for the content
of the measure, which neither `getNextMeasure` nor `createMMRest` changes. `len` is the
length `len()` as a fraction of a whole note. -/
structure ScoreMeasure where
  id : Nat
  isMeasure : Bool := true
  valid : Bool := true
  breaks : Bool := false
  len : ℚ := 1
  tick : Int := 0
  no : Int := 0
  noOffset : Int := 0
  irregular : Bool := false
  sectionBreak : Bool := false
  pageBreak : Bool := false
  lineBreak : Bool := false
  mmRest : Option MMRestMeasure := none
  mmRestCount : Int := 0
  deriving DecidableEq, Repr

/-- The function `LayoutContext::adjustMeasureNo(m)`: the measure with its new number
and the new `measureNo` of the context. -/
def adjustMeasureNo (measureNo : Int) (m : ScoreMeasure) : ScoreMeasure × Int :=
  let measureNo := measureNo + m.noOffset
  let m1 := { m with no := measureNo }
  let measureNo := if !m.irregular then measureNo + 1 else measureNo
  let measureNo := if m.sectionBreak then 0 else measureNo
  (m1, measureNo)

/-- State of the loop `while (validMMRestMeasure(nm))` of `getNextMeasure`: the count
`n`, the length `len`, the position `lmPos` of `lm` in the list of measure bases that
starts with `m`, the position `pos` of the measure base looked at, `lc.measureNo`, and
the measure bases passed so far (with their new numbers). -/
structure MMRunState where
  n : Nat := 0
  len : ℚ := 0
  lmPos : Nat := 0
  pos : Nat := 0
  measureNo : Int
  passed : List ScoreMeasure := []
  deriving DecidableEq, Repr

/-- The loop `while (validMMRestMeasure(nm))` of `getNextMeasure` (layout.cpp
2771-2782) over the measure bases from `nm` on, in the order of `next()`. With
`showVBox` the next measure base `mb` is `nm->next()`, and a box ends the run; otherwise
it is `nm->nextMeasure()`, which passes over boxes. The result is the final state with
the measure bases not passed. -/
def mmRestRun (showVBox : Bool) : List ScoreMeasure → MMRunState → MMRunState × List ScoreMeasure
  | [], st => (st, [])
  | x :: rest, st =>
      if !x.isMeasure then
        if showVBox then (st, x :: rest)
        else mmRestRun showVBox rest { st with pos := st.pos + 1, passed := st.passed ++ [x] }
      else if !x.valid then (st, x :: rest)
      else if x.breaks && decide (st.n ≠ 0) then (st, x :: rest)
      else
        let a := adjustMeasureNo st.measureNo x
        mmRestRun showVBox rest
          { n := st.n + 1
            len := st.len + x.len
            lmPos := st.pos
            pos := st.pos + 1
            measureNo := a.2
            passed := st.passed ++ [a.1] }

/-- The loop at the head of `createMMRest(m, lm, len)` (layout.cpp 2170-2178) over the
measure bases behind `m`: every measure up to `lm`, which is at the position `lmPos`,
gets `mmRestCount` -1 and loses its replacement measure. `pos` is the position of the
first measure base of the list, `n` the count so far. -/
def createMMRestCount (lmPos : Nat) : List ScoreMeasure → Nat → Nat → List ScoreMeasure × Nat
  | [], _, n => ([], n)
  | x :: rest, pos, n =>
      if !x.isMeasure then
        let r := createMMRestCount lmPos rest (pos + 1) n
        (x :: r.1, r.2)
      else
        let x1 := { x with mmRestCount := -1, mmRest := none }
        if pos = lmPos then (x1 :: rest, n + 1)
        else
          let r := createMMRestCount lmPos rest (pos + 1) (n + 1)
          (x1 :: r.1, r.2)

/-- The function `createMMRest(m, lm, len)` as far as it counts the measures and creates
or updates the replacement measure (layout.cpp 2168-2197); the transfer of bar lines,
elements, clefs, signatures and annotations to the replacement measure is left out.
`m` is the head of the list, `lm` is at the position `lmPos`. -/
def createMMRest (ms : List ScoreMeasure) (lmPos : Nat) (len : ℚ) : List ScoreMeasure :=
  match ms with
  | [] => []
  | m :: rest =>
      let r := createMMRestCount lmPos rest 1 1
      let lm := (m :: r.1).getD lmPos m
      let mmr : MMRestMeasure :=
        match m.mmRest with
        | some mmr => if mmr.len ≠ len then { mmr with len := len } else mmr
        | none => { len := len, tick := m.tick, pageBreak := lm.pageBreak,
                    lineBreak := lm.lineBreak }
      let mmr := { mmr with mmRestCount := (r.2 : Int), no := m.no }
      { m with mmRest := some mmr } :: r.1

/-- State of the layout context behind the multi-measure rest branch of
`getNextMeasure`: the measure bases from `m` on with their changes, the replacement
measure if it became the current measure (else `m` stays current), the measure bases
from `lc.nextMeasure` on, and `lc.measureNo`. -/
structure MMRestResult where
  measures : List ScoreMeasure
  curMMRest : Option MMRestMeasure
  next : List ScoreMeasure
  measureNo : Int
  n : Nat
  len : ℚ
  lmPos : Nat
  deriving DecidableEq, Repr

/-- The branch of `getNextMeasure` for a current measure `m` with the style
`createMultiMeasureRests` outside line mode (layout.cpp 2762-2794). `ms` are the measure
bases from `m` on, `next` those from `lc.nextMeasure` on (as set at the head of
`getNextMeasure`), `mno` is the result of `adjustMeasureNo(m)` there. -/
def getNextMeasureMMRest (showVBox : Bool) (minEmptyMeasures : Int) (mno : Int)
    (ms next : List ScoreMeasure) : MMRestResult :=
  match ms with
  | [] => { measures := [], curMMRest := none, next := next, measureNo := mno, n := 0,
            len := 0, lmPos := 0 }
  | m :: _ =>
      let run := mmRestRun showVBox ms { measureNo := m.no }
      let st := run.1
      let ms1 := st.passed ++ run.2
      if (st.n : Int) ≥ minEmptyMeasures then
        let ms2 := createMMRest ms1 st.lmPos st.len
        let behind := ms2.drop (st.lmPos + 1)
        { measures := ms2
          curMMRest := (ms2.head?).bind (fun m => m.mmRest)
          next := if showVBox then behind else behind.dropWhile (fun x => !x.isMeasure)
          measureNo := st.measureNo
          n := st.n
          len := st.len
          lmPos := st.lmPos }
      else
        { measures := (match ms1 with
            | [] => []
            | m1 :: rest => { m1 with mmRest := none, mmRestCount := 0 } :: rest)
          curMMRest := none
          next := next
          measureNo := mno
          n := st.n
          len := st.len
          lmPos := st.lmPos }

/-- The measures of a run with the numbers `adjustMeasureNo` gives them one after the
other, and the final `measureNo`. -/
def renumberRun : Int → List ScoreMeasure → List ScoreMeasure × Int
  | measureNo, [] => ([], measureNo)
  | measureNo, x :: rest =>
      let a := adjustMeasureNo measureNo x
      let r := renumberRun a.2 rest
      (a.1 :: r.1, r.2)

/-- Example score: eight empty measures of length 1 (4/4), each valid for a
multi-measure rest and none breaking it, followed by a measure with notes. -/
def exampleEmptyMeasures : List ScoreMeasure :=
  [{ id := 0, tick := 0 }, { id := 1, tick := 1920 }, { id := 2, tick := 3840 },
   { id := 3, tick := 5760 }, { id := 4, tick := 7680 }, { id := 5, tick := 9600 },
   { id := 6, tick := 11520 }, { id := 7, tick := 13440 }]

/-- Example measure with notes, not valid for a multi-measure rest. -/
def exampleFullMeasure : ScoreMeasure := { id := 8, tick := 15360, valid := false }

/-- Two measure bases agree in what the run loop and the count of `createMMRest` read:
identity, kind, validity for a multi-measure rest, breaking of the rest, and length. -/
def SameContent (a b : ScoreMeasure) : Prop :=
  a.id = b.id ∧ a.isMeasure = b.isMeasure ∧ a.valid = b.valid ∧ a.breaks = b.breaks
    ∧ a.len = b.len

/-! ## Page collection: `collectPage` (layout.cpp 3660-3730) -/

/-- The data of a system read by `collectPage`: `id` stands for the identity of the
object, `vbox` holds the top gap and the bottom gap of the box of a system that is a
vertical box, `pos` is the position given by `setPos`. -/
structure SystemRec where
  id : Nat
  height : ℚ
  vbox : Option (ℚ × ℚ) := none
  minTop : ℚ := 0
  minBottom : ℚ := 0
  pageBreak : Bool := false
  pos : ℚ × ℚ := (0, 0)
  deriving DecidableEq, Repr

/-- Values `collectPage` reads: `styleP(staffLowerBorder)`, `styleP(staffUpperBorder)`,
`breakPages` (`layoutMode() != LayoutMode::SYSTEM`), `_staves.front()->userDist()`, the
function `minDistance` of two systems, and the top margin, bottom margin, left margin and
height of the page. -/
structure PageEnv where
  slb : ℚ
  sub : ℚ
  breakPages : Bool := true
  userDist : ℚ := 0
  minDistance : SystemRec → SystemRec → ℚ
  tm : ℚ
  bm : ℚ
  lm : ℚ
  pageHeight : ℚ

/-- State at the end of `collectPage`: the systems of the page, the rest height handed
to `layoutPage`, `lc.curSystem`, and the systems that the following calls of
`collectSystem` deliver. -/
structure PageResult where
  systems : List SystemRec
  restHeight : ℚ
  curSystem : Option SystemRec
  stream : List SystemRec
  deriving DecidableEq, Repr

/-- The distance of the system `s2` to the previous system `s1`, or to the top of the
page for the first system of the page (layout.cpp 3686-3695). -/
def systemDistance (env : PageEnv) (s1 : Option SystemRec) (s2 : SystemRec) : ℚ :=
  let distance : ℚ :=
    match s1 with
    | some s1 => env.minDistance s1 s2
    | none =>
        let distance := match s2.vbox with
          | some vbox => vbox.1
          | none => env.sub
        max distance (-s2.minTop)
  distance + env.userDist

/-- The bottom clearance of a system: the bottom gap of its box, or
`qMax(minBottom(), slb)`. -/
def bottomClearance (env : PageEnv) (s : SystemRec) : ℚ :=
  match s.vbox with
  | some vbox => vbox.2
  | none => max s.minBottom env.slb

/-- The loop `for (;;)` of `collectPage`, entered with the previous system `s1`, the
current system `s2`, the position `y` and the systems appended to the page so far.
`stream` holds the systems in the order in which the following calls of `collectSystem`
(or the list of unchanged systems of a range layout) make them `lc.curSystem`; on the
empty stream there is no next system. -/
def collectPageLoop (env : PageEnv) :
    List SystemRec → Option SystemRec → SystemRec → ℚ → List SystemRec → PageResult
  | stream, s1, s2, y, systems =>
      let ey := env.pageHeight - env.bm
      let y := y + systemDistance env s1 s2
      let s2 := { s2 with pos := (env.lm, y) }
      let systems := systems ++ [s2]
      let y := y + s2.height
      let close : PageResult :=
        { systems := systems
          restHeight := ey - (y + bottomClearance env s2)
          curSystem := stream.head?
          stream := stream.tail }
      match stream with
      | [] => close
      | s3 :: rest =>
          let breakPage := env.breakPages && s2.pageBreak
          let breakPage :=
            if !breakPage then
              let dist := env.minDistance s2 s3 + s3.height
              let dist := dist + bottomClearance env s3
              decide (y + dist ≥ ey)
            else breakPage
          if breakPage then close
          else collectPageLoop env rest (some s2) s3 y systems

/-- Example page: height 100, top and bottom margin 10, left margin 5, minimum system
distance 8, staff borders 7. -/
def examplePageEnv : PageEnv :=
  { slb := 7, sub := 7, minDistance := fun _ _ => 8, tm := 10, bm := 10, lm := 5,
    pageHeight := 100 }

/-- A beam is well formed with respect to the chords and rests `crs` of a track: its
elements are of the track of the beam and in strictly increasing tick order, an element
with the identity of one of `crs` is that chord or rest, and an element of the track and
at the tick of one of `crs` has its identity. -/
def BeamOK (crs : List ChordRest) (b : Beam) : Prop :=
  (∀ e ∈ b.elements, e.track = b.track) ∧
  b.elements.Pairwise (fun x y => x.tick < y.tick) ∧
  (∀ e ∈ b.elements, ∀ cr ∈ crs, e.id = cr.id → e = cr) ∧
  (∀ e ∈ b.elements, ∀ cr ∈ crs, e.track = cr.track → e.tick = cr.tick → e.id = cr.id)

/-- The beams of the score are well formed: every beam is, the identities of the beams
are below `nextId`, and no two beams share an identity. -/
def StoreOK (crs : List ChordRest) (s : BeamStore) : Prop :=
  (∀ b ∈ s.beams, BeamOK crs b ∧ b.id < s.nextId) ∧ (s.beams.map fun b => b.id).Nodup

/-- The state of the loop of `createBeams` for a track is well formed: the beams of the
score are, the active beam is a beam of the track, and the candidate is one of the chords
and rests of the track. -/
def BeamLoopOK (crs : List ChordRest) (track : Nat) (st : BeamLoopState) : Prop :=
  StoreOK crs st.store ∧
  (∀ beam, st.beam = some beam → ∀ b ∈ st.store.beams, b.id = beam → b.track = track) ∧
  (∀ a, st.a1 = some a → a ∈ crs)

/-- Example track: two eighth-note chords at the ticks 0 and 240. -/
def exampleEighthChords : List ChordRest :=
  [{ id := 0, tick := 0, rtick := 0, actualTicks := 240,
     durationType := { type := DurationType.V_EIGHTH }, hooks := 1 },
   { id := 1, tick := 240, rtick := 240, actualTicks := 240,
     durationType := { type := DurationType.V_EIGHTH }, hooks := 1 }]

/-! ## Accidental placement: `resolveAccidentals`, `layoutAccidental`, `layoutChords3`
(layout.cpp 636-768, 775-883, 945-1110) -/

/-- The structure `AcEl` of an accidental to place. `note` stands for the identity of
its note. The fields `mag`, `accWidth`, `bboxX` and `staffLines` hold the values that
`layoutAccidental` reads through `me->note`: `accidental()->mag()`,
`accidental()->width()`, `accidental()->bbox().x()` and `staff()->lines()`. -/
structure AcEl where
  note : Nat := 0
  x : ℚ := 0
  top : ℚ := 0
  bottom : ℚ := 0
  line : Int := 0
  next : Int := -1
  width : ℚ := 0
  ascent : ℚ := 0
  descent : ℚ := 0
  rightClear : ℚ := 0
  leftClear : ℚ := 0
  mag : ℚ := 1
  accWidth : ℚ := 0
  bboxX : ℚ := 0
  staffLines : Int := 5
  deriving DecidableEq, Repr, Inhabited

/-- The function `resolveAccidentals(left, right, lx, pd, sp)`: whether there is a
conflict, and the new value of `lx`. The test `left == lower` is the test
`left->line >= right->line` by which `lower` is chosen. -/
def resolveAccidentals (left right : AcEl) (lx pd sp : ℚ) : Bool × ℚ :=
  let leftIsLower := decide (left.line ≥ right.line)
  let upper := if leftIsLower then right else left
  let lower := if leftIsLower then left else right
  let gap := lower.top - upper.bottom
  if gap ≥ pd ∨ lower.line - upper.line ≥ 7 then (false, lx)
  else
    let allowableOverlap := max upper.descent lower.ascent - pd
    if |gap| ≤ 33 / 100 * sp ∧ -gap ≤ allowableOverlap ∧ min upper.descent lower.ascent > 0
    then
      let align := min left.width right.width
      (true, min lx (right.x + align - pd))
    else
      let overlapShift := pd * (141 / 100)
      if leftIsLower = true ∧ -gap ≤ allowableOverlap then
        let offset := max left.rightClear right.leftClear
        let offset := min offset left.width - overlapShift
        (true, min lx (right.x + offset))
      else if leftIsLower = true ∧ -gap ≤ upper.descent + lower.ascent - pd
          ∧ min left.rightClear right.leftClear - overlapShift > 0 then
        (true, min lx (right.x + (min left.rightClear right.leftClear - overlapShift)))
      else (true, min lx (right.x - pd))

/-- A note head to the left of the origin, as `layoutAccidental` reads it: its line and
its position `ln->x() + ln->chord()->x()`. -/
structure LeftNote where
  line : Int
  sx : ℚ
  deriving DecidableEq, Repr

/-- The loop of `layoutAccidental` over the notes to the left (layout.cpp 735-750). -/
def clearLeftNotes (me : AcEl) (pnd sp : ℚ) : List LeftNote → ℚ → ℚ
  | [], lx => lx
  | ln :: rest, lx =>
      let lnTop := ((ln.line - 1 : Int) : ℚ) * (1 / 2) * sp
      let lnBottom := lnTop + sp
      if me.top - lnBottom ≤ pnd ∧ lnTop - me.bottom ≤ pnd then
        let lx := if lnBottom - me.top ≤ me.ascent - pnd then min lx (ln.sx + me.rightClear)
                  else min lx ln.sx
        clearLeftNotes me pnd sp rest lx
      else if lnTop > me.bottom then lx
      else clearLeftNotes me pnd sp rest lx

/-- The function `layoutAccidental(me, above, below, colOffset, leftNotes, pnd, pd, sp)`:
the new position `me->x`, which is also the value returned. -/
def layoutAccidental (me : AcEl) (above below : Option AcEl) (colOffset : ℚ)
    (leftNotes : List LeftNote) (pnd pd sp : ℚ) : ℚ :=
  let lx := colOffset
  let pnd := pnd * me.mag
  let pd := pd * me.mag
  let lx := if me.line ≤ -2 ∨ me.line ≥ me.staffLines * 2 then min lx (-(2 / 10) * sp) else lx
  let lx := clearLeftNotes me pnd sp leftNotes lx
  let ra : Bool × ℚ := match above with
    | some above => resolveAccidentals me above lx pd sp
    | none => (false, lx)
  let rb : Bool × ℚ := match below with
    | some below => resolveAccidentals me below ra.2 pd sp
    | none => (false, ra.2)
  let lx := rb.2
  if ra.1 || rb.1 then lx - me.accWidth - me.bboxX
  else if colOffset ≠ 0 then lx - pd - me.accWidth - me.bboxX
  else lx - pnd - me.accWidth - me.bboxX

/-- The data of an accidental read by `layoutChords3`: magnification, width, the edges
`x()`, `top()` and `bottom()` of its bounding box, the points `topRight()` and
`bottomLeft()` of the bounding box of its symbol, and the cut-out points of the symbol
(a null point is `(0, 0)`). -/
structure AccidentalData where
  mag : ℚ := 1
  width : ℚ
  bboxX : ℚ := 0
  bboxTop : ℚ
  bboxBottom : ℚ
  symNE : ℚ × ℚ := (0, 0)
  symSW : ℚ × ℚ := (0, 0)
  cutOutNE : ℚ × ℚ := (0, 0)
  cutOutSW : ℚ × ℚ := (0, 0)
  deriving DecidableEq, Repr

/-- A note as the accidental part of `layoutChords3` reads it: `stemPosX`, `stem` (the
line width of the stem, if any), `chordHeadWhole`
(`durationType().headType() == HEAD_WHOLE`), `chordMag`, `chordUp` and `chordX` are the
values of its chord. -/
structure Chords3Note where
  id : Nat
  line : Int
  fixed : Bool := false
  accidental : Option AccidentalData := none
  staffLines : Int := 5
  headWidth : ℚ := 0
  mirror : Bool := false
  chordUp : Bool := true
  stemPosX : ℚ := 0
  stem : Option ℚ := none
  chordHeadWhole : Bool := false
  chordMag : ℚ := 1
  chordX : ℚ := 0
  deriving DecidableEq, Repr

/-- Values `layoutChords3` reads from the staff and the style: `staff->spatium()`,
`styleP(stemWidth)`, `styleP(accidentalDistance)`, `styleP(accidentalNoteDistance)`. -/
structure Chords3Env where
  sp : ℚ
  stemWidth : ℚ := 0
  pd : ℚ
  pnd : ℚ
  deriving DecidableEq, Repr

/-- State of the first loop of `layoutChords3` as far as the accidentals need it: the
list `aclist`, the array `columnBottom`, the notes to the left of the origin and the
leftmost note head position `lx`. -/
structure Chords3State where
  aclist : List AcEl := []
  columnBottom : List Int := [-1, -1, -1, -1, -1, -1, -1]
  leftNotes : List LeftNote := []
  lx : ℚ := 10000
  deriving DecidableEq, Repr

/-- The pitch class `(line + 700) % 7` as an array index. -/
def pitchClass (line : Int) : Nat := (Int.tmod (line + 700) 7).toNat

/-- The entry `AcEl` built for a note with an accidental (layout.cpp 805-832). -/
def acElOf (env : Chords3Env) (note : Chords3Note) (ac : AccidentalData) (next : Int) : AcEl :=
  let cutNE := decide (ac.cutOutNE ≠ (0, 0))
  let cutSW := decide (ac.cutOutSW ≠ (0, 0))
  { note := note.id
    x := 0
    top := (note.line : ℚ) * (1 / 2) * env.sp + ac.bboxTop
    bottom := (note.line : ℚ) * (1 / 2) * env.sp + ac.bboxBottom
    line := note.line
    next := next
    width := ac.width
    ascent := if cutNE then ac.cutOutNE.2 - ac.symNE.2 else 0
    rightClear := if cutNE then ac.symNE.1 - ac.cutOutNE.1 else 0
    descent := if cutSW then ac.symSW.2 - ac.cutOutSW.2 else 0
    leftClear := if cutSW then ac.cutOutSW.1 - ac.symSW.1 else 0
    mag := ac.mag
    accWidth := ac.width
    bboxX := ac.bboxX
    staffLines := note.staffLines }

/-- The position `x` of a note head relative to its chord (layout.cpp 840-866). -/
def noteHeadX (env : Chords3Env) (note : Chords3Note) : ℚ :=
  let hw := note.headWidth
  let stemX := note.stemPosX
  let overlapMirror : ℚ :=
    match note.stem with
    | some lineWidth => lineWidth
    | none => if note.chordHeadWhole then env.stemWidth * note.chordMag else 0
  if note.mirror then
    if note.chordUp then stemX - overlapMirror else stemX - hw + overlapMirror
  else
    if note.chordUp then stemX - hw else 0

/-- One iteration of the first loop of `layoutChords3` (layout.cpp 800-883) as far as it
concerns the accidentals: the entry of the accidental of the note, the position of the
note head, the notes to the left and `lx`. The placement of the dots (884-934) is left
out. -/
def chords3Step (env : Chords3Env) (st : Chords3State) (note : Chords3Note) : Chords3State :=
  let st1 : Chords3State :=
    match note.accidental with
    | some ac =>
        if !note.fixed then
          let pc := pitchClass note.line
          { st with
            aclist := st.aclist ++ [acElOf env note ac (st.columnBottom.getD pc (-1))]
            columnBottom := st.columnBottom.set pc (st.aclist.length : Int) }
        else st
    | none => st
  let x := noteHeadX env note
  let sx := x + note.chordX
  if note.mirror && !note.chordUp && decide (sx < 0) then
    { st1 with leftNotes := st1.leftNotes ++ [{ line := note.line, sx := sx }] }
  else if sx < st1.lx then { st1 with lx := sx }
  else st1

/-- The first loop of `layoutChords3` over the notes from the last to the first. -/
def chords3Collect (env : Chords3Env) (notes : List Chords3Note) : Chords3State :=
  notes.reverse.foldl (chords3Step env) {}

/-- The element `aclist[i]`. -/
def acAt (aclist : List AcEl) (i : Int) : AcEl := aclist.getD i.toNat default

/-- The call `layoutAccidental(&aclist[me], above, below, ...)` for elements given by
their indices: the list with the new `x` of `aclist[me]`. -/
def placeAccidental (env : Chords3Env) (leftNotes : List LeftNote) (colOffset : ℚ)
    (aclist : List AcEl) (me : Nat) (above below : Option Nat) : List AcEl :=
  let el := aclist.getD me default
  let x := layoutAccidental el (above.map fun i => aclist.getD i default)
    (below.map fun i => aclist.getD i default) colOffset leftNotes env.pnd env.pd env.sp
  aclist.set me { el with x := x }

/-- The loop over the middle accidentals of the zig-zag (layout.cpp 1096-1107), entered
with the loop variables `i` and `n` and the indices `me`, `above`, `below`; `fuel` bounds
the number of rounds. -/
def zigzagLoop (env : Chords3Env) (leftNotes : List LeftNote) (colOffset : ℚ)
    (umi : List Nat) : Nat → Nat → Nat → Nat → Option Nat → Option Nat → List AcEl → List AcEl
  | 0, _, _, _, _, _, aclist => aclist
  | fuel + 1, i, n, me, above, _, aclist =>
      if i < n then
        -- next highest
        let below := some me
        let me := umi.getD i 0
        let aclist := placeAccidental env leftNotes colOffset aclist me above below
        if i = n - 1 then aclist
        else
          -- next lowest
          let above := some me
          let me := umi.getD (n - 1) 0
          let aclist := placeAccidental env leftNotes colOffset aclist me above below
          zigzagLoop env leftNotes colOffset umi fuel (i + 1) (n - 1) me above below aclist
      else aclist

/-- The zig-zag layout of the accidentals with the indices `umi` (layout.cpp 1074-1110):
the top one, the bottom one, then the middle ones. -/
def zigzagAccidentals (env : Chords3Env) (leftNotes : List LeftNote) (colOffset : ℚ)
    (umi : List Nat) (aclist : List AcEl) : List AcEl :=
  let nAcc := umi.length
  if nAcc = 0 then aclist
  else
    let me := umi.getD 0 0
    let aclist := placeAccidental env leftNotes colOffset aclist me none none
    let n := nAcc - 1
    if n > 0 then
      let above := some me
      let me := umi.getD n 0
      let aclist := placeAccidental env leftNotes colOffset aclist me above none
      if n > 1 then zigzagLoop env leftNotes colOffset umi n 1 n me above none aclist
      else aclist
    else aclist

/-- The loop `for (j = columnBottom[pc]; j != -1; j = aclist[j].next) columnTop[pc] = j`
(layout.cpp 969-970) entered at `j` with the value `cur` of `columnTop[pc]`; `none` if
the chain does not end within `fuel` steps. -/
def chainTop (aclist : List AcEl) : Nat → Int → Int → Option Int
  | 0, j, cur => if j = -1 then some cur else none
  | fuel + 1, j, cur =>
      if j = -1 then some cur else chainTop aclist fuel (acAt aclist j).next j

/-- The array `columnTop` (layout.cpp 962-971). -/
def columnTops (aclist : List AcEl) (columnBottom : List Int) : Option (List Int) :=
  columnBottom.mapM fun b =>
    if b = -1 then some (-1) else chainTop aclist aclist.length b (-1)

/-- The vectors `column` and `unmatched` of `layoutChords3`. -/
structure ColumnOrder where
  column : List Nat := []
  unmatched : List Nat := []
  deriving DecidableEq, Repr

/-- One half of a round of the column order loop (layout.cpp 979-985, 988-994) for the
accidental `aclist[i]`. -/
def columnOrderAdd (aclist : List AcEl) (columnTop columnBottom : List Int)
    (st : ColumnOrder) (i : Nat) : ColumnOrder :=
  let pc := pitchClass (aclist.getD i default).line
  if (acAt aclist (columnTop.getD pc (-1))).line
      ≠ (acAt aclist (columnBottom.getD pc (-1))).line then
    if !st.column.contains pc then { st with column := st.column ++ [pc] } else st
  else { st with unmatched := st.unmatched ++ [i] }

/-- The column order loop `for (i = 0; i <= n; ++i, --n)` (layout.cpp 978-995); `fuel`
bounds the number of rounds. -/
def columnOrderLoop (aclist : List AcEl) (columnTop columnBottom : List Int) :
    Nat → Nat → Nat → ColumnOrder → ColumnOrder
  | 0, _, _, st => st
  | fuel + 1, i, n, st =>
      if i ≤ n then
        let st := columnOrderAdd aclist columnTop columnBottom st i
        if i = n then st
        else
          let st := columnOrderAdd aclist columnTop columnBottom st n
          columnOrderLoop aclist columnTop columnBottom fuel (i + 1) (n - 1) st
      else st

/-- The search of a slot within a column (layout.cpp 1010-1016) entered at `k` with the
value `below`: the pair `(above, below)`; `none` if the chain does not end within `fuel`
steps. -/
def findSlot (aclist : List AcEl) (meLine : Int) : Nat → Int → Int → Option (Int × Int)
  | 0, k, below => if k = -1 then some (-1, below) else none
  | fuel + 1, k, below =>
      if k = -1 then some (-1, below)
      else if (acAt aclist k).line < meLine then some (k, below)
      else findSlot aclist meLine fuel (acAt aclist k).next k

/-- The test whether an accidental fits into a slot (layout.cpp 1018-1023): `true` is a
conflict. -/
def slotConflict (aclist : List AcEl) (me : AcEl) (pd : ℚ) (above below : Int) : Bool :=
  let myPd := pd * me.mag
  if above ≠ -1 ∧ me.top - (acAt aclist above).bottom < myPd then true
  else if below ≠ -1 ∧ (acAt aclist below).top - me.bottom < myPd then true
  else false

/-- The accidentals with the arrays `columnTop` and `columnBottom` and the vector `umi`
while the unmatched accidentals are handled. -/
structure ColumnState where
  aclist : List AcEl
  columnTop : List Int
  columnBottom : List Int
  umi : List Nat := []
  deriving DecidableEq, Repr

/-- The loop over the columns for the unmatched accidental `aclist[u]` (layout.cpp
1005-1036): whether a slot was found, and the state with the accidental inserted. -/
def insertUnmatched (pd : ℚ) (u : Nat) : List Nat → ColumnState → Option (Bool × ColumnState)
  | [], st => some (false, st)
  | pc :: rest, st =>
      let me := st.aclist.getD u default
      match findSlot st.aclist me.line st.aclist.length (st.columnBottom.getD pc (-1)) (-1) with
      | none => none
      | some (above, below) =>
          if !slotConflict st.aclist me pd above below then
            let aclist := st.aclist.set u { me with next := above }
            let columnTop := if above = -1 then st.columnTop.set pc (u : Int) else st.columnTop
            if below ≠ -1 then
              some (true, { st with
                aclist := aclist.set below.toNat { acAt aclist below with next := (u : Int) }
                columnTop := columnTop })
            else
              some (true, { st with
                aclist := aclist
                columnTop := columnTop
                columnBottom := st.columnBottom.set pc (u : Int) })
          else insertUnmatched pd u rest st

/-- The loop over the unmatched accidentals (layout.cpp 1000-1040). -/
def handleUnmatched (pd : ℚ) (column : List Nat) : List Nat → ColumnState → Option ColumnState
  | [], st => some st
  | u :: rest, st =>
      match insertUnmatched pd u column st with
      | none => none
      | some (found, st1) =>
          handleUnmatched pd column rest (if !found then { st1 with umi := st1.umi ++ [u] } else st1)

/-- The layout of the accidentals of one column from the bottom (layout.cpp 1050-1054)
entered at `j`: the accidentals and `minX`; `none` if the chain does not end within `fuel`
steps. -/
def layoutColumn (env : Chords3Env) (leftNotes : List LeftNote) (colOffset : ℚ) :
    Nat → Int → Option Nat → List AcEl → ℚ → Option (List AcEl × ℚ)
  | 0, j, _, aclist, minX => if j = -1 then some (aclist, minX) else none
  | fuel + 1, j, below, aclist, minX =>
      if j = -1 then some (aclist, minX)
      else
        let aclist := placeAccidental env leftNotes colOffset aclist j.toNat none below
        let x := (acAt aclist j).x
        layoutColumn env leftNotes colOffset fuel (acAt aclist j).next (some j.toNat) aclist
          (min minX x)

/-- The alignment within one column (layout.cpp 1056-1062) entered at `j`. -/
def alignColumn (minX : ℚ) : Nat → Int → List AcEl → Option (List AcEl)
  | 0, j, aclist => if j = -1 then some aclist else none
  | fuel + 1, j, aclist =>
      if j = -1 then some aclist
      else
        let next := (acAt aclist j).next
        if next ≠ -1 ∧ (acAt aclist j).line = (acAt aclist next).line then
          alignColumn minX fuel next aclist
        else
          alignColumn minX fuel next (aclist.set j.toNat { acAt aclist j with x := minX })

/-- The loop over the columns (layout.cpp 1046-1065): the accidentals, `minX` and
`colOffset`. -/
def layoutColumns (env : Chords3Env) (leftNotes : List LeftNote) (columnBottom : List Int) :
    List Nat → List AcEl → ℚ → ℚ → Option (List AcEl × ℚ × ℚ)
  | [], aclist, minX, colOffset => some (aclist, minX, colOffset)
  | pc :: rest, aclist, minX, colOffset =>
      let bottom := columnBottom.getD pc (-1)
      match layoutColumn env leftNotes colOffset aclist.length bottom none aclist minX with
      | none => none
      | some (aclist1, minX1) =>
          match alignColumn minX1 aclist1.length bottom aclist1 with
          | none => none
          | some aclist2 => layoutColumns env leftNotes columnBottom rest aclist2 minX1 minX1

/-- The accidental part of `Score::layoutChords3` (layout.cpp 798-883, 945-1110): the
list `aclist` with the positions `x` of the accidentals relative to the origin, in the
order of ascending lines; `none` if a chain of accidentals does not end. -/
def layoutChords3 (env : Chords3Env) (notes : List Chords3Note) : Option (List AcEl) :=
  let st := chords3Collect env notes
  let aclist := st.aclist
  let nAcc := aclist.length
  if nAcc = 0 then some aclist
  else if nAcc ≥ 2 ∧ (aclist.getD (nAcc - 1) default).line - (aclist.getD 0 default).line ≥ 7
  then
    match columnTops aclist st.columnBottom with
    | none => none
    | some columnTop =>
        let order := columnOrderLoop aclist columnTop st.columnBottom nAcc 0 (nAcc - 1) {}
        match handleUnmatched env.pd order.column order.unmatched
            { aclist := aclist, columnTop := columnTop, columnBottom := st.columnBottom } with
        | none => none
        | some cs =>
            let umi := if cs.umi.length > 1 then cs.umi.insertionSort (· ≤ ·) else cs.umi
            match layoutColumns env st.leftNotes cs.columnBottom order.column cs.aclist 0 0 with
            | none => none
            | some (aclist1, _, colOffset) =>
                some (zigzagAccidentals env st.leftNotes colOffset umi aclist1)
  else some (zigzagAccidentals env st.leftNotes 0 (List.range nAcc) aclist)

/-- Four notes with accidentals on the lines 0, 1, 3 and 5, given from the bottom note to
the top note as `layoutChords3` receives them: a tall accidental on line 0 and small ones
on the other lines. -/
def exampleAccidentalNotes : List Chords3Note :=
  [ { id := 3, line := 5, accidental := some { width := 1, bboxTop := -1 / 2, bboxBottom := 1 / 2 } },
    { id := 2, line := 3, accidental := some { width := 1, bboxTop := -1 / 4, bboxBottom := 1 / 4 } },
    { id := 1, line := 1, accidental := some { width := 1, bboxTop := -1 / 2, bboxBottom := 1 / 2 } },
    { id := 0, line := 0, accidental := some { width := 1, bboxTop := -7 / 5, bboxBottom := 7 / 5 } } ]

/-- A staff with spatium 1 and both accidental distances 1/5. -/
def exampleChords3Env : Chords3Env := { sp := 1, pd := 1 / 5, pnd := 1 / 5 }

/-- The exits of `resolveAccidentals` (layout.cpp 672-715): no conflict, the close
accidentals of which one subsumes the overlap (678-687), the overlap subsumed by one
accidental (696-701), the overlap subsumed by both (705-711), and the real conflict
(714). -/
inductive AccidentalCase
  | clear
  | close
  | subsumed
  | subsumedBoth
  | conflict
  deriving DecidableEq, Repr

/-- The exit that `resolveAccidentals(left, right, lx, pd, sp)` takes; it does not depend
on `lx` or on the positions `x`. -/
def resolveCase (left right : AcEl) (pd sp : ℚ) : AccidentalCase :=
  let leftIsLower := decide (left.line ≥ right.line)
  let upper := if leftIsLower then right else left
  let lower := if leftIsLower then left else right
  let gap := lower.top - upper.bottom
  if gap ≥ pd ∨ lower.line - upper.line ≥ 7 then .clear
  else
    let allowableOverlap := max upper.descent lower.ascent - pd
    if |gap| ≤ 33 / 100 * sp ∧ -gap ≤ allowableOverlap ∧ min upper.descent lower.ascent > 0
    then .close
    else
      let overlapShift := pd * (141 / 100)
      if leftIsLower = true ∧ -gap ≤ allowableOverlap then .subsumed
      else if leftIsLower = true ∧ -gap ≤ upper.descent + lower.ascent - pd
          ∧ min left.rightClear right.leftClear - overlapShift > 0 then .subsumedBoth
      else .conflict

/-- The accidental `me` is clear of the accidental `nb` to its right: if
`resolveAccidentals(me, nb, ...)`, called with the distance `pd * mag` as `layoutAccidental`
calls it, ends in the real conflict, then the right edge `x + width + bbox.x` of `me` is at
least that distance to the left of the position `x` of `nb`. -/
def accidentalClear (pd sp : ℚ) (me nb : AcEl) : Prop :=
  resolveCase me nb (pd * me.mag) sp = .conflict →
    me.x + me.accWidth + me.bboxX ≤ nb.x - pd * me.mag

/-- The positions that `layoutChords3` gives to the accidentals of the four example
notes. -/
def exampleAccidentalLayout : List AcEl :=
  [ { note := 0, x := -6 / 5, top := -7 / 5, bottom := 7 / 5, line := 0, next := -1,
      width := 1, mag := 1, accWidth := 1 },
    { note := 1, x := -12 / 5, top := 0, bottom := 1, line := 1, next := -1,
      width := 1, mag := 1, accWidth := 1 },
    { note := 2, x := -6 / 5, top := 5 / 4, bottom := 7 / 4, line := 3, next := -1,
      width := 1, mag := 1, accWidth := 1 },
    { note := 3, x := -6 / 5, top := 2, bottom := 3, line := 5, next := -1,
      width := 1, mag := 1, accWidth := 1 } ]

/-! ## Accidental placement: the chains of the columns and the input of the zig-zag
(layout.cpp 953-1074) -/

/-- The walk along the fields `next` of `aclist` from the index `j` over the indices `c`
arrives at `k`: the chain `for (j = ...; j != k; j = aclist[j].next)` visits `c`. -/
def ChainSeg (l : List AcEl) : Int → List Nat → Int → Prop
  | j, [], k => j = k
  | j, i :: rest, k => j = (i : Int) ∧ i < l.length ∧ ChainSeg l (acAt l i).next rest k

/-- The columns are well formed while the unmatched accidentals `pending` are still to be
handled: for every pitch class of `column` the chain from `columnBottom` ends, visits no
accidental twice and none of `pending`, and the chains of two columns share no
accidental. -/
def ColumnsOK (l : List AcEl) (cb : List Int) (column pending : List Nat) : Prop :=
  ∃ ch : Nat → List Nat,
    (∀ pc ∈ column, ChainSeg l (cb.getD pc (-1)) (ch pc) (-1) ∧ (ch pc).Nodup
        ∧ ∀ i ∈ ch pc, i ∉ pending) ∧
    (∀ p ∈ column, ∀ q ∈ column, p ≠ q → ∀ i ∈ ch p, i ∉ ch q)

/-- The state of `layoutChords3` when the zig-zag starts (layout.cpp 1074): the
accidentals `aclist`, the offset `colOffset` and the vector `umi` of the indices of the
accidentals that the zig-zag lays out. -/
structure ZigzagInput where
  aclist : List AcEl
  colOffset : ℚ
  umi : List Nat
  deriving DecidableEq, Repr

/-- The accidental part of `Score::layoutChords3` up to the zig-zag (layout.cpp 798-883,
945-1072): with accidentals spread over an octave or more, the octave columns are laid out
and `umi` holds the accidentals that are in no column, in ascending order; else `umi`
holds all accidentals. `none` if a chain of accidentals does not end. -/
def zigzagInput (env : Chords3Env) (notes : List Chords3Note) : Option ZigzagInput :=
  let st := chords3Collect env notes
  let aclist := st.aclist
  let nAcc := aclist.length
  if nAcc = 0 then some { aclist := aclist, colOffset := 0, umi := [] }
  else if nAcc ≥ 2 ∧ (aclist.getD (nAcc - 1) default).line - (aclist.getD 0 default).line ≥ 7
  then
    match columnTops aclist st.columnBottom with
    | none => none
    | some columnTop =>
        let order := columnOrderLoop aclist columnTop st.columnBottom nAcc 0 (nAcc - 1) {}
        match handleUnmatched env.pd order.column order.unmatched
            { aclist := aclist, columnTop := columnTop, columnBottom := st.columnBottom } with
        | none => none
        | some cs =>
            let umi := if cs.umi.length > 1 then cs.umi.insertionSort (· ≤ ·) else cs.umi
            match layoutColumns env st.leftNotes cs.columnBottom order.column cs.aclist 0 0 with
            | none => none
            | some (aclist1, _, colOffset) =>
                some { aclist := aclist1, colOffset := colOffset, umi := umi }
  else some { aclist := aclist, colOffset := 0, umi := List.range nAcc }

/-- The result of the column order loop is well formed: every index of `unmatched` is the
index of an accidental whose pitch class has its accidentals on one line, no index comes
twice, and every pitch class of `column` has accidentals on different lines. -/
def ColumnOrderOK (aclist : List AcEl) (ct cb : List Int) (i n : Nat) (st : ColumnOrder) :
    Prop :=
  (∀ u ∈ st.unmatched, (u < i ∨ n < u) ∧
    ¬ (acAt aclist (ct.getD (pitchClass (aclist.getD u default).line) (-1))).line
      ≠ (acAt aclist (cb.getD (pitchClass (aclist.getD u default).line) (-1))).line) ∧
  st.unmatched.Nodup ∧
  (∀ p ∈ st.column, p < 7 ∧
    (acAt aclist (ct.getD p (-1))).line ≠ (acAt aclist (cb.getD p (-1))).line)

/-- Three notes with accidentals on the lines 0, 2 and 7, given from the bottom note to the
top note as `layoutChords3` receives them: the accidentals of the lines 0 and 7 are an
octave apart, the accidental of line 2 is a small one (magnification 1/2) whose top is
3/20 below the bottom of the accidental of line 0. -/
def exampleColumnNotes : List Chords3Note :=
  [ { id := 2, line := 7,
      accidental := some { width := 1, bboxTop := -3 / 10, bboxBottom := 3 / 10 } },
    { id := 1, line := 2,
      accidental := some { mag := 1 / 2, width := 1 / 2, bboxTop := -11 / 20,
                           bboxBottom := 3 / 10 } },
    { id := 0, line := 0,
      accidental := some { width := 1, bboxTop := -3 / 10, bboxBottom := 3 / 10 } } ]

/-- The positions that `layoutChords3` gives to the accidentals of `exampleColumnNotes`:
the three accidentals are in one column, aligned at -9/5. -/
def exampleColumnLayout : List AcEl :=
  [ { note := 0, x := -9 / 5, top := -3 / 10, bottom := 3 / 10, line := 0, next := -1,
      width := 1, mag := 1, accWidth := 1 },
    { note := 1, x := -9 / 5, top := 9 / 20, bottom := 13 / 10, line := 2, next := 0,
      width := 1 / 2, mag := 1 / 2, accWidth := 1 / 2 },
    { note := 2, x := -9 / 5, top := 16 / 5, bottom := 19 / 5, line := 7, next := 1,
      width := 1, mag := 1, accWidth := 1 } ]

/-- Four notes with accidentals on the lines 0, 2, 5 and 7, given from the bottom note to
the top note as `layoutChords3` receives them: the accidentals of the lines 0 and 7 are an
octave apart, the accidental of line 2 is a narrow one, and the accidental of line 5 is a
wide one with a cut-out at its upper right (`ascent` 1/2, `rightClear` 4/5) that overlaps
the accidental of line 7 by 2/5. -/
def exampleMixedNotes : List Chords3Note :=
  [ { id := 3, line := 7,
      accidental := some { width := 1 / 2, bboxTop := -7 / 10, bboxBottom := 7 / 10 } },
    { id := 2, line := 5,
      accidental := some { width := 1, bboxTop := -7 / 10, bboxBottom := 7 / 10,
                           symNE := (1, -7 / 10), cutOutNE := (1 / 5, -1 / 5) } },
    { id := 1, line := 2,
      accidental := some { width := 3 / 10, bboxTop := -7 / 10, bboxBottom := 7 / 10 } },
    { id := 0, line := 0,
      accidental := some { width := 1 / 2, bboxTop := -7 / 10, bboxBottom := 7 / 10 } } ]

/-- The positions that `layoutChords3` gives to the accidentals of `exampleMixedNotes`:
the accidentals of the lines 0 and 7 are in one column at -7/10, the accidentals of the
lines 2 and 5 are laid out by the zig-zag at -6/5 and -17/10. -/
def exampleMixedLayout : List AcEl :=
  [ { note := 0, x := -7 / 10, top := -7 / 10, bottom := 7 / 10, line := 0, next := -1,
      width := 1 / 2, mag := 1, accWidth := 1 / 2 },
    { note := 1, x := -6 / 5, top := 3 / 10, bottom := 17 / 10, line := 2, next := -1,
      width := 3 / 10, mag := 1, accWidth := 3 / 10 },
    { note := 2, x := -17 / 10, top := 9 / 5, bottom := 16 / 5, line := 5, next := -1,
      width := 1, ascent := 1 / 2, rightClear := 4 / 5, mag := 1, accWidth := 1 },
    { note := 3, x := -7 / 10, top := 14 / 5, bottom := 21 / 5, line := 7, next := 0,
      width := 1 / 2, mag := 1, accWidth := 1 / 2 } ]

/-- Two notes with accidentals on the lines 0 and 2, given from the bottom note to the top
note as `layoutChords3` receives them: the accidental of line 2 is a small one
(magnification 1/2) whose top is 3/20 below the bottom of the accidental of line 0, which
is less than `pd = 1/5` and not less than `pd * mag = 1/10`. -/
def exampleSmallNotes : List Chords3Note :=
  [ { id := 1, line := 2,
      accidental := some { mag := 1 / 2, width := 1 / 2, bboxTop := -11 / 20,
                           bboxBottom := 3 / 10 } },
    { id := 0, line := 0,
      accidental := some { width := 1, bboxTop := -3 / 10, bboxBottom := 3 / 10 } } ]

/-- The positions that `layoutChords3` gives to the accidentals of `exampleSmallNotes`: the
accidental of line 0 at -6/5, the small accidental of line 2 at -3/5. -/
def exampleSmallLayout : List AcEl :=
  [ { note := 0, x := -6 / 5, top := -3 / 10, bottom := 3 / 10, line := 0, next := -1,
      width := 1, mag := 1, accWidth := 1 },
    { note := 1, x := -3 / 5, top := 9 / 20, bottom := 13 / 10, line := 2, next := -1,
      width := 1 / 2, mag := 1 / 2, accWidth := 1 / 2 } ]

/-! ## Measures that may be part of a multi-measure rest: `validMMRestMeasure`
(layout.cpp 2419-2455) -/

/-- The number `VOICES` of voices of a staff. -/
def VOICES : Nat := 4

/-- The type of an annotation of a segment, as far as `validMMRestMeasure` tells the
types apart: the four it tolerates, and some of the others. -/
inductive AnnotationType where
  | REHEARSAL_MARK
  | TEMPO_TEXT
  | HARMONY
  | STAFF_TEXT
  | DYNAMIC
  | FRET_DIAGRAM
  | TEXT
  deriving DecidableEq, Repr

/-- The test `e->isRehearsalMark() || e->isTempoText() || e->isHarmony() ||
e->isStaffText()`. -/
def AnnotationType.tolerated : AnnotationType → Bool
  | .REHEARSAL_MARK => true
  | .TEMPO_TEXT => true
  | .HARMONY => true
  | .STAFF_TEXT => true
  | _ => false

/-- An element of a segment as `validMMRestMeasure` reads it: whether its type is `REST`
and, for a rest, the number of its articulations. -/
structure SegElement where
  isRest : Bool
  articulations : Nat := 0
  deriving DecidableEq, Repr

/-- A segment of a measure: `isChordRestType()`, the annotations, and the elements by
track (`element(track)` is the entry `track` of `elements`, or null). -/
structure Segment where
  isChordRestType : Bool := true
  annotations : List AnnotationType := []
  elements : List (Option SegElement) := []
  deriving DecidableEq, Repr

/-- The call `s->element(track)`. -/
def Segment.element (s : Segment) (track : Nat) : Option SegElement :=
  (s.elements.getD track none)

/-- A measure as `validMMRestMeasure` reads it: `irregular()`, the segments in the order
of `next()`, the number `mstaves().size()` of staves, and `show()` of the staves of the
score. -/
structure SegMeasure where
  irregular : Bool := false
  segments : List Segment := []
  nstaves : Nat := 1
  staffShow : List Bool := [true]
  deriving DecidableEq, Repr

/-- The call `m->score()->staff(idx)->show()`. -/
def SegMeasure.shown (m : SegMeasure) (idx : Nat) : Bool := m.staffShow.getD idx true

/-- The loop over the tracks of a chord/rest segment (layout.cpp 2433-2446) entered at
`track` with the value `restFound`: `none` if the function returns false inside the loop,
else the final `restFound`. `fuel` bounds the number of rounds. -/
def restLoop (m : SegMeasure) (s : Segment) : Nat → Nat → Bool → Option Bool
  | 0, _, restFound => some restFound
  | fuel + 1, track, restFound =>
      if track < m.nstaves * VOICES then
        if track % VOICES = 0 ∧ !m.shown (track / VOICES) then
          restLoop m s fuel (track + (VOICES - 1) + 1) restFound
        else
          match s.element track with
          | some e =>
              if !e.isRest then none
              else if e.articulations > 0 then none
              else restLoop m s fuel (track + 1) true
          | none => restLoop m s fuel (track + 1) restFound
      else some restFound

/-- The loop over the segments of `validMMRestMeasure` (layout.cpp 2425-2453) with the
count `n` of the chord/rest segments in which a rest was found. -/
def validMMRestLoop (m : SegMeasure) : List Segment → Nat → Bool
  | [], _ => true
  | s :: rest, n =>
      if s.annotations.any (fun e => !e.tolerated) then false
      else if s.isChordRestType then
        match restLoop m s (m.nstaves * VOICES) 0 false with
        | none => false
        | some restFound =>
            let n := if restFound then n + 1 else n
            if n > 1 then false else validMMRestLoop m rest n
      else validMMRestLoop m rest n

/-- The function `validMMRestMeasure(m)`. -/
def validMMRestMeasure (m : SegMeasure) : Bool :=
  if m.irregular then false else validMMRestLoop m m.segments 0

/-- The segment holds an element in a track of a shown staff. -/
def Segment.holdsShown (m : SegMeasure) (s : Segment) : Bool :=
  (List.range (m.nstaves * VOICES)).any fun track =>
    m.shown (track / VOICES) && (s.element track).isSome

/-- The voices of the staff `idx` that hold an element in some segment of the measure. -/
def voicesWithContent (m : SegMeasure) (idx : Nat) : List Nat :=
  (List.range VOICES).filter fun v =>
    m.segments.any fun s => (s.element (idx * VOICES + v)).isSome

/-- A measure of one staff with one chord/rest segment that holds a rest in the first
voice and a rest in the second voice. -/
def exampleTwoVoiceRests : SegMeasure :=
  { segments := [{ elements := [some { isRest := true }, some { isRest := true }, none, none] }] }

/-! ## System header: `addSystemHeader` (layout.cpp 1233-1370) -/

/-- The element types that the search of `addSystemHeader` tells apart. -/
inductive HeaderElementType where
  | KEYSIG
  | CLEF
  | TIMESIG
  | BAR_LINE
  deriving DecidableEq, Repr

/-- An element of a segment as `addSystemHeader` reads it: `id` stands for the identity
of the object, `generated` is its flag on entry, and `upToDate` says that it already shows
what the staff asks for at the tick (`keySigEvent() == keyIdx` for a key signature,
`clefTypeList() == cl` for a clef). -/
structure HeaderElement where
  id : Nat
  type : HeaderElementType
  generated : Bool := false
  upToDate : Bool := true
  deriving DecidableEq, Repr

/-- A segment of the measure: `stops` is
`isType(Segment::Type::ChordRest | Segment::Type::StartRepeatBarLine)`, `elements` are
the elements by track. -/
structure HeaderSegment where
  stops : Bool := false
  elements : List (Option HeaderElement) := []
  deriving DecidableEq, Repr

/-- The call `seg->element(track)`. -/
def HeaderSegment.element (seg : HeaderSegment) (track : Nat) : Option HeaderElement :=
  seg.elements.getD track none

/-- The calls `layoutAccidental(me, above, below, …)` made by the loop
`for (int i = 1; i < n; ++i)` of the zig-zag (layout.cpp 1093-1108), in the order in which
they are made, each as the triple `(me, above, below)`; the control flow is the one of
`zigzagLoop`. -/
def zigzagLoopCalls (umi : List Nat) :
    Nat → Nat → Nat → Nat → Option Nat → List (Nat × Option Nat × Option Nat)
  | 0, _, _, _, _ => []
  | fuel + 1, i, n, me, above =>
      if i < n then
        -- next highest
        let below := some me
        let me := umi.getD i 0
        if i = n - 1 then [(me, above, below)]
        else
          -- next lowest
          let above1 := some me
          let me1 := umi.getD (n - 1) 0
          (me, above, below) :: (me1, above1, below)
            :: zigzagLoopCalls umi fuel (i + 1) (n - 1) me1 above1
      else []

/-- The calls `layoutAccidental(me, above, below, …)` of the whole zig-zag
(layout.cpp 1074-1110), in the order in which they are made; the control flow is the one
of `zigzagAccidentals`. -/
def zigzagCalls (umi : List Nat) : List (Nat × Option Nat × Option Nat) :=
  let nAcc := umi.length
  if nAcc = 0 then []
  else
    let me := umi.getD 0 0
    let n := nAcc - 1
    if n > 0 then
      let above := some me
      let me1 := umi.getD n 0
      if n > 1 then
        (me, none, none) :: (me1, above, none) :: zigzagLoopCalls umi n 1 n me1 above
      else [(me, none, none), (me1, above, none)]
    else [(me, none, none)]

/-- The position in the vector `umi`, counted from the top, of the accidental laid out
by the `k`-th call of the zig-zag over `n` accidentals: 0, n-1, 1, n-2, 2, … -/
def zigzagIndex (n k : Nat) : Nat :=
  if k % 2 = 0 then k / 2 else n - 1 - k / 2

/-- The order 0, n-1, 1, n-2, 2, … alternating inward. -/
def zigzagOrder (n : Nat) : List Nat :=
  (List.range n).map (zigzagIndex n)

/-! ## Chord layout: the conflict test of `layoutChords2` (layout.cpp 580-583) -/

/-- The condition `conflict` of `layoutChords2` for the note `note` and the note `prev`
visited before it: `(qAbs(ll - line) < 2) && (lmove == move) && note->visible() && lvisible`
with `ll`, `lmove` and `lvisible` taken from `prev`. -/
def noteConflict (prev note : Note) : Bool :=
  decide ((prev.line - note.line).natAbs < 2) && (prev.chord.staffMove == note.chord.staffMove)
    && note.visible && prev.visible

/-- The notes in the order in which `layoutChords2(notes, up)` visits them: from index 0
upwards for `up`, from the last index downwards else. -/
def iterationOrder (notes : List Note) (up : Bool) : List Note :=
  if up then notes else notes.reverse

/-- Three notes of up-stem chords on the lines 4, 3 and 0, the second one with the user
mirror property RIGHT. -/
def exampleMirrorNotes : List Note :=
  [ { id := 0, chord := { track := 0, up := true }, line := 4, headWidth := 3 / 2 },
    { id := 1, chord := { track := 0, up := true }, line := 3, headWidth := 2,
      userMirror := DirectionH.RIGHT },
    { id := 2, chord := { track := 0, up := true }, line := 0, headWidth := 1 } ]

/-- Three notes of up-stem chords on the lines 4, 3 and 2, all with the user mirror
property AUTO. -/
def exampleClusterNotes : List Note :=
  [ { id := 0, chord := { track := 0, up := true }, line := 4, headWidth := 3 / 2 },
    { id := 1, chord := { track := 0, up := true }, line := 3, headWidth := 2 },
    { id := 2, chord := { track := 0, up := true }, line := 2, headWidth := 1 } ]

/-! ## Chord layout: a segment with one chord -/

/-- Example segment of one staff: an up-stem chord in voice 1 with a wide note head,
nothing in the other voices. -/
def exampleSingleChordElements : List (Option Chord) :=
  [ some { info := { track := 0, up := true, stem := some (1 / 10) }
           notes := [{ id := 0, chord := { track := 0, up := true, stem := some (1 / 10) },
                       line := 2, headWidth := 17 / 10 }] },
    none, none, none ]

/-! ## Search for a chord or rest: `searchNote` (layout.cpp 81-102) -/

/-- The loop of `searchNote(tick, track)` over the segments of type ChordRest in the
order of `next1(st)`, each given by the elements of its tracks (`segment->cr(track)` is the
entry `track`, `none` for an empty track); `ipe` is the chord or rest met last. The
result `none` is the null pointer. -/
def searchNoteLoop (tick : Int) (track : Nat) :
    List (List (Option ChordRest)) → Option ChordRest → Option ChordRest
  | [], _ => none
  | segment :: rest, ipe =>
      match segment.getD track none with
      | none => searchNoteLoop tick track rest ipe
      | some cr =>
          if cr.tick = tick then some cr
          else if cr.tick > tick then
            match ipe with
            | some p => some p
            | none => some cr
          else searchNoteLoop tick track rest (some cr)

/-- The function `Score::searchNote(tick, track)`. -/
def searchNote (segments : List (List (Option ChordRest))) (tick : Int) (track : Nat) :
    Option ChordRest :=
  searchNoteLoop tick track segments none

/-- A score of one staff with one voice used: a whole note at tick 0 and nothing behind
it. -/
def exampleOneNoteSegments : List (List (Option ChordRest)) :=
  [ [ some { id := 0, tick := 0, actualTicks := 1920,
             durationType := { type := DurationType.V_WHOLE } },
      none, none, none ] ]

/-! ## Multi-measure rests: one empty measure (layout.cpp 2168-2178, 2762-2787) -/

/-- Three measures of which the first is empty and the second is not: with the style
`minEmptyMeasures` set to 1 the first measure is a run of its own. -/
def exampleLoneEmptyMeasure : List ScoreMeasure :=
  [ { id := 0, no := 0 },
    { id := 1, no := 1, valid := false, tick := 1920 },
    { id := 2, no := 2, tick := 3840 } ]

/-! ## Breaking a multi-measure rest: `breakMultiMeasureRest` (layout.cpp 2457-2551) -/

/-- Bar line types `BarLineType`. -/
inductive BarLineType where
  | NORMAL
  | DOUBLE
  | START_REPEAT
  | END_REPEAT
  | BROKEN
  | END
  | END_START_REPEAT
  | DOTTED
  deriving DecidableEq, Repr

/-- A bar line: `barLineType()` and `generated()`. -/
structure BarLine where
  barLineType : BarLineType
  generated : Bool := true
  deriving DecidableEq, Repr

/-- The segment types that `breakMultiMeasureRest` tells apart. -/
inductive BreakSegmentType where
  | StartRepeatBarLine
  | KeySig
  | TimeSig
  | Clef
  | ChordRest
  | EndBarLine
  | Other
  deriving DecidableEq, Repr

/-- An element of the list `el()` of a measure: a jump, a marker with the flag
`textStyle().align() & AlignmentFlags::RIGHT`, or another element. -/
inductive MeasureElement where
  | jump
  | marker (alignRight : Bool)
  | other
  deriving DecidableEq, Repr

/-- An annotation of a segment: its type, `systemFlag()` and `staffIdx()`. -/
structure BreakAnnotation where
  type : AnnotationType
  systemFlag : Bool := false
  staffIdx : Nat := 0
  deriving DecidableEq, Repr

/-- A spanner found by `spannerMap().findOverlapping`: `isVolta()`, `tick()`, `tick2()`. -/
structure BreakSpanner where
  isVolta : Bool
  tick : Int
  tick2 : Int
  deriving DecidableEq, Repr

/-- A segment of the measure: its type and tick, its annotations, and by track whether
`element(track)` exists (`some generated`) or is null. -/
structure BreakSegment where
  type : BreakSegmentType
  tick : Int := 0
  annotations : List BreakAnnotation := []
  elements : List (Option Bool) := []
  deriving DecidableEq, Repr

/-- The previous measure `m->prevMeasure()`: `repeatEnd()`, `sectionBreak()`, `el()`, the
elements by track of the segment `findSegment(Segment::Type::EndBarLine, endTick())` if
there is one, and whether `findSegment(Segment::Type::Clef, m->tick())` finds a segment. -/
structure BreakPrevMeasure where
  repeatEnd : Bool := false
  sectionBreak : Bool := false
  el : List MeasureElement := []
  endBarLine : Option (List (Option BarLine)) := none
  clefAtTick : Bool := false
  deriving DecidableEq, Repr

/-- A measure as `breakMultiMeasureRest` reads it: the property `breakMultiMeasureRest()`,
`repeatStart()`, `tick()`, `endTick()`, `prevMeasure()`, the spanners that
`findOverlapping(tick(), endTick())` returns, `el()`, the segments in the order of
`next()`, and `nstaves()` and `show()` of the staves of the score. -/
structure BreakMeasure where
  breakMMRest : Bool := false
  repeatStart : Bool := false
  tick : Int
  endTick : Int
  prev : Option BreakPrevMeasure := none
  spanners : List BreakSpanner := []
  el : List MeasureElement := []
  segments : List BreakSegment := []
  nstaves : Nat := 1
  staffShow : List Bool := []
  deriving DecidableEq, Repr

/-- The call `m->score()->staff(idx)->show()`. -/
def BreakMeasure.shown (m : BreakMeasure) (idx : Nat) : Bool := m.staffShow.getD idx true

/-- The test on an annotation in the loop over the segments (layout.cpp 2510-2515). -/
def annotationBreaks (m : BreakMeasure) (e : BreakAnnotation) : Bool :=
  e.type == AnnotationType.REHEARSAL_MARK
    || e.type == AnnotationType.TEMPO_TEXT
    || ((e.type == AnnotationType.HARMONY || e.type == AnnotationType.STAFF_TEXT)
        && (e.systemFlag || m.shown e.staffIdx))

/-- The body of the loop over the staves for a segment (layout.cpp 2516-2530): whether it
returns true for the staff `staffIdx`. -/
def staffElementBreaks (m : BreakMeasure) (s : BreakSegment) (staffIdx : Nat) : Bool :=
  if !m.shown staffIdx then false
  else
    match s.elements.getD (staffIdx * VOICES) none with
    | none => false
    | some generated =>
        if generated then false
        else if s.type = BreakSegmentType.StartRepeatBarLine then true
        else if (s.type = BreakSegmentType.KeySig ∨ s.type = BreakSegmentType.TimeSig)
            ∧ m.tick ≠ 0 then true
        else if s.type = BreakSegmentType.Clef then
          decide (s.tick ≠ m.endTick ∧ m.tick ≠ 0)
        else false

/-- The body of the loop over the segments (layout.cpp 2509-2531): whether it returns
true in the segment `s`. -/
def segmentBreaks (m : BreakMeasure) (s : BreakSegment) : Bool :=
  s.annotations.any (annotationBreaks m)
    || (List.range m.nstaves).any (staffElementBreaks m s)

/-- The loop over the staves for the end bar line segment of the previous measure
(layout.cpp 2535-2544) over the staff indices left: true if it returns true, false if it
ends or leaves by `break`. -/
def endBarLineLoop (elements : List (Option BarLine)) : List Nat → Bool
  | [] => false
  | staffIdx :: rest =>
      match elements.getD (staffIdx * VOICES) none with
      | some bl =>
          if bl.barLineType ≠ BarLineType.NORMAL ∧ bl.barLineType ≠ BarLineType.BROKEN
              ∧ bl.barLineType ≠ BarLineType.DOTTED ∧ !bl.generated then true
          else false
      | none => endBarLineLoop elements rest

/-- The function `breakMultiMeasureRest(m)`. -/
def breakMultiMeasureRest (m : BreakMeasure) : Bool :=
  if m.breakMMRest then true
  else if m.repeatStart
      || (match m.prev with | some pm => pm.repeatEnd | none => false)
      || (match m.prev with | some pm => pm.sectionBreak | none => false) then true
  else if m.spanners.any (fun s => s.isVolta && (s.tick == m.tick || s.tick2 == m.tick)) then true
  else if m.el.any (fun e => match e with
      | MeasureElement.marker alignRight => !alignRight
      | _ => false) then true
  else if (match m.prev with
      | some pm => pm.el.any (fun e => match e with
          | MeasureElement.jump => true
          | MeasureElement.marker alignRight => alignRight
          | MeasureElement.other => false)
      | none => false) then true
  else if m.spanners.any (fun s => s.isVolta && (s.tick2 == m.endTick)) then true
  else if m.segments.any (segmentBreaks m) then true
  else
    match m.prev with
    | some pm =>
        if (match pm.endBarLine with
            | some elements => endBarLineLoop elements (List.range m.nstaves)
            | none => false) then true
        else if pm.clefAtTick then true
        else false
    | none => false

/-- A measure of a score with two staves whose previous measure ends with a normal bar
line on the first staff and a bar line of type END, set by the user, on the second. -/
def exampleSecondStaffBarLine : BreakMeasure :=
  { tick := 1920, endTick := 3840, nstaves := 2,
    prev := some
      { endBarLine := some
          [ some { barLineType := BarLineType.NORMAL }, none, none, none,
            some { barLineType := BarLineType.END, generated := false }, none, none, none ] } }

/-- The elements by track of an end bar line segment for two staves: a double bar line,
set by the user, on both. -/
def exampleDoubleElements : List (Option BarLine) :=
  [ some { barLineType := BarLineType.DOUBLE, generated := false }, none, none, none,
    some { barLineType := BarLineType.DOUBLE, generated := false }, none, none, none ]

/-- A previous measure that ends with `exampleDoubleElements`. -/
def exampleDoublePrev : BreakPrevMeasure := { endBarLine := some exampleDoubleElements }

/-- A measure of a score with two staves whose previous measure is `exampleDoublePrev`. -/
def exampleDoubleBarLine : BreakMeasure :=
  { tick := 1920, endTick := 3840, nstaves := 2, prev := some exampleDoublePrev }

/-! ## Distribution of the rest height: `layoutPage` (layout.cpp 1779-1847) -/

/-- Values `layoutPage` reads: `score->layoutMode()`, `MScore::noVerticalStretch` and
`styleP(StyleIdx::maxSystemDistance)`. -/
structure LayoutPageEnv where
  layoutMode : LayoutMode := LayoutMode.PAGE
  noVerticalStretch : Bool := false
  maxSystemDistance : ℚ
  deriving DecidableEq, Repr

/-- The first loop of `layoutPage` (layout.cpp 1790-1796): the number `gaps` of pairs of
consecutive systems of which none is a vertical box. -/
def countGaps : List SystemRec → Nat
  | s1 :: s2 :: rest =>
      (if s1.vbox.isSome || s2.vbox.isSome then 0 else 1) + countGaps (s2 :: rest)
  | _ => 0

/-- The second loop of `layoutPage` (layout.cpp 1822-1846) for the system `s1`, which
holds its new position, the systems behind it, and the value `yoff` on entry: the systems
behind `s1` with their new positions. The system dividers are left out. The operations on
`qreal` are those of the rationals; `layoutPageLoopDouble` is the same loop with every
operation rounded to double precision. -/
def layoutPageLoop (stretch maxDistance : ℚ) : SystemRec → List SystemRec → ℚ → List SystemRec
  | _, [], _ => []
  | s1, s2 :: rest, yoff =>
      let yoff :=
        if !(s1.vbox.isSome || s2.vbox.isSome) then
          let dist := (s2.pos.2 + yoff) - (s1.pos.2 + s1.height)
          let offset :=
            if dist + stretch > maxDistance then
              if maxDistance - dist < 0 then 0 else maxDistance - dist
            else stretch
          yoff + offset
        else yoff
      let s2 := { s2 with pos := (s2.pos.1, s2.pos.2 + yoff) }
      s2 :: layoutPageLoop stretch maxDistance s2 rest yoff

/-- The function `layoutPage(page, restHeight)` on the systems of the page: the systems
with their new positions. The system dividers are left out. -/
def layoutPage (env : LayoutPageEnv) (systems : List SystemRec) (restHeight : ℚ) :
    List SystemRec :=
  let gaps := countGaps systems
  if gaps = 0 ∨ env.noVerticalStretch ∨ env.layoutMode = LayoutMode.SYSTEM then
    if env.layoutMode = LayoutMode.FLOAT then
      systems.map fun s => { s with pos := (s.pos.1 + 0, s.pos.2 + restHeight * (1 / 2)) }
    else systems
  else
    let stretch := restHeight / gaps
    match systems with
    | [] => []
    | s :: rest => s :: layoutPageLoop stretch env.maxSystemDistance s rest 0

/-- The distances between consecutive systems: from the bottom `y() + height()` of a
system to the top `y()` of the next. -/
def systemGaps : List SystemRec → List ℚ
  | s1 :: s2 :: rest => (s2.pos.2 - (s1.pos.2 + s1.height)) :: systemGaps (s2 :: rest)
  | _ => []

/-- The distances the page is to have after the rest height is distributed with the
share `stretch` per gap: a gap next to a box is kept; another gap grows by `stretch`,
but where the distance plus `stretch` exceeds `maxDistance` it grows up to `maxDistance`
only, and not at all if the distance exceeds `maxDistance` already. -/
def stretchedGaps (stretch maxDistance : ℚ) : List SystemRec → List ℚ
  | s1 :: s2 :: rest =>
      (let dist := s2.pos.2 - (s1.pos.2 + s1.height)
       if s1.vbox.isSome ∨ s2.vbox.isSome then dist
       else if dist + stretch > maxDistance then
         if dist > maxDistance then dist else maxDistance
       else dist + stretch) :: stretchedGaps stretch maxDistance (s2 :: rest)
  | _ => []

/-- A page with three systems of height 10 at the positions 0, 15 and 60. -/
def examplePageSystems : List SystemRec :=
  [ { id := 0, height := 10, pos := (0, 0) },
    { id := 1, height := 10, pos := (0, 15) },
    { id := 2, height := 10, pos := (0, 60) } ]

/-! ## Minimum width of a measure: `computeMinWidth` (layout.cpp 1947-2044) -/

/-- The segment types that `computeMinWidth` tells apart. -/
inductive WidthSegmentType where
  | ChordRest
  | Clef
  | KeySig
  | TimeSig
  | EndBarLine
  | Other
  deriving DecidableEq, Repr

/-- A segment as `computeMinWidth` reads it: its type, `minLeft()`, `minLeft(ls)` for the
shape `ls` of the call, `minRight()` and `extraLeadingSpace().val()`. -/
structure WidthSegment where
  type : WidthSegmentType
  minLeft : ℚ := 0
  minLeftLs : ℚ := 0
  minRight : ℚ := 0
  extraLeadingSpace : ℚ := 0
  deriving DecidableEq, Repr

/-- Values `computeMinWidth` reads: the segments from `s` on in the order of `next()` (a
segment is named by its index, `s` is 0), the function `minHorizontalDistance` of two
segments with its flag `systemHeaderGap`, the styles `barNoteDistance`, `clefLeftMargin`,
`keysigLeftMargin`, `timesigLeftMargin`, and `spatium()`. -/
structure MinWidthEnv where
  segments : List WidthSegment
  minHorizontalDistance : Nat → Nat → Bool → ℚ
  barNoteDistance : ℚ := 0
  clefLeftMargin : ℚ := 0
  keysigLeftMargin : ℚ := 0
  timesigLeftMargin : ℚ := 0
  spatium : ℚ := 1

/-- The call `isChordRestType()` of the segment with the index `i`. -/
def MinWidthEnv.isChordRestType (env : MinWidthEnv) (i : Nat) : Bool :=
  match env.segments.get? i with
  | some s => s.type = WidthSegmentType.ChordRest
  | none => false

/-- The positions `x()` and the widths `width()` of the segments, by index. -/
structure MinWidthState where
  xpos : Nat → ℚ
  width : Nat → ℚ

/-- The loop that looks back for collisions with previous segments (layout.cpp
1999-2034) up to the test `ww > w`: entered with `ps` and `n`, it gives the segment `ps`
at which `ww > w` holds, with `n` and `ww` there, or `none` if it leaves without. `ss` and
`ns` are the current and the next segment, `w` the distance of the two. -/
def lookBack (env : MinWidthEnv) (st : MinWidthState) (ss ns : Nat) (w : ℚ) :
    Nat → Nat → Nat → Option (Nat × Nat × ℚ)
  | 0, _, _ => none
  | fuel + 1, ps, n =>
      if ps = 0 then
        let ww := (match env.segments.get? ns with
          | some s => s.minLeftLs
          | none => 0) - st.xpos ss
        if ww > w then some (ps, n, ww) else none
      else
        let ps := ps - 1
        let n := if env.isChordRestType ps then n + 1 else n
        let ww := env.minHorizontalDistance ps ns false - (st.xpos ss - st.xpos ps)
        if ww > w then some (ps, n, ww)
        else if ps = 0 then none
        else lookBack env st ss ns w fuel ps n

/-- The body of the loop that distributes the extra space (layout.cpp 2020-2027) for the
segment `s`, entered with `xx`: a chord/rest segment gets the width `width() + d`, and the
next segment gets the position `xx + ww`. -/
def widenStep (env : MinWidthEnv) (d : ℚ) (s : Nat) (st : MinWidthState) (xx : ℚ) :
    MinWidthState × ℚ :=
  let ww := st.width s
  let ww := if env.isChordRestType s then ww + d else ww
  let st : MinWidthState :=
    if env.isChordRestType s then { st with width := Function.update st.width s ww } else st
  let xx := xx + ww
  ({ st with xpos := Function.update st.xpos (s + 1) xx }, xx)

/-- The loop that distributes the extra space (layout.cpp 2018-2028) over `count`
segments from the segment `s` on, entered with `xx`: the new widths and positions, and the
final `xx`. -/
def widenLoop (env : MinWidthEnv) (d : ℚ) : Nat → Nat → MinWidthState → ℚ → MinWidthState × ℚ
  | 0, _, st, xx => (st, xx)
  | count + 1, s, st, xx =>
      let r := widenStep env d s st xx
      widenLoop env d count (s + 1) r.1 r.2

/-- One round of the loop `for (Segment* ss = s; ss;)` of `computeMinWidth` for the
segment `ss`, entered with `x` and `isSystemHeader`: the new state, `x` and
`isSystemHeader`. The operations on `qreal` are those of the rationals;
`computeMinWidthStepDouble` is the same round with every operation rounded to double
precision. -/
def computeMinWidthStep (env : MinWidthEnv) (st : MinWidthState) (ss : Nat) (x : ℚ)
    (isSystemHeader : Bool) : MinWidthState × ℚ × Bool :=
  let st : MinWidthState := { st with xpos := Function.update st.xpos ss x }
  let ns := ss + 1
  if ns < env.segments.length then
    let gap := isSystemHeader && env.isChordRestType ns
    let w := env.minHorizontalDistance ss ns gap
    let isSystemHeader := if gap then false else isSystemHeader
    match lookBack env st ss ns w (ss + 1) ss 1 with
    | some (ps, n, ww) =>
        let d := (ww - w) / n
        let r := widenLoop env d (ss - ps) ps st (st.xpos ps)
        let w := w + d
        let x := r.2
        ({ r.1 with width := Function.update r.1.width ss w }, x + w, isSystemHeader)
    | none => ({ st with width := Function.update st.width ss w }, x + w, isSystemHeader)
  else
    let w := match env.segments.get? ss with
      | some s => if s.type = WidthSegmentType.EndBarLine then 0 else s.minRight
      | none => 0
    ({ st with width := Function.update st.width ss w }, x + w, isSystemHeader)

/-- The loop `for (Segment* ss = s; ss;)` of `computeMinWidth` from the segment `ss` on,
for `fuel` segments. -/
def computeMinWidthLoop (env : MinWidthEnv) :
    Nat → MinWidthState → Nat → ℚ → Bool → MinWidthState × ℚ
  | 0, st, _, x, _ => (st, x)
  | fuel + 1, st, ss, x, isSystemHeader =>
      let r := computeMinWidthStep env st ss x isSystemHeader
      computeMinWidthLoop env fuel r.1 (ss + 1) r.2.1 r.2.2

/-- The function `computeMinWidth(s, isFirstMeasureInSystem)`: the new positions and
widths of the segments and the returned width. `st` holds the positions and widths on
entry. -/
def computeMinWidth (env : MinWidthEnv) (st : MinWidthState) (isFirstMeasureInSystem : Bool) :
    MinWidthState × ℚ :=
  match env.segments.head? with
  | none => (st, 0)
  | some s =>
      let x :=
        if s.type = WidthSegmentType.ChordRest then s.minLeft + env.barNoteDistance
        else if s.type = WidthSegmentType.Clef then s.minLeftLs + env.clefLeftMargin
        else if s.type = WidthSegmentType.KeySig then max s.minLeftLs env.keysigLeftMargin
        else if s.type = WidthSegmentType.TimeSig then max s.minLeftLs env.timesigLeftMargin
        else s.minLeftLs
      let x := x + s.extraLeadingSpace * env.spatium
      computeMinWidthLoop env env.segments.length st 0 x isFirstMeasureInSystem

/-- The positions are those that the widths give: every segment before `ss` but the last
is followed by a segment at its position plus its width, and `x` is the position plus the
width of the segment before `ss`. -/
def positionsFollow (st : MinWidthState) (ss : Nat) (x : ℚ) : Prop :=
  (∀ k, k + 1 < ss → st.xpos (k + 1) = st.xpos k + st.width k)
    ∧ (0 < ss → x = st.xpos (ss - 1) + st.width (ss - 1))

/-- Three chord/rest segments; each needs the distance 10 to the next one, the first
needs the distance 30 to the third. -/
def exampleWidthEnv : MinWidthEnv :=
  { segments := [ { type := WidthSegmentType.ChordRest }, { type := WidthSegmentType.ChordRest },
                  { type := WidthSegmentType.ChordRest } ]
    minHorizontalDistance := fun ps ns _ => if ps = 0 ∧ ns = 2 then 30 else 10 }

/-- The positions and widths after the round for the first segment of `exampleWidthEnv`:
the first segment at 0 with the width 10. -/
def exampleWidthState : MinWidthState :=
  { xpos := fun _ => 0, width := fun k => if k = 0 then 10 else 0 }

/-! ## Multi-measure rests: a run whose first measure breaks the rest -/

/-- Two empty measures of which the first breaks a multi-measure rest, followed by an
empty measure that breaks the rest as well and by a measure with notes. -/
def exampleBreakingRun : List ScoreMeasure :=
  [ { id := 0, no := 4, breaks := true }, { id := 1, tick := 1920 },
    { id := 2, tick := 3840, breaks := true }, { id := 3, tick := 5760, valid := false } ]

/-! ## Chord layout: the separation of the two groups (layout.cpp 271-277) -/

/-- The value `separation` of `layoutChords1` for the bottom up-stem note and the top
down-stem note. -/
def noteSeparation (bottomUpNote topDownNote : Note) : Int :=
  if bottomUpNote.chord.staffMove = topDownNote.chord.staffMove
  then topDownNote.line - bottomUpNote.line else 2

/-! ## Distribution of the rest height: how far the systems move -/

/-- The amounts by which the systems are moved down: the new `y()` minus the old one, from
the top of the page to the bottom. -/
def systemMoves (before after : List SystemRec) : List ℚ :=
  List.zipWith (fun s o => o.pos.2 - s.pos.2) before after

/-- The gap between two consecutive systems none of which is a box does not hit the limit
`maxDistance` when it grows by `stretch`. -/
def gapBelowCap (stretch maxDistance : ℚ) (s1 s2 : SystemRec) : Prop :=
  s1.vbox.isSome = true ∨ s2.vbox.isSome = true
    ∨ (s2.pos.2 - (s1.pos.2 + s1.height)) + stretch ≤ maxDistance

/-! ## Bar line spans: `updateBarLineSpans` (layout.cpp 2046-2095) -/

/-- A staff as `updateBarLineSpans` reads and writes it: `barLineSpan()`, `barLineFrom()`
and `barLineTo()`. -/
structure BarLineStaff where
  barLineSpan : Int
  barLineFrom : Int
  barLineTo : Int
  deriving DecidableEq, Repr

/-- The body of the loop of `updateBarLineSpans` for the staff with the index `sIdx`.
`from1` and `to1` are the constants `BARLINE_SPAN_1LINESTAFF_FROM` and
`BARLINE_SPAN_1LINESTAFF_TO`. -/
def updateBarLineSpansStaff (from1 to1 : Int) (idx linesOld linesNew : Int) (sIdx : Int)
    (staff : BarLineStaff) : BarLineStaff :=
  -- if this is the modified staff
  let staff : BarLineStaff :=
    if sIdx = idx then
      if staff.barLineSpan = 0 then { staff with barLineTo := (linesNew - 1) * 2 }
      else if linesNew = 1 then { staff with barLineFrom := from1 }
      else if linesOld = 1 then { staff with barLineFrom := 0 }
      else if staff.barLineFrom > linesOld - 1 then
        { staff with barLineFrom := staff.barLineFrom + (linesNew - linesOld) * 2 }
      else staff
    else staff
  -- if the modified staff is the destination of the current staff bar span
  if sIdx + staff.barLineSpan - 1 = idx then
    if linesNew = 1 then { staff with barLineTo := to1 }
    else if linesOld = 1 then { staff with barLineTo := (linesNew - 1) * 2 }
    else if staff.barLineTo > linesOld - 1 then
      { staff with barLineTo := staff.barLineTo + (linesNew - linesOld) * 2 }
    else staff
  else staff

/-- The loop of `updateBarLineSpans` over the staves from the index `sIdx` on. -/
def updateBarLineSpansLoop (from1 to1 : Int) (idx linesOld linesNew : Int) :
    Nat → List BarLineStaff → List BarLineStaff
  | _, [] => []
  | sIdx, staff :: rest =>
      updateBarLineSpansStaff from1 to1 idx linesOld linesNew sIdx staff
        :: updateBarLineSpansLoop from1 to1 idx linesOld linesNew (sIdx + 1) rest

/-- The function `updateBarLineSpans(idx, linesOld, linesNew)` on the staves of the
score. -/
def updateBarLineSpans (from1 to1 : Int) (staves : List BarLineStaff)
    (idx linesOld linesNew : Int) : List BarLineStaff :=
  updateBarLineSpansLoop from1 to1 idx linesOld linesNew 0 staves

/-- Two staves: the first spans both with its bar line, the second has a bar line from
the position 6 of its five lines. -/
def exampleBarLineStaves : List BarLineStaff :=
  [ { barLineSpan := 2, barLineFrom := 0, barLineTo := 8 },
    { barLineSpan := 1, barLineFrom := 6, barLineTo := 8 } ]

/-! ## Hiding empty staves: `hideEmptyStaves` (layout.cpp 1478-1576) -/

/-- The enumeration `Staff::HideMode`. -/
inductive HideMode where
  | AUTO
  | ALWAYS
  | NEVER
  | INSTRUMENT
  deriving DecidableEq, Repr

/-- A staff as `hideEmptyStaves` reads it: `hideWhenEmpty()`, `show()` (here `shown`),
`showIfEmpty()`,
and of its part `staves()->front()->idx()` and `nstaves()`. -/
structure HideStaff where
  hideWhenEmpty : HideMode := HideMode.AUTO
  shown : Bool := true
  showIfEmpty : Bool := false
  partIdx : Nat := 0
  partNStaves : Nat := 1
  deriving DecidableEq, Repr

/-- A chord or rest as `hideEmptyStaves` reads it: `isRest()` and `staffMove()`. -/
structure HideChordRest where
  isRest : Bool
  staffMove : Int := 0
  deriving DecidableEq, Repr

/-- A measure base of the system: `isMeasure()`, the values `isMeasureRest(staffIdx)` by
staff, and of the segments of type ChordRest the chords and rests by track. -/
structure HideMeasure where
  isMeasure : Bool := true
  measureRest : List Bool := []
  segments : List (List (Option HideChordRest)) := []
  deriving DecidableEq, Repr

/-- Values `hideEmptyStaves` reads from the style: `hideEmptyStaves` and
`dontHideStavesInFirstSystem`. -/
structure HideEnv where
  hideEmptyStaves : Bool := true
  dontHideStavesInFirstSystem : Bool := true
  deriving DecidableEq, Repr

/-- The first loop over the measures (layout.cpp 1500-1508): `hideStaff` stays true if
every measure of the system is a measure rest in the staff. -/
def allMeasureRests (measures : List HideMeasure) (staffIdx : Nat) : Bool :=
  measures.all fun m => !m.isMeasure || m.measureRest.getD staffIdx false

/-- The check whether notes moved into the staff (layout.cpp 1512-1538): some chord of a
staff `st` of the part, in some measure, segment and voice, has `st + staffMove` equal to
`staffIdx`. -/
def notesMovedInto (measures : List HideMeasure) (staff : HideStaff) (staffIdx : Nat) : Bool :=
  (List.range staff.partNStaves).any fun i =>
    let st := staff.partIdx + i
    measures.any fun mb =>
      mb.isMeasure && mb.segments.any fun s =>
        (List.range VOICES).any fun voice =>
          match s.getD (st * VOICES + voice) none with
          | none => false
          | some cr => !cr.isRest && decide ((staffIdx : Int) = (st : Int) + cr.staffMove)

/-- The body of the loop over the staves (layout.cpp 1489-1558) for the staff with the
index `staffIdx`: the new `show()` of its `SysStaff` and the new `systemIsEmpty`. -/
def hideEmptyStaff (env : HideEnv) (staves : Nat) (isFirstSystem : Bool)
    (measures : List HideMeasure) (staffIdx : Nat) (staff : HideStaff) (systemIsEmpty : Bool) :
    Bool × Bool :=
  if staff.hideWhenEmpty = HideMode.ALWAYS
      ∨ (env.hideEmptyStaves = true ∧ staves > 1
          ∧ ¬ (isFirstSystem = true ∧ env.dontHideStavesInFirstSystem = true)
          ∧ staff.hideWhenEmpty ≠ HideMode.NEVER) then
    let hideStaff := allMeasureRests measures staffIdx
    let hideStaff :=
      if hideStaff && decide (staff.partNStaves > 1) then
        !notesMovedInto measures staff staffIdx
      else hideStaff
    let shown := if hideStaff then false else staff.shown
    (shown, if shown then false else systemIsEmpty)
  else (true, false)

/-- The loop over the staves from the index `staffIdx` on: the values `show()` of the
`SysStaff` objects and the final `systemIsEmpty`. -/
def hideEmptyStavesLoop (env : HideEnv) (staves : Nat) (isFirstSystem : Bool)
    (measures : List HideMeasure) : Nat → List HideStaff → Bool → List Bool × Bool
  | _, [], systemIsEmpty => ([], systemIsEmpty)
  | staffIdx, staff :: rest, systemIsEmpty =>
      let r := hideEmptyStaff env staves isFirstSystem measures staffIdx staff systemIsEmpty
      let rs := hideEmptyStavesLoop env staves isFirstSystem measures (staffIdx + 1) rest r.2
      (r.1 :: rs.1, rs.2)

/-- The loop over the staves for an empty system (layout.cpp 1560-1568): a hidden staff
with `showIfEmpty()` is shown. -/
def showIfEmptyLoop : List HideStaff → List Bool → Bool → List Bool × Bool
  | staff :: rest, ss :: shows, systemIsEmpty =>
      let hit := staff.showIfEmpty && !ss
      let rs := showIfEmptyLoop rest shows (if hit then false else systemIsEmpty)
      ((if hit then true else ss) :: rs.1, rs.2)
  | _, shows, systemIsEmpty => (shows, systemIsEmpty)

/-- The function `hideEmptyStaves(system, isFirstSystem)`: the values `show()` of the
staves of the system afterwards. `stavesList` is `_staves`, `measures` the measure bases of
the system. -/
def hideEmptyStaves (env : HideEnv) (stavesList : List HideStaff) (measures : List HideMeasure)
    (isFirstSystem : Bool) : List Bool :=
  let r := hideEmptyStavesLoop env stavesList.length isFirstSystem measures 0 stavesList true
  let r := if r.2 then showIfEmptyLoop stavesList r.1 r.2 else r
  -- dont allow a complete empty system
  if r.2 then
    match r.1 with
    | _ :: shows => true :: shows
    | [] => []
  else r.1

/-- A score of two staves, each a part of its own and hidden when empty, and a system of
one measure that is a measure rest in both. -/
def exampleHideStaves : List HideStaff :=
  [ { partIdx := 0 }, { partIdx := 1 } ]

/-- A measure that is a measure rest in both staves of `exampleHideStaves`. -/
def exampleRestMeasure : HideMeasure := { measureRest := [true, true] }

/-! ## Measure numbers: the head of `getNextMeasure` (layout.cpp 2739-2794) -/

/-- The part of `getNextMeasure` that numbers the current measure base, outside line mode
and for a current measure base that is not itself a multi-measure rest: the call
`lc.adjustMeasureNo(lc.curMeasure)` and, for a measure with the style
`createMultiMeasureRests`, the branch of the multi-measure rests. `ms` are the measure
bases from the current one on, `next` those from `lc.nextMeasure` on, `measureNo` is
`lc.measureNo` on entry. The result is the measure bases with their changes and the new
`lc.measureNo`. -/
def getNextMeasureNumbering (createMultiMeasureRests showVBox : Bool) (minEmptyMeasures : Int)
    (measureNo : Int) (ms next : List ScoreMeasure) : List ScoreMeasure × Int :=
  match ms with
  | [] => ([], measureNo)
  | m :: rest =>
      let a := adjustMeasureNo measureNo m
      if m.isMeasure && createMultiMeasureRests then
        let r := getNextMeasureMMRest showVBox minEmptyMeasures a.2 (a.1 :: rest) next
        (r.measures, r.measureNo)
      else (a.1 :: rest, a.2)

/-- An empty measure with the measure number offset 1, followed by a measure with
notes. -/
def exampleOffsetMeasures : List ScoreMeasure :=
  [ { id := 0, noOffset := 1 }, { id := 1, tick := 1920, valid := false } ]

/-! ## Page collection: the pages of the score (layout.cpp 2101-2131, 3660-3779) -/

/-- The pages of the score, each by the list `systems()` of its systems, and the page
counter `lc.curPage`. -/
structure PagesState where
  pages : List (List SystemRec)
  curPage : Nat
  deriving DecidableEq, Repr

/-- The function `getEmptyPage(lc)` as far as it touches the pages and the counter: a
page is appended by `addPage()` if `lc.curPage >= _pages.size()`, else the page at the
index `lc.curPage` is taken; its systems are cleared and the counter is incremented. The
result is the new state and the index of the page in `_pages`. -/
def getEmptyPage (st : PagesState) : PagesState × Nat :=
  if st.curPage ≥ st.pages.length then
    ({ pages := st.pages ++ [[]], curPage := st.curPage + 1 }, st.pages.length)
  else
    ({ pages := st.pages.set st.curPage [], curPage := st.curPage + 1 }, st.curPage)

/-- Result of a call of `collectPage`: the returned value, the pages and the page
counter, `lc.curSystem`, and the systems that the following calls of `collectSystem`
deliver. -/
structure CollectPageResult where
  returned : Bool
  state : PagesState
  curSystem : Option SystemRec
  stream : List SystemRec
  deriving DecidableEq, Repr

/-- The function `collectPage(lc)` with the pages of the score: without a current system
it returns false; else it takes an empty page, appends the systems of the loop to it,
distributes the rest height with `layoutPage` and returns true. The layout of the
elements of the measures behind the loop is left out. -/
def collectPageCall (env : PageEnv) (lpenv : LayoutPageEnv) (st : PagesState)
    (curSystem : Option SystemRec) (stream : List SystemRec) : CollectPageResult :=
  match curSystem with
  | none => { returned := false, state := st, curSystem := none, stream := stream }
  | some s2 =>
      let e := getEmptyPage st
      let r := collectPageLoop env stream none s2 env.tm []
      let systems := layoutPage lpenv r.systems r.restHeight
      { returned := true
        state := { e.1 with pages := e.1.pages.set e.2 systems }
        curSystem := r.curSystem
        stream := r.stream }

/-- Three systems of the heights 30, 25 and 40 for the page of `examplePageEnv`, on which
the first two of them fit. -/
def exampleTallSystems : List SystemRec :=
  [ { id := 0, height := 30 }, { id := 1, height := 25 }, { id := 2, height := 40 } ]

/-! ## The type `qreal`: arithmetic of double precision -/

/-- The number of binary digits of `n` minus one (0 for `n < 2`), for `n < 2 ^ fuel`. -/
def binaryLog : Nat → Nat → Nat
  | 0, _ => 0
  | fuel + 1, n => if n < 2 then 0 else binaryLog fuel (n / 2) + 1

/-- The binary exponent of the quotient of two positive numbers: the `e` with
`2 ^ e ≤ n / d < 2 ^ (e + 1)`. -/
def binaryExponent (n d : Nat) : Int :=
  let e0 : Int := (binaryLog n n : Int) - (binaryLog d d : Int)
  let below : Bool :=
    if e0 ≥ 0 then decide (n < d * 2 ^ e0.toNat) else decide (n * 2 ^ (-e0).toNat < d)
  if below then e0 - 1 else e0

/-- The natural number nearest to `num / den`, a tie going to the even number. -/
def roundHalfEven (num den : Nat) : Nat :=
  let q : Nat := num / den
  let r : Nat := num % den
  if 2 * r < den then q
  else if 2 * r > den then q + 1
  else if q % 2 = 0 then q else q + 1

/-- The value of the type `qreal` (a `double`, IEEE 754 binary64) nearest to the rational
`x`, a tie going to the even significand: with `2 ^ e ≤ |x| < 2 ^ (e + 1)` the significand
is `|x| * 2 ^ (52 - e)` rounded to a natural number. Overflow and subnormal numbers are
left out. -/
def roundDouble (x : ℚ) : ℚ :=
  if x = 0 then 0
  else
    let n : Nat := x.num.natAbs
    let d : Nat := x.den
    let s : Int := 52 - binaryExponent n d
    let m : Nat :=
      if s ≥ 0 then roundHalfEven (n * 2 ^ s.toNat) d else roundHalfEven n (d * 2 ^ (-s).toNat)
    let v : ℚ :=
      if s ≥ 0 then (m : ℚ) / (2 ^ s.toNat : Nat) else (m : ℚ) * (2 ^ (-s).toNat : Nat)
    if x < 0 then -v else v

/-- The sum `a + b` of two values of the type `qreal`. -/
def addDouble (a b : ℚ) : ℚ := roundDouble (a + b)

/-- The difference `a - b` of two values of the type `qreal`. -/
def subDouble (a b : ℚ) : ℚ := roundDouble (a - b)

/-- The product `a * b` of two values of the type `qreal`. -/
def mulDouble (a b : ℚ) : ℚ := roundDouble (a * b)

/-- The quotient `a / b` of two values of the type `qreal`, `b` not zero. -/
def divDouble (a b : ℚ) : ℚ := roundDouble (a / b)

/-! ## Arithmetic of double precision: numbers that agree up to rounding -/

/-- The factor `1 / (1 - 2 ^ -53)`: a number that is not negative and its value of double
precision are each at most the other times this factor. -/
def roundingFactor : ℚ := 2 ^ 53 / (2 ^ 53 - 1)

/-- The number `a` is `b` up to `k` roundings: neither is negative, and each is at most
the other times `roundingFactor ^ k`. -/
def RoundedFrom (k : Nat) (a b : ℚ) : Prop :=
  0 ≤ a ∧ 0 ≤ b ∧ b ≤ a * roundingFactor ^ k ∧ a ≤ b * roundingFactor ^ k

/-! ## Width distribution of `collectSystem` in double precision (layout.cpp 3388-3449) -/

/-- The first loop of the width distribution as `systemMinWidthWeight`, with the
arithmetic of the type `qreal`: every sum and product is rounded to double precision. -/
def systemMinWidthWeightDouble (leftMargin : ℚ) (measures : List MeasureBase) : ℚ × ℚ :=
  measures.foldl
    (fun acc mb =>
      match mb.type with
      | ElementType.HBOX => (addDouble acc.1 mb.boxWidth, acc.2)
      | ElementType.MEASURE =>
          (addDouble acc.1 mb.width, addDouble acc.2 (mulDouble (mb.ticks : ℚ) mb.stretch))
      | _ => acc)
    (leftMargin, 0)

/-- The value `rest` as `systemRest`, with the arithmetic of the type `qreal`; the total
weight is not zero. -/
def systemRestDouble (lineMode noHorizontalStretch raggedRight : Bool) (systemWidth minWidth
    totalWeight : ℚ) : ℚ :=
  if lineMode || noHorizontalStretch then 0
  else
    let rest := subDouble systemWidth minWidth
    let rest := if raggedRight then (if minWidth > rest then mulDouble rest (1 / 2) else minWidth)
                else rest
    divDouble rest totalWeight

/-- The width `ww` as `stretchedWidth`, with the arithmetic of the type `qreal`:
`m->width() + rest * m->ticks() * stretch` is a sum of `m->width()` and the product of
`rest * m->ticks()` and `stretch`. -/
def stretchedWidthDouble (lineMode : Bool) (rest : ℚ) (mb : MeasureBase) : ℚ :=
  match mb.type with
  | ElementType.MEASURE =>
      if !lineMode then
        addDouble mb.width (mulDouble (mulDouble rest (mb.ticks : ℚ)) mb.stretch)
      else mb.width
  | ElementType.HBOX => mb.boxWidth
  | _ => 0

/-- The width distribution of `collectSystem` as `distributeSystemWidth`, with the
arithmetic of the type `qreal`. -/
def distributeSystemWidthDouble (lineMode noHorizontalStretch raggedRight : Bool)
    (leftMargin systemWidth : ℚ) (measures : List MeasureBase) : SystemLayout :=
  let mw := systemMinWidthWeightDouble leftMargin measures
  let rest := systemRestDouble lineMode noHorizontalStretch raggedRight systemWidth mw.1 mw.2
  let posX :=
    measures.foldl (fun x mb => addDouble x (stretchedWidthDouble lineMode rest mb)) leftMargin
  { widths := measures.map (stretchedWidthDouble lineMode rest)
    posX := posX
    systemWidth := if lineMode then posX else systemWidth }

/-- Three measures of 1920 ticks with the widths 20, 30 and 25. -/
def exampleDoubleMeasures : List MeasureBase :=
  [{ type := ElementType.MEASURE, width := 20, userStretch := 1, ticks := 1920 },
   { type := ElementType.MEASURE, width := 30, userStretch := 1, ticks := 1920 },
   { type := ElementType.MEASURE, width := 25, userStretch := 1, ticks := 1920 }]

/-! ## Distribution of the rest height in double precision -/

/-- The second loop of `layoutPage` (layout.cpp 1822-1846) as `layoutPageLoop`, with the
arithmetic of the type `qreal`: every sum and difference is rounded to double precision. -/
def layoutPageLoopDouble (stretch maxDistance : ℚ) :
    SystemRec → List SystemRec → ℚ → List SystemRec
  | _, [], _ => []
  | s1, s2 :: rest, yoff =>
      let yoff :=
        if !(s1.vbox.isSome || s2.vbox.isSome) then
          let dist := subDouble (addDouble s2.pos.2 yoff) (addDouble s1.pos.2 s1.height)
          let offset :=
            if addDouble dist stretch > maxDistance then
              if subDouble maxDistance dist < 0 then 0 else subDouble maxDistance dist
            else stretch
          addDouble yoff offset
        else yoff
      let s2 := { s2 with pos := (s2.pos.1, addDouble s2.pos.2 yoff) }
      s2 :: layoutPageLoopDouble stretch maxDistance s2 rest yoff

/-- The function `layoutPage(page, restHeight)` as `layoutPage`, with the arithmetic of
the type `qreal`. -/
def layoutPageDouble (env : LayoutPageEnv) (systems : List SystemRec) (restHeight : ℚ) :
    List SystemRec :=
  let gaps := countGaps systems
  if gaps = 0 ∨ env.noVerticalStretch ∨ env.layoutMode = LayoutMode.SYSTEM then
    if env.layoutMode = LayoutMode.FLOAT then
      systems.map fun s =>
        { s with pos := (addDouble s.pos.1 0, addDouble s.pos.2 (mulDouble restHeight (1 / 2))) }
    else systems
  else
    let stretch := divDouble restHeight gaps
    match systems with
    | [] => []
    | s :: rest => s :: layoutPageLoopDouble stretch env.maxSystemDistance s rest 0

/-- A page with three systems of height 10 at the positions 0, 15.1 and 30.2 (the values of
double precision nearest to these numbers). -/
def exampleDoublePage : List SystemRec :=
  [ { id := 0, height := 10, pos := (0, 0) },
    { id := 1, height := 10, pos := (0, roundDouble (151 / 10)) },
    { id := 2, height := 10, pos := (0, roundDouble (302 / 10)) } ]

/-- A page with two systems of height 10 at the positions 0 and 15.1 and a vertical box at
the position 40.1 (the values of double precision nearest to these numbers). -/
def exampleDoubleBoxPage : List SystemRec :=
  [ { id := 0, height := 10, pos := (0, 0) },
    { id := 1, height := 10, pos := (0, roundDouble (151 / 10)) },
    { id := 2, height := 10, vbox := some (0, 0), pos := (0, roundDouble (401 / 10)) } ]

/-! ## The look-back of `computeMinWidth` in double precision (layout.cpp 1995-2036) -/

/-- The loop that looks back for collisions as `lookBack`, with the arithmetic of the type
`qreal`: every difference is rounded to double precision. -/
def lookBackDouble (env : MinWidthEnv) (st : MinWidthState) (ss ns : Nat) (w : ℚ) :
    Nat → Nat → Nat → Option (Nat × Nat × ℚ)
  | 0, _, _ => none
  | fuel + 1, ps, n =>
      if ps = 0 then
        let ww := subDouble (match env.segments.get? ns with
          | some s => s.minLeftLs
          | none => 0) (st.xpos ss)
        if ww > w then some (ps, n, ww) else none
      else
        let ps := ps - 1
        let n := if env.isChordRestType ps then n + 1 else n
        let ww := subDouble (env.minHorizontalDistance ps ns false)
          (subDouble (st.xpos ss) (st.xpos ps))
        if ww > w then some (ps, n, ww)
        else if ps = 0 then none
        else lookBackDouble env st ss ns w fuel ps n

/-- The body of the loop that distributes the extra space as `widenStep`, with the
arithmetic of the type `qreal`. -/
def widenStepDouble (env : MinWidthEnv) (d : ℚ) (s : Nat) (st : MinWidthState) (xx : ℚ) :
    MinWidthState × ℚ :=
  let ww := st.width s
  let ww := if env.isChordRestType s then addDouble ww d else ww
  let st : MinWidthState :=
    if env.isChordRestType s then { st with width := Function.update st.width s ww } else st
  let xx := addDouble xx ww
  ({ st with xpos := Function.update st.xpos (s + 1) xx }, xx)

/-- The loop that distributes the extra space as `widenLoop`, with the arithmetic of the
type `qreal`. -/
def widenLoopDouble (env : MinWidthEnv) (d : ℚ) :
    Nat → Nat → MinWidthState → ℚ → MinWidthState × ℚ
  | 0, _, st, xx => (st, xx)
  | count + 1, s, st, xx =>
      let r := widenStepDouble env d s st xx
      widenLoopDouble env d count (s + 1) r.1 r.2

/-- One round of the loop of `computeMinWidth` as `computeMinWidthStep`, with the
arithmetic of the type `qreal`. -/
def computeMinWidthStepDouble (env : MinWidthEnv) (st : MinWidthState) (ss : Nat) (x : ℚ)
    (isSystemHeader : Bool) : MinWidthState × ℚ × Bool :=
  let st : MinWidthState := { st with xpos := Function.update st.xpos ss x }
  let ns := ss + 1
  if ns < env.segments.length then
    let gap := isSystemHeader && env.isChordRestType ns
    let w := env.minHorizontalDistance ss ns gap
    let isSystemHeader := if gap then false else isSystemHeader
    match lookBackDouble env st ss ns w (ss + 1) ss 1 with
    | some (ps, n, ww) =>
        let d := divDouble (subDouble ww w) n
        let r := widenLoopDouble env d (ss - ps) ps st (st.xpos ps)
        let w := addDouble w d
        let x := r.2
        ({ r.1 with width := Function.update r.1.width ss w }, addDouble x w, isSystemHeader)
    | none =>
        ({ st with width := Function.update st.width ss w }, addDouble x w, isSystemHeader)
  else
    let w := match env.segments.get? ss with
      | some s => if s.type = WidthSegmentType.EndBarLine then 0 else s.minRight
      | none => 0
    ({ st with width := Function.update st.width ss w }, addDouble x w, isSystemHeader)

/-- Four chord/rest segments; each needs the distance 10 to the next one, the first needs
the distance 56 to the fourth. -/
def exampleDoubleWidthEnv : MinWidthEnv :=
  { segments := [ { type := WidthSegmentType.ChordRest }, { type := WidthSegmentType.ChordRest },
                  { type := WidthSegmentType.ChordRest }, { type := WidthSegmentType.ChordRest } ]
    minHorizontalDistance := fun ps ns _ => if ps = 0 ∧ ns = 3 then 56 else 10 }

/-- The positions and widths after the rounds for the first two segments of
`exampleDoubleWidthEnv`: the segments at 0 and 10 with the width 10. -/
def exampleDoubleWidthState : MinWidthState :=
  { xpos := fun k => if k = 1 then 10 else 0, width := fun k => if k < 2 then 10 else 0 }

/-- The positions are those that the widths give in double precision: as
`positionsFollow`, with the sums rounded. -/
def positionsFollowDouble (st : MinWidthState) (ss : Nat) (x : ℚ) : Prop :=
  (∀ k, k + 1 < ss → st.xpos (k + 1) = addDouble (st.xpos k) (st.width k))
    ∧ (0 < ss → x = addDouble (st.xpos (ss - 1)) (st.width (ss - 1)))

/-! ## Beam grouping: the grace notes, `beamGraceNotes` (layout.cpp 1129-1191, 2625-2630) -/

/-- The grace notes of the chords: `graceNotesBefore()` and `graceNotesAfter()` of a
chord. -/
structure GraceNotes where
  before : ChordRest → List ChordRest := fun _ => []
  after : ChordRest → List ChordRest := fun _ => []

/-- State of the loop of `beamGraceNotes`: the beams of the score, the candidate `a1` and
the active beam `beam`. -/
structure GraceLoopState where
  store : BeamStore
  a1 : Option ChordRest := none
  beam : Option Nat := none

/-- The handling of the candidate `a1` in `beamGraceNotes` (layout.cpp 1167-1185): the
grace note `cr` becomes the candidate, replaces the candidate for the mode BEGIN, or starts
a beam with it (the beam of the candidate if the candidate is its first element, else a new
beam with the track of the main note). -/
def graceCandidate (track : Nat) (st : GraceLoopState) (cr : ChordRest) (bm : BeamMode) :
    GraceLoopState :=
  match st.a1 with
  | none => { st with a1 := some cr }
  | some a1 =>
      if !beamModeMid bm && bm == BeamMode.BEGIN then
        { st with store := st.store.removeDeleteBeam a1, a1 := some cr }
      else
        let reuse : Option Nat :=
          match st.store.beamOf a1 with
          | some b => if (b.elements.head?.map fun e => e.id) = some a1.id then some b.id
                      else none
          | none => none
        let r2 : BeamStore × Nat :=
          match reuse with
          | some beam => (st.store, beam)
          | none =>
              let beam := st.store.nextId
              let store := st.store.removeDeleteBeam a1
              let store : BeamStore :=
                { store with
                  beams := store.beams ++ [{ id := beam, track := track, elements := [] }]
                  nextId := beam + 1 }
              (store.addTo beam a1, beam)
        let store := (r2.1.removeDeleteBeam cr).addTo r2.2 cr
        { st with store := store, beam := some r2.2, a1 := none }

/-- One iteration of the loop of `beamGraceNotes` for the grace note `cr` (layout.cpp
1136-1186); `track` is the track of the main note. The calls `beam->layoutGraceNotes()`
leave the elements of the beams as they are. -/
def beamGraceStep (env : BeamEnv) (track : Nat) (st : GraceLoopState) (cr : ChordRest) :
    GraceLoopState :=
  let bm := env.endBeam cr none
  if cr.durationType.type.ord ≤ DurationType.V_QUARTER.ord ∨ bm = BeamMode.NONE then
    let store := match st.a1 with
      | some a1 => st.store.removeDeleteBeam a1
      | none => st.store
    { store := store.removeDeleteBeam cr, a1 := none, beam := none }
  else
    match st.beam with
    | some beam =>
        if bm ≠ BeamMode.BEGIN then
          let store := (st.store.removeDeleteBeam cr).addTo beam cr
          if bm = BeamMode.END then { st with store := store, beam := none }
          else { st with store := store }
        else graceCandidate track { st with beam := none } cr bm
    | none => graceCandidate track st cr bm

/-- The function `beamGraceNotes(mainNote, after)` for the grace notes `graceNotes` of the
main note (`graceNotesAfter()` or `graceNotesBefore()`): the beams of the score behind
it. -/
def beamGraceNotes (env : BeamEnv) (mainNote : ChordRest) (graceNotes : List ChordRest)
    (store : BeamStore) : BeamStore :=
  let st := graceNotes.foldl (beamGraceStep env mainNote.track) { store := store }
  match st.beam, st.a1 with
  | some _, _ => st.store
  | none, some a1 => st.store.removeDeleteBeam a1
  | none, none => st.store

/-- The body of the loop of `createBeams` for a chord or rest `cr` of the track (layout.cpp
2617-2727) with the handling of the grace notes: for a chord the grace notes before it
and the grace notes after it are beamed, then the chord or rest goes through
`createBeamsStep`. -/
def createBeamsSegment (env : BeamEnv) (grace : GraceNotes) (track : Nat)
    (st : BeamLoopState) (cr : ChordRest) : BeamLoopState :=
  let store :=
    if cr.isChord then
      beamGraceNotes env cr (grace.after cr) (beamGraceNotes env cr (grace.before cr) st.store)
    else st.store
  createBeamsStep env track { st with store := store } cr

/-- The loop of `createBeams` for one track with the handling of the grace notes and of
the last beam or candidate behind it (layout.cpp 2617-2731): `crs` are the chords and
rests `segment->cr(track)` of the chord/rest segments of the measure, in the order of the
segments. -/
def createBeamsTrackGrace (env : BeamEnv) (grace : GraceNotes) (track : Nat)
    (store : BeamStore) (crs : List ChordRest) : BeamStore :=
  let st := crs.foldl (createBeamsSegment env grace track) { store := store }
  match st.beam, st.a1 with
  | some beam, _ => st.store.layout1 beam
  | none, some a1 => st.store.removeDeleteBeam a1
  | none, none => st.store

/-- The elements of the beam are grace notes of `gs`. -/
def GraceBeam (gs : List ChordRest) (b : Beam) : Prop := ∀ e ∈ b.elements, e ∈ gs

/-- No element of the beam has the identity of a grace note of `gs`. -/
def NoGrace (gs : List ChordRest) (b : Beam) : Prop :=
  ∀ e ∈ b.elements, ∀ g ∈ gs, e.id ≠ g.id

/-- A beam of chords and rests is well formed with respect to the chords and rests `crs`
of a track and the grace notes `gs`: it is well formed in the sense of `BeamOK`, it holds
no grace note, no element lasts a negative time, every element ends before the next one
starts, and an element of the track of one of `crs` does not overlap it in time. -/
def MainBeamOK (crs gs : List ChordRest) (b : Beam) : Prop :=
  BeamOK crs b ∧ NoGrace gs b ∧ (∀ e ∈ b.elements, 0 ≤ e.actualTicks) ∧
  b.elements.Pairwise (fun x y => x.tick + x.actualTicks ≤ y.tick) ∧
  (∀ e ∈ b.elements, ∀ c ∈ crs, e.track = c.track →
    (e.tick < c.tick → e.tick + e.actualTicks ≤ c.tick) ∧
    (c.tick < e.tick → c.tick + c.actualTicks ≤ e.tick))

/-- A beam of the score is well formed: its elements are of its track, and it is a beam of
grace notes or a well formed beam of chords and rests. -/
def BeamOK2 (crs gs : List ChordRest) (b : Beam) : Prop :=
  (∀ e ∈ b.elements, e.track = b.track) ∧ (GraceBeam gs b ∨ MainBeamOK crs gs b)

/-- The beams of the score are well formed: every beam is, the identities of the beams
are below `nextId`, and no two beams share an identity. -/
def StoreOK2 (crs gs : List ChordRest) (s : BeamStore) : Prop :=
  (∀ b ∈ s.beams, BeamOK2 crs gs b ∧ b.id < s.nextId) ∧ (s.beams.map fun b => b.id).Nodup

/-- The chords and rests of a track in a measure with their grace notes are well formed:
they are of the track, come in the order of their ticks without overlap and last no
negative time, no two share an identity; the grace notes of the chords are among `gs` and
of the track, no two grace notes of `gs` share an identity, and no grace note has the
identity of a chord or rest. -/
def TrackOK (grace : GraceNotes) (track : Nat) (crs gs : List ChordRest) : Prop :=
  (∀ c ∈ crs, c.track = track ∧ 0 ≤ c.actualTicks) ∧
  crs.Pairwise (fun a b => a.tick < b.tick ∧ a.tick + a.actualTicks ≤ b.tick) ∧
  (∀ c1 ∈ crs, ∀ c2 ∈ crs, c1.id = c2.id → c1 = c2) ∧
  (∀ c ∈ crs, ∀ g ∈ grace.before c ++ grace.after c, g ∈ gs ∧ g.track = track) ∧
  (∀ g1 ∈ gs, ∀ g2 ∈ gs, g1.id = g2.id → g1 = g2) ∧
  (∀ c ∈ crs, ∀ g ∈ gs, c.id ≠ g.id)

/-- The state of the loop of `createBeams` for a track is well formed: the beams of the
score are, the active beam is a beam of the track without grace notes whose identity is
below `nextId`, and the candidate is one of the chords and rests of the track. -/
def BeamLoopOK2 (crs gs : List ChordRest) (track : Nat) (st : BeamLoopState) : Prop :=
  StoreOK2 crs gs st.store ∧
  (∀ beam, st.beam = some beam → beam < st.store.nextId ∧
    ∀ b ∈ st.store.beams, b.id = beam → b.track = track ∧ NoGrace gs b) ∧
  (∀ a, st.a1 = some a → a ∈ crs)

/-- The state of the loop of `beamGraceNotes` is well formed while the loop of
`createBeams` has the active beam `mb`: the beams of the score are, the active beam of the
grace notes is a beam of grace notes of the track and not `mb`, the candidate is a grace
note of the track, and `mb` is a beam of the track without grace notes whose identity is
below `nextId`. -/
def GraceLoopOK (crs gs : List ChordRest) (track : Nat) (mb : Option Nat)
    (st : GraceLoopState) : Prop :=
  StoreOK2 crs gs st.store ∧
  (∀ beam, st.beam = some beam → mb ≠ some beam ∧
    ∀ b ∈ st.store.beams, b.id = beam → b.track = track ∧ GraceBeam gs b) ∧
  (∀ a, st.a1 = some a → a ∈ gs ∧ a.track = track) ∧
  (∀ m, mb = some m → m < st.store.nextId ∧
    ∀ b ∈ st.store.beams, b.id = m → b.track = track ∧ NoGrace gs b)

/-- Two grace notes at the tick 0: an eighth note and a sixteenth note, with the lengths
240 and 120 of their duration types. -/
def exampleGraceList : List ChordRest :=
  [{ id := 10, tick := 0, actualTicks := 240,
     durationType := { type := DurationType.V_EIGHTH }, hooks := 1 },
   { id := 11, tick := 0, actualTicks := 120,
     durationType := { type := DurationType.V_16TH }, hooks := 2 }]

/-- The grace notes of a measure in which the chord with the identity 0 has the two grace
notes of `exampleGraceList` in front of it. -/
def exampleGraceNotes : GraceNotes :=
  { before := fun c => if c.id = 0 then exampleGraceList else [] }

/-! # Theorems -/

/-! ## Arithmetic of double precision: the rounding -/

/-- With enough fuel `binaryLog` is the binary logarithm of a positive number, rounded
down. -/
theorem binaryLog_spec : ∀ (fuel n : Nat), 0 < n → n < 2 ^ fuel →
    2 ^ binaryLog fuel n ≤ n ∧ n < 2 ^ (binaryLog fuel n + 1) := by
  intro fuel
  induction fuel with
  | zero =>
      intro n h0 h
      simp at h
      omega
  | succ f ih =>
      intro n h0 h
      unfold binaryLog
      by_cases h2 : n < 2
      · rw [if_pos h2]
        have : n = 1 := by omega
        subst this
        simp
      · rw [if_neg h2]
        have hh : n / 2 < 2 ^ f := by
          rw [pow_succ] at h
          omega
        obtain ⟨a, b⟩ := ih (n / 2) (by omega) hh
        generalize binaryLog f (n / 2) = k at a b ⊢
        constructor
        · rw [pow_succ]
          omega
        · rw [pow_succ]
          rw [pow_succ] at b
          omega

/-- The number `binaryLog n n` is the binary logarithm of a positive `n`, rounded down. -/
theorem binaryLog_self (n : Nat) (h : 0 < n) :
    2 ^ binaryLog n n ≤ n ∧ n < 2 ^ (binaryLog n n + 1) :=
  binaryLog_spec n n h (Nat.lt_two_pow n)

/-- The number `roundHalfEven num den` is at most 1/2 away from `num / den`. -/
theorem roundHalfEven_spec (num den : Nat) (hden : 0 < den) :
    |(roundHalfEven num den : ℚ) - (num : ℚ) / (den : ℚ)| ≤ 1 / 2 := by
  have hd : (0 : ℚ) < den := by exact_mod_cast hden
  have hsplit : (num : ℚ) / (den : ℚ) = (num / den : Nat) + ((num % den : Nat) : ℚ) / den := by
    have h := Nat.div_add_mod num den
    have h2 : (num : ℚ) = (den : ℚ) * ((num / den : Nat) : ℚ) + ((num % den : Nat) : ℚ) := by
      exact_mod_cast h.symm
    rw [h2]
    field_simp
    ring
  have hr : num % den < den := Nat.mod_lt _ hden
  have hrq : ((num % den : Nat) : ℚ) < den := by exact_mod_cast hr
  have hr0 : (0 : ℚ) ≤ ((num % den : Nat) : ℚ) := Nat.cast_nonneg _
  unfold roundHalfEven
  simp only []
  rw [hsplit]
  generalize (num / den : Nat) = q at *
  generalize (num % den : Nat) = r at *
  have hfrac0 : (0 : ℚ) ≤ (r : ℚ) / den := div_nonneg hr0 hd.le
  have hfrac1 : (r : ℚ) / den < 1 := (div_lt_one hd).mpr hrq
  by_cases h1 : 2 * r < den
  · rw [if_pos h1]
    have : (r : ℚ) / den < 1 / 2 := by
      rw [div_lt_div_iff₀ hd (by norm_num)]
      have : ((2 * r : Nat) : ℚ) < den := by exact_mod_cast h1
      push_cast at this
      linarith
    rw [abs_le]
    constructor <;> linarith
  · rw [if_neg h1]
    by_cases h2 : 2 * r > den
    · rw [if_pos h2]
      have : (1 : ℚ) / 2 < (r : ℚ) / den := by
        rw [div_lt_div_iff₀ (by norm_num) hd]
        have : (den : ℚ) < ((2 * r : Nat) : ℚ) := by exact_mod_cast h2
        push_cast at this
        linarith
      push_cast
      rw [abs_le]
      constructor <;> linarith
    · rw [if_neg h2]
      have he : 2 * r = den := by omega
      have : (r : ℚ) / den = 1 / 2 := by
        rw [div_eq_div_iff hd.ne' (by norm_num)]
        have : ((2 * r : Nat) : ℚ) = den := by exact_mod_cast he
        push_cast at this
        linarith
      split_ifs
      · rw [abs_le]
        constructor <;> linarith
      · push_cast
        rw [abs_le]
        constructor <;> linarith

/-- The exponent `binaryExponent n d` is the binary exponent of `n / d`. -/
theorem binaryExponent_spec (n d : Nat) (hn : 0 < n) (hd : 0 < d) :
    (2 : ℚ) ^ binaryExponent n d ≤ (n : ℚ) / d ∧
      (n : ℚ) / d < (2 : ℚ) ^ (binaryExponent n d + 1) := by
  obtain ⟨n1, n2⟩ := binaryLog_self n hn
  obtain ⟨d1, d2⟩ := binaryLog_self d hd
  have hnq : (0 : ℚ) < n := by exact_mod_cast hn
  have hdq : (0 : ℚ) < d := by exact_mod_cast hd
  have two : (2 : ℚ) ≠ 0 := by norm_num
  have n1q : (2 : ℚ) ^ (binaryLog n n : ℤ) ≤ n := by
    rw [zpow_natCast]
    exact_mod_cast n1
  have n2q : (n : ℚ) < (2 : ℚ) ^ ((binaryLog n n : ℤ) + 1) := by
    have : (n : ℚ) < (2 : ℚ) ^ (binaryLog n n + 1) := by exact_mod_cast n2
    rw [← zpow_natCast] at this
    push_cast at this
    exact this
  have d1q : (2 : ℚ) ^ (binaryLog d d : ℤ) ≤ d := by
    rw [zpow_natCast]
    exact_mod_cast d1
  have d2q : (d : ℚ) < (2 : ℚ) ^ ((binaryLog d d : ℤ) + 1) := by
    have : (d : ℚ) < (2 : ℚ) ^ (binaryLog d d + 1) := by exact_mod_cast d2
    rw [← zpow_natCast] at this
    push_cast at this
    exact this
  -- the bounds that hold for the first guess
  have lower : (2 : ℚ) ^ ((binaryLog n n : ℤ) - (binaryLog d d : ℤ) - 1) ≤ (n : ℚ) / d := by
    have e : ((binaryLog n n : ℤ) - (binaryLog d d : ℤ) - 1)
        = (binaryLog n n : ℤ) - ((binaryLog d d : ℤ) + 1) := by ring
    rw [e, zpow_sub₀ two, le_div_iff₀ hdq, div_mul_eq_mul_div, div_le_iff₀ (zpow_pos (by norm_num) _)]
    have hp : (0 : ℚ) < (2 : ℚ) ^ (binaryLog n n : ℤ) := zpow_pos (by norm_num) _
    nlinarith
  have upper : (n : ℚ) / d < (2 : ℚ) ^ ((binaryLog n n : ℤ) - (binaryLog d d : ℤ) + 1) := by
    have e : ((binaryLog n n : ℤ) - (binaryLog d d : ℤ) + 1)
        = ((binaryLog n n : ℤ) + 1) - (binaryLog d d : ℤ) := by ring
    rw [e, zpow_sub₀ two, div_lt_div_iff₀ hdq (zpow_pos (by norm_num) _)]
    have hp : (0 : ℚ) < (2 : ℚ) ^ (binaryLog d d : ℤ) := zpow_pos (by norm_num) _
    nlinarith
  unfold binaryExponent
  simp only []
  generalize ((binaryLog n n : ℤ) - (binaryLog d d : ℤ)) = e0 at lower upper ⊢
  by_cases he : e0 ≥ 0
  · rw [if_pos he]
    have hk : ((e0.toNat : ℕ) : ℤ) = e0 := Int.toNat_of_nonneg he
    have hpow : (2 : ℚ) ^ e0 = ((2 ^ e0.toNat : ℕ) : ℚ) := by
      rw [← hk, zpow_natCast]
      push_cast
      rw [hk]
    by_cases ht : n < d * 2 ^ e0.toNat
    · simp only [ht, decide_True, if_true]
      refine ⟨lower, ?_⟩
      rw [sub_add_cancel, hpow, div_lt_iff₀ hdq]
      have : ((n : ℕ) : ℚ) < ((d * 2 ^ e0.toNat : ℕ) : ℚ) := by exact_mod_cast ht
      push_cast at this ⊢
      linarith
    · simp only [ht, decide_False, Bool.false_eq_true, if_false]
      refine ⟨?_, upper⟩
      rw [hpow, le_div_iff₀ hdq]
      have : ((d * 2 ^ e0.toNat : ℕ) : ℚ) ≤ ((n : ℕ) : ℚ) := by exact_mod_cast (not_lt.mp ht)
      push_cast at this ⊢
      linarith
  · rw [if_neg he]
    have he2 : 0 ≤ -e0 := by omega
    have hk : (((-e0).toNat : ℕ) : ℤ) = -e0 := Int.toNat_of_nonneg he2
    have hpow : (2 : ℚ) ^ e0 = 1 / ((2 ^ (-e0).toNat : ℕ) : ℚ) := by
      have : e0 = -(((-e0).toNat : ℕ) : ℤ) := by omega
      rw [this, zpow_neg, zpow_natCast]
      push_cast
      rw [← this]
      simp
    have hq : (0 : ℚ) < ((2 ^ (-e0).toNat : ℕ) : ℚ) := by positivity
    by_cases ht : n * 2 ^ (-e0).toNat < d
    · simp only [ht, decide_True, if_true]
      refine ⟨lower, ?_⟩
      rw [sub_add_cancel, hpow, div_lt_div_iff₀ hdq hq]
      have : ((n * 2 ^ (-e0).toNat : ℕ) : ℚ) < ((d : ℕ) : ℚ) := by exact_mod_cast ht
      push_cast at this ⊢
      linarith
    · simp only [ht, decide_False, Bool.false_eq_true, if_false]
      refine ⟨?_, upper⟩
      rw [hpow, div_le_div_iff₀ hq hdq]
      have : ((d : ℕ) : ℚ) ≤ ((n * 2 ^ (-e0).toNat : ℕ) : ℚ) := by exact_mod_cast (not_lt.mp ht)
      push_cast at this ⊢
      linarith

/-- The absolute value of a rational number by its numerator and denominator. -/
theorem rat_abs_eq (x : ℚ) : |x| = (x.num.natAbs : ℚ) / (x.den : ℚ) := by
  have hd : (0 : ℚ) < x.den := by exact_mod_cast x.den_pos
  conv_lhs => rw [← Rat.num_div_den x]
  rw [abs_div, abs_of_pos hd]
  rw [Nat.cast_natAbs, Int.cast_abs]

/-- The value `roundDouble x` has the sign of `x` and, with the binary exponent `e` of
`|x|`, the significand `m` nearest to `|x| * 2 ^ (52 - e)`. -/
theorem roundDouble_spec (x : ℚ) (hx : x ≠ 0) :
    ∃ m : ℕ, |(m : ℚ) - |x| * (2 : ℚ) ^ (52 - binaryExponent x.num.natAbs x.den)| ≤ 1 / 2 ∧
      roundDouble x = (if x < 0 then -1 else 1)
        * ((m : ℚ) * (2 : ℚ) ^ (binaryExponent x.num.natAbs x.den - 52)) := by
  have habs := rat_abs_eq x
  have hd : 0 < x.den := x.den_pos
  have hdq : (0 : ℚ) < x.den := by exact_mod_cast hd
  have hn : 0 < x.num.natAbs := by
    rw [Int.natAbs_pos]
    exact Rat.num_ne_zero.mpr hx
  unfold roundDouble
  rw [if_neg hx]
  simp only []
  rw [habs]
  generalize x.num.natAbs = n at hn ⊢
  generalize x.den = d at hd hdq ⊢
  generalize binaryExponent n d = e
  have hflip : e - 52 = -(52 - e) := by ring
  by_cases hs : 52 - e ≥ 0
  · simp only [hs, if_true]
    have hk : (((52 - e).toNat : ℕ) : ℤ) = 52 - e := Int.toNat_of_nonneg hs
    have hpow : (2 : ℚ) ^ (52 - e) = ((2 ^ (52 - e).toNat : ℕ) : ℚ) := by
      conv_lhs => rw [← hk]
      rw [zpow_natCast]
      push_cast
      rfl
    have hq : (0 : ℚ) < ((2 ^ (52 - e).toNat : ℕ) : ℚ) := by positivity
    refine ⟨roundHalfEven (n * 2 ^ (52 - e).toNat) d, ?_, ?_⟩
    · have h := roundHalfEven_spec (n * 2 ^ (52 - e).toNat) d hd
      rw [hpow]
      have e2 : ((n * 2 ^ (52 - e).toNat : ℕ) : ℚ) / (d : ℚ)
          = (n : ℚ) / d * ((2 ^ (52 - e).toNat : ℕ) : ℚ) := by
        push_cast
        ring
      rw [e2] at h
      exact h
    · rw [hflip, zpow_neg, hpow]
      split_ifs <;> field_simp
  · simp only [hs, if_false]
    have hs2 : 0 ≤ -(52 - e) := by omega
    have hk : (((-(52 - e)).toNat : ℕ) : ℤ) = -(52 - e) := Int.toNat_of_nonneg hs2
    have hpow : (2 : ℚ) ^ (e - 52) = ((2 ^ (-(52 - e)).toNat : ℕ) : ℚ) := by
      rw [hflip]
      conv_lhs => rw [← hk]
      rw [zpow_natCast]
      push_cast
      rfl
    have hq : (0 : ℚ) < ((2 ^ (-(52 - e)).toNat : ℕ) : ℚ) := by positivity
    have hpow2 : (2 : ℚ) ^ (52 - e) = 1 / ((2 ^ (-(52 - e)).toNat : ℕ) : ℚ) := by
      have : (52 - e) = -(e - 52) := by ring
      rw [this, zpow_neg, hpow]
      simp
    refine ⟨roundHalfEven n (d * 2 ^ (-(52 - e)).toNat), ?_, ?_⟩
    · have h := roundHalfEven_spec n (d * 2 ^ (-(52 - e)).toNat) (by positivity)
      rw [hpow2]
      have e2 : (n : ℚ) / ((d * 2 ^ (-(52 - e)).toNat : ℕ) : ℚ)
          = (n : ℚ) / d * (1 / ((2 ^ (-(52 - e)).toNat : ℕ) : ℚ)) := by
        push_cast
        field_simp
      rw [e2] at h
      exact h
    · rw [hpow]
      split_ifs <;> ring

/-- The value `roundDouble x` has the sign of `x`, its binary exponent `e` is that of `|x|`,
the significand `m` is the natural number nearest to `|x| * 2 ^ (52 - e)`, and it has 53
binary digits (or is `2 ^ 53`, when `|x|` is rounded up to `2 ^ (e + 1)`). -/
theorem roundDouble_significand (x : ℚ) (hx : x ≠ 0) :
    ∃ (e : ℤ) (m : ℕ), (2 : ℚ) ^ e ≤ |x| ∧ |x| < (2 : ℚ) ^ (e + 1) ∧
      |(m : ℚ) - |x| * (2 : ℚ) ^ (52 - e)| ≤ 1 / 2 ∧ 2 ^ 52 ≤ m ∧ m ≤ 2 ^ 53 ∧
      roundDouble x = (if x < 0 then -1 else 1) * ((m : ℚ) * (2 : ℚ) ^ (e - 52)) := by
  obtain ⟨m, hm, hv⟩ := roundDouble_spec x hx
  have hd : 0 < x.den := x.den_pos
  have hn : 0 < x.num.natAbs := by
    rw [Int.natAbs_pos]
    exact Rat.num_ne_zero.mpr hx
  obtain ⟨h1, h2⟩ := binaryExponent_spec x.num.natAbs x.den hn hd
  rw [← rat_abs_eq x] at h1 h2
  generalize binaryExponent x.num.natAbs x.den = e at hm hv h1 h2
  have two : (2 : ℚ) ≠ 0 := by norm_num
  have hp : (0 : ℚ) < (2 : ℚ) ^ (52 - e) := zpow_pos (by norm_num) _
  have hy1 : (2 : ℚ) ^ (52 : ℕ) ≤ |x| * (2 : ℚ) ^ (52 - e) := by
    have : (2 : ℚ) ^ (52 : ℕ) = (2 : ℚ) ^ e * (2 : ℚ) ^ (52 - e) := by
      rw [← zpow_add₀ two, ← zpow_natCast]
      congr 1
      push_cast
      ring
    rw [this]
    exact mul_le_mul_of_nonneg_right h1 hp.le
  have hy2 : |x| * (2 : ℚ) ^ (52 - e) < (2 : ℚ) ^ (53 : ℕ) := by
    have : (2 : ℚ) ^ (53 : ℕ) = (2 : ℚ) ^ (e + 1) * (2 : ℚ) ^ (52 - e) := by
      rw [← zpow_add₀ two, ← zpow_natCast]
      congr 1
      push_cast
      ring
    rw [this]
    exact mul_lt_mul_of_pos_right h2 hp
  rw [abs_le] at hm
  refine ⟨e, m, h1, h2, abs_le.mpr hm, ?_, ?_, hv⟩
  · have : ((2 ^ 52 - 1 : ℕ) : ℚ) < (m : ℚ) := by
      have e1 : ((2 ^ 52 - 1 : ℕ) : ℚ) = (2 : ℚ) ^ (52 : ℕ) - 1 := by norm_num
      rw [e1]
      linarith [hm.1]
    have : 2 ^ 52 - 1 < m := by exact_mod_cast this
    omega
  · have : (m : ℚ) < ((2 ^ 53 + 1 : ℕ) : ℚ) := by
      have e1 : ((2 ^ 53 + 1 : ℕ) : ℚ) = (2 : ℚ) ^ (53 : ℕ) + 1 := by norm_num
      rw [e1]
      linarith [hm.2]
    have : m < 2 ^ 53 + 1 := by exact_mod_cast this
    omega

/-- Rounding to double precision has a relative error of at most `2 ^ -53`. -/
theorem roundDouble_error (x : ℚ) : |roundDouble x - x| ≤ |x| / 2 ^ 53 := by
  by_cases hx : x = 0
  · subst hx
    simp [roundDouble]
  obtain ⟨e, m, h1, _, hm, _, _, hv⟩ := roundDouble_significand x hx
  have two : (2 : ℚ) ≠ 0 := by norm_num
  have hp : (0 : ℚ) < (2 : ℚ) ^ (e - 52) := zpow_pos (by norm_num) _
  have hinv : (2 : ℚ) ^ (52 - e) * (2 : ℚ) ^ (e - 52) = 1 := by
    rw [← zpow_add₀ two]
    have : 52 - e + (e - 52) = 0 := by ring
    rw [this, zpow_zero]
  have hpe : (2 : ℚ) ^ (e - 52) = (2 : ℚ) ^ e / 2 ^ 52 := by
    rw [zpow_sub₀ two]
    norm_num
  have key : |(m : ℚ) * (2 : ℚ) ^ (e - 52) - (|x|)| ≤ |x| / 2 ^ 53 := by
    have e1 : (m : ℚ) * (2 : ℚ) ^ (e - 52) - |x|
        = ((m : ℚ) - |x| * (2 : ℚ) ^ (52 - e)) * (2 : ℚ) ^ (e - 52) := by
      rw [sub_mul, mul_assoc, hinv, mul_one]
    rw [e1, abs_mul, abs_of_pos hp]
    calc |(m : ℚ) - |x| * (2 : ℚ) ^ (52 - e)| * (2 : ℚ) ^ (e - 52)
        ≤ 1 / 2 * (2 : ℚ) ^ (e - 52) := mul_le_mul_of_nonneg_right hm hp.le
      _ = (2 : ℚ) ^ e / 2 ^ 53 := by rw [hpe]; ring
      _ ≤ |x| / 2 ^ 53 := div_le_div_of_nonneg_right h1 (by positivity)
  rw [hv]
  by_cases hneg : x < 0
  · rw [if_pos hneg]
    rw [abs_of_neg hneg] at key ⊢
    have e2 : -1 * ((m : ℚ) * (2 : ℚ) ^ (e - 52)) - x
        = -((m : ℚ) * (2 : ℚ) ^ (e - 52) - -x) := by ring
    rw [e2, abs_neg]
    exact key
  · rw [if_neg hneg]
    have hpos : 0 ≤ x := not_lt.mp hneg
    rw [abs_of_nonneg hpos] at key ⊢
    rw [one_mul]
    exact key

/-- Rounding keeps the sign: the value of a number that is not negative is not negative. -/
theorem roundDouble_nonneg (x : ℚ) (h : 0 ≤ x) : 0 ≤ roundDouble x := by
  by_cases hx : x = 0
  · subst hx
    simp [roundDouble]
  obtain ⟨e, m, _, _, _, _, _, hv⟩ := roundDouble_significand x hx
  rw [hv, if_neg (not_lt.mpr h), one_mul]
  exact mul_nonneg (Nat.cast_nonneg _) (zpow_pos (by norm_num) _).le

/-- Rounding commutes with the change of sign. -/
theorem roundDouble_neg (x : ℚ) : roundDouble (-x) = -roundDouble x := by
  unfold roundDouble
  by_cases hx : x = 0
  · subst hx
    simp
  have hx2 : -x ≠ 0 := neg_ne_zero.mpr hx
  rw [if_neg hx, if_neg hx2]
  simp only [Rat.neg_num, Rat.neg_den, Int.natAbs_neg]
  rcases lt_or_gt_of_ne hx with h | h
  · have h2 : ¬ (-x < 0) := by
      rw [neg_lt_zero]
      exact not_lt.mpr h.le
    rw [if_pos h, if_neg h2, neg_neg]
  · have h2 : -x < 0 := neg_lt_zero.mpr h
    rw [if_pos h2, if_neg (not_lt.mpr h.le)]

/-- Rounding to double precision is monotone on the positive numbers. -/
theorem roundDouble_mono_pos (x y : ℚ) (hx : 0 < x) (h : x ≤ y) :
    roundDouble x ≤ roundDouble y := by
  rcases eq_or_lt_of_le h with heq | hlt
  · rw [heq]
  have hy : 0 < y := lt_trans hx hlt
  obtain ⟨e1, m1, a1, _, c1, _, u1, v1⟩ := roundDouble_significand x hx.ne'
  obtain ⟨e2, m2, _, b2, c2, l2, _, v2⟩ := roundDouble_significand y hy.ne'
  rw [abs_of_pos hx] at a1 c1
  rw [abs_of_pos hy] at b2 c2
  rw [v1, v2, if_neg (not_lt.mpr hx.le), if_neg (not_lt.mpr hy.le), one_mul, one_mul]
  have two : (2 : ℚ) ≠ 0 := by norm_num
  have one2 : (1 : ℚ) < 2 := by norm_num
  have he : e1 < e2 + 1 := by
    have : (2 : ℚ) ^ e1 < (2 : ℚ) ^ (e2 + 1) := lt_of_le_of_lt a1 (lt_trans hlt b2)
    exact (zpow_lt_zpow_iff_right₀ one2).mp this
  rw [abs_le] at c1 c2
  rcases eq_or_lt_of_le (Int.lt_add_one_iff.mp he) with heq | hlt2
  · subst heq
    have hp : (0 : ℚ) < (2 : ℚ) ^ (52 - e1) := zpow_pos (by norm_num) _
    have hxy : x * (2 : ℚ) ^ (52 - e1) < y * (2 : ℚ) ^ (52 - e1) :=
      mul_lt_mul_of_pos_right hlt hp
    have : (m1 : ℚ) < ((m2 + 1 : ℕ) : ℚ) := by
      push_cast
      linarith [c1.2, c2.1]
    have hm : m1 < m2 + 1 := by exact_mod_cast this
    have hm2 : (m1 : ℚ) ≤ m2 := by exact_mod_cast Nat.lt_succ_iff.mp hm
    exact mul_le_mul_of_nonneg_right hm2 (zpow_pos (by norm_num) _).le
  · have hm1 : (m1 : ℚ) ≤ (2 : ℚ) ^ (53 : ℕ) := by exact_mod_cast u1
    have hm2 : (2 : ℚ) ^ (52 : ℕ) ≤ (m2 : ℚ) := by exact_mod_cast l2
    have s1 : (2 : ℚ) ^ (53 : ℕ) * (2 : ℚ) ^ (e1 - 52) = (2 : ℚ) ^ (e1 + 1) := by
      rw [← zpow_natCast, ← zpow_add₀ two]
      congr 1
      push_cast
      ring
    have s2 : (2 : ℚ) ^ (52 : ℕ) * (2 : ℚ) ^ (e2 - 52) = (2 : ℚ) ^ e2 := by
      rw [← zpow_natCast, ← zpow_add₀ two]
      congr 1
      push_cast
      ring
    calc (m1 : ℚ) * (2 : ℚ) ^ (e1 - 52)
        ≤ (2 : ℚ) ^ (53 : ℕ) * (2 : ℚ) ^ (e1 - 52) :=
          mul_le_mul_of_nonneg_right hm1 (zpow_pos (by norm_num) _).le
      _ = (2 : ℚ) ^ (e1 + 1) := s1
      _ ≤ (2 : ℚ) ^ e2 := zpow_le_zpow_right₀ one2.le (by omega)
      _ = (2 : ℚ) ^ (52 : ℕ) * (2 : ℚ) ^ (e2 - 52) := s2.symm
      _ ≤ (m2 : ℚ) * (2 : ℚ) ^ (e2 - 52) :=
          mul_le_mul_of_nonneg_right hm2 (zpow_pos (by norm_num) _).le

/-- Rounding to double precision is monotone. -/
theorem roundDouble_mono (x y : ℚ) (h : x ≤ y) : roundDouble x ≤ roundDouble y := by
  rcases lt_trichotomy 0 x with hx | hx | hx
  · exact roundDouble_mono_pos x y hx h
  · subst hx
    have : roundDouble 0 = 0 := by simp [roundDouble]
    rw [this]
    exact roundDouble_nonneg y h
  · rcases lt_or_le y 0 with hy | hy
    · have h2 := roundDouble_mono_pos (-y) (-x) (neg_pos.mpr hy) (neg_le_neg h)
      rw [roundDouble_neg, roundDouble_neg] at h2
      exact neg_le_neg_iff.mp h2
    · have h1 := roundDouble_nonneg (-x) (neg_nonneg.mpr hx.le)
      rw [roundDouble_neg] at h1
      have h2 := roundDouble_nonneg y hy
      linarith

/-- A number with a significand of at most 53 binary digits is a value of double
precision: rounding leaves it as it is. -/
theorem roundDouble_exact (M : ℕ) (k : ℤ) (hM : M < 2 ^ 53) :
    roundDouble ((M : ℚ) * (2 : ℚ) ^ k) = (M : ℚ) * (2 : ℚ) ^ k := by
  rcases Nat.eq_zero_or_pos M with h0 | hpos
  · subst h0
    simp [roundDouble]
  have two : (2 : ℚ) ≠ 0 := by norm_num
  have one2 : (1 : ℚ) < 2 := by norm_num
  have hMq : (0 : ℚ) < M := by exact_mod_cast hpos
  have hx : 0 < (M : ℚ) * (2 : ℚ) ^ k := mul_pos hMq (zpow_pos (by norm_num) _)
  obtain ⟨e, m, a, _, c, _, _, v⟩ := roundDouble_significand _ hx.ne'
  rw [abs_of_pos hx] at a c
  rw [v, if_neg (not_lt.mpr hx.le), one_mul]
  have hlt : (M : ℚ) * (2 : ℚ) ^ k < (2 : ℚ) ^ (53 + k) := by
    rw [zpow_add₀ two]
    have : (M : ℚ) < (2 : ℚ) ^ (53 : ℤ) := by
      have h53 : (2 : ℚ) ^ (53 : ℤ) = ((2 ^ 53 : ℕ) : ℚ) := by norm_num
      rw [h53]
      exact_mod_cast hM
    exact mul_lt_mul_of_pos_right this (zpow_pos (by norm_num) _)
  have he : e < 53 + k := (zpow_lt_zpow_iff_right₀ one2).mp (lt_of_le_of_lt a hlt)
  have hj : 0 ≤ k + 52 - e := by omega
  have hnat : (M : ℚ) * (2 : ℚ) ^ k * (2 : ℚ) ^ (52 - e)
      = ((M * 2 ^ (k + 52 - e).toNat : ℕ) : ℚ) := by
    rw [mul_assoc, ← zpow_add₀ two]
    have : k + (52 - e) = (((k + 52 - e).toNat : ℕ) : ℤ) := by
      rw [Int.toNat_of_nonneg hj]
      ring
    rw [this, zpow_natCast]
    push_cast
    ring
  rw [hnat, abs_le] at c
  have hm : m = M * 2 ^ (k + 52 - e).toNat := by
    have h1 : ((M * 2 ^ (k + 52 - e).toNat : ℕ) : ℚ) < ((m + 1 : ℕ) : ℚ) := by
      push_cast
      push_cast at c
      linarith [c.1]
    have h2 : (m : ℚ) < ((M * 2 ^ (k + 52 - e).toNat + 1 : ℕ) : ℚ) := by
      push_cast
      push_cast at c
      linarith [c.2]
    have h3 : M * 2 ^ (k + 52 - e).toNat < m + 1 := by exact_mod_cast h1
    have h4 : m < M * 2 ^ (k + 52 - e).toNat + 1 := by exact_mod_cast h2
    omega
  rw [hm, ← hnat, mul_assoc, mul_assoc, ← zpow_add₀ two, ← zpow_add₀ two]
  congr 2
  ring

/-- A value of `roundDouble` is a value of double precision: rounding it again leaves it as
it is. -/
theorem roundDouble_idem (x : ℚ) : roundDouble (roundDouble x) = roundDouble x := by
  by_cases hx : x = 0
  · subst hx
    simp [roundDouble]
  obtain ⟨e, m, _, _, _, _, u, v⟩ := roundDouble_significand x hx
  have two : (2 : ℚ) ≠ 0 := by norm_num
  have key : roundDouble ((m : ℚ) * (2 : ℚ) ^ (e - 52)) = (m : ℚ) * (2 : ℚ) ^ (e - 52) := by
    rcases Nat.lt_or_ge m (2 ^ 53) with h | h
    · exact roundDouble_exact m (e - 52) h
    · have hm : m = 2 ^ 53 := le_antisymm u h
      have e1 : (m : ℚ) * (2 : ℚ) ^ (e - 52) = ((1 : ℕ) : ℚ) * (2 : ℚ) ^ (e + 1) := by
        have h53 : (2 : ℚ) ^ (e + 1) = (2 : ℚ) ^ (53 : ℤ) * (2 : ℚ) ^ (e - 52) := by
          rw [← zpow_add₀ two]
          congr 1
          ring
        rw [hm, h53]
        norm_num
      rw [e1]
      exact roundDouble_exact 1 (e + 1) (by norm_num)
  rw [v]
  by_cases hneg : x < 0
  · rw [if_pos hneg]
    have : (-1 : ℚ) * ((m : ℚ) * (2 : ℚ) ^ (e - 52)) = -((m : ℚ) * (2 : ℚ) ^ (e - 52)) := by
      ring
    rw [this, roundDouble_neg, key]
  · rw [if_neg hneg, one_mul, key]

/-- The value of 0 is 0. -/
theorem roundDouble_zero : roundDouble 0 = 0 := by simp [roundDouble]

/-- The sum of two numbers that are not negative is not negative in double precision. -/
theorem addDouble_nonneg (a b : ℚ) (ha : 0 ≤ a) (hb : 0 ≤ b) : 0 ≤ addDouble a b :=
  roundDouble_nonneg _ (add_nonneg ha hb)

/-- Adding a number that is not negative to a value of double precision does not give a
smaller value. -/
theorem addDouble_ge (y off : ℚ) (hy : roundDouble y = y) (hoff : 0 ≤ off) :
    y ≤ addDouble y off := by
  unfold addDouble
  calc y = roundDouble y := hy.symm
    _ ≤ roundDouble (y + off) := roundDouble_mono _ _ (by linarith)

/-- In double precision, too, the second loop of `layoutPage` moves no system up: with a
stretch and an offset `yoff` that are not negative, the systems behind `s1`, whose positions
are values of double precision, are moved down by amounts that are not negative. -/
theorem layoutPageLoopDouble_moves_nonneg (stretch maxDistance : ℚ) (hs : 0 ≤ stretch) :
    ∀ (rest : List SystemRec) (s1 : SystemRec) (yoff : ℚ), 0 ≤ yoff →
      (∀ s ∈ rest, roundDouble s.pos.2 = s.pos.2) →
      ∀ x ∈ systemMoves rest (layoutPageLoopDouble stretch maxDistance s1 rest yoff),
        0 ≤ x := by
  intro rest
  induction rest with
  | nil =>
      intro s1 yoff _ _ x hx
      simp [systemMoves, layoutPageLoopDouble] at hx
  | cons s2 rest ih =>
      intro s1 yoff hy hpos x hx
      unfold layoutPageLoopDouble at hx
      simp only [] at hx
      generalize hY : (if (!(s1.vbox.isSome || s2.vbox.isSome)) = true then
          addDouble yoff
            (if addDouble (subDouble (addDouble s2.pos.2 yoff) (addDouble s1.pos.2 s1.height))
                stretch > maxDistance then
              if subDouble maxDistance
                  (subDouble (addDouble s2.pos.2 yoff) (addDouble s1.pos.2 s1.height)) < 0
              then 0
              else subDouble maxDistance
                (subDouble (addDouble s2.pos.2 yoff) (addDouble s1.pos.2 s1.height))
            else stretch)
          else yoff) = Y at hx
      have hY0 : 0 ≤ Y := by
        rw [← hY]
        split_ifs with h1 h2 h3
        · exact addDouble_nonneg _ _ hy (le_refl _)
        · exact addDouble_nonneg _ _ hy (not_lt.mp h3)
        · exact addDouble_nonneg _ _ hy hs
        · exact hy
      unfold systemMoves at hx
      rw [List.zipWith_cons_cons, List.mem_cons] at hx
      rcases hx with rfl | hx
      · have := addDouble_ge s2.pos.2 Y (hpos s2 (List.mem_cons_self _ _)) hY0
        simp only []
        linarith
      · exact ih _ Y hY0 (fun s hs2 => hpos s (List.mem_cons_of_mem _ hs2)) x hx

/-- In double precision, too, `layoutPage` moves no system up on the stretch path, when the
positions of the systems are values of double precision. -/
theorem layoutPageDouble_moves_nonneg (env : LayoutPageEnv) (systems : List SystemRec)
    (restHeight : ℚ) (hrest : 0 ≤ restHeight) (hgaps : countGaps systems ≥ 1)
    (hstretch : env.noVerticalStretch = false) (hmode : env.layoutMode ≠ LayoutMode.SYSTEM)
    (hpos : ∀ s ∈ systems, roundDouble s.pos.2 = s.pos.2) :
    ∀ x ∈ systemMoves systems (layoutPageDouble env systems restHeight), 0 ≤ x := by
  have hg : ¬ countGaps systems = 0 := by omega
  have hs : 0 ≤ divDouble restHeight (countGaps systems : ℚ) := by
    unfold divDouble
    exact roundDouble_nonneg _ (div_nonneg hrest (Nat.cast_nonneg _))
  unfold layoutPageDouble
  simp only [hg, hstretch, hmode, Bool.false_eq_true, or_self, if_false]
  cases systems with
  | nil => exact absurd rfl hg
  | cons s rest =>
      simp only []
      intro x hx
      unfold systemMoves at hx
      rw [List.zipWith_cons_cons, List.mem_cons] at hx
      rcases hx with rfl | hx
      · simp
      · exact layoutPageLoopDouble_moves_nonneg _ _ hs rest s 0 (le_refl _)
          (fun t ht => hpos t (List.mem_cons_of_mem _ ht)) x hx

/-! ## Arithmetic of double precision: numbers that agree up to rounding -/

theorem roundingFactor_gt_one : 1 < roundingFactor := by
  unfold roundingFactor
  norm_num

theorem roundingFactor_pow_ge_one (k : Nat) : 1 ≤ roundingFactor ^ k :=
  one_le_pow₀ roundingFactor_gt_one.le

theorem roundingFactor_pow_mono {k j : Nat} (h : k ≤ j) :
    roundingFactor ^ k ≤ roundingFactor ^ j :=
  pow_le_pow_right₀ roundingFactor_gt_one.le h

/-- A number that is not negative and its value of double precision are each at most the
other times `roundingFactor`. -/
theorem roundDouble_factor (x : ℚ) (hx : 0 ≤ x) :
    x ≤ roundDouble x * roundingFactor ∧ roundDouble x ≤ x * roundingFactor := by
  have h := roundDouble_error x
  rw [abs_of_nonneg hx, abs_le] at h
  obtain ⟨h1, h2⟩ := h
  unfold roundingFactor
  constructor
  · rw [mul_div_assoc', le_div_iff₀ (by norm_num)]
    have : x / 2 ^ 53 * 2 ^ 53 = x := by field_simp
    nlinarith
  · rw [mul_div_assoc', le_div_iff₀ (by norm_num)]
    have : x / 2 ^ 53 * 2 ^ 53 = x := by field_simp
    nlinarith

theorem roundedFrom_refl (a : ℚ) (h : 0 ≤ a) : RoundedFrom 0 a a :=
  ⟨h, h, by simp, by simp⟩

theorem roundedFrom_mono {k j : Nat} {a b : ℚ} (h : RoundedFrom k a b) (hk : k ≤ j) :
    RoundedFrom j a b := by
  obtain ⟨h1, h2, h3, h4⟩ := h
  have hp := roundingFactor_pow_mono hk
  exact ⟨h1, h2, le_trans h3 (mul_le_mul_of_nonneg_left hp h1),
    le_trans h4 (mul_le_mul_of_nonneg_left hp h2)⟩

/-- Rounding to double precision adds one rounding. -/
theorem roundedFrom_round {k : Nat} {a b : ℚ} (h : RoundedFrom k a b) :
    RoundedFrom (k + 1) (roundDouble a) b := by
  obtain ⟨h1, h2, h3, h4⟩ := h
  obtain ⟨r1, r2⟩ := roundDouble_factor a h1
  have hp : 0 ≤ roundingFactor ^ k := le_trans zero_le_one (roundingFactor_pow_ge_one k)
  have hr : 0 ≤ roundingFactor := le_trans zero_le_one roundingFactor_gt_one.le
  refine ⟨roundDouble_nonneg a h1, h2, ?_, ?_⟩
  · calc b ≤ a * roundingFactor ^ k := h3
      _ ≤ roundDouble a * roundingFactor * roundingFactor ^ k :=
          mul_le_mul_of_nonneg_right r1 hp
      _ = roundDouble a * roundingFactor ^ (k + 1) := by ring
  · calc roundDouble a ≤ a * roundingFactor := r2
      _ ≤ b * roundingFactor ^ k * roundingFactor := mul_le_mul_of_nonneg_right h4 hr
      _ = b * roundingFactor ^ (k + 1) := by ring

theorem roundedFrom_add {k : Nat} {a b c d : ℚ} (h1 : RoundedFrom k a b)
    (h2 : RoundedFrom k c d) : RoundedFrom k (a + c) (b + d) := by
  obtain ⟨a1, a2, a3, a4⟩ := h1
  obtain ⟨c1, c2, c3, c4⟩ := h2
  exact ⟨add_nonneg a1 c1, add_nonneg a2 c2, by rw [add_mul]; linarith,
    by rw [add_mul]; linarith⟩

theorem roundedFrom_mul {k j : Nat} {a b c d : ℚ} (h1 : RoundedFrom k a b)
    (h2 : RoundedFrom j c d) : RoundedFrom (k + j) (a * c) (b * d) := by
  obtain ⟨a1, a2, a3, a4⟩ := h1
  obtain ⟨c1, c2, c3, c4⟩ := h2
  have hk : 0 ≤ roundingFactor ^ k := le_trans zero_le_one (roundingFactor_pow_ge_one k)
  have hj : 0 ≤ roundingFactor ^ j := le_trans zero_le_one (roundingFactor_pow_ge_one j)
  refine ⟨mul_nonneg a1 c1, mul_nonneg a2 c2, ?_, ?_⟩
  · calc b * d ≤ (a * roundingFactor ^ k) * (c * roundingFactor ^ j) :=
          mul_le_mul a3 c3 c2 (mul_nonneg a1 hk)
      _ = a * c * roundingFactor ^ (k + j) := by ring
  · calc a * c ≤ (b * roundingFactor ^ k) * (d * roundingFactor ^ j) :=
          mul_le_mul a4 c4 c1 (mul_nonneg a2 hk)
      _ = b * d * roundingFactor ^ (k + j) := by ring

theorem roundedFrom_div {k j : Nat} {a b c d : ℚ} (h1 : RoundedFrom k a b)
    (h2 : RoundedFrom j c d) (hc : 0 < c) (hd : 0 < d) :
    RoundedFrom (k + j) (a / c) (b / d) := by
  obtain ⟨a1, a2, a3, a4⟩ := h1
  obtain ⟨_, _, c3, c4⟩ := h2
  have hk : 0 ≤ roundingFactor ^ k := le_trans zero_le_one (roundingFactor_pow_ge_one k)
  have hj : 0 ≤ roundingFactor ^ j := le_trans zero_le_one (roundingFactor_pow_ge_one j)
  refine ⟨div_nonneg a1 hc.le, div_nonneg a2 hd.le, ?_, ?_⟩
  · rw [div_le_iff₀ hd]
    calc b ≤ a * roundingFactor ^ k := a3
      _ = a / c * roundingFactor ^ k * c := by field_simp
      _ ≤ a / c * roundingFactor ^ k * (d * roundingFactor ^ j) :=
          mul_le_mul_of_nonneg_left c4 (mul_nonneg (div_nonneg a1 hc.le) hk)
      _ = a / c * roundingFactor ^ (k + j) * d := by ring
  · rw [div_le_iff₀ hc]
    calc a ≤ b * roundingFactor ^ k := a4
      _ = b / d * roundingFactor ^ k * d := by field_simp
      _ ≤ b / d * roundingFactor ^ k * (c * roundingFactor ^ j) :=
          mul_le_mul_of_nonneg_left c3 (mul_nonneg (div_nonneg a2 hd.le) hk)
      _ = b / d * roundingFactor ^ (k + j) * c := by ring

theorem roundedFrom_addDouble {k : Nat} {a b c d : ℚ} (h1 : RoundedFrom k a b)
    (h2 : RoundedFrom k c d) : RoundedFrom (k + 1) (addDouble a c) (b + d) := by
  unfold addDouble
  exact roundedFrom_round (roundedFrom_add h1 h2)

theorem roundedFrom_mulDouble {k : Nat} {a b c d : ℚ} (h1 : RoundedFrom k a b)
    (h2 : RoundedFrom 0 c d) : RoundedFrom (k + 1) (mulDouble a c) (b * d) := by
  unfold mulDouble
  have h := roundedFrom_mul h1 h2
  rw [Nat.add_zero] at h
  exact roundedFrom_round h

/-- A power of the rounding factor is close to 1: up to `2 ^ 51` roundings change a number
by at most the fraction `k / 2 ^ 51`. -/
theorem roundingFactor_pow_le (k : Nat) (hk : k ≤ 2 ^ 51) :
    roundingFactor ^ k ≤ 1 + (k : ℚ) / 2 ^ 51 := by
  have hv : roundingFactor = 1 + 1 / (2 ^ 53 - 1) := by
    unfold roundingFactor
    norm_num
  have key : ∀ j : Nat, 2 * (j : ℚ) * (1 / (2 ^ 53 - 1)) ≤ 1 →
      roundingFactor ^ j ≤ 1 + 2 * (j : ℚ) * (1 / (2 ^ 53 - 1)) := by
    intro j
    induction j with
    | zero => intro _; simp
    | succ j ih =>
        intro hj
        have hv0 : (0 : ℚ) < 1 / (2 ^ 53 - 1) := by norm_num
        have hj0 : (0 : ℚ) ≤ (j : ℚ) := Nat.cast_nonneg j
        push_cast at hj ⊢
        have hj' : 2 * (j : ℚ) * (1 / (2 ^ 53 - 1)) ≤ 1 := by nlinarith
        have h1 := ih hj'
        have hρ : (0 : ℚ) ≤ roundingFactor := by rw [hv]; norm_num
        rw [pow_succ]
        calc roundingFactor ^ j * roundingFactor
            ≤ (1 + 2 * (j : ℚ) * (1 / (2 ^ 53 - 1))) * roundingFactor :=
              mul_le_mul_of_nonneg_right h1 hρ
          _ = (1 + 2 * (j : ℚ) * (1 / (2 ^ 53 - 1))) * (1 + 1 / (2 ^ 53 - 1)) := by rw [hv]
          _ ≤ 1 + 2 * ((j : ℚ) + 1) * (1 / (2 ^ 53 - 1)) := by nlinarith
  have hkq : (k : ℚ) ≤ 2 ^ 51 := by exact_mod_cast hk
  have hk0 : (0 : ℚ) ≤ (k : ℚ) := Nat.cast_nonneg k
  have h2 : 2 * (k : ℚ) * (1 / (2 ^ 53 - 1)) ≤ (k : ℚ) / 2 ^ 51 := by
    rw [div_eq_mul_inv]
    have : (2 : ℚ) * (1 / (2 ^ 53 - 1)) ≤ (2 ^ 51)⁻¹ := by norm_num
    nlinarith
  have h3 : (k : ℚ) / 2 ^ 51 ≤ 1 := by
    rw [div_le_one (by norm_num)]
    exact hkq
  exact le_trans (key k (le_trans h2 h3)) (by linarith)

theorem roundedFrom_symm {k : Nat} {a b : ℚ} (h : RoundedFrom k a b) : RoundedFrom k b a :=
  ⟨h.2.1, h.1, h.2.2.2, h.2.2.1⟩

theorem roundedFrom_trans {k j : Nat} {a b c : ℚ} (h1 : RoundedFrom k a b)
    (h2 : RoundedFrom j b c) : RoundedFrom (k + j) a c := by
  obtain ⟨a1, a2, a3, a4⟩ := h1
  obtain ⟨b1, b2, b3, b4⟩ := h2
  have hk : 0 ≤ roundingFactor ^ k := le_trans zero_le_one (roundingFactor_pow_ge_one k)
  have hj : 0 ≤ roundingFactor ^ j := le_trans zero_le_one (roundingFactor_pow_ge_one j)
  refine ⟨a1, b2, ?_, ?_⟩
  · calc c ≤ b * roundingFactor ^ j := b3
      _ ≤ a * roundingFactor ^ k * roundingFactor ^ j := mul_le_mul_of_nonneg_right a3 hj
      _ = a * roundingFactor ^ (k + j) := by ring
  · calc a ≤ b * roundingFactor ^ k := a4
      _ ≤ c * roundingFactor ^ j * roundingFactor ^ k := mul_le_mul_of_nonneg_right b4 hk
      _ = c * roundingFactor ^ (k + j) := by ring

/-- Two numbers that agree up to `k` roundings, `k` at most `2 ^ 51`, differ by at most the
fraction `k / 2 ^ 51` of the larger one. -/
theorem roundedFrom_abs {k : Nat} {a b : ℚ} (h : RoundedFrom k a b) (hk : k ≤ 2 ^ 51) :
    |a - b| ≤ (k : ℚ) / 2 ^ 51 * max a b := by
  obtain ⟨a1, a2, a3, a4⟩ := h
  have hp := roundingFactor_pow_le k hk
  have hf : (0 : ℚ) ≤ (k : ℚ) / 2 ^ 51 := by positivity
  have hmax1 : a ≤ max a b := le_max_left _ _
  have hmax2 : b ≤ max a b := le_max_right _ _
  rw [abs_le]
  constructor
  · have : b ≤ a * (1 + (k : ℚ) / 2 ^ 51) :=
      le_trans a3 (mul_le_mul_of_nonneg_left hp a1)
    nlinarith [mul_le_mul_of_nonneg_left hmax1 hf]
  · have : a ≤ b * (1 + (k : ℚ) / 2 ^ 51) :=
      le_trans a4 (mul_le_mul_of_nonneg_left hp a2)
    nlinarith [mul_le_mul_of_nonneg_left hmax2 hf]

theorem roundedFrom_subDouble (a b : ℚ) (h : b ≤ a) :
    RoundedFrom 1 (subDouble a b) (a - b) := by
  unfold subDouble
  exact roundedFrom_round (roundedFrom_refl _ (by linarith))

theorem roundDouble_pos_of_pos (x : ℚ) (h : 0 < roundDouble x) : 0 < x := by
  by_contra hneg
  have h1 := roundDouble_nonneg (-x) (by linarith)
  rw [roundDouble_neg] at h1
  linarith

/-- A rounded sum over a list is the exact sum up to one rounding per element more than
the summands have. -/
theorem foldl_addDouble_rounded {α : Type} (wD wE : α → ℚ) (K : Nat) (l : List α)
    (hw : ∀ k ∈ l, RoundedFrom K (wD k) (wE k)) :
    ∀ (j : Nat) (acc accE : ℚ), RoundedFrom (K + j) acc accE →
      RoundedFrom (K + j + l.length) (l.foldl (fun a k => addDouble a (wD k)) acc)
        (accE + (l.map wE).sum) := by
  induction l with
  | nil =>
      intro j acc accE h
      simpa using h
  | cons c rest ih =>
      intro j acc accE h
      rw [List.foldl_cons, List.map_cons, List.sum_cons]
      have e : K + j + (c :: rest).length = K + (j + 1) + rest.length := by
        simp only [List.length_cons]; omega
      have e2 : accE + (wE c + (rest.map wE).sum) = (accE + wE c) + (rest.map wE).sum := by
        ring
      rw [e, e2]
      apply ih (fun x hx => hw x (List.mem_cons_of_mem _ hx)) (j + 1)
      exact roundedFrom_addDouble h
        (roundedFrom_mono (hw c (List.mem_cons_self _ _)) (Nat.le_add_right K j))


/-! ## Spring model -/

theorem springWidth_eq_max (force : ℚ) (s : Spring) :
    springWidth force s = max (force * s.stretch) s.fix := by
  unfold springWidth
  by_cases h : force * s.stretch < s.fix
  · simp [h, max_eq_right (le_of_lt h)]
  · simp [h, max_eq_left (not_lt.mp h)]

theorem springWidth_of_key_le (force : ℚ) (e : ℚ × Spring) (hs : 0 < e.2.stretch)
    (hk : e.1 = e.2.fix / e.2.stretch) (h : e.1 ≤ force) :
    springWidth force e.2 = force * e.2.stretch := by
  have hfix : e.2.fix = e.1 * e.2.stretch := by
    rw [hk]; field_simp
  have : e.2.fix ≤ force * e.2.stretch := by
    rw [hfix]; exact mul_le_mul_of_nonneg_right h (le_of_lt hs)
  unfold springWidth
  simp [not_lt.mpr this]

theorem springWidth_of_le_key (force : ℚ) (e : ℚ × Spring) (hs : 0 < e.2.stretch)
    (hk : e.1 = e.2.fix / e.2.stretch) (h : force ≤ e.1) :
    springWidth force e.2 = e.2.fix := by
  have hfix : e.2.fix = e.1 * e.2.stretch := by
    rw [hk]; field_simp
  have hle : force * e.2.stretch ≤ e.2.fix := by
    rw [hfix]; exact mul_le_mul_of_nonneg_right h (le_of_lt hs)
  unfold springWidth
  by_cases hlt : force * e.2.stretch < e.2.fix
  · simp [hlt]
  · simp [hlt]; exact le_antisymm hle (not_lt.mp hlt)

theorem totalSpringWidth_of_le_keys (force : ℚ) :
    ∀ (l : SpringMap), (∀ e ∈ l, 0 < e.2.stretch ∧ e.1 = e.2.fix / e.2.stretch) →
      (∀ e ∈ l, force ≤ e.1) → totalSpringWidth force l = sumFix l := by
  intro l
  induction l with
  | nil => intro _ _; rfl
  | cons e l ih =>
      intro hk hf
      have h1 := springWidth_of_le_key force e (hk e (List.mem_cons_self _ _)).1
        (hk e (List.mem_cons_self _ _)).2 (hf e (List.mem_cons_self _ _))
      have h2 := ih (fun x hx => hk x (List.mem_cons_of_mem _ hx))
        (fun x hx => hf x (List.mem_cons_of_mem _ hx))
      unfold totalSpringWidth sumFix at *
      simp only [List.map_cons, List.sum_cons, h1, h2]

/-- Invariant of the sweep of `sff2`: entered at `cur` with `c` the stretch sum of the
springs up to `cur` and `xMin` the sum of the minimum widths from `cur` on, the force
returned is at least the key of `cur`, and the springs before `cur` (all stretched) and
the springs from `cur` on take the width `width` together. -/
theorem sff2Loop_spec (width : ℚ) :
    ∀ (rest : SpringMap) (cur : ℚ × Spring) (xMin c : ℚ),
      (∀ e ∈ cur :: rest, 0 < e.2.stretch ∧ e.1 = e.2.fix / e.2.stretch) →
      (cur :: rest).Pairwise (fun a b => a.1 ≤ b.1) →
      cur.2.stretch ≤ c →
      xMin = sumFix (cur :: rest) →
      cur.1 * (c - cur.2.stretch) < width - xMin →
      cur.1 ≤ sff2Loop width xMin c cur.2 rest ∧
        sff2Loop width xMin c cur.2 rest * (c - cur.2.stretch)
          + totalSpringWidth (sff2Loop width xMin c cur.2 rest) (cur :: rest) = width := by
  intro rest
  induction rest with
  | nil =>
      intro cur xMin c hk _ hc hx hw
      obtain ⟨hs, hkey⟩ := hk cur (List.mem_cons_self _ _)
      have hcpos : 0 < c := lt_of_lt_of_le hs hc
      have hfix : cur.2.fix = cur.1 * cur.2.stretch := by rw [hkey]; field_simp
      have hx0 : xMin = cur.2.fix := by simp [hx, sumFix]
      have hf : sff2Loop width xMin c cur.2 [] = width / c := by
        simp [sff2Loop, hx0]
      rw [hf]
      have hle : cur.1 ≤ width / c := by
        rw [le_div_iff₀ hcpos]
        rw [hx0] at hw
        nlinarith
      refine ⟨hle, ?_⟩
      have h1 := springWidth_of_key_le (width / c) cur hs hkey hle
      simp only [totalSpringWidth, List.map_cons, List.map_nil, List.sum_cons, List.sum_nil, h1]
      field_simp
      ring
  | cons nxt rest ih =>
      intro cur xMin c hk hp hc hx hw
      obtain ⟨hs, hkey⟩ := hk cur (List.mem_cons_self _ _)
      have hcpos : 0 < c := lt_of_lt_of_le hs hc
      have hfix : cur.2.fix = cur.1 * cur.2.stretch := by rw [hkey]; field_simp
      have hk2 : ∀ e ∈ nxt :: rest, 0 < e.2.stretch ∧ e.1 = e.2.fix / e.2.stretch :=
        fun e he => hk e (List.mem_cons_of_mem _ he)
      have hp2 : (nxt :: rest).Pairwise (fun a b => a.1 ≤ b.1) := (List.pairwise_cons.mp hp).2
      have hcn : cur.1 ≤ nxt.1 := (List.pairwise_cons.mp hp).1 nxt (List.mem_cons_self _ _)
      have hx2 : xMin - cur.2.fix = sumFix (nxt :: rest) := by
        rw [hx]; simp [sumFix]
      have hflt : cur.1 < (width - (xMin - cur.2.fix)) / c := by
        rw [lt_div_iff₀ hcpos]
        nlinarith
      by_cases hbr : (width - (xMin - cur.2.fix)) / c ≤ nxt.1
      · have hf : sff2Loop width xMin c cur.2 (nxt :: rest)
            = (width - (xMin - cur.2.fix)) / c := by
          simp [sff2Loop, hbr]
        rw [hf]
        refine ⟨le_of_lt hflt, ?_⟩
        have h1 := springWidth_of_key_le _ cur hs hkey (le_of_lt hflt)
        have h2 := totalSpringWidth_of_le_keys ((width - (xMin - cur.2.fix)) / c) (nxt :: rest) hk2
          (fun e he => by
            rcases List.mem_cons.mp he with h | h
            · rw [h]; exact hbr
            · exact le_trans hbr ((List.pairwise_cons.mp hp2).1 e h))
        have hsplit : totalSpringWidth ((width - (xMin - cur.2.fix)) / c) (cur :: nxt :: rest)
            = springWidth ((width - (xMin - cur.2.fix)) / c) cur.2
              + totalSpringWidth ((width - (xMin - cur.2.fix)) / c) (nxt :: rest) := by
          simp [totalSpringWidth]
        rw [hsplit, h1, h2, ← hx2]
        field_simp
        ring
      · have hf : sff2Loop width xMin c cur.2 (nxt :: rest)
            = sff2Loop width (xMin - cur.2.fix) (c + nxt.2.stretch) nxt.2 rest := by
          simp [sff2Loop, hbr]
        rw [hf]
        have hsn := (hk2 nxt (List.mem_cons_self _ _)).1
        have hw2 : nxt.1 * (c + nxt.2.stretch - nxt.2.stretch)
            < width - (xMin - cur.2.fix) := by
          have := not_le.mp hbr
          rw [lt_div_iff₀ hcpos] at this
          linarith
        obtain ⟨ih1, ih2⟩ := ih nxt (xMin - cur.2.fix) (c + nxt.2.stretch) hk2 hp2
          (by linarith) hx2 hw2
        refine ⟨le_trans hcn ih1, ?_⟩
        have h1 := springWidth_of_key_le _ cur hs hkey (le_trans hcn ih1)
        have hsplit : ∀ f : ℚ, totalSpringWidth f (cur :: nxt :: rest)
            = springWidth f cur.2 + totalSpringWidth f (nxt :: rest) := by
          intro f; simp [totalSpringWidth]
        rw [hsplit, h1]
        linear_combination ih2

theorem SpringMap.add_perm (k : ℚ) (s : Spring) :
    ∀ m : SpringMap, List.Perm (SpringMap.add k s m) ((k, s) :: m) := by
  intro m
  induction m with
  | nil => exact List.Perm.refl _
  | cons e rest ih =>
      unfold SpringMap.add
      by_cases h : k < e.1
      · simp [h]
      · simp only [h, if_false]
        exact (List.Perm.cons e ih).trans (List.Perm.swap _ _ _)

theorem SpringMap.add_sorted (k : ℚ) (s : Spring) :
    ∀ m : SpringMap, m.Pairwise (fun a b => a.1 ≤ b.1) →
      (SpringMap.add k s m).Pairwise (fun a b => a.1 ≤ b.1) := by
  intro m
  induction m with
  | nil => intro _; simp [SpringMap.add]
  | cons e rest ih =>
      intro hp
      unfold SpringMap.add
      have hp1 := (List.pairwise_cons.mp hp).1
      have hp2 := (List.pairwise_cons.mp hp).2
      by_cases h : k < e.1
      · simp only [h, if_true]
        refine List.pairwise_cons.mpr ⟨?_, hp⟩
        intro x hx
        rcases List.mem_cons.mp hx with hx | hx
        · rw [hx]; exact le_of_lt h
        · exact le_trans (le_of_lt h) (hp1 x hx)
      · simp only [h, if_false]
        refine List.pairwise_cons.mpr ⟨?_, ih hp2⟩
        intro x hx
        rcases List.mem_cons.mp ((SpringMap.add_perm k s rest).mem_iff.mp hx) with hx | hx
        · rw [hx]; exact not_lt.mp h
        · exact hp1 x hx

/-- The entries `respace` inserts for the gaps `gs`, the first of them with index `i`. -/
theorem respaceSprings_perm (str : Int → Int → ℚ) (minTick : Int) :
    ∀ (gs : List (ℚ × Int)) (i : Nat) (springs : SpringMap),
      List.Perm (respaceSprings str minTick gs i springs)
        ((gs.enumFrom i).map (fun p => (p.2.1 / str p.2.2 minTick,
            (⟨p.1, str p.2.2 minTick, p.2.1⟩ : Spring))) ++ springs) := by
  intro gs
  induction gs with
  | nil => intro i springs; simp [respaceSprings]
  | cons g gs ih =>
      intro i springs
      simp only [respaceSprings, List.enumFrom_cons, List.map_cons, List.cons_append]
      refine (ih (i + 1) _).trans ?_
      refine (List.Perm.append_left _ (SpringMap.add_perm _ _ springs)).trans ?_
      exact List.perm_middle

theorem respaceSprings_sorted (str : Int → Int → ℚ) (minTick : Int) :
    ∀ (gs : List (ℚ × Int)) (i : Nat) (springs : SpringMap),
      springs.Pairwise (fun a b => a.1 ≤ b.1) →
      (respaceSprings str minTick gs i springs).Pairwise (fun a b => a.1 ≤ b.1) := by
  intro gs
  induction gs with
  | nil => intro i springs h; simpa [respaceSprings] using h
  | cons g gs ih =>
      intro i springs h
      simp only [respaceSprings]
      exact ih _ _ (SpringMap.add_sorted _ _ _ h)

theorem respaceAssign_length (force : ℚ) :
    ∀ (springs : SpringMap) (w : List ℚ), (respaceAssign force springs w).length = w.length := by
  intro springs
  induction springs with
  | nil => intro w; rfl
  | cons e rest ih =>
      intro w
      simp only [respaceAssign, List.foldl_cons]
      have := ih (w.set e.2.seg (springWidth force e.2))
      simp only [respaceAssign] at this
      rw [this, List.length_set]

theorem respaceAssign_get_other (force : ℚ) (j : Nat) :
    ∀ (springs : SpringMap) (w : List ℚ), (∀ e ∈ springs, e.2.seg ≠ j) →
      (respaceAssign force springs w)[j]? = w[j]? := by
  intro springs
  induction springs with
  | nil => intro w _; rfl
  | cons e rest ih =>
      intro w h
      simp only [respaceAssign, List.foldl_cons]
      have := ih (w.set e.2.seg (springWidth force e.2))
        (fun x hx => h x (List.mem_cons_of_mem _ hx))
      simp only [respaceAssign] at this
      rw [this, List.getElem?_set_ne (h e (List.mem_cons_self _ _))]

theorem respaceAssign_get_mem (force : ℚ) :
    ∀ (springs : SpringMap) (w : List ℚ), (springs.map fun e => e.2.seg).Nodup →
      ∀ e ∈ springs, e.2.seg < w.length →
        (respaceAssign force springs w)[e.2.seg]? = some (springWidth force e.2) := by
  intro springs
  induction springs with
  | nil => intro w _ e he; cases he
  | cons a rest ih =>
      intro w hnd e he hlt
      simp only [List.map_cons, List.nodup_cons] at hnd
      simp only [respaceAssign, List.foldl_cons]
      rcases List.mem_cons.mp he with h | h
      · subst h
        have hother := respaceAssign_get_other force e.2.seg rest
          (w.set e.2.seg (springWidth force e.2))
          (fun x hx hseg => hnd.1 (List.mem_map.mpr ⟨x, hx, hseg⟩))
        simp only [respaceAssign] at hother
        rw [hother, List.getElem?_set_self hlt]
      · have := ih (w.set a.2.seg (springWidth force a.2)) hnd.2 e h
          (by rw [List.length_set]; exact hlt)
        simpa only [respaceAssign] using this

theorem totalSpringWidth_perm (force : ℚ) {l1 l2 : SpringMap} (h : List.Perm l1 l2) :
    totalSpringWidth force l1 = totalSpringWidth force l2 :=
  (h.map _).sum_eq

theorem sumFix_perm {l1 l2 : SpringMap} (h : List.Perm l1 l2) : sumFix l1 = sumFix l2 :=
  (h.map _).sum_eq

/-- Conservation of width for a sorted spring map: `sff2` returns a force under which
the springs take exactly the target width. -/
theorem sff2_total (springs : SpringMap) (width : ℚ) (hne : springs ≠ [])
    (hk : ∀ e ∈ springs, 0 < e.2.stretch ∧ e.1 = e.2.fix / e.2.stretch)
    (hsorted : springs.Pairwise (fun a b => a.1 ≤ b.1))
    (hwidth : sumFix springs < width) :
    ∃ force, sff2 width (sumFix springs) springs = some force ∧
      totalSpringWidth force springs = width := by
  cases springs with
  | nil => exact absurd rfl hne
  | cons i rest =>
      have hs := (hk i (List.mem_cons_self _ _)).1
      refine ⟨sff2Loop width (sumFix (i :: rest)) i.2.stretch i.2 rest, ?_, ?_⟩
      · simp [sff2, not_le.mpr hwidth, ne_of_gt hs]
      · have := sff2Loop_spec width rest i (sumFix (i :: rest)) i.2.stretch hk hsorted
          (le_refl _) rfl (by simpa using hwidth)
        simpa using this.2

theorem gapsOf_respacePositions :
    ∀ (ws : List ℚ) (x : ℚ), ws ≠ [] →
      gapsOf (x :: respacePositions x ws ++ [x + ws.sum]) = ws := by
  intro ws
  induction ws with
  | nil => intro x h; exact absurd rfl h
  | cons w rest ih =>
      intro x _
      cases rest with
      | nil => simp [respacePositions, gapsOf]
      | cons w2 ws =>
          have h1 := ih (x + w) (by simp)
          have h2 : gapsOf (x :: respacePositions x (w :: w2 :: ws) ++ [x + (w :: w2 :: ws).sum])
              = (x + w - x) :: gapsOf ((x + w) :: respacePositions (x + w) (w2 :: ws)
                  ++ [x + w + (w2 :: ws).sum]) := by
            simp [respacePositions, gapsOf, add_assoc]
          rw [h2, h1]
          simp

/-- The array `width` computed by `respace`: every gap gets `max(force * stretch, fix)`
for the force of `sff2`, and the gaps sum to `x2 - x1`. -/
theorem respaceWidths_spec (str : Int → Int → ℚ) (r : RespaceInput) (hgaps : r.gaps ≠ [])
    (hstr : ∀ g ∈ r.gaps, 0 < str g.2 (respaceMinTick r))
    (hx : respaceMinimum r < r.x2 - r.x1) :
    ∃ force, sff2 (r.x2 - r.x1) (respaceMinimum r)
        (respaceSprings str (respaceMinTick r) r.gaps 0 []) = some force ∧
      respaceWidths str r
        = some (r.gaps.map fun g => max (force * str g.2 (respaceMinTick r)) g.1) ∧
      (r.gaps.map fun g => max (force * str g.2 (respaceMinTick r)) g.1).sum = r.x2 - r.x1 := by
  set mt := respaceMinTick r with hmt
  set springs := respaceSprings str mt r.gaps 0 [] with hsp
  set f : ℕ × ℚ × ℤ → ℚ × Spring :=
    fun p => (p.2.1 / str p.2.2 mt, (⟨p.1, str p.2.2 mt, p.2.1⟩ : Spring)) with hf
  have hperm : List.Perm springs ((r.gaps.enumFrom 0).map f) := by
    have := respaceSprings_perm str mt r.gaps 0 []
    simpa using this
  have hk : ∀ e ∈ springs, 0 < e.2.stretch ∧ e.1 = e.2.fix / e.2.stretch := by
    intro e he
    obtain ⟨p, hp, rfl⟩ := List.mem_map.mp (hperm.mem_iff.mp he)
    have hmem : p.2 ∈ r.gaps := by
      have := List.mem_enumFrom (x := p.2) (i := p.1) hp
      rw [this.2.2]
      exact List.getElem_mem _
    exact ⟨hstr p.2 hmem, rfl⟩
  have hsorted : springs.Pairwise (fun a b => a.1 ≤ b.1) :=
    respaceSprings_sorted str mt r.gaps 0 [] List.Pairwise.nil
  have hfixE : ((r.gaps.enumFrom 0).map f).map (fun e => e.2.fix) = r.gaps.map (fun g => g.1) := by
    rw [List.map_map]
    have : ((fun e : ℚ × Spring => e.2.fix) ∘ f) = (fun g : ℚ × ℤ => g.1) ∘ Prod.snd := by
      funext p; rfl
    rw [this, ← List.map_map, List.enumFrom_map_snd]
  have hsum : sumFix springs = respaceMinimum r := by
    rw [sumFix_perm hperm]
    unfold sumFix respaceMinimum
    rw [hfixE]
  have hne : springs ≠ [] := by
    intro h
    rw [h] at hperm
    have := hperm.length_eq
    simp at this
    exact hgaps (List.length_eq_zero.mp this.symm)
  obtain ⟨force, hsff, htot⟩ := sff2_total springs (r.x2 - r.x1) hne hk hsorted
    (by rw [hsum]; exact hx)
  rw [hsum] at hsff
  have hnd : (springs.map fun e => e.2.seg).Nodup := by
    have h1 : List.Perm (springs.map fun e => e.2.seg)
        (((r.gaps.enumFrom 0).map f).map fun e => e.2.seg) := hperm.map _
    rw [h1.nodup_iff, List.map_map]
    have : ((fun e : ℚ × Spring => e.2.seg) ∘ f) = Prod.fst := by
      funext p; rfl
    rw [this, List.enumFrom_map_fst]
    exact List.nodup_range' _ _
  have hws : respaceAssign force springs (r.gaps.map fun g => g.1)
      = r.gaps.map fun g => max (force * str g.2 mt) g.1 := by
    apply List.ext_getElem?
    intro n
    by_cases hn : n < r.gaps.length
    · have hmemE : f (n, r.gaps[n]) ∈ (r.gaps.enumFrom 0).map f := by
        refine List.mem_map_of_mem f ?_
        rw [List.mk_mem_enumFrom_iff_le_and_getElem?_sub]
        simp [hn]
      have hmem : f (n, r.gaps[n]) ∈ springs := hperm.mem_iff.mpr hmemE
      have := respaceAssign_get_mem force springs (r.gaps.map fun g => g.1) hnd _ hmem
        (by simpa [hf] using hn)
      simp only [hf] at this
      rw [this, List.getElem?_map, List.getElem?_eq_getElem hn]
      simp [springWidth_eq_max]
    · have hn2 := not_lt.mp hn
      rw [List.getElem?_eq_none (by rw [respaceAssign_length]; simpa using hn2),
        List.getElem?_eq_none (by simpa using hn2)]
  refine ⟨force, hsff, ?_, ?_⟩
  · unfold respaceWidths
    simp only [← hmt, ← hsp, hsff, hws]
  · rw [← htot, totalSpringWidth_perm force hperm]
    unfold totalSpringWidth
    rw [List.map_map]
    have : ((fun e : ℚ × Spring => springWidth force e.2) ∘ f)
        = (fun g : ℚ × ℤ => max (force * str g.2 mt) g.1) ∘ Prod.snd := by
      funext p
      simp [hf, springWidth_eq_max]
    rw [this, ← List.map_map, List.enumFrom_map_snd]

/-- C1: conservation of width in the spring model. For every non-empty spring map with
stretch > 0 and fix >= 0 whose keys are fix/stretch in ascending order and every target
width above the sum of the fix values, `sff2` returns a force under which the widths
`max(force * stretch, fix)` of all springs sum to exactly the target width. Hence in
`respace` (gaps with minimum distance >= 0 and stretch > 0, `x2 - x1` above the sum of
the minimum distances) the array `width` holds `max(force * stretch, fix)` for every gap,
sums to `x2 - x1`, and the distances between the consecutive positions
`x1, x1 + width[0], ..., x2` are exactly these widths. -/
theorem sff2_conservation_of_width (springs : SpringMap) (width : ℚ)
    (hne : springs ≠ [])
    (hpos : ∀ e ∈ springs, 0 < e.2.stretch ∧ 0 ≤ e.2.fix)
    (hkey : ∀ e ∈ springs, e.1 = e.2.fix / e.2.stretch)
    (hsorted : springs.Pairwise (fun a b => a.1 ≤ b.1))
    (hwidth : sumFix springs < width)
    (str : Int → Int → ℚ) (r : RespaceInput)
    (hgaps : r.gaps ≠ [])
    (hstr : ∀ g ∈ r.gaps, 0 < str g.2 (respaceMinTick r) ∧ 0 ≤ g.1)
    (hx : respaceMinimum r < r.x2 - r.x1) :
    (∃ force, sff2 width (sumFix springs) springs = some force ∧
      (springs.map fun e => max (force * e.2.stretch) e.2.fix).sum = width) ∧
    (∃ force ws,
      sff2 (r.x2 - r.x1) (respaceMinimum r)
        (respaceSprings str (respaceMinTick r) r.gaps 0 []) = some force ∧
      respaceWidths str r = some ws ∧
      ws = (r.gaps.map fun g => max (force * str g.2 (respaceMinTick r)) g.1) ∧
      ws.sum = r.x2 - r.x1 ∧
      gapsOf (r.x1 :: respacePositions r.x1 ws ++ [r.x2]) = ws) := by
  constructor
  · obtain ⟨force, h1, h2⟩ := sff2_total springs width hne
      (fun e he => ⟨(hpos e he).1, hkey e he⟩) hsorted hwidth
    refine ⟨force, h1, ?_⟩
    rw [← h2]
    unfold totalSpringWidth
    congr 1
    apply List.map_congr_left
    intro e _
    exact (springWidth_eq_max force e.2).symm
  · obtain ⟨force, h1, h2, h3⟩ := respaceWidths_spec str r hgaps
      (fun g hg => (hstr g hg).1) hx
    refine ⟨force, _, h1, h2, rfl, h3, ?_⟩
    have hne2 : (r.gaps.map fun g => max (force * str g.2 (respaceMinTick r)) g.1) ≠ [] := by
      simpa using hgaps
    have := gapsOf_respacePositions _ r.x1 hne2
    rw [h3] at this
    simpa using this

/-- Witness for C1: three springs with keys 1, 2, 5 and target width 20 (force 9/2), and
`respace` over three gaps from x = 0 to x = 20. -/
theorem sff2_conservation_of_width_witness :
    (∃ force, sff2 20 (sumFix [(1, ⟨0, 2, 2⟩), (2, ⟨1, 1, 2⟩), (5, ⟨2, 1, 5⟩)])
        [(1, ⟨0, 2, 2⟩), (2, ⟨1, 1, 2⟩), (5, ⟨2, 1, 5⟩)] = some force ∧
      (([(1, ⟨0, 2, 2⟩), (2, ⟨1, 1, 2⟩), (5, ⟨2, 1, 5⟩)] : SpringMap).map
        fun e => max (force * e.2.stretch) e.2.fix).sum = 20) ∧
    (∃ force ws,
      sff2 ((⟨0, 20, [(5, 480), (2, 480), (2, 960)]⟩ : RespaceInput).x2
          - (⟨0, 20, [(5, 480), (2, 480), (2, 960)]⟩ : RespaceInput).x1)
        (respaceMinimum ⟨0, 20, [(5, 480), (2, 480), (2, 960)]⟩)
        (respaceSprings (fun t m => if t = m then 1 else 2)
          (respaceMinTick ⟨0, 20, [(5, 480), (2, 480), (2, 960)]⟩)
          (⟨0, 20, [(5, 480), (2, 480), (2, 960)]⟩ : RespaceInput).gaps 0 []) = some force ∧
      respaceWidths (fun t m => if t = m then 1 else 2)
        ⟨0, 20, [(5, 480), (2, 480), (2, 960)]⟩ = some ws ∧
      ws = ((⟨0, 20, [(5, 480), (2, 480), (2, 960)]⟩ : RespaceInput).gaps.map fun g =>
        max (force * (fun t m => if t = m then 1 else 2) g.2
          (respaceMinTick ⟨0, 20, [(5, 480), (2, 480), (2, 960)]⟩)) g.1) ∧
      ws.sum = (⟨0, 20, [(5, 480), (2, 480), (2, 960)]⟩ : RespaceInput).x2
          - (⟨0, 20, [(5, 480), (2, 480), (2, 960)]⟩ : RespaceInput).x1 ∧
      gapsOf ((⟨0, 20, [(5, 480), (2, 480), (2, 960)]⟩ : RespaceInput).x1
          :: respacePositions (⟨0, 20, [(5, 480), (2, 480), (2, 960)]⟩ : RespaceInput).x1 ws
          ++ [(⟨0, 20, [(5, 480), (2, 480), (2, 960)]⟩ : RespaceInput).x2]) = ws) :=
  sff2_conservation_of_width [(1, ⟨0, 2, 2⟩), (2, ⟨1, 1, 2⟩), (5, ⟨2, 1, 5⟩)] 20
    (by simp)
    (by intro e he; simp at he; rcases he with h | h | h <;> subst h <;> norm_num)
    (by intro e he; simp at he; rcases he with h | h | h <;> subst h <;> norm_num)
    (by simp; norm_num)
    (by norm_num [sumFix])
    (fun t m => if t = m then 1 else 2) ⟨0, 20, [(5, 480), (2, 480), (2, 960)]⟩
    (by simp)
    (by intro g hg; simp at hg; rcases hg with h | h | h <;> subst h <;> simp [respaceMinTick])
    (by norm_num [respaceMinimum])

/-! ## System width closure -/

theorem systemMinWidthWeight_foldl (measures : List MeasureBase) :
    ∀ acc : ℚ × ℚ,
      measures.foldl
        (fun acc mb =>
          match mb.type with
          | ElementType.HBOX => (acc.1 + mb.boxWidth, acc.2)
          | ElementType.MEASURE => (acc.1 + mb.width, acc.2 + (mb.ticks : ℚ) * mb.stretch)
          | _ => acc) acc
      = (acc.1 + (measures.map MeasureBase.minWidth).sum,
         acc.2 + (measures.map MeasureBase.weight).sum) := by
  induction measures with
  | nil => intro acc; simp
  | cons mb rest ih =>
      intro acc
      rw [List.foldl_cons, ih]
      cases h : mb.type <;>
        simp [MeasureBase.minWidth, MeasureBase.weight, h, add_assoc]

theorem systemMinWidthWeight_eq (leftMargin : ℚ) (measures : List MeasureBase) :
    systemMinWidthWeight leftMargin measures
      = (leftMargin + (measures.map MeasureBase.minWidth).sum,
         (measures.map MeasureBase.weight).sum) := by
  unfold systemMinWidthWeight
  rw [systemMinWidthWeight_foldl]
  simp

theorem posX_foldl (lineMode : Bool) (rest : ℚ) (measures : List MeasureBase) :
    ∀ x : ℚ, measures.foldl (fun x mb => x + stretchedWidth lineMode rest mb) x
      = x + (measures.map (stretchedWidth lineMode rest)).sum := by
  induction measures with
  | nil => intro x; simp
  | cons mb rest ih => intro x; rw [List.foldl_cons, ih]; simp [add_assoc]

theorem stretchedWidth_sum (rest : ℚ) (measures : List MeasureBase) :
    (measures.map (stretchedWidth false rest)).sum
      = (measures.map MeasureBase.minWidth).sum
        + rest * (measures.map MeasureBase.weight).sum := by
  induction measures with
  | nil => simp
  | cons mb ms ih =>
      simp only [List.map_cons, List.sum_cons, ih]
      cases h : mb.type <;>
        simp [stretchedWidth, MeasureBase.minWidth, MeasureBase.weight, h] <;> ring

theorem stretchedWidth_sum_measures (rest : ℚ) (measures : List MeasureBase)
    (hbox : ∀ mb ∈ measures, mb.type ≠ ElementType.HBOX) :
    ((measures.filter (fun mb => mb.type = ElementType.MEASURE)).map
      (stretchedWidth false rest)).sum = (measures.map (stretchedWidth false rest)).sum := by
  induction measures with
  | nil => simp
  | cons mb ms ih =>
      have ih2 := ih (fun x hx => hbox x (List.mem_cons_of_mem _ hx))
      have hmb := hbox mb (List.mem_cons_self _ _)
      cases h : mb.type <;>
        simp_all [List.filter_cons, stretchedWidth]

/-! ## System width closure in double precision -/

theorem stretch_ge_one (mb : MeasureBase) : 1 ≤ mb.stretch := by
  unfold MeasureBase.stretch
  split_ifs with h
  · exact le_refl _
  · exact not_lt.mp h

/-- The sums of the first loop in double precision are the exact sums up to one rounding
per measure base (and one more for the weight, which is a rounded product). -/
theorem systemMinWidthWeightDouble_foldl (measures : List MeasureBase)
    (hms : ∀ mb ∈ measures, 0 ≤ mb.width ∧ 0 ≤ mb.boxWidth ∧ 0 ≤ mb.ticks) :
    ∀ (k : Nat) (acc accE : ℚ × ℚ), RoundedFrom k acc.1 accE.1 →
      RoundedFrom (k + 1) acc.2 accE.2 →
      RoundedFrom (k + measures.length)
        (measures.foldl
          (fun acc mb =>
            match mb.type with
            | ElementType.HBOX => (addDouble acc.1 mb.boxWidth, acc.2)
            | ElementType.MEASURE =>
                (addDouble acc.1 mb.width, addDouble acc.2 (mulDouble (mb.ticks : ℚ) mb.stretch))
            | _ => acc) acc).1
        (measures.foldl
          (fun acc mb =>
            match mb.type with
            | ElementType.HBOX => (acc.1 + mb.boxWidth, acc.2)
            | ElementType.MEASURE => (acc.1 + mb.width, acc.2 + (mb.ticks : ℚ) * mb.stretch)
            | _ => acc) accE).1
      ∧ RoundedFrom (k + 1 + measures.length)
        (measures.foldl
          (fun acc mb =>
            match mb.type with
            | ElementType.HBOX => (addDouble acc.1 mb.boxWidth, acc.2)
            | ElementType.MEASURE =>
                (addDouble acc.1 mb.width, addDouble acc.2 (mulDouble (mb.ticks : ℚ) mb.stretch))
            | _ => acc) acc).2
        (measures.foldl
          (fun acc mb =>
            match mb.type with
            | ElementType.HBOX => (acc.1 + mb.boxWidth, acc.2)
            | ElementType.MEASURE => (acc.1 + mb.width, acc.2 + (mb.ticks : ℚ) * mb.stretch)
            | _ => acc) accE).2 := by
  induction measures with
  | nil =>
      intro k acc accE h1 h2
      exact ⟨h1, h2⟩
  | cons mb rest ih =>
      intro k acc accE h1 h2
      obtain ⟨hw, hb, ht⟩ := hms mb (List.mem_cons_self _ _)
      have hrest := fun x hx => hms x (List.mem_cons_of_mem _ hx)
      have htq : (0 : ℚ) ≤ (mb.ticks : ℚ) := by exact_mod_cast ht
      have hs : (0 : ℚ) ≤ mb.stretch := le_trans zero_le_one (stretch_ge_one mb)
      rw [List.foldl_cons, List.foldl_cons]
      have e1 : k + (mb :: rest).length = (k + 1) + rest.length := by
        simp only [List.length_cons]; omega
      have e2 : k + 1 + (mb :: rest).length = (k + 1) + 1 + rest.length := by
        simp only [List.length_cons]; omega
      rw [e1, e2]
      apply ih hrest (k + 1)
      · cases h : mb.type
        case HBOX =>
          exact roundedFrom_round (roundedFrom_add h1
            (roundedFrom_mono (roundedFrom_refl _ hb) (Nat.zero_le _)))
        case MEASURE =>
          exact roundedFrom_round (roundedFrom_add h1
            (roundedFrom_mono (roundedFrom_refl _ hw) (Nat.zero_le _)))
        all_goals exact roundedFrom_mono h1 (Nat.le_succ _)
      · cases h : mb.type
        case MEASURE =>
          exact roundedFrom_round (roundedFrom_add h2
            (roundedFrom_mono (roundedFrom_round
              (roundedFrom_mul (roundedFrom_refl _ htq) (roundedFrom_refl _ hs)))
              (Nat.le_add_left 1 k)))
        all_goals exact roundedFrom_mono h2 (Nat.le_succ _)

/-- The width handed to `stretchMeasure` in double precision is the exact one up to three
roundings more than `rest` has. -/
theorem stretchedWidthDouble_rounded (k : Nat) (r rE : ℚ) (h : RoundedFrom k r rE)
    (mb : MeasureBase) (hmb : 0 ≤ mb.width ∧ 0 ≤ mb.boxWidth ∧ 0 ≤ mb.ticks) :
    RoundedFrom (k + 3) (stretchedWidthDouble false r mb) (stretchedWidth false rE mb) := by
  obtain ⟨hw, hb, ht⟩ := hmb
  have htq : (0 : ℚ) ≤ (mb.ticks : ℚ) := by exact_mod_cast ht
  have hs : (0 : ℚ) ≤ mb.stretch := le_trans zero_le_one (stretch_ge_one mb)
  unfold stretchedWidthDouble stretchedWidth
  cases hty : mb.type
  case MEASURE =>
    have t0 : RoundedFrom 0 (mb.ticks : ℚ) (mb.ticks : ℚ) := roundedFrom_refl _ htq
    have s0 : RoundedFrom 0 mb.stretch mb.stretch := roundedFrom_refl _ hs
    have w0 : RoundedFrom (k + 2) mb.width mb.width :=
      roundedFrom_mono (roundedFrom_refl _ hw) (Nat.zero_le _)
    have q1 : RoundedFrom (k + 1) (mulDouble r (mb.ticks : ℚ)) (rE * (mb.ticks : ℚ)) :=
      roundedFrom_mulDouble h t0
    have q2 : RoundedFrom (k + 2) (mulDouble (mulDouble r (mb.ticks : ℚ)) mb.stretch)
        (rE * (mb.ticks : ℚ) * mb.stretch) :=
      roundedFrom_mulDouble q1 s0
    exact roundedFrom_addDouble w0 q2
  case HBOX => exact roundedFrom_mono (roundedFrom_refl _ hb) (Nat.zero_le _)
  all_goals exact roundedFrom_mono (roundedFrom_refl _ (le_refl 0)) (Nat.zero_le _)

/-- The final `pos.x()` in double precision is the exact sum up to one rounding per
measure base more than the widths have. -/
theorem posX_double_foldl (wD wE : MeasureBase → ℚ) (K : Nat) (measures : List MeasureBase)
    (hw : ∀ mb ∈ measures, RoundedFrom K (wD mb) (wE mb)) :
    ∀ (j : Nat) (acc accE : ℚ), RoundedFrom (K + j) acc accE →
      RoundedFrom (K + j + measures.length)
        (measures.foldl (fun x mb => addDouble x (wD mb)) acc)
        (measures.foldl (fun x mb => x + wE mb) accE) := by
  induction measures with
  | nil =>
      intro j acc accE h
      exact h
  | cons mb rest ih =>
      intro j acc accE h
      rw [List.foldl_cons, List.foldl_cons]
      have e : K + j + (mb :: rest).length = K + (j + 1) + rest.length := by
        simp only [List.length_cons]; omega
      rw [e]
      apply ih (fun x hx => hw x (List.mem_cons_of_mem _ hx)) (j + 1)
      exact roundedFrom_round (roundedFrom_add h
        (roundedFrom_mono (hw mb (List.mem_cons_self _ _)) (Nat.le_add_right K j)))

/-- System width closure in double precision: outside line mode, with horizontal stretch
enabled, for a system that is not ragged, whose left margin, widths and ticks are not
negative, whose measures have a positive total weight and fit into the system
(`minWidth ≤ systemWidth`), the final `pos.x()` differs from the system width by at most
the fraction `roundingFactor ^ (3 * n + 6) - 1` of it, where `n` is the number of measure
bases: about `(3 * n + 6) / 2 ^ 53`. -/
theorem distributeSystemWidthDouble_closure (leftMargin systemWidth : ℚ)
    (measures : List MeasureBase) (hL : 0 ≤ leftMargin)
    (hms : ∀ mb ∈ measures, 0 ≤ mb.width ∧ 0 ≤ mb.boxWidth ∧ 0 ≤ mb.ticks)
    (hweight : 0 < (systemMinWidthWeightDouble leftMargin measures).2)
    (hfit : (systemMinWidthWeightDouble leftMargin measures).1 ≤ systemWidth) :
    |(distributeSystemWidthDouble false false false leftMargin systemWidth measures).posX
        - systemWidth|
      ≤ (roundingFactor ^ (3 * measures.length + 6) - 1) * systemWidth := by
  have h00 : RoundedFrom (0 + 1) (0 : ℚ) 0 :=
    roundedFrom_mono (roundedFrom_refl 0 (le_refl 0)) (Nat.zero_le _)
  obtain ⟨hm, hT⟩ := systemMinWidthWeightDouble_foldl measures hms 0 (leftMargin, 0)
    (leftMargin, 0) (roundedFrom_refl _ hL) h00
  have eD : measures.foldl
      (fun acc mb =>
        match mb.type with
        | ElementType.HBOX => (addDouble acc.1 mb.boxWidth, acc.2)
        | ElementType.MEASURE =>
            (addDouble acc.1 mb.width, addDouble acc.2 (mulDouble (mb.ticks : ℚ) mb.stretch))
        | _ => acc) (leftMargin, 0) = systemMinWidthWeightDouble leftMargin measures := rfl
  have eE : measures.foldl
      (fun acc mb =>
        match mb.type with
        | ElementType.HBOX => (acc.1 + mb.boxWidth, acc.2)
        | ElementType.MEASURE => (acc.1 + mb.width, acc.2 + (mb.ticks : ℚ) * mb.stretch)
        | _ => acc) (leftMargin, 0) = systemMinWidthWeight leftMargin measures := rfl
  rw [eD, eE, systemMinWidthWeight_eq] at hm hT
  simp only [Nat.zero_add] at hm hT
  generalize hmw : (systemMinWidthWeightDouble leftMargin measures).1 = mw at hm hfit
  generalize htw : (systemMinWidthWeightDouble leftMargin measures).2 = tw at hT hweight
  generalize hME : leftMargin + (measures.map MeasureBase.minWidth).sum = mE at hm
  generalize hTE : (measures.map MeasureBase.weight).sum = tE at hT
  generalize hn : measures.length = n at hm hT
  -- the total weight is positive
  have hρ : ∀ k : Nat, 0 < roundingFactor ^ k := fun k =>
    lt_of_lt_of_le zero_lt_one (roundingFactor_pow_ge_one k)
  have htE : 0 < tE := by
    by_contra hneg
    have h0 : tE = 0 := le_antisymm (not_lt.mp hneg) hT.2.1
    have := hT.2.2.2
    rw [h0, zero_mul] at this
    linarith
  -- the value `rest`
  have hD : RoundedFrom 1 (subDouble systemWidth mw) (systemWidth - mw) := by
    unfold subDouble
    exact roundedFrom_round (roundedFrom_refl _ (by linarith))
  have hrest : RoundedFrom (n + 3) (divDouble (subDouble systemWidth mw) tw)
      ((systemWidth - mw) / tE) := by
    unfold divDouble
    have h := roundedFrom_round (roundedFrom_div hD hT hweight htE)
    exact roundedFrom_mono h (by omega)
  -- the widths and the final position
  have hw : ∀ mb ∈ measures, RoundedFrom (n + 6)
      (stretchedWidthDouble false (divDouble (subDouble systemWidth mw) tw) mb)
      (stretchedWidth false ((systemWidth - mw) / tE) mb) := fun mb hmb =>
    stretchedWidthDouble_rounded (n + 3) _ _ hrest mb (hms mb hmb)
  have hpos := posX_double_foldl
    (stretchedWidthDouble false (divDouble (subDouble systemWidth mw) tw))
    (stretchedWidth false ((systemWidth - mw) / tE)) (n + 6) measures hw 0 leftMargin
    leftMargin (roundedFrom_mono (roundedFrom_refl _ hL) (Nat.zero_le _))
  rw [posX_foldl, stretchedWidth_sum, hTE, hn] at hpos
  have hexact : leftMargin + ((measures.map MeasureBase.minWidth).sum
      + (systemWidth - mw) / tE * tE) = systemWidth + mE - mw := by
    rw [← hME]
    field_simp
    ring
  rw [hexact] at hpos
  have hposX : (distributeSystemWidthDouble false false false leftMargin systemWidth
      measures).posX
      = measures.foldl (fun x mb => addDouble x
          (stretchedWidthDouble false (divDouble (subDouble systemWidth mw) tw) mb))
          leftMargin := by
    simp only [distributeSystemWidthDouble, systemRestDouble, Bool.or_self,
      Bool.false_eq_true, if_false, hmw, htw]
  rw [hposX]
  generalize measures.foldl (fun x mb => addDouble x
      (stretchedWidthDouble false (divDouble (subDouble systemWidth mw) tw) mb))
      leftMargin = posX at hpos
  -- the arithmetic
  obtain ⟨p1, _, p3, p4⟩ := hpos
  obtain ⟨m1, _, m3, m4⟩ := hm
  have e3 : roundingFactor ^ (3 * n + 6)
      = roundingFactor ^ (n + 6 + 0 + n) * roundingFactor ^ n := by
    rw [← pow_add]
    congr 1
    omega
  have hP : 1 ≤ roundingFactor ^ (n + 6 + 0 + n) := roundingFactor_pow_ge_one _
  have hQ : 1 ≤ roundingFactor ^ n := roundingFactor_pow_ge_one _
  rw [e3]
  generalize roundingFactor ^ (n + 6 + 0 + n) = P at p3 p4 hP
  generalize roundingFactor ^ n = Q at m3 m4 hQ
  have hW : 0 ≤ systemWidth := le_trans m1 hfit
  have hslack : mw * (Q - 1) ≤ systemWidth * (Q - 1) :=
    mul_le_mul_of_nonneg_right hfit (by linarith)
  have hup : posX ≤ systemWidth * (P * Q) := by
    have h1 : systemWidth + mE - mw ≤ systemWidth * Q := by nlinarith
    calc posX ≤ (systemWidth + mE - mw) * P := p4
      _ ≤ systemWidth * Q * P := mul_le_mul_of_nonneg_right h1 (by linarith)
      _ = systemWidth * (P * Q) := by ring
  have hlow : systemWidth ≤ posX * (P * Q) := by
    have h1 : systemWidth ≤ (systemWidth + mE - mw) * Q := by nlinarith
    calc systemWidth ≤ (systemWidth + mE - mw) * Q := h1
      _ ≤ posX * P * Q := mul_le_mul_of_nonneg_right p3 (by linarith)
      _ = posX * (P * Q) := by ring
  have hX : 1 ≤ P * Q := by nlinarith
  generalize P * Q = X at hup hlow hX
  rw [abs_le]
  constructor
  · have hsq : 0 ≤ systemWidth * ((X - 1) * (X - 1)) :=
      mul_nonneg hW (mul_self_nonneg _)
    by_contra hcon
    rw [not_le] at hcon
    have h2 : posX * X < (2 * systemWidth - X * systemWidth) * X := by
      have : posX < 2 * systemWidth - X * systemWidth := by linarith
      exact mul_lt_mul_of_pos_right this (by linarith)
    nlinarith
  · linarith

/-- System width closure in double precision, with the bound as a fraction: for at most
`2 ^ 49` measure bases the final `pos.x()` differs from the system width by at most
`(3 * n + 6) / 2 ^ 51` of it. -/
theorem distributeSystemWidthDouble_closure_bound (leftMargin systemWidth : ℚ)
    (measures : List MeasureBase) (hL : 0 ≤ leftMargin)
    (hms : ∀ mb ∈ measures, 0 ≤ mb.width ∧ 0 ≤ mb.boxWidth ∧ 0 ≤ mb.ticks)
    (hweight : 0 < (systemMinWidthWeightDouble leftMargin measures).2)
    (hfit : (systemMinWidthWeightDouble leftMargin measures).1 ≤ systemWidth)
    (hlen : measures.length ≤ 2 ^ 49) :
    |(distributeSystemWidthDouble false false false leftMargin systemWidth measures).posX
        - systemWidth|
      ≤ ((3 * measures.length + 6 : ℕ) : ℚ) / 2 ^ 51 * systemWidth := by
  have h := distributeSystemWidthDouble_closure leftMargin systemWidth measures hL hms hweight
    hfit
  have hW : 0 ≤ systemWidth := by
    have h00 : RoundedFrom (0 + 1) (0 : ℚ) 0 :=
      roundedFrom_mono (roundedFrom_refl 0 (le_refl 0)) (Nat.zero_le _)
    have := (systemMinWidthWeightDouble_foldl measures hms 0 (leftMargin, 0)
      (leftMargin, 0) (roundedFrom_refl _ hL) h00).1.1
    exact le_trans this hfit
  have hk : 3 * measures.length + 6 ≤ 2 ^ 51 := by
    have : (2 : ℕ) ^ 51 = 4 * 2 ^ 49 := by norm_num
    omega
  have hp := roundingFactor_pow_le (3 * measures.length + 6) hk
  calc |(distributeSystemWidthDouble false false false leftMargin systemWidth measures).posX
        - systemWidth|
      ≤ (roundingFactor ^ (3 * measures.length + 6) - 1) * systemWidth := h
    _ ≤ ((3 * measures.length + 6 : ℕ) : ℚ) / 2 ^ 51 * systemWidth :=
        mul_le_mul_of_nonneg_right (by linarith) hW

/-- C2 (amended): system width closure up to rounding. Outside line mode, with horizontal
stretch enabled, for a system that is not ragged and whose measures have a positive total
weight: with the operations on `qreal` taken as those of the rationals (no rounding), the
left margin plus the widths handed to `stretchMeasure`
(`width + rest * ticks * max(userStretch, 1)` per measure) plus the widths of the
horizontal boxes is exactly the system width, which is also the final `pos.x()`, and
without a horizontal box the left margin plus the stretched measure widths is the system
width; in double precision (`distributeSystemWidthDouble`), for a left margin, widths and
ticks that are not negative, measures that fit into the system (`minWidth ≤ systemWidth`)
and at most `2 ^ 49` measure bases, the final `pos.x()` differs from the system width by at
most the fraction `(3 * n + 6) / 2 ^ 51` of it, `n` being the number of measure bases. -/
theorem collectSystem_width_closure (leftMargin systemWidth : ℚ)
    (measures : List MeasureBase)
    (hweight : 0 < (systemMinWidthWeight leftMargin measures).2) :
    leftMargin + ((distributeSystemWidth false false false leftMargin systemWidth
        measures).widths).sum = systemWidth ∧
    (distributeSystemWidth false false false leftMargin systemWidth measures).posX
      = (distributeSystemWidth false false false leftMargin systemWidth
          measures).systemWidth ∧
    (distributeSystemWidth false false false leftMargin systemWidth measures).systemWidth
      = systemWidth ∧
    (distributeSystemWidth false false false leftMargin systemWidth measures).widths
      = measures.map (fun mb =>
          match mb.type with
          | ElementType.MEASURE =>
              mb.width + (systemWidth - (systemMinWidthWeight leftMargin measures).1)
                / (systemMinWidthWeight leftMargin measures).2
                * (mb.ticks : ℚ) * max mb.userStretch 1
          | ElementType.HBOX => mb.boxWidth
          | _ => 0) ∧
    ((∀ mb ∈ measures, mb.type ≠ ElementType.HBOX) →
      leftMargin + ((measures.filter (fun mb => mb.type = ElementType.MEASURE)).map
        (stretchedWidth false (systemRest false false false systemWidth
          (systemMinWidthWeight leftMargin measures).1
          (systemMinWidthWeight leftMargin measures).2))).sum = systemWidth) ∧
    (0 ≤ leftMargin →
      (∀ mb ∈ measures, 0 ≤ mb.width ∧ 0 ≤ mb.boxWidth ∧ 0 ≤ mb.ticks) →
      0 < (systemMinWidthWeightDouble leftMargin measures).2 →
      (systemMinWidthWeightDouble leftMargin measures).1 ≤ systemWidth →
      measures.length ≤ 2 ^ 49 →
      |(distributeSystemWidthDouble false false false leftMargin systemWidth measures).posX
          - systemWidth|
        ≤ ((3 * measures.length + 6 : ℕ) : ℚ) / 2 ^ 51 * systemWidth) := by
  have hsum : leftMargin + ((distributeSystemWidth false false false leftMargin systemWidth
      measures).widths).sum = systemWidth := by
    simp only [distributeSystemWidth]
    rw [stretchedWidth_sum]
    rw [systemMinWidthWeight_eq] at hweight ⊢
    simp only [systemRest] at hweight ⊢
    simp only [Bool.or_self, Bool.false_eq_true, if_false]
    field_simp
    ring
  refine ⟨hsum, ?_, ?_, ?_, ?_,
    distributeSystemWidthDouble_closure_bound leftMargin systemWidth measures⟩
  · simp only [distributeSystemWidth, Bool.false_eq_true, if_false]
    rw [posX_foldl]
    simpa [distributeSystemWidth] using hsum
  · simp [distributeSystemWidth]
  · simp only [distributeSystemWidth, systemRest, Bool.or_self, Bool.false_eq_true, if_false]
    apply List.map_congr_left
    intro mb _
    have hmax : max mb.userStretch 1 = mb.stretch := by
      unfold MeasureBase.stretch
      by_cases h : mb.userStretch < 1
      · simp [h, max_eq_right (le_of_lt h)]
      · simp [h, max_eq_left (not_lt.mp h)]
    cases h : mb.type <;> simp [stretchedWidth, h, hmax]
  · intro hbox
    rw [stretchedWidth_sum_measures _ measures hbox]
    simpa [distributeSystemWidth] using hsum

/-- Witness for C2: a system of width 100 with left margin 10 that holds a measure of
width 20 (1920 ticks), a horizontal box of width 5 and a measure of width 30 (960 ticks,
user stretch 2). -/
theorem collectSystem_width_closure_witness :
    0 < (systemMinWidthWeight 10 exampleSystemMeasures).2 ∧
    10 + ((distributeSystemWidth false false false 10 100 exampleSystemMeasures).widths).sum
      = 100 ∧
    ((0 : ℚ) ≤ 10 ∧
      (∀ mb ∈ exampleSystemMeasures, 0 ≤ mb.width ∧ 0 ≤ mb.boxWidth ∧ 0 ≤ mb.ticks) ∧
      0 < (systemMinWidthWeightDouble 10 exampleSystemMeasures).2 ∧
      (systemMinWidthWeightDouble 10 exampleSystemMeasures).1 ≤ 100 ∧
      exampleSystemMeasures.length ≤ 2 ^ 49) ∧
    |(distributeSystemWidthDouble false false false 10 100 exampleSystemMeasures).posX - 100|
      ≤ ((3 * exampleSystemMeasures.length + 6 : ℕ) : ℚ) / 2 ^ 51 * 100 :=
  ⟨by simp [systemMinWidthWeight, exampleSystemMeasures, MeasureBase.stretch]; norm_num,
   (collectSystem_width_closure 10 100 exampleSystemMeasures (by
      simp [systemMinWidthWeight, exampleSystemMeasures, MeasureBase.stretch]; norm_num)).1,
   ⟨by norm_num, by decide!, by decide!, by decide!, by decide!⟩,
   (collectSystem_width_closure 10 100 exampleSystemMeasures (by
      simp [systemMinWidthWeight, exampleSystemMeasures, MeasureBase.stretch];
      norm_num)).2.2.2.2.2 (by norm_num) (by decide!) (by decide!) (by decide!) (by decide!)⟩

/-! ## The collecting loop keeps its first measure -/

theorem collect_append_step (r : CollectResult) (ms : List MeasureBase) (c : MeasureBase)
    (Q : List MeasureBase → Prop) (h : ∃ tail, r.measures = (ms ++ [c]) ++ tail ∧ Q tail) :
    ∃ tail, r.measures = ms ++ tail ∧ (ms = [] → ∃ t2, tail = c :: t2) := by
  obtain ⟨tail, h1, _⟩ := h
  exact ⟨c :: tail, by rw [h1]; simp, fun _ => ⟨tail, rfl⟩⟩

/-- The collecting loop only appends to the measures collected before the current one,
and when there are none the current measure base stays the first of the system. -/
theorem collectLoop_measures (cfg : CollectConfig) (system : Nat) :
    ∀ (stream : List MeasureBase) (cur : MeasureBase) (prev : Option MeasureBase)
      (measures : List MeasureBase) (minWidth : ℚ) (firstMeasure : Bool),
      ∃ tail, (collectLoop cfg system stream cur prev measures minWidth firstMeasure).measures
          = measures ++ tail ∧
        (measures = [] → ∃ t2, tail =
          { cur with system := some system,
                     width := (collectWidth cfg firstMeasure cur).2.1 } :: t2) := by
  intro stream
  induction stream with
  | nil =>
      intro cur prev measures minWidth firstMeasure
      unfold collectLoop
      simp only []
      split_ifs with h1
      · refine ⟨[], by simp, ?_⟩
        intro hm
        subst hm
        simp at h1
      all_goals exact ⟨_, rfl, fun _ => ⟨[], rfl⟩⟩
  | cons nxt rest ih =>
      intro cur prev measures minWidth firstMeasure
      unfold collectLoop
      simp only []
      split_ifs with h1
      · refine ⟨[], by simp, ?_⟩
        intro hm
        subst hm
        simp at h1
      all_goals first
        | exact ⟨_, rfl, fun _ => ⟨[], rfl⟩⟩
        | (apply collect_append_step; exact ih _ _ _ _ _)

/-- C3: every call of `collectSystem` with a non-null current measure returns a system
that holds at least one measure or box: the measure base that was current on entry is
the first element of the system at the end of the collecting loop, whatever its width
and whatever the system width. -/
theorem collectSystem_keeps_first (cfg : CollectConfig) (system : Nat) (leftMargin : ℚ)
    (cur : MeasureBase) (prev : Option MeasureBase) (stream : List MeasureBase) :
    ∃ r first rest,
      collectSystem cfg system leftMargin (some cur) prev stream = some r ∧
      r.measures = first :: rest ∧ first.id = cur.id ∧ first.type = cur.type ∧
      1 ≤ r.measures.length := by
  obtain ⟨tail, h1, h2⟩ := collectLoop_measures cfg system stream cur prev [] leftMargin true
  obtain ⟨t2, ht⟩ := h2 rfl
  refine ⟨_, { cur with system := some system, width := (collectWidth cfg true cur).2.1 },
    t2, rfl, ?_, rfl, rfl, ?_⟩
  · rw [h1, ht]; rfl
  · rw [h1, ht]; simp

/-! ## Chord layout: the scenario of a second on both sides -/

theorem gatherChords_filterMap (elements : List (Option Chord)) :
    gatherChords elements = (elements.filterMap id).foldl gatherChord {} := by
  unfold gatherChords
  generalize ({} : Chords1Groups) = g
  induction elements generalizing g with
  | nil => rfl
  | cons e rest ih =>
      cases e with
      | none => simpa using ih g
      | some c => simpa using ih (gatherChord g c)

/-- In the scenario of C4 the loop over the overlapping notes meets a second with the
up-stem note higher, so the choice of offsets takes the `conflictSecondUpHigher`
branch. -/
theorem layoutChords1_second_scenario (env : Chords1Env) (elements : List (Option Chord))
    (cu cd : Chord) (n2 n0 n1 : Note)
    (htab : env.isTabStaff = false)
    (hels : elements.filterMap id = [cu, cd] ∨ elements.filterMap id = [cd, cu])
    (hcu : cu.info.up = true) (hcd : cd.info.up = false)
    (hmove : cu.info.staffMove = cd.info.staffMove)
    (hun : cu.notes = [n2, n0]) (hdn : cd.notes = [n1])
    (h2 : n2.chord = cu.info ∧ n2.line = 2 ∧ n2.visible = true
      ∧ n2.userMirror = DirectionH.AUTO)
    (h0 : n0.chord = cu.info ∧ n0.line = 0 ∧ n0.visible = true
      ∧ n0.userMirror = DirectionH.AUTO)
    (h1 : n1.chord = cd.info ∧ n1.line = 1 ∧ n1.visible = true
      ∧ n1.userMirror = DirectionH.AUTO) :
    ∃ r, layoutChords1 env elements = some r ∧ r.offsets.separation = -1 ∧
      r.offsets.upOffset = r.maxDownWidth + 2 / 10 * env.sp ∧ r.offsets.downOffset = 0 := by
  obtain ⟨h2c, h2l, h2v, h2m⟩ := h2
  obtain ⟨h0c, h0l, h0v, h0m⟩ := h0
  obtain ⟨h1c, h1l, h1v, h1m⟩ := h1
  have hg : gatherChords elements =
      { upStemNotes := [n2, n0], downStemNotes := [n1], upVoices := 1, downVoices := 1,
        maxUpMag := max 0 cu.info.mag, maxDownMag := max 0 cd.info.mag,
        upDots := max 0 cu.info.dots, downDots := max 0 cd.info.dots,
        upHooks := cu.info.hook, downHooks := cd.info.hook,
        upGrace := cu.graceBefore, downGrace := cd.graceBefore } := by
    rw [gatherChords_filterMap]
    rcases hels with h | h <;> rw [h] <;>
      simp [gatherChord, hcu, hcd, hun, hdn]
  have hup : layoutChords2 [n2, n0] true =
      ([{ n2 with hidden := false, dotsHidden := false, mirror := false },
        { n0 with hidden := false, dotsHidden := false, mirror := false }],
       max (max 0 n2.headWidth) n0.headWidth) := by
    simp [layoutChords2, layoutChords2Loop, layoutChords2Step, h2c, h0c, hcu, h2l, h0l, h2v,
      h0v, h2m, h0m]
  have hdown : layoutChords2 [n1] false =
      ([{ n1 with hidden := false, dotsHidden := false, mirror := false }],
       max 0 n1.headWidth) := by
    simp [layoutChords2, layoutChords2Loop, layoutChords2Step, h1c, hcd, h1l, h1v, h1m]
  unfold layoutChords1
  rw [hg]
  simp only [htab]
  simp [hup, hdown, chordConflict, h2c, h1c, hmove, h2l, h1l, h0l, h0c, overlapNotesOf,
    sortByLineDesc, overlapNature, overlapStep, overlapOffsets, hcu, hcd]

/-- C4 (amended): for a segment and staff holding exactly two chords on the same staff
(equal staffMove), an up-stem chord with visible notes on the lines 0 and 2 and a
down-stem chord with one visible note on the line 1 (separation -1), with no user
mirroring, `layoutChords1` leaves the down-stem offset at zero and sets the up-stem
offset to the down-stem maximum head width plus 0.2 * sp. -/
theorem layoutChords1_up_second_higher (env : Chords1Env) (elements : List (Option Chord))
    (cu cd : Chord) (n2 n0 n1 : Note)
    (htab : env.isTabStaff = false)
    (hels : elements.filterMap id = [cu, cd] ∨ elements.filterMap id = [cd, cu])
    (hcu : cu.info.up = true) (hcd : cd.info.up = false)
    (hmove : cu.info.staffMove = cd.info.staffMove)
    (hun : cu.notes = [n2, n0]) (hdn : cd.notes = [n1])
    (h2 : n2.chord = cu.info ∧ n2.line = 2 ∧ n2.visible = true
      ∧ n2.userMirror = DirectionH.AUTO)
    (h0 : n0.chord = cu.info ∧ n0.line = 0 ∧ n0.visible = true
      ∧ n0.userMirror = DirectionH.AUTO)
    (h1 : n1.chord = cd.info ∧ n1.line = 1 ∧ n1.visible = true
      ∧ n1.userMirror = DirectionH.AUTO) :
    ∃ r, layoutChords1 env elements = some r ∧ r.offsets.separation = -1 ∧
      r.offsets.upOffset = r.maxDownWidth + 2 / 10 * env.sp ∧ r.offsets.downOffset = 0 :=
  layoutChords1_second_scenario env elements cu cd n2 n0 n1 htab hels hcu hcd hmove hun hdn
    h2 h0 h1

/-- Witness for C4 (amended): the example chords in the voices 1 and 2 of a staff. -/
theorem layoutChords1_up_second_higher_witness :
    ∃ r, layoutChords1 exampleChordsEnv [some exampleUpChord, some exampleDownChord, none, none]
        = some r ∧ r.offsets.separation = -1 ∧
      r.offsets.upOffset = r.maxDownWidth + 2 / 10 * exampleChordsEnv.sp ∧
      r.offsets.downOffset = 0 :=
  layoutChords1_up_second_higher exampleChordsEnv
    [some exampleUpChord, some exampleDownChord, none, none] exampleUpChord exampleDownChord
    { id := 0, chord := { track := 0, up := true, stem := some (1 / 10) },
      line := 2, headWidth := 13 / 10 }
    { id := 1, chord := { track := 0, up := true, stem := some (1 / 10) },
      line := 0, headWidth := 13 / 10 }
    { id := 2, chord := { track := 1, up := false, stem := some (1 / 10) },
      line := 1, headWidth := 13 / 10, voice := 1 }
    rfl (Or.inl rfl) rfl rfl rfl rfl rfl ⟨rfl, rfl, rfl, rfl⟩ ⟨rfl, rfl, rfl, rfl⟩
    ⟨rfl, rfl, rfl, rfl⟩

/-- Counterexample to C4 as stated: for the example chords (staff space 1, all head
widths 13/10) the up-stem offset is 3/2 and the down-stem offset is 0, where the claim
has 0 and 13/10 + 3/10. -/
theorem layoutChords1_scenario_counterexample :
    (layoutChords1 exampleChordsEnv
        [some exampleUpChord, some exampleDownChord, none, none]).map
      (fun r => (r.offsets.separation, r.offsets.upOffset, r.offsets.downOffset, r.maxUpWidth))
      = some (-1, 3 / 2, 0, 13 / 10) ∧
    ¬ ∃ r, layoutChords1 exampleChordsEnv
        [some exampleUpChord, some exampleDownChord, none, none] = some r ∧
      r.offsets.upOffset = 0 ∧
      r.offsets.downOffset = r.maxUpWidth + 3 / 10 * exampleChordsEnv.sp := by
  have h : (layoutChords1 exampleChordsEnv
        [some exampleUpChord, some exampleDownChord, none, none]).map
      (fun r => (r.offsets.separation, r.offsets.upOffset, r.offsets.downOffset, r.maxUpWidth))
      = some (-1, 3 / 2, 0, 13 / 10) := by
    simp [layoutChords1, exampleChordsEnv, exampleUpChord, exampleDownChord, gatherChords,
      gatherChord, layoutChords2, layoutChords2Loop, layoutChords2Step, centerUpstem,
      centerDownstem, chordConflict, overlapNotesOf, sortByLineDesc, overlapNature,
      overlapStep, overlapOffsets, dotAdjustOf, resolvedHeadType]
    norm_num
  refine ⟨h, ?_⟩
  rintro ⟨r, hr, hu, _⟩
  rw [hr] at h
  simp only [Option.map_some', Option.some.injEq, Prod.mk.injEq] at h
  rw [hu] at h
  norm_num at h

/-! ## Beam grouping: quarter notes are not beamed -/

theorem removeDeleteBeam_nextId (s : BeamStore) (cr : ChordRest) :
    (s.removeDeleteBeam cr).nextId = s.nextId := by
  unfold BeamStore.removeDeleteBeam
  cases h1 : s.crBeam cr.id with
  | none => rfl
  | some beam =>
      simp only []
      cases h2 : s.beams.find? (fun b => b.id == beam) with
      | none => rfl
      | some b => simp only []; split_ifs <;> rfl

theorem removeDeleteBeam_crBeam_self (s : BeamStore) (cr : ChordRest) :
    (s.removeDeleteBeam cr).crBeam cr.id = none := by
  unfold BeamStore.removeDeleteBeam
  cases h1 : s.crBeam cr.id with
  | none => simpa using h1
  | some beam =>
      simp only []
      cases h2 : s.beams.find? (fun b => b.id == beam) with
      | none => simp
      | some b => simp only []; split_ifs <;> simp

theorem removeDeleteBeam_crBeam_none (s : BeamStore) (cr : ChordRest) (x : Nat)
    (h : s.crBeam x = none) : (s.removeDeleteBeam cr).crBeam x = none := by
  unfold BeamStore.removeDeleteBeam
  cases h1 : s.crBeam cr.id with
  | none => simpa using h
  | some beam =>
      have hx : x ≠ cr.id := by
        intro hx; rw [hx, h1] at h; cases h
      simp only []
      cases h2 : s.beams.find? (fun b => b.id == beam) with
      | none => simp [Function.update_noteq hx, h]
      | some b => simp only []; split_ifs <;> simp [Function.update_noteq hx, h]

theorem removeDeleteBeam_beams (s : BeamStore) (cr : ChordRest) :
    ∀ b1 ∈ (s.removeDeleteBeam cr).beams, ∃ b ∈ s.beams, b.id = b1.id := by
  intro b1 hb1
  unfold BeamStore.removeDeleteBeam at hb1
  cases h1 : s.crBeam cr.id with
  | none => rw [h1] at hb1; exact ⟨b1, hb1, rfl⟩
  | some beam =>
      rw [h1] at hb1
      simp only [] at hb1
      cases h2 : s.beams.find? (fun b => b.id == beam) with
      | none => rw [h2] at hb1; exact ⟨b1, hb1, rfl⟩
      | some b =>
          rw [h2] at hb1
          simp only [] at hb1
          split_ifs at hb1
          · simp only [List.mem_filter] at hb1
            exact ⟨b1, hb1.1, rfl⟩
          · simp only [List.mem_map] at hb1
            obtain ⟨b0, hb0, hbe⟩ := hb1
            refine ⟨b0, hb0, ?_⟩
            split_ifs at hbe <;> rw [← hbe]

/-- State of the beam machine behind a chord or rest with a duration type of a quarter
or longer: no active beam, no candidate, the element without a beam, no beam created. -/
theorem createBeamsStep_closing (env : BeamEnv) (track : Nat) (st : BeamLoopState)
    (cr : ChordRest) (h : cr.durationType.type.ord ≤ DurationType.V_QUARTER.ord) :
    (createBeamsStep env track st cr).beam = none ∧
    (createBeamsStep env track st cr).a1 = none ∧
    (createBeamsStep env track st cr).store.nextId = st.store.nextId ∧
    (createBeamsStep env track st cr).store.crBeam cr.id = none ∧
    (∀ x, st.store.crBeam x = none →
      (createBeamsStep env track st cr).store.crBeam x = none) ∧
    (∀ b1 ∈ (createBeamsStep env track st cr).store.beams,
      ∃ b ∈ st.store.beams, b.id = b1.id) := by
  unfold createBeamsStep
  simp only [h, true_or, if_true]
  refine ⟨trivial, trivial, ?_, ?_, ?_, ?_⟩
  · rw [removeDeleteBeam_nextId]
    cases st.a1 <;> cases st.beam <;>
      simp [removeDeleteBeam_nextId, BeamStore.layout1]
  · exact removeDeleteBeam_crBeam_self _ _
  · intro x hx
    apply removeDeleteBeam_crBeam_none
    cases st.a1 <;> cases st.beam <;>
      simp [BeamStore.layout1, hx, removeDeleteBeam_crBeam_none]
  · intro b1 hb1
    obtain ⟨b, hb, hid⟩ := removeDeleteBeam_beams _ _ b1 hb1
    cases ha : st.a1 <;> cases hbm : st.beam <;> simp only [ha, hbm] at hb
    · exact ⟨b, hb, hid⟩
    · exact ⟨b, hb, hid⟩
    · obtain ⟨b0, hb0, hid0⟩ := removeDeleteBeam_beams _ _ b hb
      exact ⟨b0, hb0, hid0.trans hid⟩
    · obtain ⟨b0, hb0, hid0⟩ := removeDeleteBeam_beams _ _ b hb
      exact ⟨b0, hb0, hid0.trans hid⟩

theorem createBeams_foldl_closing (env : BeamEnv) (track : Nat) :
    ∀ (crs : List ChordRest) (st : BeamLoopState),
      (∀ cr ∈ crs, cr.durationType.type.ord ≤ DurationType.V_QUARTER.ord) →
      st.beam = none → st.a1 = none →
      (crs.foldl (createBeamsStep env track) st).beam = none ∧
      (crs.foldl (createBeamsStep env track) st).a1 = none ∧
      (crs.foldl (createBeamsStep env track) st).store.nextId = st.store.nextId ∧
      (∀ cr ∈ crs, (crs.foldl (createBeamsStep env track) st).store.crBeam cr.id = none) ∧
      (∀ x, st.store.crBeam x = none →
        (crs.foldl (createBeamsStep env track) st).store.crBeam x = none) ∧
      (∀ b1 ∈ (crs.foldl (createBeamsStep env track) st).store.beams,
        ∃ b ∈ st.store.beams, b.id = b1.id) := by
  intro crs
  induction crs with
  | nil =>
      intro st _ hb ha
      exact ⟨hb, ha, rfl, fun _ h => absurd h (List.not_mem_nil _), fun _ h => h,
        fun b1 h => ⟨b1, h, rfl⟩⟩
  | cons c rest ih =>
      intro st hall _ _
      obtain ⟨s1, s2, s3, s4, s5, s6⟩ := createBeamsStep_closing env track st c
        (hall c (List.mem_cons_self _ _))
      obtain ⟨r1, r2, r3, r4, r5, r6⟩ := ih (createBeamsStep env track st c)
        (fun x hx => hall x (List.mem_cons_of_mem _ hx)) s1 s2
      simp only [List.foldl_cons]
      refine ⟨r1, r2, r3.trans s3, ?_, fun x hx => r5 x (s5 x hx), ?_⟩
      · intro cr hcr
        rcases List.mem_cons.mp hcr with h | h
        · rw [h]; exact r5 _ s4
        · exact r4 cr h
      · intro b1 hb1
        obtain ⟨b, hb, hid⟩ := r6 b1 hb1
        obtain ⟨b0, hb0, hid0⟩ := s6 b hb
        exact ⟨b0, hb0, hid0.trans hid⟩

/-- Quarter notes and longer values are never beamed: after `createBeams` for a track
that holds only such chords and rests no beam is created, every beam is one of the
beams before, and none of the chords and rests has a beam. -/
theorem createBeamsTrack_closing (env : BeamEnv) (track : Nat) (store : BeamStore)
    (crs : List ChordRest)
    (hall : ∀ cr ∈ crs, cr.durationType.type.ord ≤ DurationType.V_QUARTER.ord) :
    (createBeamsTrack env track store crs).nextId = store.nextId ∧
    (∀ cr ∈ crs, (createBeamsTrack env track store crs).crBeam cr.id = none) ∧
    (∀ b1 ∈ (createBeamsTrack env track store crs).beams, ∃ b ∈ store.beams, b.id = b1.id) := by
  obtain ⟨r1, r2, r3, r4, _, r6⟩ :=
    createBeams_foldl_closing env track crs { store := store } hall rfl rfl
  unfold createBeamsTrack
  simp only [r1, r2]
  exact ⟨r3, r4, r6⟩

/-- C5 (amended): for every measure whose track holds exactly four quarter-note chords,
whatever beam modes `Groups::endBeam` answers, `createBeams` produces no beam: no beam
is created, each of the four chords is left without a beam, every beam of the score is
one of the beams before, and a score without beams stays without beams. -/
theorem createBeams_quarters_unbeamed (env : BeamEnv) (track : Nat) (store : BeamStore)
    (c1 c2 c3 c4 : ChordRest)
    (hq : ∀ cr ∈ [c1, c2, c3, c4], cr.durationType.type = DurationType.V_QUARTER) :
    (createBeamsTrack env track store [c1, c2, c3, c4]).nextId = store.nextId ∧
    (∀ cr ∈ [c1, c2, c3, c4],
      (createBeamsTrack env track store [c1, c2, c3, c4]).crBeam cr.id = none) ∧
    (∀ b1 ∈ (createBeamsTrack env track store [c1, c2, c3, c4]).beams,
      ∃ b ∈ store.beams, b.id = b1.id) ∧
    (store.beams = [] → (createBeamsTrack env track store [c1, c2, c3, c4]).beams = []) := by
  have hall : ∀ cr ∈ [c1, c2, c3, c4],
      cr.durationType.type.ord ≤ DurationType.V_QUARTER.ord := by
    intro cr hcr
    rw [hq cr hcr]
  obtain ⟨h1, h2, h3⟩ := createBeamsTrack_closing env track store [c1, c2, c3, c4] hall
  refine ⟨h1, h2, h3, ?_⟩
  intro hempty
  apply List.eq_nil_iff_forall_not_mem.mpr
  intro b1 hb1
  obtain ⟨b, hb, _⟩ := h3 b1 hb1
  rw [hempty] at hb
  exact absurd hb (List.not_mem_nil _)

/-- Witness for C5 (amended): four quarter-note chords at the ticks 0, 480, 960, 1440 of
a 4/4 measure in a score without beams. -/
theorem createBeams_quarters_unbeamed_witness :
    (createBeamsTrack exampleBeamEnv 0 {}
      [{ id := 0, tick := 0, rtick := 0, actualTicks := 480,
         durationType := { type := DurationType.V_QUARTER } },
       { id := 1, tick := 480, rtick := 480, actualTicks := 480,
         durationType := { type := DurationType.V_QUARTER } },
       { id := 2, tick := 960, rtick := 960, actualTicks := 480,
         durationType := { type := DurationType.V_QUARTER } },
       { id := 3, tick := 1440, rtick := 1440, actualTicks := 480,
         durationType := { type := DurationType.V_QUARTER } }]).beams = [] :=
  (createBeams_quarters_unbeamed exampleBeamEnv 0 {}
    { id := 0, tick := 0, rtick := 0, actualTicks := 480,
      durationType := { type := DurationType.V_QUARTER } }
    { id := 1, tick := 480, rtick := 480, actualTicks := 480,
      durationType := { type := DurationType.V_QUARTER } }
    { id := 2, tick := 960, rtick := 960, actualTicks := 480,
      durationType := { type := DurationType.V_QUARTER } }
    { id := 3, tick := 1440, rtick := 1440, actualTicks := 480,
      durationType := { type := DurationType.V_QUARTER } }
    (by intro cr hcr; simp at hcr; rcases hcr with h | h | h | h <;> rw [h])).2.2.2 rfl

/-- Counterexample to C5 as stated: for four quarter-note chords in a 4/4 measure of a
score without beams `createBeams` leaves no beam at all, so there is not exactly one
beam that holds the four chords. -/
theorem createBeams_quarters_counterexample :
    (createBeamsTrack exampleBeamEnv 0 {} exampleQuarterChords).beams = [] ∧
    ¬ ∃ b, (createBeamsTrack exampleBeamEnv 0 {} exampleQuarterChords).beams = [b] ∧
      ∀ cr ∈ exampleQuarterChords, cr ∈ b.elements := by
  have h : (createBeamsTrack exampleBeamEnv 0 {} exampleQuarterChords).beams = [] := by
    decide
  refine ⟨h, ?_⟩
  rintro ⟨b, hb, _⟩
  rw [h] at hb
  cases hb

/-! ## Multi-measure rests: collapsing a run -/

theorem renumberRun_length : ∀ (run : List ScoreMeasure) (measureNo : Int),
    (renumberRun measureNo run).1.length = run.length := by
  intro run
  induction run with
  | nil => intro _; rfl
  | cons x rest ih => intro measureNo; simp [renumberRun, ih]

theorem renumberRun_isMeasure : ∀ (run : List ScoreMeasure) (measureNo : Int),
    (∀ x ∈ run, x.isMeasure = true) →
    ∀ x ∈ (renumberRun measureNo run).1, x.isMeasure = true := by
  intro run
  induction run with
  | nil => intro _ _ x hx; simp [renumberRun] at hx
  | cons y rest ih =>
      intro measureNo h x hx
      simp only [renumberRun, List.mem_cons] at hx
      rcases hx with hx | hx
      · rw [hx]; simpa [adjustMeasureNo] using h y (List.mem_cons_self _ _)
      · exact ih _ (fun z hz => h z (List.mem_cons_of_mem _ hz)) x hx

/-- The run loop passes over a run of valid measures of which none but possibly the
first breaks the rest, and stops in front of what follows: the end of the score, or a
measure that is not valid or breaks the rest. -/
theorem mmRestRun_run (showVBox : Bool) (after : List ScoreMeasure)
    (hafter : after = [] ∨ ∃ x rest, after = x :: rest ∧ x.isMeasure = true ∧
      (x.valid = false ∨ x.breaks = true)) :
    ∀ (run : List ScoreMeasure) (st : MMRunState),
      (∀ x ∈ run, x.isMeasure = true ∧ x.valid = true) →
      (∀ x ∈ run.tail, x.breaks = false) →
      (st.n = 0 → run ≠ []) →
      (st.n ≠ 0 → ∀ x ∈ run, x.breaks = false) →
      mmRestRun showVBox (run ++ after) st =
        ({ n := st.n + run.length
           len := st.len + (run.map fun x => x.len).sum
           lmPos := if run = [] then st.lmPos else st.pos + run.length - 1
           pos := st.pos + run.length
           measureNo := (renumberRun st.measureNo run).2
           passed := st.passed ++ (renumberRun st.measureNo run).1 }, after) := by
  intro run
  induction run with
  | nil =>
      intro st _ _ hn _
      have hn0 : st.n ≠ 0 := fun h => hn h rfl
      rcases hafter with h | ⟨x, rest, h, hm, hv⟩
      · subst h
        simp [mmRestRun, renumberRun]
      · subst h
        rcases hv with hv | hv
        · simp [mmRestRun, renumberRun, hm, hv]
        · cases hval : x.valid
          · simp [mmRestRun, renumberRun, hm, hval]
          · simp [mmRestRun, renumberRun, hm, hval, hv, hn0]
  | cons y rest ih =>
      intro st hrun htail _ hbrk
      obtain ⟨hm, hv⟩ := hrun y (List.mem_cons_self _ _)
      have hb : (y.breaks && decide (st.n ≠ 0)) = false := by
        by_cases h0 : st.n = 0
        · simp [h0]
        · simp [hbrk h0 y (List.mem_cons_self _ _)]
      have hstep : mmRestRun showVBox (y :: rest ++ after) st =
          mmRestRun showVBox (rest ++ after)
            { n := st.n + 1
              len := st.len + y.len
              lmPos := st.pos
              pos := st.pos + 1
              measureNo := (adjustMeasureNo st.measureNo y).2
              passed := st.passed ++ [(adjustMeasureNo st.measureNo y).1] } := by
        simp only [List.cons_append, mmRestRun, hm, hv, hb]
        simp
      rw [hstep]
      rw [ih _ (fun x hx => hrun x (List.mem_cons_of_mem _ hx))
        (fun x hx => htail x (List.mem_of_mem_tail hx))
        (fun h => by simp at h)
        (fun _ x hx => htail x hx)]
      simp only [renumberRun, List.map_cons, List.sum_cons, List.length_cons,
        List.append_assoc, List.singleton_append]
      congr 1
      cases rest with
      | nil => simp
      | cons z zs =>
          simp
          refine ⟨by omega, by ring, by omega, by omega⟩

theorem createMMRestCount_step (lmPos : Nat) (x : ScoreMeasure) (l : List ScoreMeasure)
    (pos n : Nat) (hx : x.isMeasure = true) (hne : pos ≠ lmPos) :
    createMMRestCount lmPos (x :: l) pos n =
      ({ x with mmRestCount := -1, mmRest := none }
          :: (createMMRestCount lmPos l (pos + 1) (n + 1)).1,
       (createMMRestCount lmPos l (pos + 1) (n + 1)).2) := by
  simp [createMMRestCount, hx, hne]

theorem createMMRestCount_run (lmPos : Nat) (rest : List ScoreMeasure) :
    ∀ (r1 : List ScoreMeasure) (pos n : Nat),
      (∀ x ∈ r1, x.isMeasure = true) → r1 ≠ [] → pos + r1.length - 1 = lmPos →
      createMMRestCount lmPos (r1 ++ rest) pos n =
        (r1.map (fun x => { x with mmRestCount := -1, mmRest := none }) ++ rest,
         n + r1.length) := by
  intro r1
  induction r1 with
  | nil => intro pos n _ h; exact absurd rfl h
  | cons x xs ih =>
      intro pos n hm _ hpos
      have hx := hm x (List.mem_cons_self _ _)
      cases xs with
      | nil =>
          have : pos = lmPos := by simpa using hpos
          simp [createMMRestCount, hx, this]
      | cons y ys =>
          have hne : pos ≠ lmPos := by
            simp only [List.length_cons] at hpos
            omega
          have h2 := ih (pos + 1) (n + 1) (fun z hz => hm z (List.mem_cons_of_mem _ hz))
            (by simp) (by simp only [List.length_cons] at hpos ⊢; omega)
          rw [List.cons_append, createMMRestCount_step lmPos x _ pos n hx hne, h2]
          simp only [List.map_cons, List.cons_append, List.length_cons, Prod.mk.injEq,
            true_and]
          omega

theorem createMMRest_run (m1 : ScoreMeasure) (tl1 after : List ScoreMeasure) (len : ℚ)
    (hm : ∀ x ∈ tl1, x.isMeasure = true) (hne : tl1 ≠ []) :
    ∃ mmr, createMMRest (m1 :: (tl1 ++ after)) tl1.length len
        = { m1 with mmRest := some mmr }
            :: (tl1.map (fun x => { x with mmRestCount := -1, mmRest := none }) ++ after) ∧
      mmr.mmRestCount = (tl1.length : Int) + 1 ∧ mmr.len = len ∧ mmr.no = m1.no := by
  have hcount := createMMRestCount_run tl1.length after tl1 1 1 hm hne (by omega)
  unfold createMMRest
  simp only [hcount]
  refine ⟨_, rfl, ?_, ?_, rfl⟩
  · simp
    omega
  · cases hmm : m1.mmRest with
    | none => simp
    | some mmr =>
        simp only []
        split_ifs with h
        · simp
        · simpa using not_not.mp h

/-- Collapse of a run of `k >= 2` valid measures by the multi-measure rest branch of
`getNextMeasure`. -/
theorem getNextMeasureMMRest_run (showVBox : Bool) (minEmptyMeasures mno : Int)
    (m : ScoreMeasure) (tl after next : List ScoreMeasure)
    (hrun : ∀ x ∈ m :: tl, x.isMeasure = true ∧ x.valid = true)
    (htl : ∀ x ∈ tl, x.breaks = false)
    (hk : 2 ≤ (m :: tl).length)
    (hafter : after = [] ∨ ∃ x rest, after = x :: rest ∧ x.isMeasure = true ∧
      (x.valid = false ∨ x.breaks = true))
    (hmin : minEmptyMeasures ≤ ((m :: tl).length : Int)) :
    ∃ mmr,
      (getNextMeasureMMRest showVBox minEmptyMeasures mno (m :: tl ++ after) next).curMMRest
        = some mmr ∧
      mmr.mmRestCount = ((m :: tl).length : Int) ∧
      mmr.len = ((m :: tl).map fun x => x.len).sum ∧
      (getNextMeasureMMRest showVBox minEmptyMeasures mno (m :: tl ++ after) next).next
        = after ∧
      (getNextMeasureMMRest showVBox minEmptyMeasures mno (m :: tl ++ after) next).n
        = (m :: tl).length ∧
      (getNextMeasureMMRest showVBox minEmptyMeasures mno (m :: tl ++ after) next).lmPos + 1
        = (m :: tl).length := by
  have hrunEq := mmRestRun_run showVBox after hafter (m :: tl) { measureNo := m.no } hrun
    (by simpa using htl) (fun _ => by simp) (fun h => absurd rfl h)
  have hlen1 : 1 ≤ tl.length := by simpa using hk
  have htlne : tl ≠ [] := by
    intro h; rw [h] at hlen1; simp at hlen1
  have hren : (renumberRun m.no (m :: tl)).1
      = (adjustMeasureNo m.no m).1 :: (renumberRun (adjustMeasureNo m.no m).2 tl).1 := rfl
  have hrl := renumberRun_length tl (adjustMeasureNo m.no m).2
  have hrm := renumberRun_isMeasure tl (adjustMeasureNo m.no m).2
    (fun x hx => (hrun x (List.mem_cons_of_mem _ hx)).1)
  have hrne : (renumberRun (adjustMeasureNo m.no m).2 tl).1 ≠ [] := by
    intro h; rw [h] at hrl; exact htlne (List.length_eq_zero.mp hrl.symm)
  obtain ⟨mmr, hcreate, hc1, hc2, _⟩ := createMMRest_run (adjustMeasureNo m.no m).1
    (renumberRun (adjustMeasureNo m.no m).2 tl).1 after
    (0 + ((m :: tl).map fun x => x.len).sum) hrm hrne
  rw [hrl] at hcreate hc1
  have hafterDrop : after.dropWhile (fun x => !x.isMeasure) = after := by
    rcases hafter with h | ⟨x, rest, h, hm, _⟩
    · subst h; rfl
    · subst h; simp [List.dropWhile, hm]
  have hge : ((0 + (m :: tl).length : Nat) : Int) ≥ minEmptyMeasures := by
    simpa using hmin
  have hpos : (if m :: tl = [] then 0 else 0 + (m :: tl).length - 1) = tl.length := by simp
  have hres : getNextMeasureMMRest showVBox minEmptyMeasures mno (m :: tl ++ after) next
      = { measures := { (adjustMeasureNo m.no m).1 with mmRest := some mmr }
            :: ((renumberRun (adjustMeasureNo m.no m).2 tl).1.map
                (fun x => { x with mmRestCount := -1, mmRest := none }) ++ after)
          curMMRest := some mmr
          next := after
          measureNo := (renumberRun m.no (m :: tl)).2
          n := 0 + (m :: tl).length
          len := 0 + ((m :: tl).map fun x => x.len).sum
          lmPos := tl.length } := by
    unfold getNextMeasureMMRest
    simp only [List.cons_append]
    rw [show m :: (tl ++ after) = (m :: tl) ++ after from rfl, hrunEq]
    simp only [hge, if_true, hpos, List.nil_append, hren, List.cons_append, hcreate]
    have hdrop : (({ (adjustMeasureNo m.no m).1 with mmRest := some mmr } : ScoreMeasure)
        :: ((renumberRun (adjustMeasureNo m.no m).2 tl).1.map
          (fun x => { x with mmRestCount := -1, mmRest := none }) ++ after)).drop
          (tl.length + 1) = after := by
      rw [List.drop_succ_cons, List.drop_append_of_le_length (by simp [hrl])]
      simp [hrl]
    simp only [hdrop, hafterDrop]
    cases showVBox <;> simp
  rw [hres]
  refine ⟨mmr, rfl, ?_, ?_, rfl, ?_, ?_⟩
  · rw [hc1]; simp
  · rw [hc2]; simp
  · simp
  · simp

/-- C6: with `createMultiMeasureRests` enabled, for a run of `k >= 2` consecutive
measures `m :: tl` that are each valid for a multi-measure rest, none of which after the
first breaks the rest, followed by the end of the score or by a measure that is not
valid or breaks the rest, if `minEmptyMeasures <= k` then `getNextMeasure` collapses the
run into one replacement measure whose `mmRestCount` is `k` and whose length is the sum
of the `k` measure lengths, makes it the current measure, and makes the measure after the
run the next measure. -/
theorem getNextMeasure_collapses_run (showVBox : Bool) (minEmptyMeasures mno : Int)
    (m : ScoreMeasure) (tl after next : List ScoreMeasure)
    (hrun : ∀ x ∈ m :: tl, x.isMeasure = true ∧ x.valid = true)
    (htl : ∀ x ∈ tl, x.breaks = false)
    (hk : 2 ≤ (m :: tl).length)
    (hafter : after = [] ∨ ∃ x rest, after = x :: rest ∧ x.isMeasure = true ∧
      (x.valid = false ∨ x.breaks = true))
    (hmin : minEmptyMeasures ≤ ((m :: tl).length : Int)) :
    ∃ mmr,
      (getNextMeasureMMRest showVBox minEmptyMeasures mno (m :: tl ++ after) next).curMMRest
        = some mmr ∧
      mmr.mmRestCount = ((m :: tl).length : Int) ∧
      mmr.len = ((m :: tl).map fun x => x.len).sum ∧
      (getNextMeasureMMRest showVBox minEmptyMeasures mno (m :: tl ++ after) next).next
        = after := by
  obtain ⟨mmr, h1, h2, h3, h4, _⟩ := getNextMeasureMMRest_run showVBox minEmptyMeasures mno
    m tl after next hrun htl hk hafter hmin
  exact ⟨mmr, h1, h2, h3, h4⟩

/-- Witness for C6: eight empty measures of length 1 followed by a measure with notes,
with `minEmptyMeasures = 2`: one replacement measure of count 8 and length 8. -/
theorem getNextMeasure_collapses_run_witness :
    ∃ mmr,
      (getNextMeasureMMRest true 2 1 (exampleEmptyMeasures ++ [exampleFullMeasure])
        (exampleEmptyMeasures.tail ++ [exampleFullMeasure])).curMMRest = some mmr ∧
      mmr.mmRestCount = 8 ∧ mmr.len = 8 ∧
      (getNextMeasureMMRest true 2 1 (exampleEmptyMeasures ++ [exampleFullMeasure])
        (exampleEmptyMeasures.tail ++ [exampleFullMeasure])).next = [exampleFullMeasure] := by
  obtain ⟨mmr, h1, h2, h3, h4⟩ := getNextMeasure_collapses_run true 2 1
    { id := 0, tick := 0 }
    [{ id := 1, tick := 1920 }, { id := 2, tick := 3840 },
     { id := 3, tick := 5760 }, { id := 4, tick := 7680 }, { id := 5, tick := 9600 },
     { id := 6, tick := 11520 }, { id := 7, tick := 13440 }]
    [exampleFullMeasure] (exampleEmptyMeasures.tail ++ [exampleFullMeasure])
    (by intro x hx; simp at hx; rcases hx with h | h | h | h | h | h | h | h <;> subst h <;> simp)
    (by intro x hx; simp at hx; rcases hx with h | h | h | h | h | h | h <;> subst h <;> rfl)
    (by simp)
    (Or.inr ⟨exampleFullMeasure, [], rfl, rfl, Or.inl rfl⟩)
    (by simp)
  refine ⟨mmr, h1, ?_, ?_, h4⟩
  · simpa using h2
  · rw [h3]; norm_num

/-! ## Multi-measure rests: collapsing twice -/

theorem SameContent.refl (a : ScoreMeasure) : SameContent a a :=
  ⟨rfl, rfl, rfl, rfl, rfl⟩

theorem SameContent.trans {a b c : ScoreMeasure} (h1 : SameContent a b)
    (h2 : SameContent b c) : SameContent a c :=
  ⟨h1.1.trans h2.1, h1.2.1.trans h2.2.1, h1.2.2.1.trans h2.2.2.1,
    h1.2.2.2.1.trans h2.2.2.2.1, h1.2.2.2.2.trans h2.2.2.2.2⟩

theorem forall2_sameContent_refl (l : List ScoreMeasure) : List.Forall₂ SameContent l l := by
  induction l with
  | nil => exact List.Forall₂.nil
  | cons x xs ih => exact List.Forall₂.cons (SameContent.refl x) ih

theorem forall2_sameContent_trans {l1 l2 l3 : List ScoreMeasure}
    (h1 : List.Forall₂ SameContent l1 l2) (h2 : List.Forall₂ SameContent l2 l3) :
    List.Forall₂ SameContent l1 l3 := by
  induction h1 generalizing l3 with
  | nil => cases h2; exact List.Forall₂.nil
  | cons hab _ ih =>
      cases h2 with
      | cons hbc htl => exact List.Forall₂.cons (hab.trans hbc) (ih htl)

theorem forall2_trans {R : ScoreMeasure → ScoreMeasure → Prop}
    (htrans : ∀ a b c, R a b → R b c → R a c) {l1 l2 l3 : List ScoreMeasure}
    (h1 : List.Forall₂ R l1 l2) (h2 : List.Forall₂ R l2 l3) : List.Forall₂ R l1 l3 := by
  induction h1 generalizing l3 with
  | nil => cases h2; exact List.Forall₂.nil
  | cons hab _ ih =>
      cases h2 with
      | cons hbc htl => exact List.Forall₂.cons (htrans _ _ _ hab hbc) (ih htl)

/-- The run loop leaves the measure bases as they are but for their numbers. -/
theorem mmRestRun_output (showVBox : Bool) :
    ∀ (l : List ScoreMeasure) (st : MMRunState),
      List.Forall₂ (fun a b => SameContent a b ∧ a.mmRest = b.mmRest)
        ((mmRestRun showVBox l st).1.passed ++ (mmRestRun showVBox l st).2) (st.passed ++ l) := by
  have hrefl : ∀ l : List ScoreMeasure,
      List.Forall₂ (fun a b => SameContent a b ∧ a.mmRest = b.mmRest) l l := by
    intro l
    induction l with
    | nil => exact List.Forall₂.nil
    | cons x xs ih => exact List.Forall₂.cons ⟨SameContent.refl x, rfl⟩ ih
  intro l
  induction l with
  | nil => intro st; simpa [mmRestRun] using hrefl _
  | cons x rest ih =>
      intro st
      unfold mmRestRun
      split_ifs with h1 h2 h3 h4
      · exact hrefl _
      · have := ih { st with pos := st.pos + 1, passed := st.passed ++ [x] }
        simpa using this
      · exact hrefl _
      · exact hrefl _
      · have := ih
          { n := st.n + 1
            len := st.len + x.len
            lmPos := st.pos
            pos := st.pos + 1
            measureNo := (adjustMeasureNo st.measureNo x).2
            passed := st.passed ++ [(adjustMeasureNo st.measureNo x).1] }
        simp only [List.append_assoc, List.singleton_append] at this
        refine forall2_trans (fun a b c hab hbc => ⟨hab.1.trans hbc.1, hab.2.trans hbc.2⟩)
          this ?_
        apply List.rel_append (hrefl _)
        exact List.Forall₂.cons ⟨⟨rfl, rfl, rfl, rfl, rfl⟩, rfl⟩ (hrefl _)

/-- The count, the length and the last measure found by the run loop depend only on the
content of the measure bases. -/
theorem mmRestRun_content (showVBox : Bool) :
    ∀ (l1 l2 : List ScoreMeasure), List.Forall₂ SameContent l1 l2 →
      ∀ (st1 st2 : MMRunState), st1.n = st2.n → st1.len = st2.len → st1.lmPos = st2.lmPos →
        st1.pos = st2.pos →
        (mmRestRun showVBox l1 st1).1.n = (mmRestRun showVBox l2 st2).1.n ∧
        (mmRestRun showVBox l1 st1).1.len = (mmRestRun showVBox l2 st2).1.len ∧
        (mmRestRun showVBox l1 st1).1.lmPos = (mmRestRun showVBox l2 st2).1.lmPos := by
  intro l1 l2 h
  induction h with
  | nil => intro st1 st2 hn hl hp _; exact ⟨hn, hl, hp⟩
  | @cons a b t1 t2 hab _ ih =>
      intro st1 st2 hn hl hp hpos
      obtain ⟨_, hm, hv, hb, hlen⟩ := hab
      unfold mmRestRun
      rw [hm, hv, hb, hn]
      split_ifs
      · exact ⟨hn, hl, hp⟩
      · exact ih _ _ (by simp) hl hp (by simp [hpos])
      · exact ⟨hn, hl, hp⟩
      · exact ⟨hn, hl, hp⟩
      · exact ih _ _ (by simp) (by simp [hl, hlen]) (by simp [hpos]) (by simp [hpos])

theorem createMMRestCount_output (lmPos : Nat) :
    ∀ (l : List ScoreMeasure) (pos n : Nat),
      List.Forall₂ SameContent (createMMRestCount lmPos l pos n).1 l := by
  intro l
  induction l with
  | nil => intro pos n; exact List.Forall₂.nil
  | cons x rest ih =>
      intro pos n
      unfold createMMRestCount
      split_ifs
      · exact List.Forall₂.cons (SameContent.refl x) (ih _ _)
      · exact List.Forall₂.cons ⟨rfl, rfl, rfl, rfl, rfl⟩ (forall2_sameContent_refl _)
      · exact List.Forall₂.cons ⟨rfl, rfl, rfl, rfl, rfl⟩ (ih _ _)

theorem createMMRestCount_content (lmPos : Nat) :
    ∀ (l1 l2 : List ScoreMeasure), List.Forall₂ SameContent l1 l2 →
      ∀ (pos n : Nat), (createMMRestCount lmPos l1 pos n).2 = (createMMRestCount lmPos l2 pos n).2 := by
  intro l1 l2 h
  induction h with
  | nil => intro pos n; rfl
  | @cons a b t1 t2 hab _ ih =>
      intro pos n
      unfold createMMRestCount
      rw [hab.2.1]
      split_ifs
      · exact ih _ _
      · rfl
      · exact ih _ _

theorem createMMRest_cons (m : ScoreMeasure) (l : List ScoreMeasure) (lmPos : Nat) (len : ℚ) :
    ∃ mmr, createMMRest (m :: l) lmPos len
        = { m with mmRest := some mmr } :: (createMMRestCount lmPos l 1 1).1 ∧
      mmr.len = len ∧ mmr.mmRestCount = ((createMMRestCount lmPos l 1 1).2 : Int) := by
  unfold createMMRest
  refine ⟨_, rfl, ?_, rfl⟩
  cases hmm : m.mmRest with
  | none => simp
  | some mmr =>
      simp only []
      split_ifs with h
      · simp
      · simpa using not_not.mp h

theorem sameContent_ids {l1 l2 : List ScoreMeasure} (h : List.Forall₂ SameContent l1 l2) :
    l1.map (fun x => x.id) = l2.map (fun x => x.id) := by
  induction h with
  | nil => rfl
  | cons hab _ ih => simp [hab.1, ih]

/-- Result of the multi-measure rest branch when the run is collapsed: the replacement
measure has the length and the count found, and the measure bases keep their content. -/
theorem getNextMeasureMMRest_collapsed (showVBox : Bool) (minEmptyMeasures mno : Int)
    (m : ScoreMeasure) (rest next : List ScoreMeasure)
    (hc : minEmptyMeasures
      ≤ ((mmRestRun showVBox (m :: rest) { measureNo := m.no }).1.n : Int)) :
    ∃ m1 t1 mmr,
      List.Forall₂ SameContent (m1 :: t1) (m :: rest) ∧
      (getNextMeasureMMRest showVBox minEmptyMeasures mno (m :: rest) next).measures
        = { m1 with mmRest := some mmr }
          :: (createMMRestCount (mmRestRun showVBox (m :: rest) { measureNo := m.no }).1.lmPos
                t1 1 1).1 ∧
      (getNextMeasureMMRest showVBox minEmptyMeasures mno (m :: rest) next).curMMRest
        = some mmr ∧
      mmr.len = (mmRestRun showVBox (m :: rest) { measureNo := m.no }).1.len ∧
      mmr.mmRestCount = ((createMMRestCount
        (mmRestRun showVBox (m :: rest) { measureNo := m.no }).1.lmPos t1 1 1).2 : Int) ∧
      (getNextMeasureMMRest showVBox minEmptyMeasures mno (m :: rest) next).n
        = (mmRestRun showVBox (m :: rest) { measureNo := m.no }).1.n ∧
      (getNextMeasureMMRest showVBox minEmptyMeasures mno (m :: rest) next).len
        = (mmRestRun showVBox (m :: rest) { measureNo := m.no }).1.len ∧
      (getNextMeasureMMRest showVBox minEmptyMeasures mno (m :: rest) next).lmPos
        = (mmRestRun showVBox (m :: rest) { measureNo := m.no }).1.lmPos := by
  have hout := mmRestRun_output showVBox (m :: rest) { measureNo := m.no }
  simp only [List.nil_append] at hout
  generalize hrun : mmRestRun showVBox (m :: rest) { measureNo := m.no } = run at hout hc ⊢
  cases hms1 : run.1.passed ++ run.2 with
  | nil => rw [hms1] at hout; cases hout
  | cons m1 t1 =>
      rw [hms1] at hout
      cases hout with
      | cons hhead htail =>
          obtain ⟨mmr, hcreate, hlen, hcount⟩ := createMMRest_cons m1 t1 run.1.lmPos run.1.len
          have hge : (run.1.n : Int) ≥ minEmptyMeasures := hc
          refine ⟨m1, t1, mmr, ?_, ?_, ?_, hlen, hcount, ?_, ?_, ?_⟩
          · refine List.Forall₂.cons hhead.1 ?_
            exact List.Forall₂.imp (fun a b h => h.1) htail
          · unfold getNextMeasureMMRest
            simp only [hrun, hge, if_true, hms1, hcreate]
          · unfold getNextMeasureMMRest
            simp only [hrun, hge, if_true, hms1, hcreate]
            rfl
          · unfold getNextMeasureMMRest
            simp only [hrun, hge, if_true]
          · unfold getNextMeasureMMRest
            simp only [hrun, hge, if_true]
          · unfold getNextMeasureMMRest
            simp only [hrun, hge, if_true]

/-- C8: multi-measure rest collapsing is idempotent. After `getNextMeasure` has
collapsed a run starting at the measure `m` (the count `n` reached `minEmptyMeasures`),
running the run loop and `createMMRest` again from `m` on the measure bases as the
first pass left them selects the same last measure (same position in the same sequence
of measure bases), the same count and the same total length, collapses again, and
leaves the `mmRestCount` and the length of the replacement measure unchanged. -/
theorem mmRest_collapse_idempotent (showVBox : Bool) (minEmptyMeasures mno mno2 : Int)
    (m : ScoreMeasure) (rest next next2 : List ScoreMeasure)
    (hc : minEmptyMeasures
      ≤ ((getNextMeasureMMRest showVBox minEmptyMeasures mno (m :: rest) next).n : Int)) :
    (getNextMeasureMMRest showVBox minEmptyMeasures mno2
      (getNextMeasureMMRest showVBox minEmptyMeasures mno (m :: rest) next).measures next2).n
      = (getNextMeasureMMRest showVBox minEmptyMeasures mno (m :: rest) next).n ∧
    (getNextMeasureMMRest showVBox minEmptyMeasures mno2
      (getNextMeasureMMRest showVBox minEmptyMeasures mno (m :: rest) next).measures next2).len
      = (getNextMeasureMMRest showVBox minEmptyMeasures mno (m :: rest) next).len ∧
    (getNextMeasureMMRest showVBox minEmptyMeasures mno2
      (getNextMeasureMMRest showVBox minEmptyMeasures mno (m :: rest) next).measures
        next2).lmPos
      = (getNextMeasureMMRest showVBox minEmptyMeasures mno (m :: rest) next).lmPos ∧
    ((getNextMeasureMMRest showVBox minEmptyMeasures mno2
      (getNextMeasureMMRest showVBox minEmptyMeasures mno (m :: rest) next).measures
        next2).measures.map fun x => x.id)
      = ((getNextMeasureMMRest showVBox minEmptyMeasures mno (m :: rest) next).measures.map
          fun x => x.id) ∧
    ∃ mmr1 mmr2,
      (getNextMeasureMMRest showVBox minEmptyMeasures mno (m :: rest) next).curMMRest
        = some mmr1 ∧
      (getNextMeasureMMRest showVBox minEmptyMeasures mno2
        (getNextMeasureMMRest showVBox minEmptyMeasures mno (m :: rest) next).measures
          next2).curMMRest = some mmr2 ∧
      mmr2.mmRestCount = mmr1.mmRestCount ∧ mmr2.len = mmr1.len := by
  have hn : (getNextMeasureMMRest showVBox minEmptyMeasures mno (m :: rest) next).n
      = (mmRestRun showVBox (m :: rest) { measureNo := m.no }).1.n := by
    unfold getNextMeasureMMRest
    simp only []
    split_ifs <;> rfl
  rw [hn] at hc
  obtain ⟨m1, t1, mmr1, hsame1, hmeas1, hcur1, hlen1, hcount1, hn1, hl1, hp1⟩ :=
    getNextMeasureMMRest_collapsed showVBox minEmptyMeasures mno m rest next hc
  -- the measure bases after the first pass have the content of those before
  have hM : List.Forall₂ SameContent
      ({ m1 with mmRest := some mmr1 }
        :: (createMMRestCount (mmRestRun showVBox (m :: rest) { measureNo := m.no }).1.lmPos
              t1 1 1).1) (m :: rest) := by
    cases hsame1 with
    | cons hhead htail =>
        exact List.Forall₂.cons ⟨hhead.1, hhead.2.1, hhead.2.2.1, hhead.2.2.2.1, hhead.2.2.2.2⟩
          (forall2_sameContent_trans (createMMRestCount_output _ _ _ _) htail)
  rw [hmeas1]
  obtain ⟨e1, e2, e3⟩ := mmRestRun_content showVBox _ _ hM
    { measureNo := ({ m1 with mmRest := some mmr1 } : ScoreMeasure).no } { measureNo := m.no }
    rfl rfl rfl rfl
  have hc2 : minEmptyMeasures ≤ ((mmRestRun showVBox
      ({ m1 with mmRest := some mmr1 }
        :: (createMMRestCount (mmRestRun showVBox (m :: rest) { measureNo := m.no }).1.lmPos
              t1 1 1).1)
      { measureNo := ({ m1 with mmRest := some mmr1 } : ScoreMeasure).no }).1.n : Int) := by
    rw [e1]; exact hc
  obtain ⟨m2, t2, mmr2, hsame2, hmeas2, hcur2, hlen2, hcount2, hn2, hl2, hp2⟩ :=
    getNextMeasureMMRest_collapsed showVBox minEmptyMeasures mno2 _ _ next2 hc2
  refine ⟨?_, ?_, ?_, ?_, mmr1, mmr2, hcur1, hcur2, ?_, ?_⟩
  · rw [hn2, e1, hn1]
  · rw [hl2, e2, hl1]
  · rw [hp2, e3, hp1]
  · rw [hmeas2]
    have h2 : List.Forall₂ SameContent
        ({ m2 with mmRest := some mmr2 }
          :: (createMMRestCount (mmRestRun showVBox
              ({ m1 with mmRest := some mmr1 }
                :: (createMMRestCount
                  (mmRestRun showVBox (m :: rest) { measureNo := m.no }).1.lmPos t1 1 1).1)
              { measureNo := ({ m1 with mmRest := some mmr1 } : ScoreMeasure).no }).1.lmPos
                t2 1 1).1)
        ({ m1 with mmRest := some mmr1 }
          :: (createMMRestCount (mmRestRun showVBox (m :: rest) { measureNo := m.no }).1.lmPos
                t1 1 1).1) := by
      cases hsame2 with
      | cons hhead htail =>
          exact List.Forall₂.cons
            ⟨hhead.1, hhead.2.1, hhead.2.2.1, hhead.2.2.2.1, hhead.2.2.2.2⟩
            (forall2_sameContent_trans (createMMRestCount_output _ _ _ _) htail)
    exact sameContent_ids h2
  · rw [hcount2, hcount1, e3]
    congr 1
    cases hsame2 with
    | cons _ htail =>
        cases hsame1 with
        | cons _ htail1 =>
            exact createMMRestCount_content _ _ _
              (forall2_sameContent_trans htail (createMMRestCount_output _ _ _ _)) 1 1
  · rw [hlen2, hlen1, e2]

/-- Witness for C8: a measure followed by the other seven empty measures and a measure
with notes, collapsed with `minEmptyMeasures = 2`, is collapsed in the same way by a
second pass. -/
theorem mmRest_collapse_idempotent_witness :
    (2 : Int) ≤ ((getNextMeasureMMRest true 2 1
      ({ id := 0, tick := 0 } :: (exampleEmptyMeasures.tail ++ [exampleFullMeasure])) []).n
        : Int) ∧
    (getNextMeasureMMRest true 2 1
      (getNextMeasureMMRest true 2 1
        ({ id := 0, tick := 0 } :: (exampleEmptyMeasures.tail ++ [exampleFullMeasure]))
        []).measures []).n
      = (getNextMeasureMMRest true 2 1
        ({ id := 0, tick := 0 } :: (exampleEmptyMeasures.tail ++ [exampleFullMeasure])) []).n :=
  ⟨by decide,
   (mmRest_collapse_idempotent true 2 1 1 { id := 0, tick := 0 }
    (exampleEmptyMeasures.tail ++ [exampleFullMeasure]) [] [] (by decide)).1⟩

/-! ## Page collection: does the next system fit -/

theorem insertByTick_mem (cr : ChordRest) :
    ∀ (l : List ChordRest) (e : ChordRest), e ∈ insertByTick cr l ↔ e = cr ∨ e ∈ l := by
  intro l
  induction l with
  | nil => intro e; simp [insertByTick]
  | cons x xs ih =>
      intro e
      unfold insertByTick
      split_ifs
      · simp
      · simp only [List.mem_cons, ih]
        tauto

theorem insertByTick_sorted (cr : ChordRest) :
    ∀ (l : List ChordRest), l.Pairwise (fun x y => x.tick < y.tick) →
      (∀ e ∈ l, e.tick ≠ cr.tick) →
      (insertByTick cr l).Pairwise (fun x y => x.tick < y.tick) := by
  intro l
  induction l with
  | nil => intro _ _; simp [insertByTick]
  | cons x xs ih =>
      intro hp hne
      have hp1 := (List.pairwise_cons.mp hp).1
      have hp2 := (List.pairwise_cons.mp hp).2
      unfold insertByTick
      split_ifs with h
      · refine List.pairwise_cons.mpr ⟨?_, hp⟩
        intro y hy
        rcases List.mem_cons.mp hy with hy | hy
        · rw [hy]; exact h
        · exact lt_trans h (hp1 y hy)
      · refine List.pairwise_cons.mpr ⟨?_, ih hp2 (fun e he => hne e (List.mem_cons_of_mem _ he))⟩
        intro y hy
        rcases (insertByTick_mem cr xs y).mp hy with hy | hy
        · rw [hy]
          have h1 : x.tick ≤ cr.tick := not_lt.mp h
          exact lt_of_le_of_ne h1 (hne x (List.mem_cons_self _ _))
        · exact hp1 y hy

/-- A beam stays well formed when elements are taken out of it. -/
theorem BeamOK_sublist (crs : List ChordRest) (b : Beam) (els : List ChordRest)
    (h : BeamOK crs b) (hs : List.Sublist els b.elements) :
    BeamOK crs { b with elements := els } :=
  ⟨fun e he => h.1 e (hs.subset he), h.2.1.sublist hs,
    fun e he => h.2.2.1 e (hs.subset he), fun e he => h.2.2.2 e (hs.subset he)⟩

/-- A beam stays well formed when a chord or rest of the track is added to it. -/
theorem BeamOK_add (crs : List ChordRest) (b : Beam) (cr : ChordRest)
    (hid : ∀ c1 ∈ crs, ∀ c2 ∈ crs, c1.id = c2.id → c1 = c2)
    (htick : ∀ c1 ∈ crs, ∀ c2 ∈ crs, c1.tick = c2.tick → c1.id = c2.id)
    (h : BeamOK crs b) (hcr : cr ∈ crs) (htrack : b.track = cr.track) :
    BeamOK crs (b.add cr) := by
  unfold Beam.add
  split_ifs with hany
  · exact h
  · have hnone : ∀ e ∈ b.elements, e.id ≠ cr.id := by
      intro e he hid2
      apply hany
      rw [List.any_eq_true]
      exact ⟨e, he, by simpa using hid2⟩
    refine ⟨?_, ?_, ?_, ?_⟩
    · intro e he
      rcases (insertByTick_mem cr b.elements e).mp he with he | he
      · rw [he]; exact htrack.symm
      · exact h.1 e he
    · apply insertByTick_sorted cr b.elements h.2.1
      intro e he heq
      exact hnone e he (h.2.2.2 e he cr hcr ((h.1 e he).trans htrack) heq)
    · intro e he c hc hidc
      rcases (insertByTick_mem cr b.elements e).mp he with he | he
      · rw [he] at hidc ⊢; exact hid cr hcr c hc hidc
      · exact h.2.2.1 e he c hc hidc
    · intro e he c hc htr htk
      rcases (insertByTick_mem cr b.elements e).mp he with he | he
      · rw [he] at htk ⊢; exact htick cr hcr c hc htk
      · exact h.2.2.2 e he c hc htr htk

theorem beam_eq_of_id (beams : List Beam) (hnd : (beams.map fun b => b.id).Nodup)
    (x y : Beam) (hx : x ∈ beams) (hy : y ∈ beams) (h : x.id = y.id) : x = y :=
  List.inj_on_of_nodup_map hnd hx hy h

theorem Beam.add_id (b : Beam) (cr : ChordRest) : (b.add cr).id = b.id := by
  unfold Beam.add; split_ifs <;> rfl

theorem Beam.add_track (b : Beam) (cr : ChordRest) : (b.add cr).track = b.track := by
  unfold Beam.add; split_ifs <;> rfl

/-- Every beam behind `removeDeleteBeam` is a beam from before, with its identity and
track and with elements taken out at most. -/
theorem removeDeleteBeam_sub (s : BeamStore) (cr : ChordRest)
    (hnd : (s.beams.map fun b => b.id).Nodup) :
    ∀ b1 ∈ (s.removeDeleteBeam cr).beams, ∃ b ∈ s.beams, b.id = b1.id ∧ b.track = b1.track ∧
      List.Sublist b1.elements b.elements := by
  intro b1 hb1
  unfold BeamStore.removeDeleteBeam at hb1
  cases h1 : s.crBeam cr.id with
  | none => rw [h1] at hb1; exact ⟨b1, hb1, rfl, rfl, List.Sublist.refl _⟩
  | some beam =>
      rw [h1] at hb1
      simp only [] at hb1
      cases h2 : s.beams.find? (fun b => b.id == beam) with
      | none => rw [h2] at hb1; exact ⟨b1, hb1, rfl, rfl, List.Sublist.refl _⟩
      | some b =>
          rw [h2] at hb1
          simp only [] at hb1
          have hbmem : b ∈ s.beams := List.mem_of_find?_eq_some h2
          have hbid : b.id = beam := by
            have := List.find?_some h2
            simpa using this
          split_ifs at hb1
          · simp only [List.mem_filter] at hb1
            exact ⟨b1, hb1.1, rfl, rfl, List.Sublist.refl _⟩
          · simp only [List.mem_map] at hb1
            obtain ⟨b0, hb0, hbe⟩ := hb1
            split_ifs at hbe with hid
            · have hb0b : b0 = b := by
                apply beam_eq_of_id s.beams hnd b0 b hb0 hbmem
                rw [hbid]; simpa using hid
              refine ⟨b0, hb0, by rw [← hbe], by rw [← hbe], ?_⟩
              rw [← hbe, hb0b]
              exact List.eraseP_sublist _
            · exact ⟨b0, hb0, by rw [hbe], by rw [hbe], by rw [hbe]⟩

theorem removeDeleteBeam_ids_sublist (s : BeamStore) (cr : ChordRest) :
    List.Sublist ((s.removeDeleteBeam cr).beams.map fun b => b.id)
      (s.beams.map fun b => b.id) := by
  unfold BeamStore.removeDeleteBeam
  cases h1 : s.crBeam cr.id with
  | none => exact List.Sublist.refl _
  | some beam =>
      simp only []
      cases h2 : s.beams.find? (fun b => b.id == beam) with
      | none => exact List.Sublist.refl _
      | some b =>
          simp only []
          split_ifs
          · exact (List.filter_sublist _).map _
          · rw [List.map_map]
            have : ((fun b : Beam => b.id) ∘ fun x : Beam =>
                if (x.id == beam) = true then
                  { x with elements := List.eraseP (fun e => e.id == cr.id) b.elements }
                else x) = fun b : Beam => b.id := by
              funext x
              simp only [Function.comp]
              split_ifs <;> rfl
            rw [this]

theorem removeDeleteBeam_StoreOK (crs : List ChordRest) (s : BeamStore) (cr : ChordRest)
    (h : StoreOK crs s) : StoreOK crs (s.removeDeleteBeam cr) := by
  refine ⟨?_, h.2.sublist (removeDeleteBeam_ids_sublist s cr)⟩
  intro b1 hb1
  obtain ⟨b, hb, hid, htr, hsub⟩ := removeDeleteBeam_sub s cr h.2 b1 hb1
  obtain ⟨hok, hlt⟩ := h.1 b hb
  rw [removeDeleteBeam_nextId]
  refine ⟨?_, by rw [← hid]; exact hlt⟩
  have := BeamOK_sublist crs b b1.elements hok hsub
  refine ⟨fun e he => ?_, this.2.1, this.2.2.1, this.2.2.2⟩
  rw [← htr]
  exact this.1 e he

theorem addTo_StoreOK (crs : List ChordRest) (s : BeamStore) (beam : Nat) (cr : ChordRest)
    (hid : ∀ c1 ∈ crs, ∀ c2 ∈ crs, c1.id = c2.id → c1 = c2)
    (htick : ∀ c1 ∈ crs, ∀ c2 ∈ crs, c1.tick = c2.tick → c1.id = c2.id)
    (h : StoreOK crs s) (hcr : cr ∈ crs)
    (htarget : ∀ b ∈ s.beams, b.id = beam → b.track = cr.track) :
    StoreOK crs (s.addTo beam cr) := by
  unfold BeamStore.addTo
  refine ⟨?_, ?_⟩
  · intro b1 hb1
    simp only [List.mem_map] at hb1
    obtain ⟨b, hb, hbe⟩ := hb1
    obtain ⟨hok, hlt⟩ := h.1 b hb
    split_ifs at hbe with hbid
    · rw [← hbe]
      refine ⟨BeamOK_add crs b cr hid htick hok hcr (htarget b hb (by simpa using hbid)), ?_⟩
      rw [Beam.add_id]
      exact hlt
    · rw [← hbe]
      exact ⟨hok, hlt⟩
  · simp only [List.map_map]
    have : ((fun b : Beam => b.id) ∘ fun x : Beam =>
        if (x.id == beam) = true then x.add cr else x) = fun b : Beam => b.id := by
      funext x
      simp only [Function.comp]
      split_ifs
      · exact Beam.add_id x cr
      · rfl
    rw [this]
    exact h.2

theorem addTo_sub (s : BeamStore) (beam : Nat) (cr : ChordRest) :
    ∀ b1 ∈ (s.addTo beam cr).beams, ∃ b ∈ s.beams, b.id = b1.id ∧ b.track = b1.track := by
  intro b1 hb1
  unfold BeamStore.addTo at hb1
  simp only [List.mem_map] at hb1
  obtain ⟨b, hb, hbe⟩ := hb1
  refine ⟨b, hb, ?_, ?_⟩
  · split_ifs at hbe
    · rw [← hbe, Beam.add_id]
    · rw [hbe]
  · split_ifs at hbe
    · rw [← hbe, Beam.add_track]
    · rw [hbe]

theorem addTo_nextId (s : BeamStore) (beam : Nat) (cr : ChordRest) :
    (s.addTo beam cr).nextId = s.nextId := rfl

/-- The score stays well formed when a beam without elements is created. -/
theorem newBeam_StoreOK (crs : List ChordRest) (s : BeamStore) (track : Nat)
    (h : StoreOK crs s) :
    StoreOK crs { s with
      beams := s.beams ++ [{ id := s.nextId, track := track, elements := [] }]
      nextId := s.nextId + 1 } := by
  refine ⟨?_, ?_⟩
  · intro b hb
    simp only [List.mem_append, List.mem_singleton] at hb
    rcases hb with hb | hb
    · exact ⟨(h.1 b hb).1, Nat.lt_succ_of_lt (h.1 b hb).2⟩
    · subst hb
      refine ⟨⟨?_, ?_, ?_, ?_⟩, Nat.lt_succ_self _⟩ <;> simp
  · simp only [List.map_append, List.map_cons, List.map_nil]
    rw [List.nodup_append]
    refine ⟨h.2, by simp, ?_⟩
    intro a ha hb
    simp only [List.mem_map] at ha
    obtain ⟨b, hb1, hb2⟩ := ha
    simp only [List.mem_singleton] at hb
    have := (h.1 b hb1).2
    omega

theorem removeDeleteBeam_target (s : BeamStore) (cr : ChordRest) (track beam : Nat)
    (hnd : (s.beams.map fun b => b.id).Nodup)
    (h : ∀ b ∈ s.beams, b.id = beam → b.track = track) :
    ∀ b ∈ (s.removeDeleteBeam cr).beams, b.id = beam → b.track = track := by
  intro b1 hb1 hid
  obtain ⟨b, hb, hbid, hbtr, _⟩ := removeDeleteBeam_sub s cr hnd b1 hb1
  rw [← hbtr]
  exact h b hb (hbid.trans hid)

theorem addTo_target (s : BeamStore) (cr : ChordRest) (track beam beam2 : Nat)
    (h : ∀ b ∈ s.beams, b.id = beam → b.track = track) :
    ∀ b ∈ (s.addTo beam2 cr).beams, b.id = beam → b.track = track := by
  intro b1 hb1 hid
  obtain ⟨b, hb, hbid, hbtr⟩ := addTo_sub s beam2 cr b1 hb1
  rw [← hbtr]
  exact h b hb (hbid.trans hid)

/-- The handling of the candidate keeps the state well formed. -/
theorem beamCandidate_ok (crs : List ChordRest) (track : Nat)
    (hid : ∀ c1 ∈ crs, ∀ c2 ∈ crs, c1.id = c2.id → c1 = c2)
    (htick : ∀ c1 ∈ crs, ∀ c2 ∈ crs, c1.tick = c2.tick → c1.id = c2.id)
    (htrack : ∀ c ∈ crs, c.track = track)
    (st0 : BeamLoopState) (cr : ChordRest) (bm : BeamMode)
    (h0 : BeamLoopOK crs track st0) (hb0 : st0.beam = none) (hcr : cr ∈ crs) :
    BeamLoopOK crs track (beamCandidate track st0 cr bm) := by
  have hcrt : cr.track = track := htrack cr hcr
  unfold beamCandidate
  obtain ⟨hs0, _, ha0⟩ := h0
  cases hA : st0.a1 with
  | none =>
      exact ⟨hs0, fun beam hb => by simp [hb0] at hb, fun a ha => by
        simp at ha; rw [← ha]; exact hcr⟩
  | some a1 =>
      have ha1mem : a1 ∈ crs := ha0 a1 hA
      have ha1t : a1.track = track := htrack a1 ha1mem
      simp only []
      split_ifs with hc
      · exact ⟨removeDeleteBeam_StoreOK crs _ a1 hs0, fun beam hb => by simp [hb0] at hb,
          fun a ha => by simp at ha; rw [← ha]; exact hcr⟩
      · -- the beam that takes the two elements
        have key : ∀ (s2 : BeamStore) (beam : Nat), StoreOK crs s2 →
            (∀ b ∈ s2.beams, b.id = beam → b.track = track) →
            BeamLoopOK crs track
              { st0 with store := (s2.removeDeleteBeam cr).addTo beam cr,
                         beam := some beam, a1 := none } := by
          intro s2 beam hs2 ht2
          have ht3 := removeDeleteBeam_target s2 cr track beam hs2.2 ht2
          refine ⟨addTo_StoreOK crs _ beam cr hid htick
            (removeDeleteBeam_StoreOK crs s2 cr hs2) hcr
            (fun b hb hbid => (ht3 b hb hbid).trans hcrt.symm), ?_, fun a ha => by simp at ha⟩
          intro beam1 hb1
          simp only [Option.some.injEq] at hb1
          subst hb1
          exact addTo_target _ cr track beam beam ht3
        -- a new beam that takes the candidate
        have hnew : StoreOK crs
              (({ st0.store.removeDeleteBeam a1 with
                  beams := (st0.store.removeDeleteBeam a1).beams
                    ++ [{ id := st0.store.nextId, track := track, elements := [] }]
                  nextId := st0.store.nextId + 1 } : BeamStore).addTo st0.store.nextId a1) ∧
            ∀ b ∈ (({ st0.store.removeDeleteBeam a1 with
                  beams := (st0.store.removeDeleteBeam a1).beams
                    ++ [{ id := st0.store.nextId, track := track, elements := [] }]
                  nextId := st0.store.nextId + 1 } : BeamStore).addTo
                    st0.store.nextId a1).beams,
              b.id = st0.store.nextId → b.track = track := by
          have hrm := removeDeleteBeam_StoreOK crs _ a1 hs0
          have hfresh : ∀ b ∈ (st0.store.removeDeleteBeam a1).beams
              ++ [{ id := st0.store.nextId, track := track, elements := [] }],
              b.id = st0.store.nextId → b.track = track := by
            intro b hb hbid
            simp only [List.mem_append, List.mem_singleton] at hb
            rcases hb with hb | hb
            · have := (hrm.1 b hb).2
              rw [removeDeleteBeam_nextId] at this
              omega
            · rw [hb]
          rw [← removeDeleteBeam_nextId st0.store a1]
          rw [← removeDeleteBeam_nextId st0.store a1] at hfresh
          exact ⟨addTo_StoreOK crs _ _ a1 hid htick (newBeam_StoreOK crs _ track hrm) ha1mem
              (fun b hb hbid => (hfresh b hb hbid).trans ha1t.symm),
            addTo_target _ a1 track _ _ hfresh⟩
        cases hbo : st0.store.beamOf a1 with
        | none =>
            simp only []
            exact key _ _ hnew.1 hnew.2
        | some b =>
            simp only []
            split_ifs with hfront
            · simp only []
              apply key _ _ hs0
              -- the beam of the candidate, with the candidate in front, is of the track
              have hbmem : b ∈ st0.store.beams := by
                unfold BeamStore.beamOf at hbo
                cases hcb : st0.store.crBeam a1.id with
                | none => rw [hcb] at hbo; cases hbo
                | some k => rw [hcb] at hbo; exact List.mem_of_find?_eq_some hbo
              have hbtrack : b.track = track := by
                cases hels : b.elements with
                | nil => rw [hels] at hfront; simp at hfront
                | cons e es =>
                    rw [hels] at hfront
                    simp only [List.head?_cons, Option.map_some', Option.some.injEq] at hfront
                    have hemem : e ∈ b.elements := by rw [hels]; exact List.mem_cons_self _ _
                    have hok := (hs0.1 b hbmem).1
                    have he : e = a1 := hok.2.2.1 e hemem a1 ha1mem hfront
                    rw [← hok.1 e hemem, he]
                    exact ha1t
              intro x hx hxid
              rw [beam_eq_of_id _ hs0.2 x b hx hbmem hxid]
              exact hbtrack
            · simp only []
              exact key _ _ hnew.1 hnew.2

/-- The part of the loop body that extends or starts a beam keeps the state well
formed. -/
theorem beamExtend_ok (crs : List ChordRest) (track : Nat)
    (hid : ∀ c1 ∈ crs, ∀ c2 ∈ crs, c1.id = c2.id → c1 = c2)
    (htick : ∀ c1 ∈ crs, ∀ c2 ∈ crs, c1.tick = c2.tick → c1.id = c2.id)
    (htrack : ∀ c ∈ crs, c.track = track)
    (st : BeamLoopState) (cr : ChordRest) (bm : BeamMode)
    (h : BeamLoopOK crs track st) (hcr : cr ∈ crs) :
    BeamLoopOK crs track (beamExtend track st cr bm) := by
  obtain ⟨hstore, hbeam, ha1⟩ := h
  have hcrt : cr.track = track := htrack cr hcr
  unfold beamExtend
  cases hB : st.beam with
  | none =>
      simp only []
      exact beamCandidate_ok crs track hid htick htrack st cr bm ⟨hstore, hbeam, ha1⟩ hB hcr
  | some beam =>
      have htarget := hbeam beam hB
      have hadd : StoreOK crs ((st.store.removeDeleteBeam cr).addTo beam cr) :=
        addTo_StoreOK crs _ beam cr hid htick (removeDeleteBeam_StoreOK crs _ cr hstore)
          hcr (fun b hb hbid =>
            (removeDeleteBeam_target _ cr track beam hstore.2 htarget b hb hbid).trans hcrt.symm)
      simp only []
      split_ifs with hbegin hend
      · exact ⟨hadd, fun b hb => by simp at hb, ha1⟩
      · refine ⟨hadd, ?_, ha1⟩
        intro beam1 hb1
        simp only [Option.some.injEq] at hb1
        subst hb1
        exact addTo_target _ cr track beam beam
          (removeDeleteBeam_target _ cr track beam hstore.2 htarget)
      · exact beamCandidate_ok crs track hid htick htrack
          { st with store := st.store.layout1 beam, beam := none } cr bm
          ⟨hstore, fun b hb => by simp at hb, ha1⟩ rfl hcr

/-- One iteration of the loop of `createBeams` keeps the state well formed. -/
theorem createBeamsStep_ok (env : BeamEnv) (crs : List ChordRest) (track : Nat)
    (hid : ∀ c1 ∈ crs, ∀ c2 ∈ crs, c1.id = c2.id → c1 = c2)
    (htick : ∀ c1 ∈ crs, ∀ c2 ∈ crs, c1.tick = c2.tick → c1.id = c2.id)
    (htrack : ∀ c ∈ crs, c.track = track)
    (st : BeamLoopState) (cr : ChordRest)
    (h : BeamLoopOK crs track st) (hcr : cr ∈ crs) :
    BeamLoopOK crs track (createBeamsStep env track st cr) := by
  unfold createBeamsStep
  simp only []
  split_ifs
  · refine ⟨removeDeleteBeam_StoreOK crs _ cr ?_, fun b hb => by simp at hb,
      fun a ha => by simp at ha⟩
    cases st.a1 <;> cases st.beam <;> simp only []
    · exact h.1
    · exact h.1
    · exact removeDeleteBeam_StoreOK crs _ _ h.1
    · exact removeDeleteBeam_StoreOK crs _ _ h.1
  · exact beamExtend_ok crs track hid htick htrack _ cr _ h hcr

theorem createBeams_foldl_ok (env : BeamEnv) (crs : List ChordRest) (track : Nat)
    (hid : ∀ c1 ∈ crs, ∀ c2 ∈ crs, c1.id = c2.id → c1 = c2)
    (htick : ∀ c1 ∈ crs, ∀ c2 ∈ crs, c1.tick = c2.tick → c1.id = c2.id)
    (htrack : ∀ c ∈ crs, c.track = track) :
    ∀ (l : List ChordRest) (st : BeamLoopState), (∀ c ∈ l, c ∈ crs) →
      BeamLoopOK crs track st →
      BeamLoopOK crs track (l.foldl (createBeamsStep env track) st) := by
  intro l
  induction l with
  | nil => intro st _ h; exact h
  | cons c rest ih =>
      intro st hl h
      simp only [List.foldl_cons]
      exact ih _ (fun x hx => hl x (List.mem_cons_of_mem _ hx))
        (createBeamsStep_ok env crs track hid htick htrack st c h (hl c (List.mem_cons_self _ _)))

/-- The beams of the score are well formed behind `createBeams` for a track if they were
before. -/
theorem createBeamsTrack_ok (env : BeamEnv) (crs : List ChordRest) (track : Nat)
    (store : BeamStore)
    (hid : ∀ c1 ∈ crs, ∀ c2 ∈ crs, c1.id = c2.id → c1 = c2)
    (htick : ∀ c1 ∈ crs, ∀ c2 ∈ crs, c1.tick = c2.tick → c1.id = c2.id)
    (htrack : ∀ c ∈ crs, c.track = track)
    (hstore : StoreOK crs store) :
    StoreOK crs (createBeamsTrack env track store crs) := by
  have h := createBeams_foldl_ok env crs track hid htick htrack crs { store := store }
    (fun c hc => hc) ⟨hstore, fun b hb => by simp at hb, fun a ha => by simp at ha⟩
  unfold createBeamsTrack
  simp only []
  split
  · exact h.1
  · exact removeDeleteBeam_StoreOK crs _ _ h.1
  · exact h.1

theorem ticks_determine (crs : List ChordRest)
    (h : crs.Pairwise (fun a b => a.tick < b.tick)) :
    ∀ c1 ∈ crs, ∀ c2 ∈ crs, c1.tick = c2.tick → c1 = c2 := by
  induction crs with
  | nil => intro c1 h1; cases h1
  | cons x xs ih =>
      intro c1 h1 c2 h2 heq
      have hp1 := (List.pairwise_cons.mp h).1
      have hp2 := (List.pairwise_cons.mp h).2
      rcases List.mem_cons.mp h1 with h1 | h1 <;> rcases List.mem_cons.mp h2 with h2 | h2
      · rw [h1, h2]
      · rw [h1] at heq; have := hp1 c2 h2; omega
      · rw [h2] at heq; have := hp1 c1 h1; omega
      · exact ih hp2 c1 h1 c2 h2 heq

/-! ## Beam grouping: beams of chords and rests and beams of grace notes -/

theorem insertByTick_ends (cr : ChordRest) :
    ∀ (l : List ChordRest), l.Pairwise (fun x y => x.tick + x.actualTicks ≤ y.tick) →
      l.Pairwise (fun x y => x.tick < y.tick) →
      (∀ e ∈ l, (e.tick < cr.tick → e.tick + e.actualTicks ≤ cr.tick) ∧
        (cr.tick < e.tick → cr.tick + cr.actualTicks ≤ e.tick)) →
      (∀ e ∈ l, e.tick ≠ cr.tick) →
      (insertByTick cr l).Pairwise (fun x y => x.tick + x.actualTicks ≤ y.tick) := by
  intro l
  induction l with
  | nil => intro _ _ _ _; simp [insertByTick]
  | cons x xs ih =>
      intro hp hs hc hne
      have hp1 := (List.pairwise_cons.mp hp).1
      have hp2 := (List.pairwise_cons.mp hp).2
      have hs1 := (List.pairwise_cons.mp hs).1
      have hs2 := (List.pairwise_cons.mp hs).2
      unfold insertByTick
      split_ifs with h
      · refine List.pairwise_cons.mpr ⟨?_, hp⟩
        intro y hy
        rcases List.mem_cons.mp hy with hy | hy
        · rw [hy]; exact (hc x (List.mem_cons_self _ _)).2 h
        · exact (hc y (List.mem_cons_of_mem _ hy)).2 (lt_trans h (hs1 y hy))
      · refine List.pairwise_cons.mpr ⟨?_, ih hp2 hs2
          (fun e he => hc e (List.mem_cons_of_mem _ he))
          (fun e he => hne e (List.mem_cons_of_mem _ he))⟩
        intro y hy
        rcases (insertByTick_mem cr xs y).mp hy with hy | hy
        · rw [hy]
          have h1 : x.tick ≤ cr.tick := not_lt.mp h
          exact (hc x (List.mem_cons_self _ _)).1
            (lt_of_le_of_ne h1 (hne x (List.mem_cons_self _ _)))
        · exact hp1 y hy

/-- Two chords or rests of a track that is in order do not overlap in time. -/
theorem pairwise_cross (crs : List ChordRest)
    (h : crs.Pairwise (fun a b => a.tick < b.tick ∧ a.tick + a.actualTicks ≤ b.tick)) :
    ∀ a ∈ crs, ∀ b ∈ crs, a.tick < b.tick → a.tick + a.actualTicks ≤ b.tick := by
  induction crs with
  | nil => intro a ha; cases ha
  | cons x xs ih =>
      intro a ha b hb hab
      have hp1 := (List.pairwise_cons.mp h).1
      have hp2 := (List.pairwise_cons.mp h).2
      rcases List.mem_cons.mp ha with ha | ha <;> rcases List.mem_cons.mp hb with hb | hb
      · rw [ha, hb] at hab; exact absurd hab (lt_irrefl _)
      · rw [ha]; exact (hp1 b hb).2
      · rw [hb] at hab; have := (hp1 a ha).1; omega
      · exact ih hp2 a ha b hb hab

theorem pairwise_tick_id (crs : List ChordRest)
    (h : crs.Pairwise (fun a b => a.tick < b.tick ∧ a.tick + a.actualTicks ≤ b.tick)) :
    ∀ c1 ∈ crs, ∀ c2 ∈ crs, c1.tick = c2.tick → c1.id = c2.id := by
  intro c1 h1 c2 h2 heq
  rw [ticks_determine crs (h.imp fun hab => hab.1) c1 h1 c2 h2 heq]

/-- A beam of chords and rests stays well formed when elements are taken out of it. -/
theorem MainBeamOK_sublist (crs gs : List ChordRest) (b : Beam) (els : List ChordRest)
    (h : MainBeamOK crs gs b) (hs : List.Sublist els b.elements) :
    MainBeamOK crs gs { b with elements := els } :=
  ⟨BeamOK_sublist crs b els h.1 hs, fun e he => h.2.1 e (hs.subset he),
    fun e he => h.2.2.1 e (hs.subset he), h.2.2.2.1.sublist hs,
    fun e he => h.2.2.2.2 e (hs.subset he)⟩

/-- A beam of chords and rests stays well formed when a chord or rest of the track is
added to it. -/
theorem MainBeamOK_add (grace : GraceNotes) (track : Nat) (crs gs : List ChordRest)
    (ht : TrackOK grace track crs gs) (b : Beam) (cr : ChordRest)
    (h : MainBeamOK crs gs b) (hcr : cr ∈ crs) (htrack : b.track = cr.track) :
    MainBeamOK crs gs (b.add cr) := by
  obtain ⟨t1, t2, t3, t4, t5, t6⟩ := ht
  have hbk := BeamOK_add crs b cr t3 (pairwise_tick_id crs t2) h.1 hcr htrack
  refine ⟨hbk, ?_⟩
  unfold Beam.add at hbk ⊢
  split_ifs at hbk ⊢ with hany
  · exact h.2
  · have hnone : ∀ e ∈ b.elements, e.id ≠ cr.id := by
      intro e he hid2
      apply hany
      rw [List.any_eq_true]
      exact ⟨e, he, by simpa using hid2⟩
    refine ⟨?_, ?_, ?_, ?_⟩
    · intro e he g hg
      rcases (insertByTick_mem cr b.elements e).mp he with he | he
      · rw [he]; exact t6 cr hcr g hg
      · exact h.2.1 e he g hg
    · intro e he
      rcases (insertByTick_mem cr b.elements e).mp he with he | he
      · rw [he]; exact (t1 cr hcr).2
      · exact h.2.2.1 e he
    · apply insertByTick_ends cr b.elements h.2.2.2.1 h.1.2.1
      · intro e he
        exact h.2.2.2.2 e he cr hcr ((h.1.1 e he).trans htrack)
      · intro e he heq
        exact hnone e he (h.1.2.2.2 e he cr hcr ((h.1.1 e he).trans htrack) heq)
    · intro e he c hc htr
      rcases (insertByTick_mem cr b.elements e).mp he with he | he
      · rw [he]
        exact ⟨pairwise_cross crs t2 cr hcr c hc, pairwise_cross crs t2 c hc cr hcr⟩
      · exact h.2.2.2.2 e he c hc htr

/-- A beam of the score stays well formed when elements are taken out of it. -/
theorem BeamOK2_sublist (crs gs : List ChordRest) (b b1 : Beam)
    (h : BeamOK2 crs gs b) (htr : b.track = b1.track)
    (hs : List.Sublist b1.elements b.elements) : BeamOK2 crs gs b1 := by
  refine ⟨fun e he => by rw [← htr]; exact h.1 e (hs.subset he), ?_⟩
  rcases h.2 with hg | hm
  · exact Or.inl fun e he => hg e (hs.subset he)
  · right
    have := MainBeamOK_sublist crs gs b b1.elements hm hs
    exact ⟨⟨fun e he => by rw [← htr]; exact hm.1.1 e (hs.subset he), this.1.2.1, this.1.2.2.1,
      this.1.2.2.2⟩, this.2.1, this.2.2.1, this.2.2.2.1, this.2.2.2.2⟩

/-- A well formed beam of the score without grace notes is a well formed beam of chords and
rests. -/
theorem BeamOK2_main (crs gs : List ChordRest) (b : Beam) (h : BeamOK2 crs gs b)
    (hn : NoGrace gs b) : MainBeamOK crs gs b := by
  rcases h.2 with hg | hm
  · have hempty : b.elements = [] := by
      cases hels : b.elements with
      | nil => rfl
      | cons e es =>
          have he : e ∈ b.elements := by rw [hels]; exact List.mem_cons_self _ _
          exact absurd rfl (hn e he e (hg e he))
    refine ⟨⟨?_, ?_, ?_, ?_⟩, hn, ?_, ?_, ?_⟩ <;> rw [hempty] <;> simp
  · exact hm

/-- A well formed beam of the score with a grace note is a beam of grace notes. -/
theorem BeamOK2_grace (crs gs : List ChordRest) (b : Beam) (h : BeamOK2 crs gs b)
    (e g : ChordRest) (he : e ∈ b.elements) (hg : g ∈ gs) (hid : e.id = g.id) :
    GraceBeam gs b := by
  rcases h.2 with hg1 | hm
  · exact hg1
  · exact absurd hid (hm.2.1 e he g hg)

/-- A well formed beam of the track without grace notes stays so when a chord or rest of
the track is added to it. -/
theorem BeamOK2_add_main (grace : GraceNotes) (track : Nat) (crs gs : List ChordRest)
    (ht : TrackOK grace track crs gs) (b : Beam) (cr : ChordRest)
    (h : BeamOK2 crs gs b) (hcr : cr ∈ crs) (htrack : b.track = track) (hn : NoGrace gs b) :
    BeamOK2 crs gs (b.add cr) ∧ NoGrace gs (b.add cr) := by
  have hcrt : cr.track = track := (ht.1 cr hcr).1
  have hm := MainBeamOK_add grace track crs gs ht b cr (BeamOK2_main crs gs b h hn) hcr
    (htrack.trans hcrt.symm)
  exact ⟨⟨hm.1.1, Or.inr hm⟩, hm.2.1⟩

/-- A beam of grace notes of the track stays so when a grace note of the track is added to
it. -/
theorem BeamOK2_add_grace (crs gs : List ChordRest) (track : Nat) (b : Beam) (g : ChordRest)
    (h : BeamOK2 crs gs b) (hg : g ∈ gs) (hgt : g.track = track) (htrack : b.track = track)
    (hgb : GraceBeam gs b) :
    BeamOK2 crs gs (b.add g) ∧ GraceBeam gs (b.add g) := by
  have hmem : ∀ e ∈ (b.add g).elements, e = g ∨ e ∈ b.elements := by
    intro e he
    unfold Beam.add at he
    split_ifs at he
    · exact Or.inr he
    · exact (insertByTick_mem g b.elements e).mp he
  have hgb2 : GraceBeam gs (b.add g) := by
    intro e he
    rcases hmem e he with h1 | h1
    · rw [h1]; exact hg
    · exact hgb e h1
  refine ⟨⟨?_, Or.inl hgb2⟩, hgb2⟩
  intro e he
  rw [Beam.add_track]
  rcases hmem e he with h1 | h1
  · rw [h1, hgt, htrack]
  · exact h.1 e h1

theorem removeDeleteBeam_StoreOK2 (crs gs : List ChordRest) (s : BeamStore) (cr : ChordRest)
    (h : StoreOK2 crs gs s) : StoreOK2 crs gs (s.removeDeleteBeam cr) := by
  refine ⟨?_, h.2.sublist (removeDeleteBeam_ids_sublist s cr)⟩
  intro b1 hb1
  obtain ⟨b, hb, hid, htr, hsub⟩ := removeDeleteBeam_sub s cr h.2 b1 hb1
  obtain ⟨hok, hlt⟩ := h.1 b hb
  rw [removeDeleteBeam_nextId]
  exact ⟨BeamOK2_sublist crs gs b b1 hok htr hsub, by rw [← hid]; exact hlt⟩

/-- A property of the beam with the identity `beam` that survives when elements are taken
out holds behind `removeDeleteBeam`. -/
theorem removeDeleteBeam_prop (s : BeamStore) (cr : ChordRest) (beam : Nat) (Q : Beam → Prop)
    (hQ : ∀ b b1 : Beam, b.track = b1.track → List.Sublist b1.elements b.elements →
      Q b → Q b1)
    (hnd : (s.beams.map fun b => b.id).Nodup)
    (h : ∀ b ∈ s.beams, b.id = beam → Q b) :
    ∀ b ∈ (s.removeDeleteBeam cr).beams, b.id = beam → Q b := by
  intro b1 hb1 hid
  obtain ⟨b, hb, hbid, hbtr, hsub⟩ := removeDeleteBeam_sub s cr hnd b1 hb1
  exact hQ b b1 hbtr hsub (h b hb (hbid.trans hid))

theorem addTo_StoreOK2 (crs gs : List ChordRest) (s : BeamStore) (beam : Nat) (cr : ChordRest)
    (h : StoreOK2 crs gs s)
    (hadd : ∀ b ∈ s.beams, b.id = beam → BeamOK2 crs gs (b.add cr)) :
    StoreOK2 crs gs (s.addTo beam cr) := by
  unfold BeamStore.addTo
  refine ⟨?_, ?_⟩
  · intro b1 hb1
    simp only [List.mem_map] at hb1
    obtain ⟨b, hb, hbe⟩ := hb1
    obtain ⟨hok, hlt⟩ := h.1 b hb
    split_ifs at hbe with hbid
    · rw [← hbe]
      refine ⟨hadd b hb (by simpa using hbid), ?_⟩
      rw [Beam.add_id]
      exact hlt
    · rw [← hbe]
      exact ⟨hok, hlt⟩
  · simp only [List.map_map]
    have : ((fun b : Beam => b.id) ∘ fun x : Beam =>
        if (x.id == beam) = true then x.add cr else x) = fun b : Beam => b.id := by
      funext x
      simp only [Function.comp]
      split_ifs
      · exact Beam.add_id x cr
      · rfl
    rw [this]
    exact h.2

/-- A property of the beam with the identity `beam` behind `addTo`: it holds if it held
before and, when the element is added to this beam, holds for the beam with the element
added. -/
theorem addTo_prop (s : BeamStore) (beam beam2 : Nat) (cr : ChordRest) (Q : Beam → Prop)
    (h : ∀ b ∈ s.beams, b.id = beam → Q b)
    (hadd : beam2 = beam → ∀ b ∈ s.beams, b.id = beam → Q (b.add cr)) :
    ∀ b1 ∈ (s.addTo beam2 cr).beams, b1.id = beam → Q b1 := by
  intro b1 hb1 hid
  unfold BeamStore.addTo at hb1
  simp only [List.mem_map] at hb1
  obtain ⟨b, hb, hbe⟩ := hb1
  split_ifs at hbe with hbid
  · have hb2 : b.id = beam2 := by simpa using hbid
    have hbb : b.id = beam := by rw [← hid, ← hbe, Beam.add_id]
    rw [← hbe]
    exact hadd (hb2.symm.trans hbb) b hb hbb
  · rw [← hbe]
    exact h b hb (by rw [hbe]; exact hid)

/-- The score stays well formed when a beam without elements is created. -/
theorem newBeam_StoreOK2 (crs gs : List ChordRest) (s : BeamStore) (track : Nat)
    (h : StoreOK2 crs gs s) :
    StoreOK2 crs gs { s with
      beams := s.beams ++ [{ id := s.nextId, track := track, elements := [] }]
      nextId := s.nextId + 1 } := by
  refine ⟨?_, ?_⟩
  · intro b hb
    simp only [List.mem_append, List.mem_singleton] at hb
    rcases hb with hb | hb
    · exact ⟨(h.1 b hb).1, Nat.lt_succ_of_lt (h.1 b hb).2⟩
    · subst hb
      refine ⟨⟨?_, Or.inl ?_⟩, Nat.lt_succ_self _⟩
      · intro e he; simp at he
      · intro e he; simp at he
  · simp only [List.map_append, List.map_cons, List.map_nil]
    rw [List.nodup_append]
    refine ⟨h.2, by simp, ?_⟩
    intro a ha hb
    simp only [List.mem_map] at ha
    obtain ⟨b, hb1, hb2⟩ := ha
    simp only [List.mem_singleton] at hb
    have := (h.1 b hb1).2
    omega

theorem noGrace_sublist (gs : List ChordRest) (track : Nat) (b b1 : Beam)
    (htr : b.track = b1.track) (hs : List.Sublist b1.elements b.elements)
    (h : b.track = track ∧ NoGrace gs b) : b1.track = track ∧ NoGrace gs b1 :=
  ⟨htr ▸ h.1, fun e he => h.2 e (hs.subset he)⟩

theorem graceBeam_sublist (gs : List ChordRest) (track : Nat) (b b1 : Beam)
    (htr : b.track = b1.track) (hs : List.Sublist b1.elements b.elements)
    (h : b.track = track ∧ GraceBeam gs b) : b1.track = track ∧ GraceBeam gs b1 :=
  ⟨htr ▸ h.1, fun e he => h.2 e (hs.subset he)⟩

/-- The beam of a chord or rest, if it has one, is a beam of the score. -/
theorem beamOf_mem (s : BeamStore) (a1 : ChordRest) (b : Beam) (h : s.beamOf a1 = some b) :
    b ∈ s.beams := by
  unfold BeamStore.beamOf at h
  cases hcb : s.crBeam a1.id with
  | none => rw [hcb] at h; cases h
  | some k => rw [hcb] at h; exact List.mem_of_find?_eq_some h

/-- The handling of the candidate keeps the state well formed. -/
theorem beamCandidate_ok2 (grace : GraceNotes) (crs gs : List ChordRest) (track : Nat)
    (ht : TrackOK grace track crs gs)
    (st0 : BeamLoopState) (cr : ChordRest) (bm : BeamMode)
    (h0 : BeamLoopOK2 crs gs track st0) (hb0 : st0.beam = none) (hcr : cr ∈ crs) :
    BeamLoopOK2 crs gs track (beamCandidate track st0 cr bm) := by
  unfold beamCandidate
  obtain ⟨hs0, _, ha0⟩ := h0
  cases hA : st0.a1 with
  | none =>
      exact ⟨hs0, fun beam hb => by simp [hb0] at hb, fun a ha => by
        simp at ha; rw [← ha]; exact hcr⟩
  | some a1 =>
      have ha1mem : a1 ∈ crs := ha0 a1 hA
      have ha1t : a1.track = track := (ht.1 a1 ha1mem).1
      simp only []
      split_ifs with hc
      · exact ⟨removeDeleteBeam_StoreOK2 crs gs _ a1 hs0, fun beam hb => by simp [hb0] at hb,
          fun a ha => by simp at ha; rw [← ha]; exact hcr⟩
      · -- the beam that takes the two elements
        have key : ∀ (s2 : BeamStore) (beam : Nat), StoreOK2 crs gs s2 → beam < s2.nextId →
            (∀ b ∈ s2.beams, b.id = beam → b.track = track ∧ NoGrace gs b) →
            BeamLoopOK2 crs gs track
              { st0 with store := (s2.removeDeleteBeam cr).addTo beam cr,
                         beam := some beam, a1 := none } := by
          intro s2 beam hs2 hlt ht2
          have hs3 := removeDeleteBeam_StoreOK2 crs gs s2 cr hs2
          have ht3 := removeDeleteBeam_prop s2 cr beam
            (fun b => b.track = track ∧ NoGrace gs b) (noGrace_sublist gs track) hs2.2 ht2
          refine ⟨addTo_StoreOK2 crs gs _ beam cr hs3 ?_, ?_, fun a ha => by simp at ha⟩
          · intro b hb hbid
            exact (BeamOK2_add_main grace track crs gs ht b cr (hs3.1 b hb).1 hcr
              (ht3 b hb hbid).1 (ht3 b hb hbid).2).1
          · intro beam1 hb1
            simp only [Option.some.injEq] at hb1
            subst hb1
            refine ⟨by rw [addTo_nextId, removeDeleteBeam_nextId]; exact hlt, ?_⟩
            apply addTo_prop _ beam beam cr (fun b => b.track = track ∧ NoGrace gs b) ht3
            intro _ b hb hbid
            exact ⟨by rw [Beam.add_track]; exact (ht3 b hb hbid).1,
              (BeamOK2_add_main grace track crs gs ht b cr (hs3.1 b hb).1 hcr
                (ht3 b hb hbid).1 (ht3 b hb hbid).2).2⟩
        -- a new beam that takes the candidate
        have hnew : StoreOK2 crs gs
              (({ st0.store.removeDeleteBeam a1 with
                  beams := (st0.store.removeDeleteBeam a1).beams
                    ++ [{ id := st0.store.nextId, track := track, elements := [] }]
                  nextId := st0.store.nextId + 1 } : BeamStore).addTo st0.store.nextId a1) ∧
            ∀ b ∈ (({ st0.store.removeDeleteBeam a1 with
                  beams := (st0.store.removeDeleteBeam a1).beams
                    ++ [{ id := st0.store.nextId, track := track, elements := [] }]
                  nextId := st0.store.nextId + 1 } : BeamStore).addTo
                    st0.store.nextId a1).beams,
              b.id = st0.store.nextId → b.track = track ∧ NoGrace gs b := by
          have hrm := removeDeleteBeam_StoreOK2 crs gs _ a1 hs0
          have hfresh : ∀ b ∈ (st0.store.removeDeleteBeam a1).beams
              ++ [{ id := st0.store.nextId, track := track, elements := [] }],
              b.id = st0.store.nextId → b.track = track ∧ NoGrace gs b := by
            intro b hb hbid
            simp only [List.mem_append, List.mem_singleton] at hb
            rcases hb with hb | hb
            · have := (hrm.1 b hb).2
              rw [removeDeleteBeam_nextId] at this
              omega
            · rw [hb]
              exact ⟨rfl, fun e he => by simp at he⟩
          have hnb := newBeam_StoreOK2 crs gs _ track hrm
          rw [removeDeleteBeam_nextId] at hnb
          refine ⟨addTo_StoreOK2 crs gs _ _ a1 hnb ?_, ?_⟩
          · intro b hb hbid
            exact (BeamOK2_add_main grace track crs gs ht b a1 (hnb.1 b hb).1 ha1mem
              (hfresh b hb hbid).1 (hfresh b hb hbid).2).1
          · apply addTo_prop _ _ _ a1 (fun b => b.track = track ∧ NoGrace gs b) hfresh
            intro _ b hb hbid
            exact ⟨by rw [Beam.add_track]; exact (hfresh b hb hbid).1,
              (BeamOK2_add_main grace track crs gs ht b a1 (hnb.1 b hb).1 ha1mem
                (hfresh b hb hbid).1 (hfresh b hb hbid).2).2⟩
        cases hbo : st0.store.beamOf a1 with
        | none =>
            simp only []
            exact key _ _ hnew.1 (by simp [BeamStore.addTo]) hnew.2
        | some b =>
            simp only []
            split_ifs with hfront
            · simp only []
              have hbmem : b ∈ st0.store.beams := beamOf_mem _ _ _ hbo
              have hbprop : b.track = track ∧ NoGrace gs b := by
                cases hels : b.elements with
                | nil => rw [hels] at hfront; simp at hfront
                | cons e es =>
                    rw [hels] at hfront
                    simp only [List.head?_cons, Option.map_some', Option.some.injEq] at hfront
                    have hemem : e ∈ b.elements := by rw [hels]; exact List.mem_cons_self _ _
                    have hok := (hs0.1 b hbmem).1
                    rcases hok.2 with hg | hm
                    · exact absurd hfront.symm (ht.2.2.2.2.2 a1 ha1mem e (hg e hemem))
                    · have he : e = a1 := hm.1.2.2.1 e hemem a1 ha1mem hfront
                      refine ⟨?_, hm.2.1⟩
                      rw [← hok.1 e hemem, he]
                      exact ha1t
              apply key _ _ hs0 (hs0.1 b hbmem).2
              intro x hx hxid
              rw [beam_eq_of_id _ hs0.2 x b hx hbmem hxid]
              exact hbprop
            · simp only []
              exact key _ _ hnew.1 (by simp [BeamStore.addTo]) hnew.2

/-- The part of the loop body that extends or starts a beam keeps the state well
formed. -/
theorem beamExtend_ok2 (grace : GraceNotes) (crs gs : List ChordRest) (track : Nat)
    (ht : TrackOK grace track crs gs)
    (st : BeamLoopState) (cr : ChordRest) (bm : BeamMode)
    (h : BeamLoopOK2 crs gs track st) (hcr : cr ∈ crs) :
    BeamLoopOK2 crs gs track (beamExtend track st cr bm) := by
  obtain ⟨hstore, hbeam, ha1⟩ := h
  unfold beamExtend
  cases hB : st.beam with
  | none =>
      simp only []
      exact beamCandidate_ok2 grace crs gs track ht st cr bm ⟨hstore, hbeam, ha1⟩ hB hcr
  | some beam =>
      obtain ⟨hlt, htarget⟩ := hbeam beam hB
      have hs3 := removeDeleteBeam_StoreOK2 crs gs st.store cr hstore
      have ht3 := removeDeleteBeam_prop st.store cr beam
        (fun b => b.track = track ∧ NoGrace gs b) (noGrace_sublist gs track) hstore.2 htarget
      have hadd : StoreOK2 crs gs ((st.store.removeDeleteBeam cr).addTo beam cr) := by
        apply addTo_StoreOK2 crs gs _ beam cr hs3
        intro b hb hbid
        exact (BeamOK2_add_main grace track crs gs ht b cr (hs3.1 b hb).1 hcr
          (ht3 b hb hbid).1 (ht3 b hb hbid).2).1
      simp only []
      split_ifs with hbegin hend
      · exact ⟨hadd, fun b hb => by simp at hb, ha1⟩
      · refine ⟨hadd, ?_, ha1⟩
        intro beam1 hb1
        simp only [Option.some.injEq] at hb1
        subst hb1
        refine ⟨by rw [addTo_nextId, removeDeleteBeam_nextId]; exact hlt, ?_⟩
        apply addTo_prop _ beam beam cr (fun b => b.track = track ∧ NoGrace gs b) ht3
        intro _ b hb hbid
        exact ⟨by rw [Beam.add_track]; exact (ht3 b hb hbid).1,
          (BeamOK2_add_main grace track crs gs ht b cr (hs3.1 b hb).1 hcr
            (ht3 b hb hbid).1 (ht3 b hb hbid).2).2⟩
      · exact beamCandidate_ok2 grace crs gs track ht
          { st with store := st.store.layout1 beam, beam := none } cr bm
          ⟨hstore, fun b hb => by simp at hb, ha1⟩ rfl hcr

/-- One iteration of the loop of `createBeams` keeps the state well formed. -/
theorem createBeamsStep_ok2 (env : BeamEnv) (grace : GraceNotes) (crs gs : List ChordRest)
    (track : Nat) (ht : TrackOK grace track crs gs)
    (st : BeamLoopState) (cr : ChordRest)
    (h : BeamLoopOK2 crs gs track st) (hcr : cr ∈ crs) :
    BeamLoopOK2 crs gs track (createBeamsStep env track st cr) := by
  unfold createBeamsStep
  simp only []
  split_ifs
  · refine ⟨removeDeleteBeam_StoreOK2 crs gs _ cr ?_, fun b hb => by simp at hb,
      fun a ha => by simp at ha⟩
    cases st.a1 <;> cases st.beam <;> simp only []
    · exact h.1
    · exact h.1
    · exact removeDeleteBeam_StoreOK2 crs gs _ _ h.1
    · exact removeDeleteBeam_StoreOK2 crs gs _ _ h.1
  · exact beamExtend_ok2 grace crs gs track ht _ cr _ h hcr

/-- The handling of the candidate in `beamGraceNotes` keeps the state well formed. -/
theorem graceCandidate_ok (grace : GraceNotes) (crs gs : List ChordRest) (track : Nat)
    (ht : TrackOK grace track crs gs) (mb : Option Nat)
    (st0 : GraceLoopState) (cr : ChordRest) (bm : BeamMode)
    (h0 : GraceLoopOK crs gs track mb st0) (hb0 : st0.beam = none)
    (hcr : cr ∈ gs) (hcrt : cr.track = track) :
    GraceLoopOK crs gs track mb (graceCandidate track st0 cr bm) := by
  unfold graceCandidate
  obtain ⟨hs0, _, ha0, hd0⟩ := h0
  cases hA : st0.a1 with
  | none =>
      exact ⟨hs0, fun beam hb => by simp [hb0] at hb, fun a ha => by
        simp at ha; rw [← ha]; exact ⟨hcr, hcrt⟩, hd0⟩
  | some a1 =>
      obtain ⟨ha1mem, ha1t⟩ := ha0 a1 hA
      simp only []
      split_ifs with hc
      · refine ⟨removeDeleteBeam_StoreOK2 crs gs _ a1 hs0, fun beam hb => by simp [hb0] at hb,
          fun a ha => by simp at ha; rw [← ha]; exact ⟨hcr, hcrt⟩, ?_⟩
        intro m hm
        refine ⟨by rw [removeDeleteBeam_nextId]; exact (hd0 m hm).1, ?_⟩
        exact removeDeleteBeam_prop _ a1 m (fun b => b.track = track ∧ NoGrace gs b)
          (noGrace_sublist gs track) hs0.2 (hd0 m hm).2
      · -- the beam that takes the two grace notes
        have key : ∀ (s2 : BeamStore) (beam : Nat), StoreOK2 crs gs s2 → mb ≠ some beam →
            (∀ b ∈ s2.beams, b.id = beam → b.track = track ∧ GraceBeam gs b) →
            (∀ m, mb = some m → m < s2.nextId ∧
              ∀ b ∈ s2.beams, b.id = m → b.track = track ∧ NoGrace gs b) →
            GraceLoopOK crs gs track mb
              { st0 with store := (s2.removeDeleteBeam cr).addTo beam cr,
                         beam := some beam, a1 := none } := by
          intro s2 beam hs2 hne ht2 hd2
          have hs3 := removeDeleteBeam_StoreOK2 crs gs s2 cr hs2
          have ht3 := removeDeleteBeam_prop s2 cr beam
            (fun b => b.track = track ∧ GraceBeam gs b) (graceBeam_sublist gs track) hs2.2 ht2
          refine ⟨addTo_StoreOK2 crs gs _ beam cr hs3 ?_, ?_, fun a ha => by simp at ha, ?_⟩
          · intro b hb hbid
            exact (BeamOK2_add_grace crs gs track b cr (hs3.1 b hb).1 hcr hcrt
              (ht3 b hb hbid).1 (ht3 b hb hbid).2).1
          · intro beam1 hb1
            simp only [Option.some.injEq] at hb1
            subst hb1
            refine ⟨hne, ?_⟩
            apply addTo_prop _ beam beam cr (fun b => b.track = track ∧ GraceBeam gs b) ht3
            intro _ b hb hbid
            exact ⟨by rw [Beam.add_track]; exact (ht3 b hb hbid).1,
              (BeamOK2_add_grace crs gs track b cr (hs3.1 b hb).1 hcr hcrt
                (ht3 b hb hbid).1 (ht3 b hb hbid).2).2⟩
          · intro m hm
            refine ⟨by rw [addTo_nextId, removeDeleteBeam_nextId]; exact (hd2 m hm).1, ?_⟩
            apply addTo_prop _ m beam cr (fun b => b.track = track ∧ NoGrace gs b)
              (removeDeleteBeam_prop s2 cr m (fun b => b.track = track ∧ NoGrace gs b)
                (noGrace_sublist gs track) hs2.2 (hd2 m hm).2)
            intro hbm
            exact absurd (by rw [hm, hbm]) hne
        -- a new beam that takes the candidate
        have hrm := removeDeleteBeam_StoreOK2 crs gs _ a1 hs0
        have hfresh : ∀ b ∈ (st0.store.removeDeleteBeam a1).beams
            ++ [{ id := st0.store.nextId, track := track, elements := [] }],
            b.id = st0.store.nextId → b.track = track ∧ GraceBeam gs b := by
          intro b hb hbid
          simp only [List.mem_append, List.mem_singleton] at hb
          rcases hb with hb | hb
          · have := (hrm.1 b hb).2
            rw [removeDeleteBeam_nextId] at this
            omega
          · rw [hb]
            exact ⟨rfl, fun e he => by simp at he⟩
        have hnb := newBeam_StoreOK2 crs gs _ track hrm
        rw [removeDeleteBeam_nextId] at hnb
        have hnew1 : StoreOK2 crs gs
            (({ st0.store.removeDeleteBeam a1 with
                beams := (st0.store.removeDeleteBeam a1).beams
                  ++ [{ id := st0.store.nextId, track := track, elements := [] }]
                nextId := st0.store.nextId + 1 } : BeamStore).addTo st0.store.nextId a1) := by
          apply addTo_StoreOK2 crs gs _ _ a1 hnb
          intro b hb hbid
          exact (BeamOK2_add_grace crs gs track b a1 (hnb.1 b hb).1 ha1mem ha1t
            (hfresh b hb hbid).1 (hfresh b hb hbid).2).1
        have hnew2 : ∀ b ∈ (({ st0.store.removeDeleteBeam a1 with
                beams := (st0.store.removeDeleteBeam a1).beams
                  ++ [{ id := st0.store.nextId, track := track, elements := [] }]
                nextId := st0.store.nextId + 1 } : BeamStore).addTo
                  st0.store.nextId a1).beams,
            b.id = st0.store.nextId → b.track = track ∧ GraceBeam gs b := by
          apply addTo_prop _ _ _ a1 (fun b => b.track = track ∧ GraceBeam gs b) hfresh
          intro _ b hb hbid
          exact ⟨by rw [Beam.add_track]; exact (hfresh b hb hbid).1,
            (BeamOK2_add_grace crs gs track b a1 (hnb.1 b hb).1 ha1mem ha1t
              (hfresh b hb hbid).1 (hfresh b hb hbid).2).2⟩
        have hnew3 : mb ≠ some st0.store.nextId := by
          intro hm
          have := (hd0 _ hm).1
          omega
        have hnew4 : ∀ m, mb = some m →
            m < (({ st0.store.removeDeleteBeam a1 with
                beams := (st0.store.removeDeleteBeam a1).beams
                  ++ [{ id := st0.store.nextId, track := track, elements := [] }]
                nextId := st0.store.nextId + 1 } : BeamStore).addTo
                  st0.store.nextId a1).nextId ∧
            ∀ b ∈ (({ st0.store.removeDeleteBeam a1 with
                beams := (st0.store.removeDeleteBeam a1).beams
                  ++ [{ id := st0.store.nextId, track := track, elements := [] }]
                nextId := st0.store.nextId + 1 } : BeamStore).addTo
                  st0.store.nextId a1).beams,
              b.id = m → b.track = track ∧ NoGrace gs b := by
          intro m hm
          have hmlt := (hd0 m hm).1
          refine ⟨by simp [BeamStore.addTo]; omega, ?_⟩
          apply addTo_prop _ m _ a1 (fun b => b.track = track ∧ NoGrace gs b)
          · intro b hb hbid
            simp only [List.mem_append, List.mem_singleton] at hb
            rcases hb with hb | hb
            · exact removeDeleteBeam_prop _ a1 m (fun b => b.track = track ∧ NoGrace gs b)
                (noGrace_sublist gs track) hs0.2 (hd0 m hm).2 b hb hbid
            · rw [hb] at hbid
              simp only [] at hbid
              omega
          · intro hbm
            omega
        cases hbo : st0.store.beamOf a1 with
        | none =>
            simp only []
            exact key _ _ hnew1 hnew3 hnew2 hnew4
        | some b =>
            simp only []
            split_ifs with hfront
            · simp only []
              have hbmem : b ∈ st0.store.beams := beamOf_mem _ _ _ hbo
              obtain ⟨e, hemem, heid⟩ : ∃ e ∈ b.elements, e.id = a1.id := by
                cases hels : b.elements with
                | nil => rw [hels] at hfront; simp at hfront
                | cons e es =>
                    rw [hels] at hfront
                    simp only [List.head?_cons, Option.map_some', Option.some.injEq] at hfront
                    exact ⟨e, List.mem_cons_self _ _, hfront⟩
              have hok := (hs0.1 b hbmem).1
              have hgb : GraceBeam gs b := BeamOK2_grace crs gs b hok e a1 hemem ha1mem heid
              have he : e = a1 := ht.2.2.2.2.1 e (hgb e hemem) a1 ha1mem heid
              have hbtrack : b.track = track := by
                rw [← hok.1 e hemem, he]; exact ha1t
              apply key _ _ hs0
              · intro hm
                exact (hd0 _ hm).2 b hbmem rfl |>.2 e hemem a1 ha1mem heid
              · intro x hx hxid
                rw [beam_eq_of_id _ hs0.2 x b hx hbmem hxid]
                exact ⟨hbtrack, hgb⟩
              · exact hd0
            · simp only []
              exact key _ _ hnew1 hnew3 hnew2 hnew4

/-- One iteration of the loop of `beamGraceNotes` keeps the state well formed. -/
theorem beamGraceStep_ok (env : BeamEnv) (grace : GraceNotes) (crs gs : List ChordRest)
    (track : Nat) (ht : TrackOK grace track crs gs) (mb : Option Nat)
    (st : GraceLoopState) (cr : ChordRest)
    (h : GraceLoopOK crs gs track mb st) (hcr : cr ∈ gs) (hcrt : cr.track = track) :
    GraceLoopOK crs gs track mb (beamGraceStep env track st cr) := by
  obtain ⟨hstore, hbeam, ha1, hd⟩ := h
  unfold beamGraceStep
  simp only []
  by_cases hclose : cr.durationType.type.ord ≤ DurationType.V_QUARTER.ord
      ∨ env.endBeam cr none = BeamMode.NONE
  · rw [if_pos hclose]
    have hs1 : StoreOK2 crs gs (match st.a1 with
        | some a1 => st.store.removeDeleteBeam a1
        | none => st.store) ∧
        ∀ m, mb = some m → m < (match st.a1 with
          | some a1 => st.store.removeDeleteBeam a1
          | none => st.store).nextId ∧
          ∀ b ∈ (match st.a1 with
            | some a1 => st.store.removeDeleteBeam a1
            | none => st.store).beams, b.id = m → b.track = track ∧ NoGrace gs b := by
      cases st.a1 with
      | none => exact ⟨hstore, hd⟩
      | some a1 =>
          refine ⟨removeDeleteBeam_StoreOK2 crs gs _ _ hstore, ?_⟩
          intro m hm
          refine ⟨by rw [removeDeleteBeam_nextId]; exact (hd m hm).1, ?_⟩
          exact removeDeleteBeam_prop _ a1 m (fun b => b.track = track ∧ NoGrace gs b)
            (noGrace_sublist gs track) hstore.2 (hd m hm).2
    refine ⟨removeDeleteBeam_StoreOK2 crs gs _ cr hs1.1, fun b hb => by simp at hb,
      fun a ha => by simp at ha, ?_⟩
    intro m hm
    refine ⟨by rw [removeDeleteBeam_nextId]; exact (hs1.2 m hm).1, ?_⟩
    exact removeDeleteBeam_prop _ cr m (fun b => b.track = track ∧ NoGrace gs b)
      (noGrace_sublist gs track) hs1.1.2 (hs1.2 m hm).2
  · rw [if_neg hclose]
    cases hB : st.beam with
    | none =>
        simp only []
        exact graceCandidate_ok grace crs gs track ht mb st cr _
          ⟨hstore, hbeam, ha1, hd⟩ hB hcr hcrt
    | some beam =>
        obtain ⟨hne, htarget⟩ := hbeam beam hB
        have hs3 := removeDeleteBeam_StoreOK2 crs gs st.store cr hstore
        have ht3 := removeDeleteBeam_prop st.store cr beam
          (fun b => b.track = track ∧ GraceBeam gs b) (graceBeam_sublist gs track) hstore.2
          htarget
        have hadd : StoreOK2 crs gs ((st.store.removeDeleteBeam cr).addTo beam cr) := by
          apply addTo_StoreOK2 crs gs _ beam cr hs3
          intro b hb hbid
          exact (BeamOK2_add_grace crs gs track b cr (hs3.1 b hb).1 hcr hcrt
            (ht3 b hb hbid).1 (ht3 b hb hbid).2).1
        have hd3 : ∀ m, mb = some m →
            m < ((st.store.removeDeleteBeam cr).addTo beam cr).nextId ∧
            ∀ b ∈ ((st.store.removeDeleteBeam cr).addTo beam cr).beams,
              b.id = m → b.track = track ∧ NoGrace gs b := by
          intro m hm
          refine ⟨by rw [addTo_nextId, removeDeleteBeam_nextId]; exact (hd m hm).1, ?_⟩
          apply addTo_prop _ m beam cr (fun b => b.track = track ∧ NoGrace gs b)
            (removeDeleteBeam_prop _ cr m (fun b => b.track = track ∧ NoGrace gs b)
              (noGrace_sublist gs track) hstore.2 (hd m hm).2)
          intro hbm
          exact absurd (by rw [hm, hbm]) hne
        simp only []
        split_ifs with hbegin hend
        · exact ⟨hadd, fun b hb => by simp at hb, ha1, hd3⟩
        · refine ⟨hadd, ?_, ha1, hd3⟩
          intro beam1 hb1
          simp only [Option.some.injEq] at hb1
          subst hb1
          refine ⟨hne, ?_⟩
          apply addTo_prop _ beam beam cr (fun b => b.track = track ∧ GraceBeam gs b) ht3
          intro _ b hb hbid
          exact ⟨by rw [Beam.add_track]; exact (ht3 b hb hbid).1,
            (BeamOK2_add_grace crs gs track b cr (hs3.1 b hb).1 hcr hcrt
              (ht3 b hb hbid).1 (ht3 b hb hbid).2).2⟩
        · exact graceCandidate_ok grace crs gs track ht mb { st with beam := none } cr _
            ⟨hstore, fun b hb => by simp at hb, ha1, hd⟩ rfl hcr hcrt

theorem beamGrace_foldl_ok (env : BeamEnv) (grace : GraceNotes) (crs gs : List ChordRest)
    (track : Nat) (ht : TrackOK grace track crs gs) (mb : Option Nat) :
    ∀ (l : List ChordRest) (st : GraceLoopState), (∀ g ∈ l, g ∈ gs ∧ g.track = track) →
      GraceLoopOK crs gs track mb st →
      GraceLoopOK crs gs track mb (l.foldl (beamGraceStep env track) st) := by
  intro l
  induction l with
  | nil => intro st _ h; exact h
  | cons c rest ih =>
      intro st hl h
      simp only [List.foldl_cons]
      exact ih _ (fun x hx => hl x (List.mem_cons_of_mem _ hx))
        (beamGraceStep_ok env grace crs gs track ht mb st c h
          (hl c (List.mem_cons_self _ _)).1 (hl c (List.mem_cons_self _ _)).2)

/-- The function `beamGraceNotes` keeps the beams of the score well formed and leaves the
active beam of `createBeams` a beam of the track without grace notes. -/
theorem beamGraceNotes_ok (env : BeamEnv) (grace : GraceNotes) (crs gs : List ChordRest)
    (track : Nat) (ht : TrackOK grace track crs gs) (mb : Option Nat)
    (mainNote : ChordRest) (graceNotes : List ChordRest) (s : BeamStore)
    (hmain : mainNote.track = track)
    (hg : ∀ g ∈ graceNotes, g ∈ gs ∧ g.track = track)
    (hs : StoreOK2 crs gs s)
    (hd : ∀ m, mb = some m → m < s.nextId ∧
      ∀ b ∈ s.beams, b.id = m → b.track = track ∧ NoGrace gs b) :
    StoreOK2 crs gs (beamGraceNotes env mainNote graceNotes s) ∧
    ∀ m, mb = some m → m < (beamGraceNotes env mainNote graceNotes s).nextId ∧
      ∀ b ∈ (beamGraceNotes env mainNote graceNotes s).beams,
        b.id = m → b.track = track ∧ NoGrace gs b := by
  have h := beamGrace_foldl_ok env grace crs gs track ht mb graceNotes { store := s } hg
    ⟨hs, fun b hb => by simp at hb, fun a ha => by simp at ha, hd⟩
  unfold beamGraceNotes
  rw [hmain]
  simp only []
  obtain ⟨h1, _, _, h4⟩ := h
  split
  · exact ⟨h1, h4⟩
  · refine ⟨removeDeleteBeam_StoreOK2 crs gs _ _ h1, ?_⟩
    intro m hm
    refine ⟨by rw [removeDeleteBeam_nextId]; exact (h4 m hm).1, ?_⟩
    exact removeDeleteBeam_prop _ _ m (fun b => b.track = track ∧ NoGrace gs b)
      (noGrace_sublist gs track) h1.2 (h4 m hm).2
  · exact ⟨h1, h4⟩

/-- The body of the loop of `createBeams` with the handling of the grace notes keeps the
state well formed. -/
theorem createBeamsSegment_ok (env : BeamEnv) (grace : GraceNotes) (crs gs : List ChordRest)
    (track : Nat) (ht : TrackOK grace track crs gs)
    (st : BeamLoopState) (cr : ChordRest)
    (h : BeamLoopOK2 crs gs track st) (hcr : cr ∈ crs) :
    BeamLoopOK2 crs gs track (createBeamsSegment env grace track st cr) := by
  unfold createBeamsSegment
  simp only []
  apply createBeamsStep_ok2 env grace crs gs track ht _ cr _ hcr
  obtain ⟨h1, h2, h3⟩ := h
  split_ifs
  · have hcrt : cr.track = track := (ht.1 cr hcr).1
    have hgb : ∀ g ∈ grace.before cr, g ∈ gs ∧ g.track = track := fun g hg =>
      ht.2.2.2.1 cr hcr g (List.mem_append_left _ hg)
    have hga : ∀ g ∈ grace.after cr, g ∈ gs ∧ g.track = track := fun g hg =>
      ht.2.2.2.1 cr hcr g (List.mem_append_right _ hg)
    have hb := beamGraceNotes_ok env grace crs gs track ht st.beam cr (grace.before cr)
      st.store hcrt hgb h1 h2
    have ha := beamGraceNotes_ok env grace crs gs track ht st.beam cr (grace.after cr)
      _ hcrt hga hb.1 hb.2
    exact ⟨ha.1, ha.2, h3⟩
  · exact ⟨h1, h2, h3⟩

theorem createBeamsSegment_foldl_ok (env : BeamEnv) (grace : GraceNotes)
    (crs gs : List ChordRest) (track : Nat) (ht : TrackOK grace track crs gs) :
    ∀ (l : List ChordRest) (st : BeamLoopState), (∀ c ∈ l, c ∈ crs) →
      BeamLoopOK2 crs gs track st →
      BeamLoopOK2 crs gs track (l.foldl (createBeamsSegment env grace track) st) := by
  intro l
  induction l with
  | nil => intro st _ h; exact h
  | cons c rest ih =>
      intro st hl h
      simp only [List.foldl_cons]
      exact ih _ (fun x hx => hl x (List.mem_cons_of_mem _ hx))
        (createBeamsSegment_ok env grace crs gs track ht st c h (hl c (List.mem_cons_self _ _)))

/-- The beams of the score are well formed behind `createBeams` for a track if they were
before. -/
theorem createBeamsTrackGrace_ok (env : BeamEnv) (grace : GraceNotes)
    (crs gs : List ChordRest) (track : Nat) (store : BeamStore)
    (ht : TrackOK grace track crs gs) (hstore : StoreOK2 crs gs store) :
    StoreOK2 crs gs (createBeamsTrackGrace env grace track store crs) := by
  have h := createBeamsSegment_foldl_ok env grace crs gs track ht crs { store := store }
    (fun c hc => hc) ⟨hstore, fun b hb => by simp at hb, fun a ha => by simp at ha⟩
  unfold createBeamsTrackGrace
  simp only []
  split
  · exact h.1
  · exact removeDeleteBeam_StoreOK2 crs gs _ _ h.1
  · exact h.1

/-- The content of C10 (amended) for a well formed beam of the score. -/
theorem BeamOK2_span (grace : GraceNotes) (crs gs : List ChordRest) (track : Nat)
    (ht : TrackOK grace track crs gs) (b : Beam) (h : BeamOK2 crs gs b) :
    (∀ e ∈ b.elements, e.track = b.track) ∧
    ((∃ cr ∈ crs, cr ∈ b.elements) →
      b.track = track ∧ (∀ e ∈ b.elements, e.track = track) ∧
      (∀ e ∈ b.elements, e ∉ gs) ∧
      b.elements.Pairwise (fun x y => x.tick < y.tick) ∧
      b.elements.Pairwise (fun x y => x.tick + x.actualTicks ≤ y.tick) ∧
      ∀ first last, b.elements.head? = some first → b.elements.getLast? = some last →
        ∀ e ∈ b.elements, first.tick ≤ e.tick ∧
          e.tick + e.actualTicks ≤ last.tick + last.actualTicks) ∧
    ((∃ g ∈ gs, g ∈ b.elements) → ∀ e ∈ b.elements, e ∈ gs) := by
  refine ⟨h.1, ?_, ?_⟩
  · rintro ⟨cr, hcr, hmem⟩
    have hm : MainBeamOK crs gs b := by
      rcases h.2 with hg | hm
      · exact absurd rfl (ht.2.2.2.2.2 cr hcr cr (hg cr hmem))
      · exact hm
    have hbt : b.track = track := by rw [← h.1 cr hmem]; exact (ht.1 cr hcr).1
    refine ⟨hbt, fun e he => (h.1 e he).trans hbt, ?_, hm.1.2.1, hm.2.2.2.1, ?_⟩
    · intro e he heg
      exact hm.2.1 e he e heg rfl
    · intro first last hfirst hlast e he
      constructor
      · cases hels : b.elements with
        | nil => rw [hels] at he; cases he
        | cons x xs =>
            rw [hels] at hfirst he
            simp only [List.head?_cons, Option.some.injEq] at hfirst
            subst hfirst
            have hp := hm.1.2.1
            rw [hels] at hp
            rcases List.mem_cons.mp he with he | he
            · rw [he]
            · exact le_of_lt ((List.pairwise_cons.mp hp).1 e he)
      · by_cases hel : e = last
        · rw [hel]
        · have hne : b.elements ≠ [] := by
            intro h0; rw [h0] at he; cases he
          have hl1 : b.elements = b.elements.dropLast ++ [last] := by
            have := List.dropLast_append_getLast hne
            rw [List.getLast?_eq_getLast _ hne] at hlast
            simp only [Option.some.injEq] at hlast
            rw [hlast] at this
            exact this.symm
          have hlastmem : last ∈ b.elements := by rw [hl1]; simp
          have hp := hm.2.2.2.1
          rw [hl1] at he hp
          rcases List.mem_append.mp he with he | he
          · have h1 := (List.pairwise_append.mp hp).2.2 e he last (List.mem_singleton_self _)
            have h2 := hm.2.2.1 last hlastmem
            omega
          · simp at he; exact absurd he hel
  · rintro ⟨g, hg, hmem⟩
    exact BeamOK2_grace crs gs b h g g hmem hg rfl

theorem exampleGrace_trackOK :
    TrackOK exampleGraceNotes 0 exampleEighthChords exampleGraceList := by
  unfold TrackOK
  decide

theorem exampleGrace_beams :
    (createBeamsTrackGrace exampleBeamEnv exampleGraceNotes 0 {} exampleEighthChords).beams
      = [{ id := 0, track := 0, elements := exampleGraceList },
         { id := 1, track := 0, elements := exampleEighthChords }] := by
  decide

/-- Without grace notes the loop of `createBeams` with the handling of the grace notes is
the loop of `createBeamsTrack`. -/
theorem createBeamsTrackGrace_no_grace (env : BeamEnv) (track : Nat) (store : BeamStore)
    (crs : List ChordRest) :
    createBeamsTrackGrace env {} track store crs = createBeamsTrack env track store crs := by
  have hstep : createBeamsSegment env {} track = createBeamsStep env track := by
    funext st cr
    unfold createBeamsSegment
    simp [beamGraceNotes]
  unfold createBeamsTrackGrace createBeamsTrack
  rw [hstep]

/-- C10 (amended): every beam that `createBeams` builds or extends for a track from the
chords and rests of the chord/rest segments holds only chords and rests of that one track
and no grace note, in strictly increasing tick order, each element ending before the next
one starts, so that the tick span of the beam runs from the tick of its first element to
the end of its last element: every element starts at or after the tick of the first one and
ends at or before the end of the last one. A beam with a grace note holds grace notes only
(the grace notes of a chord share its tick, so their ticks do not increase). Every beam
holds elements of its own track only. The chords and rests `crs` of the track come in the
order of their ticks without overlap, their grace notes are of the track, and the beams of
the score are well formed on entry. -/
theorem createBeams_beam_elements_ordered (env : BeamEnv) (grace : GraceNotes) (track : Nat)
    (store : BeamStore) (crs gs : List ChordRest)
    (htrack : TrackOK grace track crs gs) (hstore : StoreOK2 crs gs store) :
    ∀ b ∈ (createBeamsTrackGrace env grace track store crs).beams,
      (∀ e ∈ b.elements, e.track = b.track) ∧
      ((∃ cr ∈ crs, cr ∈ b.elements) →
        b.track = track ∧ (∀ e ∈ b.elements, e.track = track) ∧
        (∀ e ∈ b.elements, e ∉ gs) ∧
        b.elements.Pairwise (fun x y => x.tick < y.tick) ∧
        b.elements.Pairwise (fun x y => x.tick + x.actualTicks ≤ y.tick) ∧
        ∀ first last, b.elements.head? = some first → b.elements.getLast? = some last →
          ∀ e ∈ b.elements, first.tick ≤ e.tick ∧
            e.tick + e.actualTicks ≤ last.tick + last.actualTicks) ∧
      ((∃ g ∈ gs, g ∈ b.elements) → ∀ e ∈ b.elements, e ∈ gs) := by
  intro b hb
  exact BeamOK2_span grace crs gs track htrack b
    ((createBeamsTrackGrace_ok env grace crs gs track store htrack hstore).1 b hb).1

/-- Witness for C10 (amended): two eighth-note chords at the ticks 0 and 240, the first
with two grace notes in front of it, in a score without beams. -/
theorem createBeams_beam_elements_ordered_witness :
    (TrackOK exampleGraceNotes 0 exampleEighthChords exampleGraceList ∧
      StoreOK2 exampleEighthChords exampleGraceList {}) ∧
    ∀ b ∈ (createBeamsTrackGrace exampleBeamEnv exampleGraceNotes 0 {}
        exampleEighthChords).beams,
      (∀ e ∈ b.elements, e.track = b.track) ∧
      ((∃ cr ∈ exampleEighthChords, cr ∈ b.elements) →
        b.track = 0 ∧ (∀ e ∈ b.elements, e.track = 0) ∧
        (∀ e ∈ b.elements, e ∉ exampleGraceList) ∧
        b.elements.Pairwise (fun x y => x.tick < y.tick) ∧
        b.elements.Pairwise (fun x y => x.tick + x.actualTicks ≤ y.tick) ∧
        ∀ first last, b.elements.head? = some first → b.elements.getLast? = some last →
          ∀ e ∈ b.elements, first.tick ≤ e.tick ∧
            e.tick + e.actualTicks ≤ last.tick + last.actualTicks) ∧
      ((∃ g ∈ exampleGraceList, g ∈ b.elements) → ∀ e ∈ b.elements, e ∈ exampleGraceList) :=
  ⟨⟨exampleGrace_trackOK, fun _ hb => absurd hb (List.not_mem_nil _), List.nodup_nil⟩,
    createBeams_beam_elements_ordered exampleBeamEnv exampleGraceNotes 0 {}
      exampleEighthChords exampleGraceList exampleGrace_trackOK
      ⟨fun _ hb => absurd hb (List.not_mem_nil _), List.nodup_nil⟩⟩

/-- C10 (counterexample): a beam that `createBeams` builds whose elements are not in
increasing tick order and whose span does not end with its last element. For a track with
two eighth-note chords at the ticks 0 and 240, the first with an eighth and a sixteenth
grace note in front of it (grace notes have the tick of their chord), in a score without
beams, `createBeams` builds through `beamGraceNotes` the beam of the two grace notes,
besides the beam of the two chords: its elements are of the track, they share the tick 0,
and the first one, which lasts 240 ticks, ends after the end 0 + 120 of the last one. -/
theorem createBeams_grace_beam_counterexample :
    TrackOK exampleGraceNotes 0 exampleEighthChords exampleGraceList ∧
    (createBeamsTrackGrace exampleBeamEnv exampleGraceNotes 0 {} exampleEighthChords).beams
      = [{ id := 0, track := 0, elements := exampleGraceList },
         { id := 1, track := 0, elements := exampleEighthChords }] ∧
    ∃ b ∈ (createBeamsTrackGrace exampleBeamEnv exampleGraceNotes 0 {}
        exampleEighthChords).beams,
      b.track = 0 ∧ (∀ e ∈ b.elements, e.track = 0) ∧
      (∃ x y, b.elements = [x, y] ∧ x.tick = y.tick) ∧
      ¬ b.elements.Pairwise (fun x y => x.tick < y.tick) ∧
      ∃ first last, b.elements.head? = some first ∧ b.elements.getLast? = some last ∧
        ¬ (first.tick + first.actualTicks ≤ last.tick + last.actualTicks) := by
  refine ⟨exampleGrace_trackOK, exampleGrace_beams, ?_⟩
  rw [exampleGrace_beams]
  refine ⟨{ id := 0, track := 0, elements := exampleGraceList }, by simp, rfl, by decide,
    ⟨_, _, rfl, rfl⟩, by decide, ⟨_, _, rfl, rfl, by decide⟩⟩


/-- The beam built for the two eighth-note chords of the example holds both, in tick
order. -/
theorem createBeams_example_eighths :
    (createBeamsTrack exampleBeamEnv 0 {} exampleEighthChords).beams
      = [{ id := 0, track := 0, elements := exampleEighthChords }] := by
  decide


/-! ## Accidental placement -/

/-- The exit taken by `resolveAccidentals` determines its result. -/
theorem resolveAccidentals_conflict (left right : AcEl) (lx pd sp : ℚ)
    (h : resolveCase left right pd sp = .conflict) :
    resolveAccidentals left right lx pd sp = (true, min lx (right.x - pd)) := by
  unfold resolveCase at h
  unfold resolveAccidentals
  simp only [] at h ⊢
  split_ifs at h ⊢ <;> rfl

/-- The function `resolveAccidentals` never increases `lx`. -/
theorem resolveAccidentals_le (left right : AcEl) (lx pd sp : ℚ) :
    (resolveAccidentals left right lx pd sp).2 ≤ lx := by
  unfold resolveAccidentals
  simp only []
  split_ifs <;> first | exact le_refl _ | exact min_le_left _ _

/-- The exit of `resolveAccidentals` does not depend on the position of the left
accidental. -/
theorem resolveCase_x_left (left right : AcEl) (a pd sp : ℚ) :
    resolveCase { left with x := a } right pd sp = resolveCase left right pd sp := by
  unfold resolveCase
  by_cases h : left.line ≥ right.line <;> simp [h]

/-- The position returned by `layoutAccidental` when the accidental above is in real
conflict: the right edge stays `pd` to the left of it. -/
theorem layoutAccidental_above (me above : AcEl) (below : Option AcEl) (colOffset : ℚ)
    (leftNotes : List LeftNote) (pnd pd sp : ℚ)
    (h : resolveCase me above (pd * me.mag) sp = .conflict) :
    layoutAccidental me (some above) below colOffset leftNotes pnd pd sp
        + me.accWidth + me.bboxX ≤ above.x - pd * me.mag := by
  unfold layoutAccidental
  simp only [resolveAccidentals_conflict _ _ _ _ _ h, Bool.true_or, if_true]
  have h1 : ∀ lx : ℚ, (match below with
      | some below => resolveAccidentals me below lx (pd * me.mag) sp
      | none => (false, lx)).2 ≤ lx := by
    intro lx
    cases below with
    | none => exact le_refl _
    | some b => exact resolveAccidentals_le _ _ _ _ _
  have h2 := h1 (min (clearLeftNotes me (pnd * me.mag) sp leftNotes
    (if me.line ≤ -2 ∨ me.line ≥ me.staffLines * 2 then min colOffset (-(2 / 10) * sp)
      else colOffset)) (above.x - pd * me.mag))
  have h3 := min_le_right (clearLeftNotes me (pnd * me.mag) sp leftNotes
    (if me.line ≤ -2 ∨ me.line ≥ me.staffLines * 2 then min colOffset (-(2 / 10) * sp)
      else colOffset)) (above.x - pd * me.mag)
  linarith

/-- The position returned by `layoutAccidental` when the accidental below is in real
conflict: the right edge stays `pd` to the left of it. -/
theorem layoutAccidental_below (me below : AcEl) (above : Option AcEl) (colOffset : ℚ)
    (leftNotes : List LeftNote) (pnd pd sp : ℚ)
    (h : resolveCase me below (pd * me.mag) sp = .conflict) :
    layoutAccidental me above (some below) colOffset leftNotes pnd pd sp
        + me.accWidth + me.bboxX ≤ below.x - pd * me.mag := by
  unfold layoutAccidental
  simp only [resolveAccidentals_conflict _ _ _ _ _ h, Bool.or_true, if_true]
  have h3 : ∀ lx : ℚ, min lx (below.x - pd * me.mag) ≤ below.x - pd * me.mag :=
    fun lx => min_le_right _ _
  have h4 := h3 (match above with
      | some above => resolveAccidentals me above (clearLeftNotes me (pnd * me.mag) sp leftNotes
          (if me.line ≤ -2 ∨ me.line ≥ me.staffLines * 2 then min colOffset (-(2 / 10) * sp)
            else colOffset)) (pd * me.mag) sp
      | none => (false, clearLeftNotes me (pnd * me.mag) sp leftNotes
          (if me.line ≤ -2 ∨ me.line ≥ me.staffLines * 2 then min colOffset (-(2 / 10) * sp)
            else colOffset))).2
  linarith

/-- The call `placeAccidental` keeps the number of accidentals. -/
theorem placeAccidental_length (env : Chords3Env) (leftNotes : List LeftNote) (colOffset : ℚ)
    (l : List AcEl) (me : Nat) (a b : Option Nat) :
    (placeAccidental env leftNotes colOffset l me a b).length = l.length := by
  simp [placeAccidental]

/-- The call `placeAccidental` changes no accidental but `aclist[me]`. -/
theorem placeAccidental_other (env : Chords3Env) (leftNotes : List LeftNote) (colOffset : ℚ)
    (l : List AcEl) (me : Nat) (a b : Option Nat) (j : Nat) (hj : j ≠ me) :
    (placeAccidental env leftNotes colOffset l me a b).getD j default = l.getD j default := by
  simp [placeAccidental, List.getD_eq_getElem?_getD, List.getElem?_set_ne (Ne.symm hj)]

/-- The call `placeAccidental` changes the position of `aclist[me]` only. -/
theorem placeAccidental_me (env : Chords3Env) (leftNotes : List LeftNote) (colOffset : ℚ)
    (l : List AcEl) (me : Nat) (a b : Option Nat) (hme : me < l.length) :
    (placeAccidental env leftNotes colOffset l me a b).getD me default =
      { l.getD me default with
        x := layoutAccidental (l.getD me default) (a.map fun i => l.getD i default)
          (b.map fun i => l.getD i default) colOffset leftNotes env.pnd env.pd env.sp } := by
  simp [placeAccidental, List.getD_eq_getElem?_getD, List.getElem?_set_self hme]

/-- After `placeAccidental` with the accidental above given, `aclist[me]` is clear of it. -/
theorem placeAccidental_clear_above (env : Chords3Env) (leftNotes : List LeftNote)
    (colOffset : ℚ) (l : List AcEl) (me nb : Nat) (b : Option Nat) (hme : me < l.length)
    (hnb : nb ≠ me) :
    accidentalClear env.pd env.sp
      ((placeAccidental env leftNotes colOffset l me (some nb) b).getD me default)
      ((placeAccidental env leftNotes colOffset l me (some nb) b).getD nb default) := by
  rw [placeAccidental_me _ _ _ _ _ _ _ hme, placeAccidental_other _ _ _ _ _ _ _ _ hnb]
  intro h
  rw [resolveCase_x_left] at h
  exact layoutAccidental_above _ _ _ _ _ _ _ _ h

/-- After `placeAccidental` with the accidental below given, `aclist[me]` is clear of it. -/
theorem placeAccidental_clear_below (env : Chords3Env) (leftNotes : List LeftNote)
    (colOffset : ℚ) (l : List AcEl) (me nb : Nat) (a : Option Nat) (hme : me < l.length)
    (hnb : nb ≠ me) :
    accidentalClear env.pd env.sp
      ((placeAccidental env leftNotes colOffset l me a (some nb)).getD me default)
      ((placeAccidental env leftNotes colOffset l me a (some nb)).getD nb default) := by
  rw [placeAccidental_me _ _ _ _ _ _ _ hme, placeAccidental_other _ _ _ _ _ _ _ _ hnb]
  intro h
  rw [resolveCase_x_left] at h
  exact layoutAccidental_below _ _ _ _ _ _ _ _ h

/-- A clearance between two accidentals survives the placement of a third one. -/
theorem placeAccidental_clear_other (env : Chords3Env) (leftNotes : List LeftNote)
    (colOffset : ℚ) (l : List AcEl) (me : Nat) (a b : Option Nat) (j k : Nat)
    (hj : j ≠ me) (hk : k ≠ me)
    (h : accidentalClear env.pd env.sp (l.getD j default) (l.getD k default)) :
    accidentalClear env.pd env.sp
      ((placeAccidental env leftNotes colOffset l me a b).getD j default)
      ((placeAccidental env leftNotes colOffset l me a b).getD k default) := by
  rw [placeAccidental_other _ _ _ _ _ _ _ _ hj, placeAccidental_other _ _ _ _ _ _ _ _ hk]
  exact h

/-- The index vector `umi` of the zig-zag without columns is the identity. -/
theorem range_getD (N i : Nat) (h : i < N) : (List.range N).getD i 0 = i := by
  simp [List.getD_eq_getElem?_getD, List.getElem?_range h]

/-- The loop over the middle accidentals keeps the accidentals already placed clear of
their neighbours and ends with every accidental clear of a neighbour: in the upper half
of the one above, in the lower half of the one below. -/
theorem zigzagLoop_clear (env : Chords3Env) (leftNotes : List LeftNote) (colOffset : ℚ)
    (N : Nat) :
    ∀ (fuel i n : Nat) (below : Option Nat) (l : List AcEl),
      l.length = N → i + n = N → 1 ≤ i → i ≤ n → n - i ≤ fuel →
      (∀ k, k + 1 < i →
        accidentalClear env.pd env.sp (l.getD (k + 1) default) (l.getD k default)) →
      (∀ k, n ≤ k → k + 1 < N →
        accidentalClear env.pd env.sp (l.getD k default) (l.getD (k + 1) default)) →
      accidentalClear env.pd env.sp (l.getD n default) (l.getD (i - 1) default) →
      (zigzagLoop env leftNotes colOffset (List.range N) fuel i n n (some (i - 1)) below
          l).length = N ∧
      ∀ k, k + 1 < N →
        if 2 * (k + 1) ≤ N then
          accidentalClear env.pd env.sp
            ((zigzagLoop env leftNotes colOffset (List.range N) fuel i n n (some (i - 1)) below
              l).getD (k + 1) default)
            ((zigzagLoop env leftNotes colOffset (List.range N) fuel i n n (some (i - 1)) below
              l).getD k default)
        else
          accidentalClear env.pd env.sp
            ((zigzagLoop env leftNotes colOffset (List.range N) fuel i n n (some (i - 1)) below
              l).getD k default)
            ((zigzagLoop env leftNotes colOffset (List.range N) fuel i n n (some (i - 1)) below
              l).getD (k + 1) default) := by
  have hdone : ∀ (i n : Nat) (l : List AcEl), l.length = N → i + n = N → 1 ≤ i → n = i →
      (∀ k, k + 1 < i →
        accidentalClear env.pd env.sp (l.getD (k + 1) default) (l.getD k default)) →
      (∀ k, n ≤ k → k + 1 < N →
        accidentalClear env.pd env.sp (l.getD k default) (l.getD (k + 1) default)) →
      accidentalClear env.pd env.sp (l.getD n default) (l.getD (i - 1) default) →
      ∀ k, k + 1 < N →
        if 2 * (k + 1) ≤ N then
          accidentalClear env.pd env.sp (l.getD (k + 1) default) (l.getD k default)
        else
          accidentalClear env.pd env.sp (l.getD k default) (l.getD (k + 1) default) := by
    intro i n l _ hin hi hni h2 h3 h4 k hk
    subst hni
    split_ifs with hc
    · rcases Nat.lt_or_ge (k + 1) n with h | h
      · exact h2 k h
      · have hkn : k + 1 = n := by omega
        have hk1 : n - 1 = k := by omega
        rw [hkn, ← hk1]
        exact h4
    · exact h3 k (by omega) hk
  intro fuel
  induction fuel with
  | zero =>
      intro i n below l hl hin hi hle hf h2 h3 h4
      have hni : n = i := by omega
      simp only [zigzagLoop]
      exact ⟨hl, hdone i n l hl hin hi hni h2 h3 h4⟩
  | succ fuel ih =>
      intro i n below l hl hin hi hle hf h2 h3 h4
      simp only [zigzagLoop]
      by_cases hlt : i < n
      · simp only [hlt, if_true]
        rw [range_getD N i (by omega)]
        by_cases hlast : i = n - 1
        · simp only [hlast, if_true]
          rw [← hlast]
          refine ⟨by rw [placeAccidental_length]; exact hl, ?_⟩
          intro k hk
          have hn1 : n = i + 1 := by omega
          split_ifs with hc
          · rcases Nat.lt_or_ge (k + 1) i with h | h
            · exact placeAccidental_clear_other _ _ _ _ _ _ _ _ _ (by omega) (by omega) (h2 k h)
            · have hki : k + 1 = i := by omega
              have hk1 : k = i - 1 := by omega
              rw [hki, hk1]
              exact placeAccidental_clear_above _ _ _ _ _ _ _ (by omega) (by omega)
          · rcases Nat.lt_or_ge i k with h | h
            · exact placeAccidental_clear_other _ _ _ _ _ _ _ _ _ (by omega) (by omega)
                (h3 k (by omega) hk)
            · have hki : k = i := by omega
              rw [hki, ← hn1]
              exact placeAccidental_clear_below _ _ _ _ _ _ _ (by omega) (by omega)
        · simp only [hlast, if_false]
          rw [range_getD N (n - 1) (by omega)]
          have hi1 : i = i + 1 - 1 := by omega
          have key := ih (i + 1) (n - 1) (some n)
            (placeAccidental env leftNotes colOffset
              (placeAccidental env leftNotes colOffset l i (some (i - 1)) (some n))
              (n - 1) (some i) (some n))
            (by rw [placeAccidental_length, placeAccidental_length]; exact hl)
            (by omega) (by omega) (by omega) (by omega)
            (by
              intro k hk
              rcases Nat.lt_or_ge (k + 1) i with h | h
              · exact placeAccidental_clear_other _ _ _ _ _ _ _ _ _ (by omega) (by omega)
                  (placeAccidental_clear_other _ _ _ _ _ _ _ _ _ (by omega) (by omega) (h2 k h))
              · have hki : k + 1 = i := by omega
                have hk1 : k = i - 1 := by omega
                rw [hki, hk1]
                exact placeAccidental_clear_other _ _ _ _ _ _ _ _ _ (by omega) (by omega)
                  (placeAccidental_clear_above _ _ _ _ _ _ _ (by omega) (by omega)))
            (by
              intro k hk hkN
              rcases Nat.lt_or_ge k n with h | h
              · have hkn : k = n - 1 := by omega
                have hk1 : k + 1 = n := by omega
                rw [hk1, hkn]
                exact placeAccidental_clear_below _ _ _ _ _ _ _
                  (by rw [placeAccidental_length]; omega) (by omega)
              · exact placeAccidental_clear_other _ _ _ _ _ _ _ _ _ (by omega) (by omega)
                  (placeAccidental_clear_other _ _ _ _ _ _ _ _ _ (by omega) (by omega)
                    (h3 k h hkN)))
            (by
              rw [← hi1]
              exact placeAccidental_clear_above _ _ _ _ _ _ _
                (by rw [placeAccidental_length]; omega) (by omega))
          rw [← hi1] at key
          exact key
      · have hni : n = i := by omega
        simp only [hlt, if_false]
        exact ⟨hl, hdone i n l hl hin hi hni h2 h3 h4⟩

/-- The zig-zag over all accidentals leaves every accidental clear of a neighbour: in the
upper half of the one above, in the lower half of the one below. -/
theorem zigzagAccidentals_clear (env : Chords3Env) (leftNotes : List LeftNote) (colOffset : ℚ)
    (l : List AcEl) :
    (zigzagAccidentals env leftNotes colOffset (List.range l.length) l).length = l.length ∧
    ∀ k, k + 1 < l.length →
      if 2 * (k + 1) ≤ l.length then
        accidentalClear env.pd env.sp
          ((zigzagAccidentals env leftNotes colOffset (List.range l.length) l).getD (k + 1)
            default)
          ((zigzagAccidentals env leftNotes colOffset (List.range l.length) l).getD k default)
      else
        accidentalClear env.pd env.sp
          ((zigzagAccidentals env leftNotes colOffset (List.range l.length) l).getD k default)
          ((zigzagAccidentals env leftNotes colOffset (List.range l.length) l).getD (k + 1)
            default) := by
  unfold zigzagAccidentals
  simp only [List.length_range]
  by_cases h0 : l.length = 0
  · simp only [h0, if_true]
    exact ⟨trivial, fun k hk => absurd hk (by omega)⟩
  · simp only [h0, if_false]
    by_cases h1 : l.length - 1 > 0
    · simp only [h1, if_true]
      rw [range_getD l.length 0 (by omega), range_getD l.length (l.length - 1) (by omega)]
      by_cases h2 : l.length - 1 > 1
      · simp only [h2, if_true]
        have key := zigzagLoop_clear env leftNotes colOffset l.length (l.length - 1) 1
          (l.length - 1) none
          (placeAccidental env leftNotes colOffset
            (placeAccidental env leftNotes colOffset l 0 none none)
            (l.length - 1) (some 0) none)
          (by rw [placeAccidental_length, placeAccidental_length])
          (by omega) (by omega) (by omega) (by omega)
          (fun k hk => absurd hk (by omega))
          (fun k hk hkN => absurd hkN (by omega))
          (placeAccidental_clear_above _ _ _ _ _ _ _
            (by rw [placeAccidental_length]; omega) (by omega))
        exact key
      · simp only [h2, if_false]
        refine ⟨by rw [placeAccidental_length, placeAccidental_length], ?_⟩
        intro k hk
        have hk0 : k = 0 := by omega
        have hl2 : l.length - 1 = 1 := by omega
        subst hk0
        have hc : 2 * (0 + 1) ≤ l.length := by omega
        simp only [hc, if_true, hl2]
        exact placeAccidental_clear_above _ _ _ _ _ _ _
          (by rw [placeAccidental_length]; omega) (by omega)
    · simp only [h1, if_false]
      refine ⟨by rw [placeAccidental_length], ?_⟩
      intro k hk
      exact absurd hk (by omega)

/-- One iteration of the first loop of `layoutChords3` adds at most the accidental of its
note. -/
theorem chords3Step_lines (env : Chords3Env) (st : Chords3State) (note : Chords3Note) :
    ∀ e ∈ (chords3Step env st note).aclist, e ∈ st.aclist ∨ e.line = note.line := by
  intro e he
  unfold chords3Step at he
  simp only [] at he
  have h1 : ∀ st1 : Chords3State,
      (if (note.mirror && !note.chordUp && decide (noteHeadX env note + note.chordX < 0)) = true
        then { st1 with leftNotes := st1.leftNotes ++
          [{ line := note.line, sx := noteHeadX env note + note.chordX }] }
        else if noteHeadX env note + note.chordX < st1.lx then
          { st1 with lx := noteHeadX env note + note.chordX }
        else st1).aclist = st1.aclist := by
    intro st1
    split_ifs <;> rfl
  rw [h1] at he
  cases hac : note.accidental with
  | none =>
      simp only [hac] at he
      exact Or.inl he
  | some ac =>
      simp only [hac] at he
      split_ifs at he
      · simp only [List.mem_append, List.mem_singleton] at he
        rcases he with he | he
        · exact Or.inl he
        · right
          rw [he]
          rfl
      · exact Or.inl he

/-- The lines of the accidentals collected by `layoutChords3` are lines of the notes. -/
theorem chords3Collect_lines (env : Chords3Env) (notes : List Chords3Note) :
    ∀ e ∈ (chords3Collect env notes).aclist, ∃ n ∈ notes, e.line = n.line := by
  have h : ∀ (ns : List Chords3Note) (st : Chords3State),
      ∀ e ∈ (ns.foldl (chords3Step env) st).aclist,
        e ∈ st.aclist ∨ ∃ n ∈ ns, e.line = n.line := by
    intro ns
    induction ns with
    | nil =>
        intro st e he
        exact Or.inl he
    | cons n rest ih =>
        intro st e he
        rw [List.foldl_cons] at he
        rcases ih _ e he with h1 | ⟨m, hm, hml⟩
        · rcases chords3Step_lines env st n e h1 with h2 | h2
          · exact Or.inl h2
          · exact Or.inr ⟨n, List.mem_cons_self _ _, h2⟩
        · exact Or.inr ⟨m, List.mem_cons_of_mem _ hm, hml⟩
  intro e he
  unfold chords3Collect at he
  rcases h _ _ e he with h1 | ⟨n, hn, hnl⟩
  · simp at h1
  · exact ⟨n, List.mem_reverse.mp hn, hnl⟩

/-- The value of `layoutChords3` on the four example notes: the accidentals of the lines
0, 3 and 5 stay in the first column, the accidental of line 1 moves to the left. -/
theorem layoutChords3_example :
    layoutChords3 exampleChords3Env exampleAccidentalNotes = some exampleAccidentalLayout := by
  simp [layoutChords3, chords3Collect, chords3Step, acElOf, noteHeadX, pitchClass,
    exampleChords3Env, exampleAccidentalNotes, zigzagAccidentals, zigzagLoop, placeAccidental,
    layoutAccidental, resolveAccidentals, clearLeftNotes, List.range, List.range.loop,
    exampleAccidentalLayout]
  norm_num
  decide

/-- The loop over the middle accidentals of the zig-zag over the indices `umi`, which are
distinct indices of accidentals, keeps the accidentals already placed clear of their
neighbours and ends with every accidental of `umi` clear of a neighbour in `umi`: in the
upper half of the one above, in the lower half of the one below. -/
theorem zigzagLoop_clear_umi (env : Chords3Env) (leftNotes : List LeftNote) (colOffset : ℚ)
    (umi : List Nat) (L : Nat) (hu : ∀ k, k < umi.length → umi.getD k 0 < L)
    (hne : ∀ j k, j < umi.length → k < umi.length → j ≠ k → umi.getD j 0 ≠ umi.getD k 0) :
    ∀ (fuel i n : Nat) (below : Option Nat) (l : List AcEl),
      l.length = L → i + n = umi.length → 1 ≤ i → i ≤ n → n - i ≤ fuel →
      (∀ k, k + 1 < i →
        accidentalClear env.pd env.sp (l.getD (umi.getD (k + 1) 0) default)
          (l.getD (umi.getD k 0) default)) →
      (∀ k, n ≤ k → k + 1 < umi.length →
        accidentalClear env.pd env.sp (l.getD (umi.getD k 0) default)
          (l.getD (umi.getD (k + 1) 0) default)) →
      accidentalClear env.pd env.sp (l.getD (umi.getD n 0) default)
        (l.getD (umi.getD (i - 1) 0) default) →
      (zigzagLoop env leftNotes colOffset umi fuel i n (umi.getD n 0)
          (some (umi.getD (i - 1) 0)) below l).length = L ∧
      ∀ k, k + 1 < umi.length →
        if 2 * (k + 1) ≤ umi.length then
          accidentalClear env.pd env.sp
            ((zigzagLoop env leftNotes colOffset umi fuel i n (umi.getD n 0)
              (some (umi.getD (i - 1) 0)) below l).getD (umi.getD (k + 1) 0) default)
            ((zigzagLoop env leftNotes colOffset umi fuel i n (umi.getD n 0)
              (some (umi.getD (i - 1) 0)) below l).getD (umi.getD k 0) default)
        else
          accidentalClear env.pd env.sp
            ((zigzagLoop env leftNotes colOffset umi fuel i n (umi.getD n 0)
              (some (umi.getD (i - 1) 0)) below l).getD (umi.getD k 0) default)
            ((zigzagLoop env leftNotes colOffset umi fuel i n (umi.getD n 0)
              (some (umi.getD (i - 1) 0)) below l).getD (umi.getD (k + 1) 0) default) := by
  have hdone : ∀ (i n : Nat) (l : List AcEl), i + n = umi.length → 1 ≤ i → n = i →
      (∀ k, k + 1 < i →
        accidentalClear env.pd env.sp (l.getD (umi.getD (k + 1) 0) default)
          (l.getD (umi.getD k 0) default)) →
      (∀ k, n ≤ k → k + 1 < umi.length →
        accidentalClear env.pd env.sp (l.getD (umi.getD k 0) default)
          (l.getD (umi.getD (k + 1) 0) default)) →
      accidentalClear env.pd env.sp (l.getD (umi.getD n 0) default)
        (l.getD (umi.getD (i - 1) 0) default) →
      ∀ k, k + 1 < umi.length →
        if 2 * (k + 1) ≤ umi.length then
          accidentalClear env.pd env.sp (l.getD (umi.getD (k + 1) 0) default)
            (l.getD (umi.getD k 0) default)
        else
          accidentalClear env.pd env.sp (l.getD (umi.getD k 0) default)
            (l.getD (umi.getD (k + 1) 0) default) := by
    intro i n l hin hi hni h2 h3 h4 k hk
    subst hni
    split_ifs with hc
    · rcases Nat.lt_or_ge (k + 1) n with h | h
      · exact h2 k h
      · have hkn : k + 1 = n := by omega
        have hk1 : n - 1 = k := by omega
        rw [hkn, ← hk1]
        exact h4
    · exact h3 k (by omega) hk
  intro fuel
  induction fuel with
  | zero =>
      intro i n below l hl hin hi hle hf h2 h3 h4
      have hni : n = i := by omega
      simp only [zigzagLoop]
      exact ⟨hl, hdone i n l hin hi hni h2 h3 h4⟩
  | succ fuel ih =>
      intro i n below l hl hin hi hle hf h2 h3 h4
      simp only [zigzagLoop]
      by_cases hlt : i < n
      · simp only [hlt, if_true]
        by_cases hlast : i = n - 1
        · simp only [hlast, if_true]
          rw [← hlast]
          refine ⟨by rw [placeAccidental_length]; exact hl, ?_⟩
          intro k hk
          have hn1 : n = i + 1 := by omega
          split_ifs with hc
          · rcases Nat.lt_or_ge (k + 1) i with h | h
            · exact placeAccidental_clear_other _ _ _ _ _ _ _ _ _
                (hne _ _ (by omega) (by omega) (by omega))
                (hne _ _ (by omega) (by omega) (by omega)) (h2 k h)
            · have hki : k + 1 = i := by omega
              have hk1 : k = i - 1 := by omega
              rw [hki, hk1]
              exact placeAccidental_clear_above _ _ _ _ _ _ _ (by rw [hl]; exact hu _ (by omega))
                (hne _ _ (by omega) (by omega) (by omega))
          · rcases Nat.lt_or_ge i k with h | h
            · exact placeAccidental_clear_other _ _ _ _ _ _ _ _ _
                (hne _ _ (by omega) (by omega) (by omega))
                (hne _ _ (by omega) (by omega) (by omega)) (h3 k (by omega) hk)
            · have hki : k = i := by omega
              rw [hki, ← hn1]
              exact placeAccidental_clear_below _ _ _ _ _ _ _ (by rw [hl]; exact hu _ (by omega))
                (hne _ _ (by omega) (by omega) (by omega))
        · simp only [hlast, if_false]
          have hi1 : i = i + 1 - 1 := by omega
          have key := ih (i + 1) (n - 1) (some (umi.getD n 0))
            (placeAccidental env leftNotes colOffset
              (placeAccidental env leftNotes colOffset l (umi.getD i 0)
                (some (umi.getD (i - 1) 0)) (some (umi.getD n 0)))
              (umi.getD (n - 1) 0) (some (umi.getD i 0)) (some (umi.getD n 0)))
            (by rw [placeAccidental_length, placeAccidental_length]; exact hl)
            (by omega) (by omega) (by omega) (by omega)
            (by
              intro k hk
              rcases Nat.lt_or_ge (k + 1) i with h | h
              · exact placeAccidental_clear_other _ _ _ _ _ _ _ _ _
                  (hne _ _ (by omega) (by omega) (by omega))
                  (hne _ _ (by omega) (by omega) (by omega))
                  (placeAccidental_clear_other _ _ _ _ _ _ _ _ _
                    (hne _ _ (by omega) (by omega) (by omega))
                    (hne _ _ (by omega) (by omega) (by omega)) (h2 k h))
              · have hki : k + 1 = i := by omega
                have hk1 : k = i - 1 := by omega
                rw [hki, hk1]
                exact placeAccidental_clear_other _ _ _ _ _ _ _ _ _
                  (hne _ _ (by omega) (by omega) (by omega))
                  (hne _ _ (by omega) (by omega) (by omega))
                  (placeAccidental_clear_above _ _ _ _ _ _ _ (by rw [hl]; exact hu _ (by omega))
                    (hne _ _ (by omega) (by omega) (by omega))))
            (by
              intro k hk hkN
              rcases Nat.lt_or_ge k n with h | h
              · have hkn : k = n - 1 := by omega
                have hk1 : k + 1 = n := by omega
                rw [hk1, hkn]
                exact placeAccidental_clear_below _ _ _ _ _ _ _
                  (by rw [placeAccidental_length, hl]; exact hu _ (by omega))
                  (hne _ _ (by omega) (by omega) (by omega))
              · exact placeAccidental_clear_other _ _ _ _ _ _ _ _ _
                  (hne _ _ (by omega) (by omega) (by omega))
                  (hne _ _ (by omega) (by omega) (by omega))
                  (placeAccidental_clear_other _ _ _ _ _ _ _ _ _
                    (hne _ _ (by omega) (by omega) (by omega))
                    (hne _ _ (by omega) (by omega) (by omega)) (h3 k h hkN)))
            (by
              rw [← hi1]
              exact placeAccidental_clear_above _ _ _ _ _ _ _
                (by rw [placeAccidental_length, hl]; exact hu _ (by omega))
                (hne _ _ (by omega) (by omega) (by omega)))
          rw [← hi1] at key
          exact key
      · have hni : n = i := by omega
        simp only [hlt, if_false]
        exact ⟨hl, hdone i n l hin hi hni h2 h3 h4⟩

/-- The zig-zag over the accidentals with the indices `umi`, which are distinct indices of
accidentals, leaves every accidental of `umi` clear of a neighbour in `umi`: in the upper
half of the one above, in the lower half of the one below. -/
theorem zigzagAccidentals_clear_umi (env : Chords3Env) (leftNotes : List LeftNote)
    (colOffset : ℚ) (umi : List Nat) (l : List AcEl)
    (hu : ∀ k, k < umi.length → umi.getD k 0 < l.length)
    (hne : ∀ j k, j < umi.length → k < umi.length → j ≠ k → umi.getD j 0 ≠ umi.getD k 0) :
    (zigzagAccidentals env leftNotes colOffset umi l).length = l.length ∧
    ∀ k, k + 1 < umi.length →
      if 2 * (k + 1) ≤ umi.length then
        accidentalClear env.pd env.sp
          ((zigzagAccidentals env leftNotes colOffset umi l).getD (umi.getD (k + 1) 0) default)
          ((zigzagAccidentals env leftNotes colOffset umi l).getD (umi.getD k 0) default)
      else
        accidentalClear env.pd env.sp
          ((zigzagAccidentals env leftNotes colOffset umi l).getD (umi.getD k 0) default)
          ((zigzagAccidentals env leftNotes colOffset umi l).getD (umi.getD (k + 1) 0)
            default) := by
  unfold zigzagAccidentals
  simp only []
  by_cases h0 : umi.length = 0
  · simp only [h0, if_true]
    exact ⟨trivial, fun k hk => absurd hk (by omega)⟩
  · simp only [h0, if_false]
    by_cases h1 : umi.length - 1 > 0
    · simp only [h1, if_true]
      by_cases h2 : umi.length - 1 > 1
      · simp only [h2, if_true]
        have key := zigzagLoop_clear_umi env leftNotes colOffset umi l.length hu hne
          (umi.length - 1) 1 (umi.length - 1) none
          (placeAccidental env leftNotes colOffset
            (placeAccidental env leftNotes colOffset l (umi.getD 0 0) none none)
            (umi.getD (umi.length - 1) 0) (some (umi.getD 0 0)) none)
          (by rw [placeAccidental_length, placeAccidental_length])
          (by omega) (by omega) (by omega) (by omega)
          (fun k hk => absurd hk (by omega))
          (fun k hk hkN => absurd hkN (by omega))
          (placeAccidental_clear_above _ _ _ _ _ _ _
            (by rw [placeAccidental_length]; exact hu _ (by omega))
            (hne _ _ (by omega) (by omega) (by omega)))
        exact key
      · simp only [h2, if_false]
        refine ⟨by rw [placeAccidental_length, placeAccidental_length], ?_⟩
        intro k hk
        have hk0 : k = 0 := by omega
        have hl2 : umi.length - 1 = 1 := by omega
        subst hk0
        have hc : 2 * (0 + 1) ≤ umi.length := by omega
        simp only [hc, if_true]
        have e : umi.getD (0 + 1) 0 = umi.getD (umi.length - 1) 0 := by rw [hl2]
        rw [e]
        exact placeAccidental_clear_above _ _ _ _ _ _ _
          (by rw [placeAccidental_length]; exact hu _ (by omega))
          (hne _ _ (by omega) (by omega) (by omega))
    · simp only [h1, if_false]
      refine ⟨by rw [placeAccidental_length], ?_⟩
      intro k hk
      exact absurd hk (by omega)

/-! ## Accidental placement: the chains of the columns end -/

theorem acAt_cast (l : List AcEl) (i : Nat) : acAt l (i : Int) = l.getD i default := by
  simp [acAt]

theorem ChainSeg_lt (l : List AcEl) :
    ∀ (c : List Nat) (j k : Int), ChainSeg l j c k → ∀ i ∈ c, i < l.length := by
  intro c
  induction c with
  | nil => intro j k _ i hi; cases hi
  | cons a rest ih =>
      intro j k h i hi
      obtain ⟨_, h2, h3⟩ := h
      rcases List.mem_cons.mp hi with h | h
      · rw [h]; exact h2
      · exact ih _ _ h3 i h

/-- A chain that visits no accidental twice is not longer than the list of accidentals. -/
theorem ChainSeg_length_le (l : List AcEl) (c : List Nat) (j k : Int)
    (h : ChainSeg l j c k) (hn : c.Nodup) : c.length ≤ l.length := by
  have hsub : c ⊆ List.range l.length := by
    intro i hi
    exact List.mem_range.mpr (ChainSeg_lt l c j k h i hi)
  have := (List.Nodup.subperm hn hsub).length_le
  simpa using this

/-- A chain is kept by a change of the list that keeps the fields `next` of its
accidentals. -/
theorem ChainSeg_congr (l l2 : List AcEl) :
    ∀ (c : List Nat) (j k : Int),
      (∀ i ∈ c, i < l.length → i < l2.length ∧
        (l2.getD i default).next = (l.getD i default).next) →
      ChainSeg l j c k → ChainSeg l2 j c k := by
  intro c
  induction c with
  | nil => intro j k _ h; exact h
  | cons a rest ih =>
      intro j k hc h
      obtain ⟨h1, h2, h3⟩ := h
      have ha := hc a (List.mem_cons_self _ _) h2
      refine ⟨h1, ha.1, ?_⟩
      rw [acAt_cast, ha.2, ← acAt_cast]
      exact ih _ _ (fun i hi => hc i (List.mem_cons_of_mem _ hi)) h3

theorem ChainSeg_append (l : List AcEl) :
    ∀ (c1 c2 : List Nat) (j k : Int),
      ChainSeg l j (c1 ++ c2) k ↔ ∃ m, ChainSeg l j c1 m ∧ ChainSeg l m c2 k := by
  intro c1
  induction c1 with
  | nil =>
      intro c2 j k
      constructor
      · intro h; exact ⟨j, rfl, h⟩
      · rintro ⟨m, h1, h2⟩
        have : j = m := h1
        subst this
        exact h2
  | cons a rest ih =>
      intro c2 j k
      constructor
      · rintro ⟨h1, h2, h3⟩
        obtain ⟨m, h4, h5⟩ := (ih c2 _ k).mp h3
        exact ⟨m, ⟨h1, h2, h4⟩, h5⟩
      · rintro ⟨m, ⟨h1, h2, h4⟩, h5⟩
        exact ⟨h1, h2, (ih c2 _ k).mpr ⟨m, h4, h5⟩⟩

/-- Setting an accidental that a chain does not visit keeps the chain. -/
theorem ChainSeg_set (l : List AcEl) (a : Nat) (v : AcEl) (c : List Nat) (j k : Int)
    (ha : a ∉ c) (h : ChainSeg l j c k) : ChainSeg (l.set a v) j c k := by
  apply ChainSeg_congr l _ c j k _ h
  intro i hi hlt
  have hne : a ≠ i := fun e => ha (e ▸ hi)
  refine ⟨by simpa using hlt, ?_⟩
  simp [List.getD_eq_getElem?_getD, List.getElem?_set_ne hne]

/-- The walk of `chainTop` along a chain that ends gives a result. -/
theorem chainTop_some (l : List AcEl) :
    ∀ (c : List Nat) (fuel : Nat) (j cur : Int), ChainSeg l j c (-1) → c.length ≤ fuel →
      ∃ r, chainTop l fuel j cur = some r := by
  intro c
  induction c with
  | nil =>
      intro fuel j cur h _
      have hj : j = -1 := h
      cases fuel <;> simp [chainTop, hj]
  | cons a rest ih =>
      intro fuel j cur h hf
      obtain ⟨h1, h2, h3⟩ := h
      cases fuel with
      | zero => simp at hf
      | succ f =>
          have hj : j ≠ -1 := by rw [h1]; omega
          simp only [chainTop, hj, if_false]
          rw [h1]
          exact ih f _ _ h3 (by simpa using hf)

/-- The search of a slot along a chain that ends gives a result: the chain splits into
the accidentals passed, the last of which is `below`, and the accidentals from `above`
on. -/
theorem findSlot_spec (l : List AcEl) (meLine : Int) :
    ∀ (c : List Nat) (fuel : Nat) (k below0 : Int), ChainSeg l k c (-1) → c.length ≤ fuel →
      ∃ above below c1 c2, findSlot l meLine fuel k below0 = some (above, below) ∧
        c = c1 ++ c2 ∧ ChainSeg l k c1 above ∧ ChainSeg l above c2 (-1) ∧
        (c1 = [] → below = below0) ∧ (∀ b, c1.getLast? = some b → below = (b : Int)) := by
  intro c
  induction c with
  | nil =>
      intro fuel k below0 h _
      have hk : k = -1 := h
      refine ⟨-1, below0, [], [], ?_, rfl, hk, rfl, fun _ => rfl, fun b hb => by simp at hb⟩
      cases fuel <;> simp [findSlot, hk]
  | cons a rest ih =>
      intro fuel k below0 h hf
      obtain ⟨h1, h2, h3⟩ := h
      cases fuel with
      | zero => simp at hf
      | succ f =>
          have hk : k ≠ -1 := by rw [h1]; omega
          simp only [findSlot, hk, if_false]
          by_cases hline : (acAt l k).line < meLine
          · simp only [hline, if_true]
            exact ⟨k, below0, [], a :: rest, rfl, rfl, rfl, ⟨h1, h2, h3⟩, fun _ => rfl,
              fun b hb => by simp at hb⟩
          · simp only [hline, if_false]
            rw [h1]
            obtain ⟨above, below, c1, c2, e1, e2, e3, e4, e5, e6⟩ :=
              ih f (acAt l (a : Int)).next (a : Int) h3 (by simpa using hf)
            refine ⟨above, below, a :: c1, c2, e1, by rw [e2]; rfl, ⟨rfl, h2, e3⟩, e4,
              fun h => by simp at h, ?_⟩
            intro b hb
            cases c1 with
            | nil =>
                simp at hb
                rw [← hb]
                exact e5 rfl
            | cons x xs =>
                rw [List.getLast?_cons_cons] at hb
                exact e6 b hb

/-- The pitch class is an index of the arrays `columnTop` and `columnBottom`. -/
theorem pitchClass_lt (line : Int) : pitchClass line < 7 := by
  unfold pitchClass
  have h := Int.tmod_lt_of_pos (line + 700) (show (0 : Int) < 7 by decide)
  omega

/-- The chains that the first loop of `layoutChords3` builds: for every pitch class the
chain from `columnBottom` ends, visits no accidental twice and visits accidentals of the
pitch class only. -/
theorem chords3Step_chains (env : Chords3Env) (st : Chords3State) (note : Chords3Note)
    (hlen : st.columnBottom.length = 7)
    (h : ∃ ch : Nat → List Nat, ∀ pc,
      ChainSeg st.aclist (st.columnBottom.getD pc (-1)) (ch pc) (-1) ∧ (ch pc).Nodup ∧
        ∀ i ∈ ch pc, pitchClass (st.aclist.getD i default).line = pc) :
    (chords3Step env st note).columnBottom.length = 7 ∧
    ∃ ch : Nat → List Nat, ∀ pc,
      ChainSeg (chords3Step env st note).aclist
          ((chords3Step env st note).columnBottom.getD pc (-1)) (ch pc) (-1) ∧
        (ch pc).Nodup ∧
        ∀ i ∈ ch pc, pitchClass ((chords3Step env st note).aclist.getD i default).line = pc := by
  obtain ⟨ch, hch⟩ := h
  have key : ∀ st1 : Chords3State,
      (chords3Step env st note).aclist = st1.aclist →
      (chords3Step env st note).columnBottom = st1.columnBottom →
      (st1.columnBottom.length = 7 ∧
        ∃ ch : Nat → List Nat, ∀ pc,
          ChainSeg st1.aclist (st1.columnBottom.getD pc (-1)) (ch pc) (-1) ∧ (ch pc).Nodup ∧
            ∀ i ∈ ch pc, pitchClass (st1.aclist.getD i default).line = pc) →
      (chords3Step env st note).columnBottom.length = 7 ∧
      ∃ ch : Nat → List Nat, ∀ pc,
        ChainSeg (chords3Step env st note).aclist
            ((chords3Step env st note).columnBottom.getD pc (-1)) (ch pc) (-1) ∧
          (ch pc).Nodup ∧
          ∀ i ∈ ch pc,
            pitchClass ((chords3Step env st note).aclist.getD i default).line = pc := by
    intro st1 e1 e2 h
    rw [e1, e2]
    exact h
  have hold : st.columnBottom.length = 7 ∧
      ∃ ch : Nat → List Nat, ∀ pc,
        ChainSeg st.aclist (st.columnBottom.getD pc (-1)) (ch pc) (-1) ∧ (ch pc).Nodup ∧
          ∀ i ∈ ch pc, pitchClass (st.aclist.getD i default).line = pc := ⟨hlen, ch, hch⟩
  cases hacc : note.accidental with
  | none =>
      apply key st _ _ hold
      · unfold chords3Step; simp only [hacc]; split_ifs <;> rfl
      · unfold chords3Step; simp only [hacc]; split_ifs <;> rfl
  | some ac =>
      by_cases hfix : note.fixed = true
      · apply key st _ _ hold
        · unfold chords3Step
          simp only [hacc, hfix, Bool.not_true, Bool.false_eq_true, if_false]
          split_ifs <;> rfl
        · unfold chords3Step
          simp only [hacc, hfix, Bool.not_true, Bool.false_eq_true, if_false]
          split_ifs <;> rfl
      · have hfix2 : note.fixed = false := by simpa using hfix
        apply key { st with
            aclist := st.aclist ++
              [acElOf env note ac (st.columnBottom.getD (pitchClass note.line) (-1))]
            columnBottom := st.columnBottom.set (pitchClass note.line)
              (st.aclist.length : Int) }
        · unfold chords3Step
          simp only [hacc, hfix2, Bool.not_false, if_true]
          split_ifs <;> rfl
        · unfold chords3Step
          simp only [hacc, hfix2, Bool.not_false, if_true]
          split_ifs <;> rfl
        · refine ⟨by simpa using hlen, ?_⟩
          have hpc := pitchClass_lt note.line
          refine ⟨fun p => if p = pitchClass note.line then st.aclist.length :: ch p else ch p,
            ?_⟩
          intro p
          have hlt : ∀ i ∈ ch p, i < st.aclist.length := ChainSeg_lt _ _ _ _ (hch p).1
          have hkeep : ∀ i, i < st.aclist.length →
              (st.aclist ++
                [acElOf env note ac (st.columnBottom.getD (pitchClass note.line) (-1))]).getD
                  i default = st.aclist.getD i default := by
            intro i hi
            simp [List.getD_eq_getElem?_getD, List.getElem?_append_left hi]
          have hchain : ChainSeg (st.aclist ++
                [acElOf env note ac (st.columnBottom.getD (pitchClass note.line) (-1))])
              (st.columnBottom.getD p (-1)) (ch p) (-1) := by
            apply ChainSeg_congr st.aclist _ (ch p) _ _ _ (hch p).1
            intro i _ hi
            refine ⟨by simp; omega, ?_⟩
            rw [hkeep i hi]
          by_cases hp : p = pitchClass note.line
          · simp only [hp, if_true]
            subst hp
            refine ⟨?_, ?_, ?_⟩
            · refine ⟨?_, by simp, ?_⟩
              · simp [List.getD_eq_getElem?_getD, List.getElem?_set_self, hlen, hpc]
              · rw [acAt_cast]
                have : (st.aclist ++
                    [acElOf env note ac
                      (st.columnBottom.getD (pitchClass note.line) (-1))]).getD
                    st.aclist.length default
                    = acElOf env note ac (st.columnBottom.getD (pitchClass note.line) (-1)) := by
                  simp [List.getD_eq_getElem?_getD]
                rw [this]
                exact hchain
            · refine List.nodup_cons.mpr ⟨?_, (hch _).2.1⟩
              intro hmem
              exact absurd (hlt _ hmem) (lt_irrefl _)
            · intro i hi
              rcases List.mem_cons.mp hi with h | h
              · rw [h]
                simp [List.getD_eq_getElem?_getD, acElOf]
              · rw [hkeep i (hlt i h)]
                exact (hch _).2.2 i h
          · simp only [hp, if_false]
            refine ⟨?_, (hch p).2.1, ?_⟩
            · have : (st.columnBottom.set (pitchClass note.line)
                  (st.aclist.length : Int)).getD p (-1) = st.columnBottom.getD p (-1) := by
                simp [List.getD_eq_getElem?_getD, List.getElem?_set_ne (Ne.symm hp)]
              rw [this]
              exact hchain
            · intro i hi
              rw [hkeep i (hlt i hi)]
              exact (hch p).2.2 i hi

theorem foldl_invariant {α β : Type} (P : β → Prop) (f : β → α → β)
    (hstep : ∀ b a, P b → P (f b a)) : ∀ (l : List α) (b : β), P b → P (l.foldl f b) := by
  intro l
  induction l with
  | nil => intro b h; exact h
  | cons a rest ih => intro b h; exact ih _ (hstep b a h)

/-- The chains of the accidentals that `layoutChords3` collects. -/
theorem chords3Collect_chains (env : Chords3Env) (notes : List Chords3Note) :
    (chords3Collect env notes).columnBottom.length = 7 ∧
    ∃ ch : Nat → List Nat, ∀ pc,
      ChainSeg (chords3Collect env notes).aclist
          ((chords3Collect env notes).columnBottom.getD pc (-1)) (ch pc) (-1) ∧
        (ch pc).Nodup ∧
        ∀ i ∈ ch pc,
          pitchClass ((chords3Collect env notes).aclist.getD i default).line = pc := by
  unfold chords3Collect
  apply foldl_invariant (fun st : Chords3State => st.columnBottom.length = 7 ∧
    ∃ ch : Nat → List Nat, ∀ pc,
      ChainSeg st.aclist (st.columnBottom.getD pc (-1)) (ch pc) (-1) ∧ (ch pc).Nodup ∧
        ∀ i ∈ ch pc, pitchClass (st.aclist.getD i default).line = pc)
  · intro st note h
    exact chords3Step_chains env st note h.1 h.2
  · refine ⟨rfl, fun _ => [], ?_⟩
    intro pc
    refine ⟨?_, List.nodup_nil, fun i hi => by cases hi⟩
    show (List.getD [-1, -1, -1, -1, -1, -1, -1] pc (-1) : Int) = -1
    rcases pc with _ | _ | _ | _ | _ | _ | _ | pc <;> rfl

theorem mapM_option_some {α β : Type} (f : α → Option β) :
    ∀ l : List α, (∀ a ∈ l, ∃ b, f a = some b) → ∃ r, l.mapM f = some r := by
  intro l
  induction l with
  | nil => intro _; exact ⟨[], rfl⟩
  | cons a rest ih =>
      intro h
      obtain ⟨b, hb⟩ := h a (List.mem_cons_self _ _)
      obtain ⟨r, hr⟩ := ih (fun x hx => h x (List.mem_cons_of_mem _ hx))
      refine ⟨b :: r, ?_⟩
      rw [← List.mapM'_eq_mapM] at hr ⊢
      simp [List.mapM', hb, hr]

/-- The array `columnTop` is found for the accidentals that `layoutChords3` collects. -/
theorem columnTops_some (env : Chords3Env) (notes : List Chords3Note) :
    ∃ ct, columnTops (chords3Collect env notes).aclist
      (chords3Collect env notes).columnBottom = some ct := by
  obtain ⟨_, ch, hch⟩ := chords3Collect_chains env notes
  unfold columnTops
  apply mapM_option_some
  intro b hb
  by_cases h : b = -1
  · exact ⟨-1, by simp [h]⟩
  · simp only [h, if_false]
    obtain ⟨pc, hpc, hget⟩ := List.mem_iff_getElem.mp hb
    have hb2 : (chords3Collect env notes).columnBottom.getD pc (-1) = b := by
      simp [List.getD_eq_getElem?_getD, List.getElem?_eq_getElem hpc, hget]
    have hc := hch pc
    rw [hb2] at hc
    exact chainTop_some _ _ _ _ _ hc.1 (ChainSeg_length_le _ _ _ _ hc.1 hc.2.1)

/-- The test of the column order loop for a pitch class: the top and the bottom accidental
of its chain are on different lines. -/
theorem columnOrderAdd_spec (aclist : List AcEl) (ct cb : List Int) (st : ColumnOrder)
    (i : Nat) :
    ((acAt aclist (ct.getD (pitchClass (aclist.getD i default).line) (-1))).line
        ≠ (acAt aclist (cb.getD (pitchClass (aclist.getD i default).line) (-1))).line →
      (columnOrderAdd aclist ct cb st i).unmatched = st.unmatched ∧
      (∀ p ∈ (columnOrderAdd aclist ct cb st i).column,
        p ∈ st.column ∨ p = pitchClass (aclist.getD i default).line)) ∧
    (¬ (acAt aclist (ct.getD (pitchClass (aclist.getD i default).line) (-1))).line
        ≠ (acAt aclist (cb.getD (pitchClass (aclist.getD i default).line) (-1))).line →
      (columnOrderAdd aclist ct cb st i).unmatched = st.unmatched ++ [i] ∧
      (columnOrderAdd aclist ct cb st i).column = st.column) := by
  unfold columnOrderAdd
  constructor
  · intro h
    rw [if_pos h]
    split_ifs
    · refine ⟨rfl, ?_⟩
      intro p hp
      simp only [List.mem_append, List.mem_singleton] at hp
      exact hp
    · exact ⟨rfl, fun p hp => Or.inl hp⟩
  · intro h
    rw [if_neg h]
    exact ⟨rfl, rfl⟩

theorem columnOrderAdd_ok (aclist : List AcEl) (ct cb : List Int) (st : ColumnOrder)
    (i n j i2 n2 : Nat) (h : ColumnOrderOK aclist ct cb i n st)
    (hj : ¬ (j < i ∨ n < j)) (hj2 : j < i2 ∨ n2 < j) (hi : i ≤ i2) (hn : n2 ≤ n) :
    ColumnOrderOK aclist ct cb i2 n2 (columnOrderAdd aclist ct cb st j) := by
  obtain ⟨h1, h2, h3⟩ := h
  have spec := columnOrderAdd_spec aclist ct cb st j
  by_cases ht : (acAt aclist (ct.getD (pitchClass (aclist.getD j default).line) (-1))).line
        ≠ (acAt aclist (cb.getD (pitchClass (aclist.getD j default).line) (-1))).line
  · obtain ⟨e1, e2⟩ := spec.1 ht
    refine ⟨?_, ?_, ?_⟩
    · intro u hu
      rw [e1] at hu
      refine ⟨?_, (h1 u hu).2⟩
      rcases (h1 u hu).1 with h | h
      · exact Or.inl (by omega)
      · exact Or.inr (by omega)
    · rw [e1]; exact h2
    · intro p hp
      rcases e2 p hp with h | h
      · exact h3 p h
      · rw [h]; exact ⟨pitchClass_lt _, ht⟩
  · obtain ⟨e1, e2⟩ := spec.2 ht
    refine ⟨?_, ?_, ?_⟩
    · intro u hu
      rw [e1] at hu
      rcases List.mem_append.mp hu with hu | hu
      · refine ⟨?_, (h1 u hu).2⟩
        rcases (h1 u hu).1 with h | h
        · exact Or.inl (by omega)
        · exact Or.inr (by omega)
      · simp only [List.mem_singleton] at hu
        rw [hu]
        exact ⟨hj2, ht⟩
    · rw [e1]
      refine List.Nodup.append h2 (List.nodup_singleton _) ?_
      intro u hu1 hu2
      simp only [List.mem_singleton] at hu2
      rw [hu2] at hu1
      exact hj (h1 j hu1).1
    · rw [e2]; exact h3

theorem columnOrderLoop_ok (aclist : List AcEl) (ct cb : List Int) :
    ∀ (fuel i n : Nat) (st : ColumnOrder), ColumnOrderOK aclist ct cb i n st →
      ∃ i2 n2, ColumnOrderOK aclist ct cb i2 n2 (columnOrderLoop aclist ct cb fuel i n st) := by
  intro fuel
  induction fuel with
  | zero => intro i n st h; exact ⟨i, n, h⟩
  | succ fuel ih =>
      intro i n st h
      simp only [columnOrderLoop]
      by_cases hle : i ≤ n
      · simp only [hle, if_true]
        by_cases hin : i = n
        · simp only [hin, if_true]
          subst hin
          exact ⟨i + 1, i, columnOrderAdd_ok aclist ct cb st i i i (i + 1) i h (by omega)
            (by omega) (by omega) (by omega)⟩
        · simp only [hin, if_false]
          have h1 := columnOrderAdd_ok aclist ct cb st i n i (i + 1) n h (by omega)
            (by omega) (by omega) (by omega)
          have h2 := columnOrderAdd_ok aclist ct cb _ (i + 1) n n (i + 1) (n - 1) h1
            (by omega) (by omega) (by omega) (by omega)
          exact ih (i + 1) (n - 1) _ h2
      · simp only [hle, if_false]
        exact ⟨i, n, h⟩

/-- The state while the unmatched accidentals `pending` are handled is well formed. -/
theorem ColumnsOK_weaken (l : List AcEl) (cb : List Int) (column : List Nat) (u : Nat)
    (rest : List Nat) (h : ColumnsOK l cb column (u :: rest)) : ColumnsOK l cb column rest := by
  obtain ⟨ch, h1, h2⟩ := h
  refine ⟨ch, ?_, h2⟩
  intro pc hpc
  obtain ⟨a, b, c⟩ := h1 pc hpc
  exact ⟨a, b, fun i hi hr => c i hi (List.mem_cons_of_mem _ hr)⟩

/-- An unmatched accidental put into the slot found in a column keeps the columns well
formed. -/
theorem insertSlot_ok (l : List AcEl) (cb : List Int) (column : List Nat) (u : Nat)
    (rest : List Nat) (pc : Nat) (above below : Int) (c1 c2 : List Nat) (ch : Nat → List Nat)
    (hcb : cb.length = 7) (hpc7 : pc < 7) (hpc : pc ∈ column) (hu : u < l.length)
    (hurest : u ∉ rest)
    (h1 : ∀ p ∈ column, ChainSeg l (cb.getD p (-1)) (ch p) (-1) ∧ (ch p).Nodup
        ∧ ∀ i ∈ ch p, i ∉ u :: rest)
    (h2 : ∀ p ∈ column, ∀ q ∈ column, p ≠ q → ∀ i ∈ ch p, i ∉ ch q)
    (hc : ch pc = c1 ++ c2)
    (hs1 : ChainSeg l (cb.getD pc (-1)) c1 above) (hs2 : ChainSeg l above c2 (-1))
    (hb0 : c1 = [] → below = -1) (hb1 : ∀ b, c1.getLast? = some b → below = (b : Int)) :
    ColumnsOK
      (if below ≠ -1 then
        (l.set u { l.getD u default with next := above }).set below.toNat
          { acAt (l.set u { l.getD u default with next := above }) below with next := (u : Int) }
       else l.set u { l.getD u default with next := above })
      (if below ≠ -1 then cb else cb.set pc (u : Int)) column rest := by
  have hunot : ∀ p ∈ column, u ∉ ch p := fun p hp hmem =>
    (h1 p hp).2.2 u hmem (List.mem_cons_self _ _)
  have hnd : (ch pc).Nodup := (h1 pc hpc).2.1
  have hu1 : u ∉ c1 := fun h => hunot pc hpc (by rw [hc]; exact List.mem_append_left _ h)
  have hu2 : u ∉ c2 := fun h => hunot pc hpc (by rw [hc]; exact List.mem_append_right _ h)
  have hgetu : ∀ v : AcEl, ((l.set u v).getD u default) = v := by
    intro v
    simp [List.getD_eq_getElem?_getD, List.getElem?_set_self hu]
  refine ⟨fun p => if p = pc then c1 ++ u :: c2 else ch p, ?_, ?_⟩
  · intro p hp
    by_cases hpp : p = pc
    · subst hpp
      simp only [if_true]
      refine ⟨?_, ?_, ?_⟩
      · rcases List.eq_nil_or_concat c1 with hnil | ⟨c0, b, hcons⟩
        · -- the accidental becomes the bottom of the column
          have hbelow := hb0 hnil
          simp only [hbelow, ne_eq, not_true_eq_false, if_false]
          subst hnil
          have habove : cb.getD p (-1) = above := hs1
          simp only [List.nil_append]
          refine ⟨?_, by simpa using hu, ?_⟩
          · simp [List.getD_eq_getElem?_getD, List.getElem?_set_self, hcb, hpc7]
          · rw [acAt_cast, hgetu]
            exact ChainSeg_set l u _ c2 above (-1) hu2 hs2
        · -- the accidental follows `below`
          rw [List.concat_eq_append] at hcons
          have hlast : c1.getLast? = some b := by rw [hcons]; simp
          have hbelow := hb1 b hlast
          have hbne : below ≠ -1 := by rw [hbelow]; omega
          simp only [hbne, ne_eq, not_false_eq_true, if_true]
          rw [hbelow]
          simp only [Int.toNat_ofNat]
          subst hcons
          obtain ⟨m, hs0, hsb⟩ := (ChainSeg_append l c0 [b] _ above).mp hs1
          obtain ⟨hm, hblt, hbnext⟩ := hsb
          have hbu : b ≠ u := fun e => hu1 (by rw [← e]; simp)
          have hb0' : b ∉ c0 := by
            intro hmem
            rw [hc] at hnd
            have := (List.nodup_append.mp hnd).1
            have h3 := (List.nodup_append.mp this).2.2
            exact h3 hmem (List.mem_singleton_self b)
          have hb2 : b ∉ c2 := by
            intro hmem
            rw [hc] at hnd
            have h3 := (List.nodup_append.mp hnd).2.2
            exact h3 (by simp) hmem
          have hu0 : u ∉ c0 := fun h => hu1 (List.mem_append_left _ h)
          have e : c0 ++ [b] ++ u :: c2 = c0 ++ (b :: u :: c2) := by simp
          rw [e]
          refine (ChainSeg_append _ c0 (b :: u :: c2) _ (-1)).mpr ⟨m, ?_, ?_⟩
          · exact ChainSeg_set _ b _ c0 _ _ hb0' (ChainSeg_set l u _ c0 _ _ hu0 hs0)
          · refine ⟨hm, by simpa using hblt, ?_⟩
            have hgb : acAt ((l.set u { l.getD u default with next := above }).set b
                { acAt (l.set u { l.getD u default with next := above }) (b : Int) with
                  next := (u : Int) }) (b : Int)
                = { acAt (l.set u { l.getD u default with next := above }) (b : Int) with
                  next := (u : Int) } := by
              rw [acAt_cast]
              simp [List.getD_eq_getElem?_getD, List.getElem?_set_self, hblt]
            rw [hgb]
            refine ⟨rfl, by simpa using hu, ?_⟩
            have hgu : acAt ((l.set u { l.getD u default with next := above }).set b
                { acAt (l.set u { l.getD u default with next := above }) (b : Int) with
                  next := (u : Int) }) (u : Int)
                = { l.getD u default with next := above } := by
              rw [acAt_cast]
              simp [List.getD_eq_getElem?_getD, List.getElem?_set_ne hbu,
                List.getElem?_set_self hu]
            rw [hgu]
            exact ChainSeg_set _ b _ c2 _ _ hb2 (ChainSeg_set l u _ c2 _ _ hu2 hs2)
      · have hperm : List.Perm (c1 ++ u :: c2) (u :: (c1 ++ c2)) := List.perm_middle
        rw [hperm.nodup_iff, List.nodup_cons, ← hc]
        exact ⟨hunot p hp, hnd⟩
      · intro i hi hr
        rcases List.mem_append.mp hi with h | h
        · exact (h1 p hp).2.2 i (by rw [hc]; exact List.mem_append_left _ h)
            (List.mem_cons_of_mem _ hr)
        · rcases List.mem_cons.mp h with h | h
          · rw [h] at hr; exact hurest hr
          · exact (h1 p hp).2.2 i (by rw [hc]; exact List.mem_append_right _ h)
              (List.mem_cons_of_mem _ hr)
    · simp only [hpp, if_false]
      obtain ⟨a1, a2, a3⟩ := h1 p hp
      refine ⟨?_, a2, fun i hi hr => a3 i hi (List.mem_cons_of_mem _ hr)⟩
      have hcbp : (if below ≠ -1 then cb else cb.set pc (u : Int)).getD p (-1)
          = cb.getD p (-1) := by
        split_ifs
        · rfl
        · simp [List.getD_eq_getElem?_getD, List.getElem?_set_ne (Ne.symm hpp)]
      rw [hcbp]
      have hup : u ∉ ch p := hunot p hp
      split_ifs with hb
      · -- `below` is the last accidental of `c1`
        rcases List.eq_nil_or_concat c1 with hnil | ⟨c0, b, hcons⟩
        · exact absurd (hb0 hnil) hb
        · rw [List.concat_eq_append] at hcons
          have hlast : c1.getLast? = some b := by rw [hcons]; simp
          have hbelow := hb1 b hlast
          rw [hbelow]
          simp only [Int.toNat_ofNat]
          have hbp : b ∉ ch p := by
            intro hmem
            exact h2 p hp pc hpc hpp b hmem (by rw [hc, hcons]; simp)
          exact ChainSeg_set _ b _ _ _ _ hbp (ChainSeg_set l u _ _ _ _ hup a1)
      · exact ChainSeg_set l u _ _ _ _ hup a1
  · intro p hp q hq hpq i hi
    by_cases hpp : p = pc
    · have hqq : q ≠ pc := fun e => hpq (by rw [hpp, e])
      simp only [hpp, if_true] at hi
      simp only [hqq, if_false]
      rcases List.mem_append.mp hi with h | h
      · exact h2 pc hpc q hq (Ne.symm hqq) i (by rw [hc]; exact List.mem_append_left _ h)
      · rcases List.mem_cons.mp h with h | h
        · rw [h]; exact hunot q hq
        · exact h2 pc hpc q hq (Ne.symm hqq) i (by rw [hc]; exact List.mem_append_right _ h)
    · simp only [hpp, if_false] at hi
      by_cases hqq : q = pc
      · simp only [hqq, if_true]
        intro hmem
        rcases List.mem_append.mp hmem with h | h
        · exact h2 p hp pc hpc hpp i hi (by rw [hc]; exact List.mem_append_left _ h)
        · rcases List.mem_cons.mp h with h | h
          · rw [h] at hi; exact hunot p hp hi
          · exact h2 p hp pc hpc hpp i hi (by rw [hc]; exact List.mem_append_right _ h)
      · simp only [hqq, if_false]
        exact h2 p hp q hq hpq i hi

/-- The loop over the columns for an unmatched accidental gives a result and keeps the
columns well formed. -/
theorem insertUnmatched_ok (pd : ℚ) (column : List Nat) (u : Nat) (rest : List Nat) :
    ∀ (cols : List Nat) (st : ColumnState), (∀ pc ∈ cols, pc ∈ column ∧ pc < 7) →
      ColumnsOK st.aclist st.columnBottom column (u :: rest) →
      st.columnBottom.length = 7 → u < st.aclist.length → u ∉ rest →
      ∃ found st2, insertUnmatched pd u cols st = some (found, st2) ∧
        ColumnsOK st2.aclist st2.columnBottom column rest ∧ st2.columnBottom.length = 7 ∧
        st2.aclist.length = st.aclist.length ∧ st2.umi = st.umi := by
  intro cols
  induction cols with
  | nil =>
      intro st _ hok hcb _ _
      exact ⟨false, st, rfl, ColumnsOK_weaken _ _ _ _ _ hok, hcb, rfl, rfl⟩
  | cons pc cols ih =>
      intro st hcols hok hcb hu hurest
      obtain ⟨ch, h1, h2⟩ := hok
      obtain ⟨hpc, hpc7⟩ := hcols pc (List.mem_cons_self _ _)
      obtain ⟨hchain, hnd, _⟩ := h1 pc hpc
      obtain ⟨above, below, c1, c2, e1, e2, e3, e4, e5, e6⟩ :=
        findSlot_spec st.aclist (st.aclist.getD u default).line (ch pc) st.aclist.length
          (st.columnBottom.getD pc (-1)) (-1) hchain (ChainSeg_length_le _ _ _ _ hchain hnd)
      simp only [insertUnmatched, e1]
      by_cases hconf : slotConflict st.aclist (st.aclist.getD u default) pd above below = true
      · simp only [hconf, Bool.not_true, Bool.false_eq_true, if_false]
        exact ih st (fun p hp => hcols p (List.mem_cons_of_mem _ hp)) ⟨ch, h1, h2⟩ hcb hu hurest
      · have hconf2 : slotConflict st.aclist (st.aclist.getD u default) pd above below
            = false := by simpa using hconf
        simp only [hconf2, Bool.not_false, if_true]
        have key := insertSlot_ok st.aclist st.columnBottom column u rest pc above below c1 c2
          ch hcb hpc7 hpc hu hurest h1 h2 e2 e3 e4 e5 e6
        by_cases hb : below ≠ -1
        · simp only [hb, ne_eq, not_false_eq_true, if_true] at key ⊢
          exact ⟨true, _, rfl, key, hcb, by simp, rfl⟩
        · simp only [hb, ne_eq, if_false] at key ⊢
          exact ⟨true, _, rfl, key, by simpa using hcb, by simp, rfl⟩

/-- The loop over the unmatched accidentals gives a result: the columns stay well formed,
and the accidentals without a slot are added to `umi` in their order. -/
theorem handleUnmatched_ok (pd : ℚ) (column : List Nat) (hcol : ∀ pc ∈ column, pc < 7) :
    ∀ (us : List Nat) (st : ColumnState),
      ColumnsOK st.aclist st.columnBottom column us → st.columnBottom.length = 7 →
      (∀ u ∈ us, u < st.aclist.length) → us.Nodup →
      ∃ cs, handleUnmatched pd column us st = some cs ∧
        ColumnsOK cs.aclist cs.columnBottom column [] ∧
        cs.aclist.length = st.aclist.length ∧
        ∃ add, cs.umi = st.umi ++ add ∧ List.Sublist add us := by
  intro us
  induction us with
  | nil =>
      intro st hok _ _ _
      exact ⟨st, rfl, hok, rfl, [], by simp, List.Sublist.refl _⟩
  | cons u rest ih =>
      intro st hok hcb hlt hnd
      obtain ⟨found, st2, e1, e2, e3, e4, e5⟩ := insertUnmatched_ok pd column u rest column st
        (fun pc hpc => ⟨hpc, hcol pc hpc⟩) hok hcb (hlt u (List.mem_cons_self _ _))
        (List.nodup_cons.mp hnd).1
      simp only [handleUnmatched, e1]
      have hlt2 : ∀ v ∈ rest, v < st2.aclist.length := by
        intro v hv
        rw [e4]
        exact hlt v (List.mem_cons_of_mem _ hv)
      cases found with
      | true =>
          simp only [Bool.not_true, Bool.false_eq_true, if_false]
          obtain ⟨cs, f1, f2, f3, add, f4, f5⟩ := ih st2 e2 e3 hlt2 (List.nodup_cons.mp hnd).2
          exact ⟨cs, f1, f2, by rw [f3, e4], add, by rw [f4, e5], List.Sublist.cons _ f5⟩
      | false =>
          simp only [Bool.not_false, if_true]
          obtain ⟨cs, f1, f2, f3, add, f4, f5⟩ := ih { st2 with umi := st2.umi ++ [u] } e2 e3
            hlt2 (List.nodup_cons.mp hnd).2
          refine ⟨cs, f1, f2, by rw [f3]; exact e4, u :: add, ?_, List.Sublist.cons₂ _ f5⟩
          rw [f4, e5]
          simp

/-- The lists have the same length and the same fields `next`. -/
theorem placeAccidental_next (env : Chords3Env) (leftNotes : List LeftNote) (colOffset : ℚ)
    (l : List AcEl) (me : Nat) (a b : Option Nat) (i : Nat) :
    ((placeAccidental env leftNotes colOffset l me a b).getD i default).next
      = (l.getD i default).next := by
  by_cases h : i = me
  · subst h
    by_cases hlt : i < l.length
    · rw [placeAccidental_me _ _ _ _ _ _ _ hlt]
    · simp only [placeAccidental]
      rw [List.set_eq_of_length_le (not_lt.mp hlt)]
  · rw [placeAccidental_other _ _ _ _ _ _ _ _ h]

/-- The layout of a column whose chain ends gives a result and keeps the chains. -/
theorem layoutColumn_some (env : Chords3Env) (leftNotes : List LeftNote) (colOffset : ℚ) :
    ∀ (c : List Nat) (fuel : Nat) (j : Int) (below : Option Nat) (l : List AcEl) (minX : ℚ),
      ChainSeg l j c (-1) → c.length ≤ fuel →
      ∃ l2 m, layoutColumn env leftNotes colOffset fuel j below l minX = some (l2, m) ∧
        l2.length = l.length ∧
        ∀ i : Nat, (l2.getD i default).next = (l.getD i default).next := by
  intro c
  induction c with
  | nil =>
      intro fuel j below l minX h _
      have hj : j = -1 := h
      refine ⟨l, minX, ?_, rfl, fun _ => rfl⟩
      cases fuel <;> simp [layoutColumn, hj]
  | cons a rest ih =>
      intro fuel j below l minX h hf
      obtain ⟨h1, h2, h3⟩ := h
      cases fuel with
      | zero => simp at hf
      | succ f =>
          have hj : j ≠ -1 := by rw [h1]; omega
          simp only [layoutColumn, hj, if_false]
          generalize hl1 : placeAccidental env leftNotes colOffset l j.toNat none below = l1
          have hsame : ∀ i : Nat, (l1.getD i default).next = (l.getD i default).next := by
            intro i
            rw [← hl1]
            exact placeAccidental_next env leftNotes colOffset l j.toNat none below i
          have hlen : l1.length = l.length := by
            rw [← hl1]
            exact placeAccidental_length env leftNotes colOffset l j.toNat none below
          have hchain : ChainSeg l1 (acAt l1 j).next rest (-1) := by
            have e : (acAt l1 j).next = (acAt l (a : Int)).next := by
              rw [h1, acAt_cast, acAt_cast]
              exact hsame a
            rw [e]
            apply ChainSeg_congr l _ rest _ _ _ h3
            intro i _ hi
            exact ⟨by rw [hlen]; exact hi, hsame i⟩
          obtain ⟨l2, m, e1, e2, e3⟩ := ih f _ (some j.toNat) _ (min minX (acAt l1 j).x)
            hchain (by simpa using hf)
          exact ⟨l2, m, e1, by rw [e2, hlen], fun i => by rw [e3 i, hsame i]⟩

/-- The alignment of a column whose chain ends gives a result and keeps the chains. -/
theorem alignColumn_some (minX : ℚ) :
    ∀ (c : List Nat) (fuel : Nat) (j : Int) (l : List AcEl),
      ChainSeg l j c (-1) → c.length ≤ fuel →
      ∃ l2, alignColumn minX fuel j l = some l2 ∧ l2.length = l.length ∧
        ∀ i : Nat, (l2.getD i default).next = (l.getD i default).next := by
  intro c
  induction c with
  | nil =>
      intro fuel j l h _
      have hj : j = -1 := h
      refine ⟨l, ?_, rfl, fun _ => rfl⟩
      cases fuel <;> simp [alignColumn, hj]
  | cons a rest ih =>
      intro fuel j l h hf
      obtain ⟨h1, h2, h3⟩ := h
      cases fuel with
      | zero => simp at hf
      | succ f =>
          have hj : j ≠ -1 := by rw [h1]; omega
          have h3j : ChainSeg l (acAt l j).next rest (-1) := by rw [h1]; exact h3
          simp only [alignColumn, hj, if_false]
          split_ifs
          · obtain ⟨l2, e1, e2, e3⟩ := ih f _ l h3j (by simpa using hf)
            exact ⟨l2, e1, e2, e3⟩
          · generalize hv : ({ acAt l j with x := minX } : AcEl) = v
            have hvn : v.next = (acAt l j).next := by rw [← hv]
            have hsame : ∀ i : Nat,
                ((l.set j.toNat v).getD i default).next = (l.getD i default).next := by
              intro i
              by_cases hi : i = j.toNat
              · subst hi
                by_cases hlt : j.toNat < l.length
                · simp [List.getD_eq_getElem?_getD, List.getElem?_set_self hlt, hvn, acAt,
                    List.getElem?_eq_getElem hlt]
                · rw [List.set_eq_of_length_le (not_lt.mp hlt)]
              · simp [List.getD_eq_getElem?_getD, List.getElem?_set_ne (Ne.symm hi)]
            have hchain : ChainSeg (l.set j.toNat v) (acAt l j).next rest (-1) := by
              apply ChainSeg_congr l _ rest _ _ _ h3j
              intro i _ hi
              exact ⟨by simpa using hi, hsame i⟩
            obtain ⟨l2, e1, e2, e3⟩ := ih f _ _ hchain (by simpa using hf)
            exact ⟨l2, e1, by rw [e2]; simp, fun i => by rw [e3 i, hsame i]⟩

/-- The loop over the columns gives a result when the chains of the columns end. -/
theorem layoutColumns_some (env : Chords3Env) (leftNotes : List LeftNote) (cb : List Int) :
    ∀ (cols : List Nat) (l : List AcEl) (minX colOffset : ℚ),
      (∀ pc ∈ cols, ∃ c, ChainSeg l (cb.getD pc (-1)) c (-1) ∧ c.Nodup) →
      ∃ r, layoutColumns env leftNotes cb cols l minX colOffset = some r ∧
        r.1.length = l.length := by
  intro cols
  induction cols with
  | nil => intro l minX colOffset _; exact ⟨_, rfl, rfl⟩
  | cons pc cols ih =>
      intro l minX colOffset h
      obtain ⟨c, hc, hnd⟩ := h pc (List.mem_cons_self _ _)
      obtain ⟨l1, m1, e1, e2, e3⟩ := layoutColumn_some env leftNotes colOffset c l.length
        (cb.getD pc (-1)) none l minX hc (ChainSeg_length_le _ _ _ _ hc hnd)
      have hc1 : ChainSeg l1 (cb.getD pc (-1)) c (-1) :=
        ChainSeg_congr l l1 c _ _ (fun i _ hi => ⟨by rw [e2]; exact hi, e3 i⟩) hc
      obtain ⟨l2, f1, f2, f3⟩ := alignColumn_some m1 c l1.length (cb.getD pc (-1)) l1 hc1
        (ChainSeg_length_le _ _ _ _ hc1 hnd)
      simp only [layoutColumns, e1, f1]
      obtain ⟨r, g1, g2⟩ := ih l2 m1 m1 (by
        intro p hp
        obtain ⟨c2, hc2, hnd2⟩ := h p (List.mem_cons_of_mem _ hp)
        refine ⟨c2, ?_, hnd2⟩
        apply ChainSeg_congr l l2 c2 _ _ _ hc2
        intro i _ hi
        exact ⟨by rw [f2, e2]; exact hi, by rw [f3 i, e3 i]⟩)
      exact ⟨r, g1, by rw [g2, f2, e2]⟩

/-- The indices in `unmatched` are indices of accidentals. -/
theorem columnOrderLoop_lt (aclist : List AcEl) (ct cb : List Int) (N : Nat) :
    ∀ (fuel i n : Nat) (st : ColumnOrder), n < N → (∀ u ∈ st.unmatched, u < N) →
      ∀ u ∈ (columnOrderLoop aclist ct cb fuel i n st).unmatched, u < N := by
  have hadd : ∀ (st : ColumnOrder) (j : Nat), j < N → (∀ u ∈ st.unmatched, u < N) →
      ∀ u ∈ (columnOrderAdd aclist ct cb st j).unmatched, u < N := by
    intro st j hj h u hu
    have spec := columnOrderAdd_spec aclist ct cb st j
    by_cases ht : (acAt aclist (ct.getD (pitchClass (aclist.getD j default).line) (-1))).line
        ≠ (acAt aclist (cb.getD (pitchClass (aclist.getD j default).line) (-1))).line
    · rw [(spec.1 ht).1] at hu
      exact h u hu
    · rw [(spec.2 ht).1] at hu
      rcases List.mem_append.mp hu with hu | hu
      · exact h u hu
      · simp only [List.mem_singleton] at hu
        rw [hu]; exact hj
  intro fuel
  induction fuel with
  | zero => intro i n st _ h; exact h
  | succ fuel ih =>
      intro i n st hn h
      simp only [columnOrderLoop]
      by_cases hle : i ≤ n
      · simp only [hle, if_true]
        by_cases hin : i = n
        · simp only [hin, if_true]
          exact hadd st n hn h
        · simp only [hin, if_false]
          exact ih (i + 1) (n - 1) _ (by omega)
            (hadd _ n hn (hadd st i (by omega) h))
      · simp only [hle, if_false]
        exact h

theorem nodup_getD_ne (l : List Nat) (h : l.Nodup) (j k : Nat) (hj : j < l.length)
    (hk : k < l.length) (hjk : j ≠ k) : l.getD j 0 ≠ l.getD k 0 := by
  rw [List.getD_eq_getElem _ _ hj, List.getD_eq_getElem _ _ hk]
  intro e
  exact hjk ((List.Nodup.getElem_inj_iff h).mp e)

/-- The accidental part of `layoutChords3` is the zig-zag on the state that `zigzagInput`
gives. -/
theorem layoutChords3_eq_zigzag (env : Chords3Env) (notes : List Chords3Note) :
    layoutChords3 env notes = (zigzagInput env notes).map fun z =>
      zigzagAccidentals env (chords3Collect env notes).leftNotes z.colOffset z.umi z.aclist := by
  unfold layoutChords3 zigzagInput
  simp only []
  by_cases h0 : (chords3Collect env notes).aclist.length = 0
  · simp only [h0, if_true, Option.map_some']
    simp [zigzagAccidentals]
  · simp only [h0, if_false]
    split_ifs
    · cases h1 : columnTops (chords3Collect env notes).aclist
          (chords3Collect env notes).columnBottom with
      | none => rfl
      | some ct =>
          simp only []
          cases h2 : handleUnmatched env.pd
              (columnOrderLoop (chords3Collect env notes).aclist ct
                (chords3Collect env notes).columnBottom
                (chords3Collect env notes).aclist.length 0
                ((chords3Collect env notes).aclist.length - 1) {}).column
              (columnOrderLoop (chords3Collect env notes).aclist ct
                (chords3Collect env notes).columnBottom
                (chords3Collect env notes).aclist.length 0
                ((chords3Collect env notes).aclist.length - 1) {}).unmatched
              { aclist := (chords3Collect env notes).aclist, columnTop := ct,
                columnBottom := (chords3Collect env notes).columnBottom } with
          | none => rfl
          | some cs =>
              simp only []
              cases h3 : layoutColumns env (chords3Collect env notes).leftNotes cs.columnBottom
                  (columnOrderLoop (chords3Collect env notes).aclist ct
                    (chords3Collect env notes).columnBottom
                    (chords3Collect env notes).aclist.length 0
                    ((chords3Collect env notes).aclist.length - 1) {}).column cs.aclist 0 0 with
              | none => rfl
              | some r => rfl
    · rfl

/-- The state at the start of the zig-zag exists for every note list: no chain of
accidentals fails to end. The list holds the accidentals collected, and `umi` holds
distinct indices of accidentals in ascending order. -/
theorem zigzagInput_spec (env : Chords3Env) (notes : List Chords3Note) :
    ∃ z, zigzagInput env notes = some z ∧
      z.aclist.length = (chords3Collect env notes).aclist.length ∧
      z.umi.Nodup ∧ (∀ u ∈ z.umi, u < (chords3Collect env notes).aclist.length) ∧
      z.umi.Sorted (· ≤ ·) := by
  obtain ⟨hcb7, ch, hch⟩ := chords3Collect_chains env notes
  unfold zigzagInput
  simp only []
  by_cases h0 : (chords3Collect env notes).aclist.length = 0
  · rw [if_pos h0]
    exact ⟨_, rfl, rfl, List.nodup_nil, fun u hu => (List.not_mem_nil _ hu).elim,
      List.sorted_nil⟩
  · rw [if_neg h0]
    split_ifs with hcolumn
    · obtain ⟨ct, hct⟩ := columnTops_some env notes
      simp only [hct]
      generalize hord : columnOrderLoop (chords3Collect env notes).aclist ct
        (chords3Collect env notes).columnBottom (chords3Collect env notes).aclist.length 0
        ((chords3Collect env notes).aclist.length - 1) {} = order
      obtain ⟨i2, n2, ho1, ho2, ho3⟩ := columnOrderLoop_ok (chords3Collect env notes).aclist ct
        (chords3Collect env notes).columnBottom (chords3Collect env notes).aclist.length 0
        ((chords3Collect env notes).aclist.length - 1) {}
        ⟨fun u hu => (List.not_mem_nil _ hu).elim, List.nodup_nil,
          fun p hp => (List.not_mem_nil _ hp).elim⟩
      have hlt := columnOrderLoop_lt (chords3Collect env notes).aclist ct
        (chords3Collect env notes).columnBottom (chords3Collect env notes).aclist.length
        (chords3Collect env notes).aclist.length 0
        ((chords3Collect env notes).aclist.length - 1) {} (by omega)
        (fun u hu => (List.not_mem_nil _ hu).elim)
      rw [hord] at ho1 ho2 ho3 hlt
      have hok : ColumnsOK (chords3Collect env notes).aclist
          (chords3Collect env notes).columnBottom order.column order.unmatched := by
        refine ⟨ch, ?_, ?_⟩
        · intro pc hpc
          refine ⟨(hch pc).1, (hch pc).2.1, ?_⟩
          intro i hi hun
          have h1 := (ho1 i hun).2
          rw [(hch pc).2.2 i hi] at h1
          exact h1 (ho3 pc hpc).2
        · intro p _ q _ hpq i hi hiq
          exact hpq (by rw [← (hch p).2.2 i hi, (hch q).2.2 i hiq])
      obtain ⟨cs, e1, e2, e3, add, e4, e5⟩ := handleUnmatched_ok env.pd order.column
        (fun pc hpc => (ho3 pc hpc).1) order.unmatched
        { aclist := (chords3Collect env notes).aclist, columnTop := ct,
          columnBottom := (chords3Collect env notes).columnBottom } hok hcb7 hlt ho2
      simp only [e1]
      obtain ⟨ch2, g1, _⟩ := e2
      obtain ⟨r, f1, f2⟩ := layoutColumns_some env (chords3Collect env notes).leftNotes
        cs.columnBottom order.column cs.aclist 0 0
        (fun pc hpc => ⟨ch2 pc, (g1 pc hpc).1, (g1 pc hpc).2.1⟩)
      simp only [f1]
      have humi : cs.umi = add := by rw [e4]; rfl
      have hnd : cs.umi.Nodup := by rw [humi]; exact List.Nodup.sublist e5 ho2
      have hmem : ∀ u ∈ cs.umi, u < (chords3Collect env notes).aclist.length := by
        intro u hu
        rw [humi] at hu
        exact hlt u (e5.subset hu)
      refine ⟨_, rfl, by rw [f2, e3], ?_, ?_, ?_⟩
      · show (if cs.umi.length > 1 then cs.umi.insertionSort (· ≤ ·) else cs.umi).Nodup
        split_ifs
        · exact (List.perm_insertionSort _ _).nodup_iff.mpr hnd
        · exact hnd
      · show ∀ u ∈ (if cs.umi.length > 1 then cs.umi.insertionSort (· ≤ ·) else cs.umi),
          u < (chords3Collect env notes).aclist.length
        intro u hu
        split_ifs at hu
        · exact hmem u ((List.perm_insertionSort _ _).mem_iff.mp hu)
        · exact hmem u hu
      · show (if cs.umi.length > 1 then cs.umi.insertionSort (· ≤ ·) else cs.umi).Sorted (· ≤ ·)
        split_ifs with hl
        · exact List.sorted_insertionSort _ _
        · rcases hc : cs.umi with _ | ⟨x, _ | ⟨y, t⟩⟩
          · exact List.sorted_nil
          · exact List.sorted_singleton x
          · rw [hc] at hl
            simp at hl
    · refine ⟨_, rfl, rfl, List.nodup_range _, ?_, ?_⟩
      · intro u hu
        exact List.mem_range.mp hu
      · exact (List.sorted_lt_range _).le_of_lt

/-- C9 (amended): accidental non-collision between the neighbours of the zig-zag. For
every note list `layoutChords3` places the accidentals (no chain of accidentals fails to
end). Let `umi` be the accidentals that the zig-zag lays out, in ascending order: all
accidentals when the lines of the notes are less than 7 apart, else the accidentals that
are in no octave column. In the result every accidental of `umi` is clear of a neighbour
in `umi`: for two accidentals next to each other in `umi`, the lower one if both are in
the upper half of `umi`, the upper one otherwise, was placed later, and if
`resolveAccidentals` (called with the distance `pd * mag` of the later one) ends in the
real conflict for the pair, the right edge `x + width + bbox.x` of the later one is at
least `pd * mag` to the left of the position of the other. Accidentals that are not next
to each other in `umi` are not compared, and the accidentals of a column are aligned after
they are compared. -/
theorem layoutChords3_neighbours_clear (env : Chords3Env) (notes : List Chords3Note) :
    ∃ l z, layoutChords3 env notes = some l ∧ zigzagInput env notes = some z ∧
      l.length = (chords3Collect env notes).aclist.length ∧
      z.umi.Nodup ∧ z.umi.Sorted (· ≤ ·) ∧ (∀ u ∈ z.umi, u < l.length) ∧
      ((∀ a ∈ notes, ∀ b ∈ notes, a.line - b.line < 7) → z.umi = List.range l.length) ∧
      ∀ k, k + 1 < z.umi.length →
        if 2 * (k + 1) ≤ z.umi.length then
          accidentalClear env.pd env.sp (l.getD (z.umi.getD (k + 1) 0) default)
            (l.getD (z.umi.getD k 0) default)
        else
          accidentalClear env.pd env.sp (l.getD (z.umi.getD k 0) default)
            (l.getD (z.umi.getD (k + 1) 0) default) := by
  obtain ⟨z, hz, hlen, hnd, hlt, hsorted⟩ := zigzagInput_spec env notes
  have hu : ∀ k, k < z.umi.length → z.umi.getD k 0 < z.aclist.length := by
    intro k hk
    rw [hlen, List.getD_eq_getElem _ _ hk]
    exact hlt _ (List.getElem_mem hk)
  have key := zigzagAccidentals_clear_umi env (chords3Collect env notes).leftNotes z.colOffset
    z.umi z.aclist hu (nodup_getD_ne z.umi hnd)
  refine ⟨_, z, by rw [layoutChords3_eq_zigzag, hz]; rfl, hz, by rw [key.1, hlen], hnd,
    hsorted, ?_, ?_, key.2⟩
  · intro u hu2
    rw [key.1, hlen]
    exact hlt u hu2
  · intro hspan
    rw [key.1, hlen]
    have hlines := chords3Collect_lines env notes
    have hcol : ¬ ((chords3Collect env notes).aclist.length ≥ 2 ∧
        ((chords3Collect env notes).aclist.getD
            ((chords3Collect env notes).aclist.length - 1) default).line
          - ((chords3Collect env notes).aclist.getD 0 default).line ≥ 7) := by
      rintro ⟨h2, h7⟩
      have hlast : (chords3Collect env notes).aclist.length - 1
          < (chords3Collect env notes).aclist.length := by omega
      have hfirst : 0 < (chords3Collect env notes).aclist.length := by omega
      rw [List.getD_eq_getElem _ _ hlast, List.getD_eq_getElem _ _ hfirst] at h7
      obtain ⟨a, ha, hal⟩ := hlines _ (List.getElem_mem hlast)
      obtain ⟨b, hb, hbl⟩ := hlines _ (List.getElem_mem hfirst)
      have := hspan a ha b hb
      omega
    unfold zigzagInput at hz
    simp only [hcol, if_false] at hz
    split_ifs at hz with h0
    · simp only [Option.some.injEq] at hz
      rw [← hz, h0]
      rfl
    · simp only [Option.some.injEq] at hz
      rw [← hz]

/-- Witness for C9 (amended): the four example notes on the lines 0, 1, 3 and 5. -/
theorem layoutChords3_neighbours_clear_witness :
    ∃ l z, layoutChords3 exampleChords3Env exampleAccidentalNotes = some l ∧
      zigzagInput exampleChords3Env exampleAccidentalNotes = some z ∧
      l.length = (chords3Collect exampleChords3Env exampleAccidentalNotes).aclist.length ∧
      z.umi.Nodup ∧ z.umi.Sorted (· ≤ ·) ∧ (∀ u ∈ z.umi, u < l.length) ∧
      ((∀ a ∈ exampleAccidentalNotes, ∀ b ∈ exampleAccidentalNotes, a.line - b.line < 7) →
        z.umi = List.range l.length) ∧
      ∀ k, k + 1 < z.umi.length →
        if 2 * (k + 1) ≤ z.umi.length then
          accidentalClear exampleChords3Env.pd exampleChords3Env.sp
            (l.getD (z.umi.getD (k + 1) 0) default) (l.getD (z.umi.getD k 0) default)
        else
          accidentalClear exampleChords3Env.pd exampleChords3Env.sp
            (l.getD (z.umi.getD k 0) default) (l.getD (z.umi.getD (k + 1) 0) default) :=
  layoutChords3_neighbours_clear exampleChords3Env exampleAccidentalNotes

/-- The value of `layoutChords3` on the three notes of `exampleColumnNotes`: the small
accidental of line 2 fits into the column of the accidentals of the lines 0 and 7; it is
laid out at -3/5, the accidental of line 0 is laid out to the left of it at -9/5, and the
alignment of the column moves all three to -9/5. The zig-zag gets no accidental. -/
theorem layoutChords3_column_example :
    layoutChords3 exampleChords3Env exampleColumnNotes = some exampleColumnLayout
      ∧ (zigzagInput exampleChords3Env exampleColumnNotes).map (fun z => z.umi) = some [] := by
  decide!

/-- The value of `layoutChords3` on the four notes of `exampleMixedNotes`: the accidentals
of the lines 0 and 7 form a column at -7/10; the accidentals of the lines 2 and 5 fit into
no slot of the column and are laid out by the zig-zag, which starts at the offset -7/10 of
the column. The accidental of line 2 is laid out at -6/5; for the accidental of line 5
`resolveAccidentals` takes the exit of the subsumed overlap, which leaves `lx` at -7/10, so
that its right edge is at the position of the column. -/
theorem layoutChords3_mixed_example :
    layoutChords3 exampleChords3Env exampleMixedNotes = some exampleMixedLayout
      ∧ (zigzagInput exampleChords3Env exampleMixedNotes).map (fun z => (z.umi, z.colOffset))
          = some ([1, 2], -7 / 10)
      ∧ resolveCase (exampleMixedLayout.getD 2 default) (exampleMixedLayout.getD 1 default)
          exampleChords3Env.pd exampleChords3Env.sp = .subsumed := by
  decide!

/-- The value of `layoutChords3` on the two notes of `exampleSmallNotes`, both laid out by
the zig-zag: for the small accidental of line 2 `resolveAccidentals` is called with the
distance `pd * mag = 1/10`, which the vertical gap 3/20 reaches, so it sees no conflict and
the accidental is laid out at -3/5, to the right of the position -6/5 of the accidental of
line 0 and to the left of its right edge -1/5. -/
theorem layoutChords3_small_example :
    layoutChords3 exampleChords3Env exampleSmallNotes = some exampleSmallLayout
      ∧ (zigzagInput exampleChords3Env exampleSmallNotes).map (fun z => z.umi) = some [0, 1]
      ∧ resolveCase (exampleSmallLayout.getD 1 default) (exampleSmallLayout.getD 0 default)
          (exampleChords3Env.pd * (exampleSmallLayout.getD 1 default).mag)
          exampleChords3Env.sp = .clear := by
  decide!

/-- C9 (counterexample): accidentals that `layoutChords3` leaves closer than the claim
allows. For the four example notes on the lines 0, 1, 3 and 5, whose accidentals are all
laid out by the zig-zag, the accidentals of the lines 0 and 3 stay at the same position,
although their vertical gap is smaller than `pd`, their lines are 3 apart and
`resolveAccidentals` ends in the real conflict for the pair in either order: the two are
not neighbours in the zig-zag and are never compared. For the three notes of
`exampleColumnNotes`, whose accidentals are laid out in one octave column, the accidentals
of the lines 0 and 2 end at the same position, although their vertical gap is smaller than
`pd`, their lines are 2 apart and `resolveAccidentals` ends in the real conflict for the
pair in either order: the alignment of the column undoes the distance that
`layoutAccidental` had given them. For the four notes of `exampleMixedNotes`, of which the
accidentals of the lines 0 and 7 are laid out in an octave column and those of the lines 2
and 5 by the zig-zag, the right edge of the accidental of line 5 ends at the position of the
accidental of line 7, although the two overlap vertically by 2/5, their lines are 2 apart
and `resolveAccidentals` ends in the real conflict for the pair in either order: an
accidental of the zig-zag is compared with its neighbours in the zig-zag only, never with
an accidental of a column. For the two notes of `exampleSmallNotes`, whose accidentals are
neighbours in the zig-zag, the small accidental of line 2 is laid out between the position
and the right edge of the accidental of line 0, although their vertical gap 3/20 is smaller
than `pd`, their lines are 2 apart and `resolveAccidentals` called with `pd` ends in the
real conflict for the pair in either order: `layoutAccidental` calls it with the distance
`pd * mag = 1/10` of the small accidental, which the gap reaches. In all four cases neither
accidental is `pd` to the left of the other. -/
theorem layoutChords3_noncollision_counterexample :
    (∃ l a b, layoutChords3 exampleChords3Env exampleAccidentalNotes = some l ∧
      a ∈ l ∧ b ∈ l ∧ a.line < b.line ∧ b.line - a.line < 7 ∧
      b.top - a.bottom < exampleChords3Env.pd ∧
      resolveCase a b exampleChords3Env.pd exampleChords3Env.sp = .conflict ∧
      resolveCase b a exampleChords3Env.pd exampleChords3Env.sp = .conflict ∧
      ¬ (a.x + a.width ≤ b.x - exampleChords3Env.pd) ∧
      ¬ (b.x + b.width ≤ a.x - exampleChords3Env.pd)) ∧
    (∃ l a b, layoutChords3 exampleChords3Env exampleColumnNotes = some l ∧
      a ∈ l ∧ b ∈ l ∧ a.line < b.line ∧ b.line - a.line < 7 ∧
      b.top - a.bottom < exampleChords3Env.pd ∧
      resolveCase a b exampleChords3Env.pd exampleChords3Env.sp = .conflict ∧
      resolveCase b a exampleChords3Env.pd exampleChords3Env.sp = .conflict ∧
      ¬ (a.x + a.width ≤ b.x - exampleChords3Env.pd) ∧
      ¬ (b.x + b.width ≤ a.x - exampleChords3Env.pd)) ∧
    (∃ l a b, layoutChords3 exampleChords3Env exampleMixedNotes = some l ∧
      a ∈ l ∧ b ∈ l ∧ a.line < b.line ∧ b.line - a.line < 7 ∧
      b.top - a.bottom < exampleChords3Env.pd ∧
      resolveCase a b exampleChords3Env.pd exampleChords3Env.sp = .conflict ∧
      resolveCase b a exampleChords3Env.pd exampleChords3Env.sp = .conflict ∧
      ¬ (a.x + a.width ≤ b.x - exampleChords3Env.pd) ∧
      ¬ (b.x + b.width ≤ a.x - exampleChords3Env.pd)) ∧
    (∃ l a b, layoutChords3 exampleChords3Env exampleSmallNotes = some l ∧
      a ∈ l ∧ b ∈ l ∧ a.line < b.line ∧ b.line - a.line < 7 ∧
      b.top - a.bottom < exampleChords3Env.pd ∧
      resolveCase a b exampleChords3Env.pd exampleChords3Env.sp = .conflict ∧
      resolveCase b a exampleChords3Env.pd exampleChords3Env.sp = .conflict ∧
      ¬ (a.x + a.width ≤ b.x - exampleChords3Env.pd) ∧
      ¬ (b.x + b.width ≤ a.x - exampleChords3Env.pd)) := by
  refine ⟨?_, ?_, ?_, ?_⟩
  · refine ⟨exampleAccidentalLayout,
      { note := 0, x := -6 / 5, top := -7 / 5, bottom := 7 / 5, line := 0, next := -1,
        width := 1, mag := 1, accWidth := 1 },
      { note := 2, x := -6 / 5, top := 5 / 4, bottom := 7 / 4, line := 3, next := -1,
        width := 1, mag := 1, accWidth := 1 },
      layoutChords3_example, ?_, ?_, ?_, ?_, ?_, ?_, ?_, ?_, ?_⟩
    · simp [exampleAccidentalLayout]
    · simp [exampleAccidentalLayout]
    · decide
    · decide
    · simp [exampleChords3Env]; norm_num
    · simp [resolveCase, exampleChords3Env]; norm_num
    · simp [resolveCase, exampleChords3Env]; norm_num
    · simp [exampleChords3Env]; norm_num
    · simp [exampleChords3Env]; norm_num
  · refine ⟨exampleColumnLayout,
      { note := 0, x := -9 / 5, top := -3 / 10, bottom := 3 / 10, line := 0, next := -1,
        width := 1, mag := 1, accWidth := 1 },
      { note := 1, x := -9 / 5, top := 9 / 20, bottom := 13 / 10, line := 2, next := 0,
        width := 1 / 2, mag := 1 / 2, accWidth := 1 / 2 },
      layoutChords3_column_example.1, ?_, ?_, ?_, ?_, ?_, ?_, ?_, ?_, ?_⟩ <;> decide!
  · refine ⟨exampleMixedLayout,
      { note := 2, x := -17 / 10, top := 9 / 5, bottom := 16 / 5, line := 5, next := -1,
        width := 1, ascent := 1 / 2, rightClear := 4 / 5, mag := 1, accWidth := 1 },
      { note := 3, x := -7 / 10, top := 14 / 5, bottom := 21 / 5, line := 7, next := 0,
        width := 1 / 2, mag := 1, accWidth := 1 / 2 },
      layoutChords3_mixed_example.1, ?_, ?_, ?_, ?_, ?_, ?_, ?_, ?_, ?_⟩ <;> decide!
  · refine ⟨exampleSmallLayout,
      { note := 0, x := -6 / 5, top := -3 / 10, bottom := 3 / 10, line := 0, next := -1,
        width := 1, mag := 1, accWidth := 1 },
      { note := 1, x := -3 / 5, top := 9 / 20, bottom := 13 / 10, line := 2, next := -1,
        width := 1 / 2, mag := 1 / 2, accWidth := 1 / 2 },
      layoutChords3_small_example.1, ?_, ?_, ?_, ?_, ?_, ?_, ?_, ?_, ?_⟩ <;> decide!


/-! ## Measures that may be part of a multi-measure rest -/

/-- The loop over the tracks ends without a return only if every element of a shown staff
from `track` on is a rest without articulations, and it finds a rest if there is any
element of a shown staff. -/
theorem restLoop_spec (m : SegMeasure) (s : Segment) :
    ∀ (fuel track : Nat) (rf r : Bool), restLoop m s fuel track rf = some r →
      m.nstaves * VOICES - track ≤ fuel →
      (track % VOICES ≠ 0 → m.shown (track / VOICES) = true) →
      (∀ t, track ≤ t → t < m.nstaves * VOICES → m.shown (t / VOICES) = true →
        ∀ e, s.element t = some e → e.isRest = true ∧ e.articulations = 0) ∧
      ((rf = true ∨ ∃ t, track ≤ t ∧ t < m.nstaves * VOICES ∧ m.shown (t / VOICES) = true ∧
          (s.element t).isSome = true) → r = true) := by
  intro fuel
  induction fuel with
  | zero =>
      intro track rf r h hf _
      simp only [restLoop, Option.some.injEq] at h
      refine ⟨fun t h1 h2 => absurd h2 (by omega), ?_⟩
      rintro (h1 | ⟨t, h1, h2, _⟩)
      · rw [← h]; exact h1
      · omega
  | succ fuel ih =>
      intro track rf r h hf hshown
      simp only [restLoop] at h
      by_cases hlt : track < m.nstaves * VOICES
      · simp only [hlt, if_true] at h
        by_cases hskip : track % VOICES = 0 ∧ (!m.shown (track / VOICES)) = true
        · simp only [hskip, and_self, if_true] at h
          have hv : VOICES = 4 := rfl
          obtain ⟨ih1, ih2⟩ := ih _ rf r h (by rw [hv] at hf ⊢; omega)
            (by intro hne; have h0 := hskip.1; rw [hv] at hne h0; omega)
          have hhid : ∀ t, track ≤ t → t < track + (VOICES - 1) + 1 →
              m.shown (t / VOICES) = false := by
            intro t h1 h2
            have : t / VOICES = track / VOICES := by
              rw [hv] at h2 hskip ⊢
              omega
            rw [this]
            simpa using hskip.2
          refine ⟨?_, ?_⟩
          · intro t h1 h2 h3 e he
            rcases Nat.lt_or_ge t (track + (VOICES - 1) + 1) with h4 | h4
            · rw [hhid t h1 h4] at h3
              exact absurd h3 (by decide)
            · exact ih1 t h4 h2 h3 e he
          · rintro (h1 | ⟨t, h1, h2, h3, h4⟩)
            · exact ih2 (Or.inl h1)
            · rcases Nat.lt_or_ge t (track + (VOICES - 1) + 1) with h5 | h5
              · rw [hhid t h1 h5] at h3
                exact absurd h3 (by decide)
              · exact ih2 (Or.inr ⟨t, h5, h2, h3, h4⟩)
        · simp only [hskip, if_false] at h
          have hv : VOICES = 4 := rfl
          have hnext : (track + 1) % VOICES ≠ 0 → m.shown ((track + 1) / VOICES) = true := by
            intro hne
            have hd : (track + 1) / VOICES = track / VOICES := by
              rw [hv] at hne ⊢
              omega
            rw [hd]
            by_cases h0 : track % VOICES = 0
            · by_cases hs : m.shown (track / VOICES) = true
              · exact hs
              · exact absurd ⟨h0, by simpa using hs⟩ hskip
            · exact hshown h0
          cases hel : s.element track with
          | none =>
              simp only [hel] at h
              obtain ⟨ih1, ih2⟩ := ih _ rf r h (by omega) hnext
              refine ⟨?_, ?_⟩
              · intro t h1 h2 h3 e he
                rcases Nat.eq_or_lt_of_le h1 with h4 | h4
                · rw [← h4, hel] at he
                  exact absurd he (by simp)
                · exact ih1 t h4 h2 h3 e he
              · rintro (h1 | ⟨t, h1, h2, h3, h4⟩)
                · exact ih2 (Or.inl h1)
                · rcases Nat.eq_or_lt_of_le h1 with h5 | h5
                  · rw [← h5, hel] at h4
                    exact absurd h4 (by simp)
                  · exact ih2 (Or.inr ⟨t, h5, h2, h3, h4⟩)
          | some el =>
              simp only [hel] at h
              by_cases hrest : el.isRest = true
              · by_cases hart : el.articulations > 0
                · simp [hrest, hart] at h
                · simp only [hrest, hart, Bool.not_true, if_false] at h
                  obtain ⟨ih1, ih2⟩ := ih _ true r (by simpa using h) (by omega) hnext
                  refine ⟨?_, fun _ => ih2 (Or.inl rfl)⟩
                  intro t h1 h2 h3 e he
                  rcases Nat.eq_or_lt_of_le h1 with h4 | h4
                  · rw [← h4, hel] at he
                    simp only [Option.some.injEq] at he
                    rw [← he]
                    exact ⟨hrest, by omega⟩
                  · exact ih1 t h4 h2 h3 e he
              · simp [hrest] at h
      · simp only [hlt, if_false, Option.some.injEq] at h
        refine ⟨fun t h1 h2 => absurd h2 (by omega), ?_⟩
        rintro (h1 | ⟨t, h1, h2, _⟩)
        · rw [← h]; exact h1
        · omega

/-- The loop over the segments returns true only if every annotation is tolerated, every
element of a shown staff in a chord/rest segment is a rest without articulations, and at
most one chord/rest segment, counted with `n`, holds an element of a shown staff. -/
theorem validMMRestLoop_spec (m : SegMeasure) :
    ∀ (segs : List Segment) (n : Nat), validMMRestLoop m segs n = true → n ≤ 1 →
      (∀ s ∈ segs, ∀ a ∈ s.annotations, a.tolerated = true) ∧
      (∀ s ∈ segs, s.isChordRestType = true → ∀ t, t < m.nstaves * VOICES →
        m.shown (t / VOICES) = true → ∀ e, s.element t = some e →
          e.isRest = true ∧ e.articulations = 0) ∧
      n + (segs.filter fun s => s.isChordRestType && s.holdsShown m).length ≤ 1 := by
  intro segs
  induction segs with
  | nil =>
      intro n _ hn
      exact ⟨fun s hs => absurd hs (List.not_mem_nil _),
        fun s hs => absurd hs (List.not_mem_nil _), by simpa using hn⟩
  | cons s rest ih =>
      intro n h hn
      simp only [validMMRestLoop] at h
      by_cases hann : (s.annotations.any fun e => !e.tolerated) = true
      · simp [hann] at h
      · simp only [hann, if_false] at h
        have hann2 : ∀ a ∈ s.annotations, a.tolerated = true := by
          intro a ha
          by_contra hc
          exact hann (List.any_eq_true.mpr ⟨a, ha, by simpa using hc⟩)
        by_cases hcr : s.isChordRestType = true
        · simp only [hcr, if_true] at h
          cases hrl : restLoop m s (m.nstaves * VOICES) 0 false with
          | none => simp [hrl] at h
          | some rf =>
              simp only [hrl] at h
              obtain ⟨hr1, hr2⟩ := restLoop_spec m s _ 0 false rf hrl (by omega)
                (fun hne => absurd (Nat.zero_mod _) hne)
              by_cases hn1 : (if rf = true then n + 1 else n) > 1
              · simp [hn1] at h
              · simp only [hn1, if_false] at h
                obtain ⟨i1, i2, i3⟩ := ih _ h (by omega)
                refine ⟨?_, ?_, ?_⟩
                · intro s1 hs1
                  rcases List.mem_cons.mp hs1 with h1 | h1
                  · rw [h1]; exact hann2
                  · exact i1 s1 h1
                · intro s1 hs1 hc1
                  rcases List.mem_cons.mp hs1 with h1 | h1
                  · rw [h1]
                    intro t ht hsh e he
                    exact hr1 t (Nat.zero_le _) ht hsh e he
                  · exact i2 s1 h1 hc1
                · by_cases hh : s.holdsShown m = true
                  · have hrf : rf = true := by
                      apply hr2
                      right
                      unfold Segment.holdsShown at hh
                      obtain ⟨t, ht, htt⟩ := List.any_eq_true.mp hh
                      simp only [Bool.and_eq_true] at htt
                      exact ⟨t, Nat.zero_le _, List.mem_range.mp ht, htt.1, htt.2⟩
                    simp only [hrf, if_true] at i3
                    simp only [List.filter_cons, hcr, hh, Bool.and_self, if_true,
                      List.length_cons]
                    omega
                  · have hle : n ≤ if rf = true then n + 1 else n := by
                      split_ifs <;> omega
                    simp only [Bool.not_eq_true] at hh
                    simp only [List.filter_cons, hcr, hh, Bool.true_and, Bool.false_eq_true,
                      if_false]
                    omega
        · simp only [hcr, if_false] at h
          obtain ⟨i1, i2, i3⟩ := ih _ h hn
          refine ⟨?_, ?_, ?_⟩
          · intro s1 hs1
            rcases List.mem_cons.mp hs1 with h1 | h1
            · rw [h1]; exact hann2
            · exact i1 s1 h1
          · intro s1 hs1 hc1
            rcases List.mem_cons.mp hs1 with h1 | h1
            · rw [h1] at hc1; exact absurd hc1 hcr
            · exact i2 s1 h1 hc1
          · simp only [Bool.not_eq_true] at hcr
            simp only [List.filter_cons, hcr, Bool.false_and, Bool.false_eq_true, if_false]
            exact i3

/-- C11 (amended): `validMMRestMeasure(m)` returns true only if the measure is not
irregular, every annotation in the measure is a rehearsal mark, tempo text, harmony or
staff text, every element that a chord/rest segment holds in a shown staff is a rest
without articulations, and at most one chord/rest segment of the measure holds an element
of a shown staff. -/
theorem validMMRestMeasure_only_if (m : SegMeasure) (h : validMMRestMeasure m = true) :
    m.irregular = false ∧
    (∀ s ∈ m.segments, ∀ a ∈ s.annotations, a.tolerated = true) ∧
    (∀ s ∈ m.segments, s.isChordRestType = true → ∀ t, t < m.nstaves * VOICES →
      m.shown (t / VOICES) = true → ∀ e, s.element t = some e →
        e.isRest = true ∧ e.articulations = 0) ∧
    (m.segments.filter fun s => s.isChordRestType && s.holdsShown m).length ≤ 1 := by
  unfold validMMRestMeasure at h
  by_cases hirr : m.irregular = true
  · simp [hirr] at h
  · simp only [hirr, if_false] at h
    obtain ⟨h1, h2, h3⟩ := validMMRestLoop_spec m _ 0 h (by omega)
    exact ⟨by simpa using hirr, h1, h2, by simpa using h3⟩

/-- Witness for C11 (amended): the measure with rests in two voices of one segment. -/
theorem validMMRestMeasure_only_if_witness :
    validMMRestMeasure exampleTwoVoiceRests = true ∧
    (exampleTwoVoiceRests.irregular = false ∧
    (∀ s ∈ exampleTwoVoiceRests.segments, ∀ a ∈ s.annotations, a.tolerated = true) ∧
    (∀ s ∈ exampleTwoVoiceRests.segments, s.isChordRestType = true →
      ∀ t, t < exampleTwoVoiceRests.nstaves * VOICES →
      exampleTwoVoiceRests.shown (t / VOICES) = true → ∀ e, s.element t = some e →
        e.isRest = true ∧ e.articulations = 0) ∧
    (exampleTwoVoiceRests.segments.filter fun s =>
      s.isChordRestType && s.holdsShown exampleTwoVoiceRests).length ≤ 1) :=
  ⟨by decide, validMMRestMeasure_only_if exampleTwoVoiceRests (by decide)⟩

/-- C11 (counterexample): `validMMRestMeasure` returns true for a measure of one shown
staff whose only chord/rest segment holds a rest in the first voice and a rest in the
second voice: two voices of the staff hold an element. -/
theorem validMMRestMeasure_two_voices_counterexample :
    validMMRestMeasure exampleTwoVoiceRests = true ∧
    exampleTwoVoiceRests.shown 0 = true ∧
    ¬ (voicesWithContent exampleTwoVoiceRests 0).length ≤ 1 := by
  decide


/-! ## Chord layout: offsets by separation, head sharing and dots -/

/-- The dot adjustment does not read the field it is stored in. -/
theorem dotAdjustOf_dotAdjust (env : Chords1Env) (g : Chords1Groups) (o : Chords1Offsets)
    (x : ℚ) : dotAdjustOf env g { o with dotAdjust := x } = dotAdjustOf env g o := rfl

/-- What `layoutChords1` returns when both groups exist: the offsets are those of the
conflict handling for the note lists that `layoutChords2` delivers, the delivered notes
differ from the returned ones at most in `dotsHidden`, and the chord positions are those
of the loop that applies the offsets. -/
theorem layoutChords1_inv (env : Chords1Env) (elements : List (Option Chord))
    (r : Chords1Result) (h : layoutChords1 env elements = some r)
    (hup : (gatherChords elements).upVoices ≠ 0)
    (hdown : (gatherChords elements).downVoices ≠ 0) :
    ∃ (up2 down2 : List Note) (cdown cadj : ℚ),
      chordConflict env (gatherChords elements) up2 down2 r.maxUpWidth r.maxDownWidth
        cdown cadj = some r.offsets ∧
      (∀ n, r.upStemNotes.head? = some n →
        ∃ n0, up2.head? = some n0 ∧ n.chord = n0.chord ∧ n.line = n0.line) ∧
      (∀ n, r.downStemNotes.getLast? = some n →
        ∃ n0, down2.getLast? = some n0 ∧ n.chord = n0.chord ∧ n.line = n0.line) ∧
      r.chordX = elements.map (fun e => e.map (fun chord =>
        applyChordOffset (gatherChords elements) r.offsets r.centerUp r.oversizeUp
          r.centerAdjustDown chord.info.up (if chord.notes = [] then chord.x else 0))) := by
  unfold layoutChords1 at h
  by_cases htab : env.isTabStaff = true
  · simp [htab] at h
  · simp only [htab, if_false] at h
    have hv : ¬ ((gatherChords elements).upVoices + (gatherChords elements).downVoices = 0) := by
      omega
    simp only [hv, if_false, hup, hdown, ne_eq, not_false_eq_true, and_self, if_true] at h
    revert h
    generalize hu2 : (layoutChords2
      (if (gatherChords elements).upVoices > 1 then sortByLineDesc (gatherChords elements).upStemNotes
        else (gatherChords elements).upStemNotes) true) = u2
    generalize hd2 : (layoutChords2
      (if (gatherChords elements).downVoices > 1 then
        sortByLineDesc (gatherChords elements).downStemNotes
        else (gatherChords elements).downStemNotes) false) = d2
    intro h
    cases hc : chordConflict env (gatherChords elements) u2.1 d2.1
        (centerUpstem env (max (env.noteHeadWidth * env.staffMag * (gatherChords elements).maxUpMag)
          u2.2) (gatherChords elements).maxUpMag).1
        (centerDownstem env (max (env.noteHeadWidth * env.staffMag
          * (gatherChords elements).maxDownMag) d2.2)).1
        (centerDownstem env (max (env.noteHeadWidth * env.staffMag
          * (gatherChords elements).maxDownMag) d2.2)).2.1
        (centerDownstem env (max (env.noteHeadWidth * env.staffMag
          * (gatherChords elements).maxDownMag) d2.2)).2.2 with
    | none => simp [hc] at h
    | some o =>
        simp only [hc, Bool.false_eq_true, if_false, Option.some.injEq] at h
        subst h
        refine ⟨u2.1, d2.1, _, _, hc, ?_, ?_, rfl⟩
        · intro n hn
          simp only [List.head?_map, Option.map_eq_some'] at hn
          obtain ⟨n0, hn0, hnn⟩ := hn
          refine ⟨n0, hn0, ?_⟩
          rw [← hnn]
          split_ifs <;> exact ⟨rfl, rfl⟩
        · intro n hn
          simp only [List.getLast?_map, Option.map_eq_some'] at hn
          obtain ⟨n0, hn0, hnn⟩ := hn
          refine ⟨n0, hn0, ?_⟩
          rw [← hnn]
          split_ifs <;> exact ⟨rfl, rfl⟩

/-- The choice of the offsets for an overlap keeps the separation. -/
theorem overlapOffsets_separation (env : Chords1Env) (g : Chords1Groups) (st : OverlapState)
    (overlapNotes : List Note) (bu td : Note) (mu md : ℚ) (o : Chords1Offsets) :
    (overlapOffsets env g st overlapNotes bu td mu md o).separation = o.separation := by
  unfold overlapOffsets
  simp only [apply_ite Chords1Offsets.separation, ite_self]

/-- What the conflict handling returns: the separation of the bottom up-stem note and
the top down-stem note, the dot adjustment of the returned values, and the offsets for a
separation of at least 2 and for a separation of 1. -/
theorem chordConflict_inv (env : Chords1Env) (g : Chords1Groups) (up down : List Note)
    (mu md cdn cau : ℚ) (o : Chords1Offsets)
    (h : chordConflict env g up down mu md cdn cau = some o) :
    ∃ bu td, up.head? = some bu ∧ down.getLast? = some td ∧
      o.separation = (if bu.chord.staffMove = td.chord.staffMove then td.line - bu.line
        else 2) ∧
      o.dotAdjust = dotAdjustOf env g o ∧
      (o.separation ≥ 2 → o.upOffset = 0 ∧ o.downOffset = 0 ∧ o.centerDown = cdn) ∧
      (o.separation = 1 → o.upOffset = 0 ∧
        o.downOffset = match td.chord.stem, bu.chord.stem with
          | some lineWidth, some _ => mu - lineWidth
          | _, _ => mu + 1 / 10 * env.sp) := by
  unfold chordConflict at h
  cases hbu : up.head? with
  | none => simp [hbu] at h
  | some bu =>
      cases htd : down.getLast? with
      | none => simp [hbu, htd] at h
      | some td =>
          simp only [hbu, htd] at h
          refine ⟨bu, td, rfl, rfl, ?_⟩
          generalize hs : (if bu.chord.staffMove = td.chord.staffMove then td.line - bu.line
            else 2) = sep at h ⊢
          by_cases h1 : sep = 1
          · simp only [h1, if_true, Option.some.injEq] at h
            subst h
            refine ⟨h1.symm ▸ rfl, rfl, ?_, ?_⟩
            · intro h2
              simp at h2
            · intro _
              exact ⟨rfl, rfl⟩
          · simp only [h1, if_false] at h
            by_cases h2 : sep < 1
            · simp only [h2, if_true] at h
              cases hn : overlapNature sep (overlapNotesOf up down bu td) with
              | none => simp [hn] at h
              | some st =>
                  simp only [hn, Option.some.injEq] at h
                  subst h
                  have hsep : ∀ o0 : Chords1Offsets,
                      (overlapOffsets env g st (overlapNotesOf up down bu td) bu td mu md
                        o0).separation = o0.separation :=
                    fun o0 => overlapOffsets_separation env g st _ bu td mu md o0
                  refine ⟨hsep _, rfl, ?_, ?_⟩
                  · intro h3
                    simp only [] at h3
                    rw [hsep] at h3
                    have h4 : sep ≥ 2 := h3
                    omega
                  · intro h3
                    simp only [] at h3
                    rw [hsep] at h3
                    exact absurd h3 h1
            · simp only [h2, if_false, Option.some.injEq] at h
              subst h
              refine ⟨rfl, rfl, ?_, ?_⟩
              · intro _
                exact ⟨rfl, rfl, rfl⟩
              · intro h3
                exact absurd h3 h1

/-- The result of `layoutChords1` for the up-stem chord on the lines 2 and 0 and the
down-stem chord on the line 4. -/
theorem layoutChords1_example_separated :
    layoutChords1 exampleChordsEnv [some exampleUpChord, some exampleLowDownChord, none, none]
      = some exampleSeparatedResult := by
  simp [layoutChords1, gatherChords, gatherChord, exampleUpChord, exampleLowDownChord,
    exampleChordsEnv, layoutChords2, layoutChords2Loop, layoutChords2Step, centerUpstem,
    centerDownstem, chordConflict, dotAdjustOf, applyChordOffset, sortByLineDesc,
    exampleSeparatedResult]
  norm_num

/-- The result of `layoutChords1` for the up-stem chord on the lines 2 and 0 and the
down-stem chord on the line 3. -/
theorem layoutChords1_example_second :
    layoutChords1 exampleChordsEnv [some exampleUpChord, some exampleSecondDownChord, none, none]
      = some exampleSecondResult := by
  simp [layoutChords1, gatherChords, gatherChord, exampleUpChord, exampleSecondDownChord,
    exampleChordsEnv, layoutChords2, layoutChords2Loop, layoutChords2Step, centerUpstem,
    centerDownstem, chordConflict, dotAdjustOf, applyChordOffset, sortByLineDesc,
    exampleSecondResult]
  norm_num

/-- C12: in `layoutChords1`, when both an up-stem and a down-stem group exist and the
bottom up-stem note and the top down-stem note belong to chords of different staffMove or
are at least 2 lines apart, the up-stem offset and the down-stem offset are zero, and the
position of every chord is its centering offset (`centerUp` for an up-stem chord,
`centerDown` for a down-stem chord) added to the position 0 that `layoutChords2` gives to
a chord with notes. -/
theorem layoutChords1_separated_zero_offsets (env : Chords1Env)
    (elements : List (Option Chord)) (r : Chords1Result) (bu td : Note)
    (h : layoutChords1 env elements = some r)
    (hup : (gatherChords elements).upVoices ≠ 0)
    (hdown : (gatherChords elements).downVoices ≠ 0)
    (hbu : r.upStemNotes.head? = some bu) (htd : r.downStemNotes.getLast? = some td)
    (hsep : bu.chord.staffMove ≠ td.chord.staffMove ∨ td.line - bu.line ≥ 2) :
    r.offsets.upOffset = 0 ∧ r.offsets.downOffset = 0 ∧
    r.chordX = elements.map (fun e => e.map (fun chord =>
      (if chord.notes = [] then chord.x else 0)
        + (if chord.info.up then r.centerUp else r.offsets.centerDown))) := by
  obtain ⟨up2, down2, cdown, cadj, hc, hu, hd, hx⟩ := layoutChords1_inv env elements r h hup hdown
  obtain ⟨bu0, hbu0, hbc, hbl⟩ := hu bu hbu
  obtain ⟨td0, htd0, htc, htl⟩ := hd td htd
  obtain ⟨bu1, td1, hbu1, htd1, hs, _, h2, _⟩ := chordConflict_inv env _ up2 down2 _ _ _ _ _ hc
  rw [hbu0] at hbu1
  rw [htd0] at htd1
  simp only [Option.some.injEq] at hbu1 htd1
  subst hbu1
  subst htd1
  have hge : r.offsets.separation ≥ 2 := by
    rw [hs, ← hbc, ← htc, ← hbl, ← htl]
    split_ifs with hm
    · rcases hsep with h1 | h1
      · exact absurd hm h1
      · exact h1
    · exact le_refl _
  obtain ⟨ho1, ho2, _⟩ := h2 hge
  refine ⟨ho1, ho2, ?_⟩
  rw [hx]
  apply List.map_congr_left
  intro e _
  cases e with
  | none => rfl
  | some chord =>
      simp only [Option.map_some', applyChordOffset, ho1, ho2, ne_eq, not_true_eq_false,
        if_false]
      split_ifs <;> rfl

/-- Witness for C12: the up-stem chord on the lines 2 and 0 and the down-stem chord on the
line 4. -/
theorem layoutChords1_separated_zero_offsets_witness :
    layoutChords1 exampleChordsEnv [some exampleUpChord, some exampleLowDownChord, none, none]
      = some exampleSeparatedResult ∧
    (exampleSeparatedResult.offsets.upOffset = 0 ∧
    exampleSeparatedResult.offsets.downOffset = 0 ∧
    exampleSeparatedResult.chordX =
      [some exampleUpChord, some exampleLowDownChord, none, none].map (fun e =>
        e.map (fun chord => (if chord.notes = [] then chord.x else 0)
          + (if chord.info.up then exampleSeparatedResult.centerUp
              else exampleSeparatedResult.offsets.centerDown)))) :=
  ⟨layoutChords1_example_separated, layoutChords1_separated_zero_offsets exampleChordsEnv
    [some exampleUpChord, some exampleLowDownChord, none, none] exampleSeparatedResult
    { id := 0, chord := { track := 0, up := true, stem := some (1 / 10) }, line := 2,
      headWidth := 13 / 10 }
    { id := 2, chord := { track := 1, up := false, stem := some (1 / 10) }, line := 4,
      headWidth := 13 / 10, voice := 1 }
    layoutChords1_example_separated
    (by simp [gatherChords, gatherChord, exampleUpChord, exampleLowDownChord])
    (by simp [gatherChords, gatherChord, exampleUpChord, exampleLowDownChord])
    (by simp [exampleSeparatedResult, exampleUpChord])
    (by simp [exampleSeparatedResult, exampleLowDownChord])
    (Or.inr (by decide))⟩

/-- C13: in `layoutChords1`, when the bottom up-stem note and the top down-stem note
belong to chords of the same staffMove and the top down-stem note is exactly 1 line below
the bottom up-stem note, the up-stem offset is zero and the down-stem offset is the width
`maxUpWidth` of the up-stem group minus the line width of the stem of the down-stem chord
if both chords have stems, and `maxUpWidth` plus 0.1 * sp otherwise. -/
theorem layoutChords1_second_offsets (env : Chords1Env)
    (elements : List (Option Chord)) (r : Chords1Result) (bu td : Note)
    (h : layoutChords1 env elements = some r)
    (hup : (gatherChords elements).upVoices ≠ 0)
    (hdown : (gatherChords elements).downVoices ≠ 0)
    (hbu : r.upStemNotes.head? = some bu) (htd : r.downStemNotes.getLast? = some td)
    (hmove : bu.chord.staffMove = td.chord.staffMove) (hsep : td.line - bu.line = 1) :
    r.offsets.upOffset = 0 ∧
    r.offsets.downOffset = match td.chord.stem, bu.chord.stem with
      | some lineWidth, some _ => r.maxUpWidth - lineWidth
      | _, _ => r.maxUpWidth + 1 / 10 * env.sp := by
  obtain ⟨up2, down2, cdown, cadj, hc, hu, hd, _⟩ := layoutChords1_inv env elements r h hup hdown
  obtain ⟨bu0, hbu0, hbc, hbl⟩ := hu bu hbu
  obtain ⟨td0, htd0, htc, htl⟩ := hd td htd
  obtain ⟨bu1, td1, hbu1, htd1, hs, _, _, h1⟩ := chordConflict_inv env _ up2 down2 _ _ _ _ _ hc
  rw [hbu0] at hbu1
  rw [htd0] at htd1
  simp only [Option.some.injEq] at hbu1 htd1
  subst hbu1
  subst htd1
  have h1s : r.offsets.separation = 1 := by
    rw [hs, ← hbc, ← htc, ← hbl, ← htl, if_pos hmove]
    exact hsep
  obtain ⟨ho1, ho2⟩ := h1 h1s
  rw [hbc, htc]
  exact ⟨ho1, ho2⟩

/-- Witness for C13: the up-stem chord on the lines 2 and 0 and the down-stem chord on the
line 3. -/
theorem layoutChords1_second_offsets_witness :
    layoutChords1 exampleChordsEnv [some exampleUpChord, some exampleSecondDownChord, none, none]
      = some exampleSecondResult ∧
    (exampleSecondResult.offsets.upOffset = 0 ∧
    exampleSecondResult.offsets.downOffset =
      match (some (1 / 10) : Option ℚ), (some (1 / 10) : Option ℚ) with
      | some lineWidth, some _ => exampleSecondResult.maxUpWidth - lineWidth
      | _, _ => exampleSecondResult.maxUpWidth + 1 / 10 * exampleChordsEnv.sp) :=
  ⟨layoutChords1_example_second, layoutChords1_second_offsets exampleChordsEnv
    [some exampleUpChord, some exampleSecondDownChord, none, none] exampleSecondResult
    { id := 0, chord := { track := 0, up := true, stem := some (1 / 10) }, line := 2,
      headWidth := 13 / 10 }
    { id := 2, chord := { track := 1, up := false, stem := some (1 / 10) }, line := 3,
      headWidth := 13 / 10, voice := 1 }
    layoutChords1_example_second
    (by simp [gatherChords, gatherChord, exampleUpChord, exampleSecondDownChord])
    (by simp [gatherChords, gatherChord, exampleUpChord, exampleSecondDownChord])
    (by simp [exampleSecondResult, exampleUpChord])
    (by simp [exampleSecondResult, exampleSecondDownChord])
    rfl (by decide)⟩


/-- The first test of the unison case: the heads can be shared at all. -/
theorem unison_shareable (p n : Note) :
    (n.headGroup != p.headGroup || n.tpc != p.tpc || n.mirror || p.mirror
        || n.chord.small != p.chord.small) = false ↔
      (n.headGroup = p.headGroup ∧ n.tpc = p.tpc ∧ n.chord.small = p.chord.small
        ∧ n.mirror = false ∧ p.mirror = false) := by
  simp only [Bool.or_eq_false_iff, bne_eq_false_iff_eq]
  tauto

/-- A propositional form of the second test of the unison case. -/
theorem unison_match_prop (d sn sp rs nsm psm a1 a2 v : Prop) :
    ¬ ((¬ d ∨ ¬ sn ∨ ¬ sp ∨ ¬ rs ∨ nsm ∨ psm) ∧ ((a1 ∧ a2) ∨ ¬ rs) ∧ v) ↔
      ((d ∧ sn ∧ sp ∧ rs ∧ ¬ nsm ∧ ¬ psm) ∨ (¬ (a1 ∧ a2) ∧ rs) ∨ ¬ v) := by
  by_cases hv : v
  · by_cases hrs : rs
    · by_cases ha : a1 ∧ a2
      · simp only [hv, hrs, ha, not_true_eq_false, not_false_eq_true, or_false, false_or,
          and_true, true_and, or_true, true_or, and_false, false_and]
        tauto
      · simp [hv, hrs, ha]
    · simp [hv, hrs]
  · simp [hv]

/-- The second test of the unison case: the automatic match, the match forced by a head
type, or exactly one invisible head. -/
theorem unison_match (p n : Note) :
    ((n.chord.dots != p.chord.dots || n.chord.stem.isNone || p.chord.stem.isNone
          || resolvedHeadType n != resolvedHeadType p || n.small || p.small)
        && ((n.headType == NoteHeadType.HEAD_AUTO && p.headType == NoteHeadType.HEAD_AUTO)
          || resolvedHeadType n != resolvedHeadType p)
        && (n.visible == p.visible)) = false ↔
      ((n.chord.dots = p.chord.dots ∧ n.chord.stem.isSome = true
          ∧ p.chord.stem.isSome = true ∧ resolvedHeadType n = resolvedHeadType p
          ∧ n.small = false ∧ p.small = false)
        ∨ (¬ (n.headType = NoteHeadType.HEAD_AUTO ∧ p.headType = NoteHeadType.HEAD_AUTO)
          ∧ resolvedHeadType n = resolvedHeadType p)
        ∨ n.visible ≠ p.visible) := by
  have h := unison_match_prop (n.chord.dots = p.chord.dots) (n.chord.stem.isSome = true)
    (p.chord.stem.isSome = true) (resolvedHeadType n = resolvedHeadType p) (n.small = true)
    (p.small = true) (n.headType = NoteHeadType.HEAD_AUTO) (p.headType = NoteHeadType.HEAD_AUTO)
    (n.visible = p.visible)
  rw [← Bool.not_eq_true]
  simp only [Bool.and_eq_true, Bool.or_eq_true, bne_iff_ne, beq_iff_eq, ne_eq,
    Bool.eq_false_iff]
  have e1 : n.chord.stem.isNone = true ↔ ¬ n.chord.stem.isSome = true := by
    cases n.chord.stem <;> simp
  have e2 : p.chord.stem.isNone = true ↔ ¬ p.chord.stem.isSome = true := by
    cases p.chord.stem <;> simp
  rw [e1, e2]
  rw [← h]
  simp only [or_assoc, and_assoc]

/-- C14: head sharing rule. For an overlap with separation 0 that consists of exactly one
unison pair `p`, `n` (the same line, which is not the start value 1000 of `lastLine`), the
loop of `layoutChords1` over the overlapping notes ends with `shareHeads` true if and only
if head group, tpc and chord small-ness are equal and neither note is mirrored, and in
addition (a) both chords have the same dot count, both have stems, the resolved head
types are equal and neither note is small, or (b) not both head types are AUTO and the
resolved head types are equal, or (c) exactly one of the two notes is invisible. -/
theorem overlapNature_single_unison (p n : Note) (hline : n.line = p.line)
    (hstart : p.line ≠ 1000) :
    ∃ st, overlapNature 0 [p, n] = some st ∧
      (st.shareHeads = true ↔
        (n.headGroup = p.headGroup ∧ n.tpc = p.tpc ∧ n.chord.small = p.chord.small
          ∧ n.mirror = false ∧ p.mirror = false) ∧
        ((n.chord.dots = p.chord.dots ∧ n.chord.stem.isSome = true
            ∧ p.chord.stem.isSome = true ∧ resolvedHeadType n = resolvedHeadType p
            ∧ n.small = false ∧ p.small = false)
          ∨ (¬ (n.headType = NoteHeadType.HEAD_AUTO ∧ p.headType = NoteHeadType.HEAD_AUTO)
            ∧ resolvedHeadType n = resolvedHeadType p)
          ∨ n.visible ≠ p.visible)) := by
  refine ⟨_, rfl, ?_⟩
  have hd0 : (1000 : Int) - p.line ≠ 0 := by omega
  have hnn : p.line - n.line = 0 := by omega
  have key : ∀ (a b : Bool),
      ((if a = true then false else if b = true then false else true) = true ↔
        a = false ∧ b = false) := by
    intro a b
    cases a <;> cases b <;> simp
  rw [← unison_shareable p n, ← unison_match p n, ← key]
  simp only [List.foldl_cons, List.foldl_nil, overlapStep, lt_self_iff_false, decide_False,
    Bool.and_false, Bool.false_eq_true, if_false, hd0]
  by_cases h1 : (1000 : Int) - p.line = 1
  · simp only [h1, if_true, hnn, apply_ite OverlapState.shareHeads,
      apply_ite OverlapState.matchPending, ite_self, Bool.false_eq_true, if_false]
  · simp only [h1, if_false, hnn, if_true, apply_ite OverlapState.shareHeads,
      apply_ite OverlapState.matchPending, ite_self, Bool.false_eq_true, if_false]

/-- Witness for C14: two notes on the line 2 of chords with stems, with the same dot
count and the same head type. -/
theorem overlapNature_single_unison_witness :
    (exampleUnisonDown.line = exampleUnisonUp.line ∧ exampleUnisonUp.line ≠ 1000) ∧
    ∃ st, overlapNature 0 [exampleUnisonUp, exampleUnisonDown] = some st ∧
      (st.shareHeads = true ↔
        (exampleUnisonDown.headGroup = exampleUnisonUp.headGroup
          ∧ exampleUnisonDown.tpc = exampleUnisonUp.tpc
          ∧ exampleUnisonDown.chord.small = exampleUnisonUp.chord.small
          ∧ exampleUnisonDown.mirror = false ∧ exampleUnisonUp.mirror = false) ∧
        ((exampleUnisonDown.chord.dots = exampleUnisonUp.chord.dots
            ∧ exampleUnisonDown.chord.stem.isSome = true
            ∧ exampleUnisonUp.chord.stem.isSome = true
            ∧ resolvedHeadType exampleUnisonDown = resolvedHeadType exampleUnisonUp
            ∧ exampleUnisonDown.small = false ∧ exampleUnisonUp.small = false)
          ∨ (¬ (exampleUnisonDown.headType = NoteHeadType.HEAD_AUTO
              ∧ exampleUnisonUp.headType = NoteHeadType.HEAD_AUTO)
            ∧ resolvedHeadType exampleUnisonDown = resolvedHeadType exampleUnisonUp)
          ∨ exampleUnisonDown.visible ≠ exampleUnisonUp.visible)) :=
  ⟨⟨rfl, by decide⟩,
    overlapNature_single_unison exampleUnisonUp exampleUnisonDown rfl (by decide)⟩


/-- The dot counts gathered by the first loop of `layoutChords1` are not negative. -/
theorem gatherChords_dots_nonneg (elements : List (Option Chord)) :
    0 ≤ (gatherChords elements).upDots ∧ 0 ≤ (gatherChords elements).downDots := by
  rw [gatherChords_filterMap]
  have h : ∀ (cs : List Chord) (g : Chords1Groups), 0 ≤ g.upDots ∧ 0 ≤ g.downDots →
      0 ≤ (cs.foldl gatherChord g).upDots ∧ 0 ≤ (cs.foldl gatherChord g).downDots := by
    intro cs
    induction cs with
    | nil => intro g hg; exact hg
    | cons c rest ih =>
        intro g hg
        rw [List.foldl_cons]
        apply ih
        unfold gatherChord
        by_cases hc : c.info.up = true
        · simp only [hc, if_true]
          exact ⟨le_max_of_le_left hg.1, hg.2⟩
        · simp only [hc, if_false]
          exact ⟨hg.1, le_max_of_le_left hg.2⟩
  exact h _ _ ⟨le_refl _, le_refl _⟩

/-- The choice of the offsets for an overlap keeps `downDots` or sets it to 0. -/
theorem overlapOffsets_downDots (env : Chords1Env) (g : Chords1Groups) (st : OverlapState)
    (overlapNotes : List Note) (bu td : Note) (mu md : ℚ) (o : Chords1Offsets) :
    (overlapOffsets env g st overlapNotes bu td mu md o).downDots = o.downDots ∨
    (overlapOffsets env g st overlapNotes bu td mu md o).downDots = 0 := by
  unfold overlapOffsets
  simp only [apply_ite Chords1Offsets.downDots, ite_self]
  split_ifs <;> simp

/-- The conflict handling returns the dot count of the down-stem group or 0 as
`downDots`. -/
theorem chordConflict_downDots (env : Chords1Env) (g : Chords1Groups) (up down : List Note)
    (mu md cdn cau : ℚ) (o : Chords1Offsets)
    (h : chordConflict env g up down mu md cdn cau = some o) :
    o.downDots = g.downDots ∨ o.downDots = 0 := by
  unfold chordConflict at h
  cases hbu : up.head? with
  | none => simp [hbu] at h
  | some bu =>
      cases htd : down.getLast? with
      | none => simp [hbu, htd] at h
      | some td =>
          simp only [hbu, htd] at h
          generalize (if bu.chord.staffMove = td.chord.staffMove then td.line - bu.line
            else 2) = sep at h
          by_cases h1 : sep = 1
          · simp only [h1, if_true, Option.some.injEq] at h
            subst h
            exact Or.inl rfl
          · simp only [h1, if_false] at h
            by_cases h2 : sep < 1
            · simp only [h2, if_true] at h
              cases hn : overlapNature sep (overlapNotesOf up down bu td) with
              | none => simp [hn] at h
              | some st =>
                  simp only [hn, Option.some.injEq] at h
                  subst h
                  exact overlapOffsets_downDots env g st _ bu td mu md _
            · simp only [h2, if_false, Option.some.injEq] at h
              subst h
              exact Or.inl rfl

/-- The result of `layoutChords1` for the dotted up-stem chord on the line 2 and the
down-stem chord on the line 3. -/
theorem layoutChords1_example_dotted :
    layoutChords1 exampleDotsEnv
        [some exampleDottedUpChord, some exampleSecondDownChord, none, none]
      = some exampleDottedResult := by
  simp [layoutChords1, gatherChords, gatherChord, exampleDottedUpChord, exampleSecondDownChord,
    exampleDotsEnv, layoutChords2, layoutChords2Loop, layoutChords2Step, centerUpstem,
    centerDownstem, chordConflict, dotAdjustOf, applyChordOffset, sortByLineDesc,
    exampleDottedResult]
  norm_num

/-- C15 (amended): in `layoutChords1`, when both groups exist and exactly one of the dot
counts `upDots` and `downDots` (as the overlap handling leaves it) is not zero, the dot
adjustment is max(0, (dotNoteDistance + dot width + dotDotDistance * (dots - 1)) * mag -
threshold), plus 0.1 * sp when the separation is 1, where dots and mag are the dot count
and the magnification of the dotted group; it is added to the position of the chords of
the other group, the one without dots, when the offset of that group is not zero, and to
no chord of the dotted group. -/
theorem layoutChords1_dot_adjust (env : Chords1Env) (elements : List (Option Chord))
    (r : Chords1Result) (h : layoutChords1 env elements = some r)
    (hup : (gatherChords elements).upVoices ≠ 0)
    (hdown : (gatherChords elements).downVoices ≠ 0)
    (hdots : ((gatherChords elements).upDots ≠ 0 ∧ r.offsets.downDots = 0)
      ∨ (r.offsets.downDots ≠ 0 ∧ (gatherChords elements).upDots = 0)) :
    r.offsets.dotAdjust =
      max ((env.dotNoteDistance + env.dotWidth + env.dotDotDistance
            * (((if (gatherChords elements).upDots ≠ 0 then (gatherChords elements).upDots
                else r.offsets.downDots) - 1 : Int) : ℚ))
          * (if (gatherChords elements).upDots ≠ 0 then (gatherChords elements).maxUpMag
              else (gatherChords elements).maxDownMag)
          - r.offsets.dotAdjustThreshold) 0
        + (if r.offsets.separation = 1 then 1 / 10 * env.sp else 0) ∧
    r.chordX = elements.map (fun e => e.map (fun chord =>
      (if chord.notes = [] then chord.x else 0)
        + (if chord.info.up then
            (if r.offsets.upOffset ≠ 0 then
              r.offsets.upOffset + r.offsets.centerAdjustUp + r.oversizeUp
                + (if (gatherChords elements).upDots = 0 then r.offsets.dotAdjust else 0)
            else r.centerUp)
          else
            (if r.offsets.downOffset ≠ 0 then
              r.offsets.downOffset + r.centerAdjustDown
                + (if r.offsets.downDots = 0 then r.offsets.dotAdjust else 0)
            else r.offsets.centerDown)))) := by
  obtain ⟨up2, down2, cdown, cadj, hc, _, _, hx⟩ := layoutChords1_inv env elements r h hup hdown
  obtain ⟨_, _, _, _, _, hda, _, _⟩ := chordConflict_inv env _ up2 down2 _ _ _ _ _ hc
  have hdd := chordConflict_downDots env _ up2 down2 _ _ _ _ _ hc
  obtain ⟨hun, hdn⟩ := gatherChords_dots_nonneg elements
  constructor
  · rw [hda]
    unfold dotAdjustOf
    rcases hdots with ⟨h1, h2⟩ | ⟨h1, h2⟩
    · have h3 : (if (gatherChords elements).upDots > 1 then
          env.dotNoteDistance + env.dotWidth + env.dotDotDistance
            * ((((gatherChords elements).upDots - 1 : Int)) : ℚ)
          else env.dotNoteDistance + env.dotWidth) =
          env.dotNoteDistance + env.dotWidth + env.dotDotDistance
            * ((((gatherChords elements).upDots - 1 : Int)) : ℚ) := by
        split_ifs with h4
        · rfl
        · have : (gatherChords elements).upDots = 1 := by omega
          simp [this]
      simp only [h1, h2, ne_eq, not_false_eq_true, decide_True, decide_False, Bool.and_self,
        Bool.true_or, if_true, h3, Bool.and_true, Bool.or_false, Bool.true_and]
      split_ifs <;> ring
    · have hpos : r.offsets.downDots > 0 := by
        rcases hdd with h5 | h5
        · rw [h5] at h1 ⊢
          omega
        · exact absurd h5 h1
      have h3 : (if r.offsets.downDots > 1 then
          env.dotNoteDistance + env.dotWidth + env.dotDotDistance
            * (((r.offsets.downDots - 1 : Int)) : ℚ)
          else env.dotNoteDistance + env.dotWidth) =
          env.dotNoteDistance + env.dotWidth + env.dotDotDistance
            * (((r.offsets.downDots - 1 : Int)) : ℚ) := by
        split_ifs with h4
        · rfl
        · have : r.offsets.downDots = 1 := by omega
          simp [this]
      simp only [h1, h2, ne_eq, not_true_eq_false, not_false_eq_true, decide_True,
        decide_False, Bool.and_self, Bool.or_true, Bool.false_and, Bool.false_or, if_true,
        if_false, h3, Bool.and_true, Bool.true_and]
      split_ifs <;> ring
  · rw [hx]
    apply List.map_congr_left
    intro e _
    cases e with
    | none => rfl
    | some chord =>
        simp only [Option.map_some', applyChordOffset, Option.some.injEq]
        rcases hdots with ⟨h1, h2⟩ | ⟨h1, h2⟩
        · simp only [h1, h2, ne_eq, not_true_eq_false, not_false_eq_true, and_false, and_true,
            and_self, if_true, if_false]
          split_ifs <;> ring
        · simp only [h1, h2, ne_eq, not_true_eq_false, not_false_eq_true, and_false, and_true,
            and_self, if_true, if_false]
          split_ifs <;> ring

/-- Witness for C15 (amended): the dotted up-stem chord on the line 2 and the down-stem
chord without dots on the line 3. -/
theorem layoutChords1_dot_adjust_witness :
    layoutChords1 exampleDotsEnv
        [some exampleDottedUpChord, some exampleSecondDownChord, none, none]
      = some exampleDottedResult ∧
    (exampleDottedResult.offsets.dotAdjust =
      max ((exampleDotsEnv.dotNoteDistance + exampleDotsEnv.dotWidth
            + exampleDotsEnv.dotDotDistance
            * (((if (gatherChords [some exampleDottedUpChord, some exampleSecondDownChord,
                    none, none]).upDots ≠ 0
                then (gatherChords [some exampleDottedUpChord, some exampleSecondDownChord,
                    none, none]).upDots
                else exampleDottedResult.offsets.downDots) - 1 : Int) : ℚ))
          * (if (gatherChords [some exampleDottedUpChord, some exampleSecondDownChord,
                none, none]).upDots ≠ 0
              then (gatherChords [some exampleDottedUpChord, some exampleSecondDownChord,
                none, none]).maxUpMag
              else (gatherChords [some exampleDottedUpChord, some exampleSecondDownChord,
                none, none]).maxDownMag)
          - exampleDottedResult.offsets.dotAdjustThreshold) 0
        + (if exampleDottedResult.offsets.separation = 1 then 1 / 10 * exampleDotsEnv.sp
            else 0) ∧
    exampleDottedResult.chordX =
      [some exampleDottedUpChord, some exampleSecondDownChord, none, none].map (fun e =>
        e.map (fun chord =>
          (if chord.notes = [] then chord.x else 0)
            + (if chord.info.up then
                (if exampleDottedResult.offsets.upOffset ≠ 0 then
                  exampleDottedResult.offsets.upOffset
                    + exampleDottedResult.offsets.centerAdjustUp
                    + exampleDottedResult.oversizeUp
                    + (if (gatherChords [some exampleDottedUpChord,
                          some exampleSecondDownChord, none, none]).upDots = 0
                        then exampleDottedResult.offsets.dotAdjust else 0)
                else exampleDottedResult.centerUp)
              else
                (if exampleDottedResult.offsets.downOffset ≠ 0 then
                  exampleDottedResult.offsets.downOffset + exampleDottedResult.centerAdjustDown
                    + (if exampleDottedResult.offsets.downDots = 0
                        then exampleDottedResult.offsets.dotAdjust else 0)
                else exampleDottedResult.offsets.centerDown))))) :=
  ⟨layoutChords1_example_dotted,
    layoutChords1_dot_adjust exampleDotsEnv
      [some exampleDottedUpChord, some exampleSecondDownChord, none, none] exampleDottedResult
      layoutChords1_example_dotted
      (by simp [gatherChords, gatherChord, exampleDottedUpChord, exampleSecondDownChord])
      (by simp [gatherChords, gatherChord, exampleDottedUpChord, exampleSecondDownChord])
      (Or.inl ⟨by simp [gatherChords, gatherChord, exampleDottedUpChord,
        exampleSecondDownChord], rfl⟩)⟩

/-- C15 (counterexample): for an up-stem chord with one dot on the line 2 and a down-stem
chord without dots on the line 3 both groups exist and exactly the up-stem group has dots;
the shift of the claim is max(0, (1/5 + 3/10 + 1/4 * (1 - 1)) * 1 - 0) = 1/2, but the
dotted up-stem chord stays at the position 0, its offset plus its centering offset, and it
is the down-stem chord without dots that is moved. -/
theorem layoutChords1_dotted_group_counterexample :
    ∃ r, layoutChords1 exampleDotsEnv
        [some exampleDottedUpChord, some exampleSecondDownChord, none, none] = some r ∧
      (gatherChords [some exampleDottedUpChord, some exampleSecondDownChord, none, none]).upDots
        = 1 ∧
      (gatherChords [some exampleDottedUpChord, some exampleSecondDownChord, none,
        none]).downDots = 0 ∧
      max ((exampleDotsEnv.dotNoteDistance + exampleDotsEnv.dotWidth
          + exampleDotsEnv.dotDotDistance * ((1 : ℚ) - 1))
        * (gatherChords [some exampleDottedUpChord, some exampleSecondDownChord, none,
          none]).maxUpMag - r.offsets.dotAdjustThreshold) 0 = 1 / 2 ∧
      r.offsets.upOffset + r.centerUp = 0 ∧
      r.chordX = [some 0, some (9 / 5), none, none] := by
  refine ⟨exampleDottedResult, layoutChords1_example_dotted, ?_, ?_, ?_, ?_, rfl⟩
  · simp [gatherChords, gatherChord, exampleDottedUpChord, exampleSecondDownChord]
  · simp [gatherChords, gatherChord, exampleDottedUpChord, exampleSecondDownChord]
  · simp [gatherChords, gatherChord, exampleDottedUpChord, exampleSecondDownChord,
      exampleDotsEnv, exampleDottedResult]
    norm_num
  · simp [exampleDottedResult]


/-! ## System collection: the ragged last system -/

/-- C16 (amended): ragged right. When `collectSystem` closes the final system of the score
(no current measure is left) and its accumulated minimum width divided by the system width
is at most `lastSystemFillLimit`, the row is marked ragged and, outside line mode and with
horizontal stretch enabled, is not stretched to the system width: of the remaining width
`systemWidth - minWidth` only half (if `minWidth` exceeds it), and otherwise `minWidth`,
is shared among the measures in proportion to `ticks * max(userStretch, 1)`, so that the
row ends at `minWidth` plus that share. -/
theorem collectSystem_ragged_right (leftMargin systemWidth accWidth lastSystemFillLimit : ℚ)
    (measures : List MeasureBase)
    (hfill : accWidth / systemWidth ≤ lastSystemFillLimit)
    (hweight : 0 < (systemMinWidthWeight leftMargin measures).2) :
    collectRaggedRight false none accWidth systemWidth lastSystemFillLimit = true ∧
    (distributeSystemWidth false false
        (collectRaggedRight false none accWidth systemWidth lastSystemFillLimit)
        leftMargin systemWidth measures).widths
      = measures.map (fun mb =>
          match mb.type with
          | ElementType.MEASURE =>
              mb.width + raggedRest systemWidth (systemMinWidthWeight leftMargin measures).1
                / (systemMinWidthWeight leftMargin measures).2
                * (mb.ticks : ℚ) * max mb.userStretch 1
          | ElementType.HBOX => mb.boxWidth
          | _ => 0) ∧
    (distributeSystemWidth false false
        (collectRaggedRight false none accWidth systemWidth lastSystemFillLimit)
        leftMargin systemWidth measures).posX
      = (systemMinWidthWeight leftMargin measures).1
        + raggedRest systemWidth (systemMinWidthWeight leftMargin measures).1 := by
  have hr : collectRaggedRight false none accWidth systemWidth lastSystemFillLimit = true := by
    simp [collectRaggedRight, hfill]
  have hrest : systemRest false false true systemWidth
      (systemMinWidthWeight leftMargin measures).1 (systemMinWidthWeight leftMargin measures).2
      = raggedRest systemWidth (systemMinWidthWeight leftMargin measures).1
        / (systemMinWidthWeight leftMargin measures).2 := by
    simp [systemRest, raggedRest]
  refine ⟨hr, ?_, ?_⟩
  · rw [hr]
    unfold distributeSystemWidth
    simp only [hrest]
    apply List.map_congr_left
    intro mb _
    cases h : mb.type <;> simp [stretchedWidth, h, MeasureBase.stretch]
    split_ifs with h1
    · rw [max_eq_right (le_of_lt h1)]
      ring
    · rw [max_eq_left (not_lt.mp h1)]
  · rw [hr]
    unfold distributeSystemWidth
    simp only [hrest, posX_foldl, stretchedWidth_sum]
    rw [systemMinWidthWeight_eq]
    simp only []
    rw [systemMinWidthWeight_eq] at hweight
    simp only [] at hweight
    field_simp
    ring

/-- Witness for C16 (amended): the example measures in a system of width 400 with the
left margin 10, where the accumulated width 65 fills at most 3/10 of the system. -/
theorem collectSystem_ragged_right_witness :
    ((65 : ℚ) / 400 ≤ 3 / 10 ∧ 0 < (systemMinWidthWeight 10 exampleSystemMeasures).2) ∧
    (collectRaggedRight false none 65 400 (3 / 10) = true ∧
    (distributeSystemWidth false false (collectRaggedRight false none 65 400 (3 / 10))
        10 400 exampleSystemMeasures).widths
      = exampleSystemMeasures.map (fun mb =>
          match mb.type with
          | ElementType.MEASURE =>
              mb.width + raggedRest 400 (systemMinWidthWeight 10 exampleSystemMeasures).1
                / (systemMinWidthWeight 10 exampleSystemMeasures).2
                * (mb.ticks : ℚ) * max mb.userStretch 1
          | ElementType.HBOX => mb.boxWidth
          | _ => 0) ∧
    (distributeSystemWidth false false (collectRaggedRight false none 65 400 (3 / 10))
        10 400 exampleSystemMeasures).posX
      = (systemMinWidthWeight 10 exampleSystemMeasures).1
        + raggedRest 400 (systemMinWidthWeight 10 exampleSystemMeasures).1) :=
  ⟨⟨by norm_num, by
    simp [systemMinWidthWeight, exampleSystemMeasures, MeasureBase.stretch]
    norm_num⟩,
    collectSystem_ragged_right 10 400 65 (3 / 10) exampleSystemMeasures (by norm_num)
      (by
        simp [systemMinWidthWeight, exampleSystemMeasures, MeasureBase.stretch]
        norm_num)⟩

/-- C16 (counterexample): a final system of width 100 that holds one measure of width 20
is closed with no current measure left and a fill of 20/100, at most the limit 3/10, so
the row is ragged; its measure is laid out with the width 40, not with its minimum
width 20. -/
theorem collectSystem_ragged_counterexample :
    ∃ res, collectSystem exampleLastConfig 0 0 (some exampleLastMeasure) none [] = some res ∧
      res.curMeasure = none ∧ res.minWidth / exampleLastConfig.systemWidth ≤ 3 / 10 ∧
      collectRaggedRight false res.curMeasure res.minWidth exampleLastConfig.systemWidth
        (3 / 10) = true ∧
      res.measures.map MeasureBase.minWidth = [20] ∧
      (distributeSystemWidth false false
        (collectRaggedRight false res.curMeasure res.minWidth exampleLastConfig.systemWidth
          (3 / 10))
        0 exampleLastConfig.systemWidth res.measures).widths = [40] := by
  refine ⟨_, rfl, ?_, ?_, ?_, ?_, ?_⟩
  all_goals
    simp [collectLoop, collectWidth, collectStretch, collectPbreak, exampleLastConfig,
      exampleLastMeasure, collectRaggedRight, MeasureBase.minWidth, distributeSystemWidth,
      systemMinWidthWeight, systemRest, stretchedWidth, MeasureBase.stretch]
  all_goals norm_num


/-! ## System header: user key signatures and clefs -/

/-- The ticks given by a layout pass that starts with `lc.tick = t`: the measure bases
keep their kind and their `ticks()`, and each gets the tick `t` plus the ticks of the
measures in front of it. -/
theorem layoutPassTicks_spec :
    ∀ (stream : List MeasureBase) (t : Int),
      (layoutPassTicks stream t).length = stream.length ∧
      List.Forall₂ (fun a b => a = { b with tick := a.tick })
        (layoutPassTicks stream t) stream ∧
      ∀ (pre post : List MeasureBase) (m : MeasureBase),
        layoutPassTicks stream t = pre ++ m :: post → m.tick = t + measureTicks pre := by
  intro stream
  induction stream with
  | nil =>
      intro t
      refine ⟨rfl, List.Forall₂.nil, ?_⟩
      intro pre post m h
      simp [layoutPassTicks] at h
  | cons cur rest ih =>
      intro t
      obtain ⟨ih1, ih2, ih3⟩ := ih (getNextMeasureTick t cur).2
      have hhead : (getNextMeasureTick t cur).1 = { cur with tick := t } := by
        unfold getNextMeasureTick MeasureBase.moveTicks
        split_ifs
        · rfl
        · simp
      have hnext : (getNextMeasureTick t cur).2
          = t + measureTicks [(getNextMeasureTick t cur).1] := by
        unfold getNextMeasureTick measureTicks MeasureBase.moveTicks
        split_ifs with h
        · simp [h]
        · have h2 : cur.type = ElementType.MEASURE := not_not.mp h
          simp [h2]
      refine ⟨by simp [layoutPassTicks, ih1], ?_, ?_⟩
      · simp only [layoutPassTicks]
        refine List.Forall₂.cons ?_ ih2
        rw [hhead]
      · intro pre post m h
        simp only [layoutPassTicks] at h
        cases pre with
        | nil =>
            simp only [List.nil_append, List.cons.injEq] at h
            rw [← h.1, hhead]
            simp [measureTicks]
        | cons p pre2 =>
            simp only [List.cons_append, List.cons.injEq] at h
            have := ih3 pre2 post m h.2
            rw [this, hnext, ← h.1]
            simp only [measureTicks, List.filter_cons]
            split_ifs
            · simp
              ring
            · simp

/-- C18: tick contiguity. In a full layout pass, where `lc.tick` starts at 0, each measure
processed by `getNextMeasure` is moved to the tick that is the sum of `ticks()` of the
measures processed before it (0 for the first), its `ticks()` stay as they are, and for
two measures `m1`, `m2` processed one after the other, with no measure between them,
`m2.tick = m1.tick + m1.ticks`: their tick ranges neither overlap nor leave a gap. -/
theorem getNextMeasure_tick_contiguity (stream : List MeasureBase) :
    (∀ (pre post : List MeasureBase) (m : MeasureBase),
      layoutPassTicks stream 0 = pre ++ m :: post → m.tick = measureTicks pre) ∧
    List.Forall₂ (fun a b => a.type = b.type ∧ a.ticks = b.ticks ∧ a.id = b.id)
      (layoutPassTicks stream 0) stream ∧
    (∀ (pre mid post : List MeasureBase) (m1 m2 : MeasureBase),
      layoutPassTicks stream 0 = pre ++ m1 :: mid ++ m2 :: post →
      m1.type = ElementType.MEASURE → (∀ x ∈ mid, x.type ≠ ElementType.MEASURE) →
      m2.tick = m1.tick + m1.ticks) := by
  obtain ⟨_, h2, h3⟩ := layoutPassTicks_spec stream 0
  refine ⟨?_, ?_, ?_⟩
  · intro pre post m h
    simpa using h3 pre post m h
  · refine List.Forall₂.imp ?_ h2
    intro a b hab
    rw [hab]
    exact ⟨rfl, rfl, rfl⟩
  · intro pre mid post m1 m2 h hm1 hmid
    have e1 := h3 pre (mid ++ m2 :: post) m1 (by simpa using h)
    have e2 := h3 (pre ++ m1 :: mid) post m2 (by simpa using h)
    rw [e1, e2]
    have hmid0 : (mid.filter fun mb => mb.type = ElementType.MEASURE) = [] := by
      rw [List.filter_eq_nil_iff]
      intro x hx
      simpa using hmid x hx
    simp only [measureTicks, List.filter_append, List.filter_cons, hm1, decide_True, if_true,
      hmid0, List.append_nil, List.map_append, List.map_cons, List.map_nil, List.sum_append,
      List.sum_cons, List.sum_nil]
    ring

/-- The ticks of the example system content in a full layout pass: the measure of 1920
ticks at 0, the box and the second measure at 1920. -/
theorem layoutPassTicks_example :
    (layoutPassTicks exampleSystemMeasures 0).map (fun mb => mb.tick) = [0, 1920, 1920] := by
  decide


/-! ## Beam grouping: closing the beam -/

/-- The call `removeDeleteBeam` leaves the list of the finished beams as it is. -/
theorem removeDeleteBeam_finished (s : BeamStore) (cr : ChordRest) :
    (s.removeDeleteBeam cr).finished = s.finished := by
  unfold BeamStore.removeDeleteBeam
  cases h1 : s.crBeam cr.id with
  | none => rfl
  | some beam =>
      simp only []
      cases h2 : s.beams.find? (fun b => b.id == beam) with
      | none => rfl
      | some b =>
          simp only []
          split_ifs <;> rfl

/-- C19: beam closure. When `createBeams` meets a chord or rest whose duration type is a
quarter or longer, or whose resolved beam mode is NONE, `layout1()` is called on the active
beam, if any, and on no other beam, the pending candidate, if any, and the element itself
end up without a beam, and the machine is back in the state with no active beam and no
candidate. -/
theorem createBeamsStep_closure (env : BeamEnv) (track : Nat) (st : BeamLoopState)
    (cr : ChordRest)
    (h : cr.durationType.type.ord ≤ DurationType.V_QUARTER.ord
      ∨ resolvedBeamMode env cr st.prev = BeamMode.NONE) :
    (createBeamsStep env track st cr).beam = none ∧
    (createBeamsStep env track st cr).a1 = none ∧
    (createBeamsStep env track st cr).store.finished
      = st.store.finished ++ (match st.beam with
          | some beam => [beam]
          | none => []) ∧
    (∀ a1, st.a1 = some a1 → (createBeamsStep env track st cr).store.crBeam a1.id = none) ∧
    (createBeamsStep env track st cr).store.crBeam cr.id = none := by
  unfold createBeamsStep
  simp only [h, if_true]
  refine ⟨trivial, trivial, ?_, ?_, ?_⟩
  · rw [removeDeleteBeam_finished]
    cases st.a1 <;> cases st.beam <;>
      simp [removeDeleteBeam_finished, BeamStore.layout1]
  · intro a1 ha
    apply removeDeleteBeam_crBeam_none
    simp only [ha]
    exact removeDeleteBeam_crBeam_self _ _
  · exact removeDeleteBeam_crBeam_self _ _

/-- Witness for C19: a quarter-note chord met with an eighth-note chord as the candidate
and no active beam. -/
theorem createBeamsStep_closure_witness :
    (exampleQuarterChord.durationType.type.ord ≤ DurationType.V_QUARTER.ord
      ∨ resolvedBeamMode exampleBeamEnv exampleQuarterChord exampleCandidateState.prev
        = BeamMode.NONE) ∧
    ((createBeamsStep exampleBeamEnv 0 exampleCandidateState exampleQuarterChord).beam = none ∧
    (createBeamsStep exampleBeamEnv 0 exampleCandidateState exampleQuarterChord).a1 = none ∧
    (createBeamsStep exampleBeamEnv 0 exampleCandidateState exampleQuarterChord).store.finished
      = exampleCandidateState.store.finished ++ (match exampleCandidateState.beam with
          | some beam => [beam]
          | none => []) ∧
    (∀ a1, exampleCandidateState.a1 = some a1 →
      (createBeamsStep exampleBeamEnv 0 exampleCandidateState exampleQuarterChord).store.crBeam
        a1.id = none) ∧
    (createBeamsStep exampleBeamEnv 0 exampleCandidateState exampleQuarterChord).store.crBeam
      exampleQuarterChord.id = none) :=
  ⟨Or.inl (by decide),
    createBeamsStep_closure exampleBeamEnv 0 exampleCandidateState exampleQuarterChord
      (Or.inl (by decide))⟩


/-! ## Multi-measure rests: a run that is too short -/

/-- The run loop changes nothing of the measure bases but their numbers. -/
theorem mmRestRun_frame (showVBox : Bool) :
    ∀ (l : List ScoreMeasure) (st : MMRunState),
      List.Forall₂ (fun a b => a = { b with no := a.no })
        ((mmRestRun showVBox l st).1.passed ++ (mmRestRun showVBox l st).2) (st.passed ++ l) := by
  have hrefl : ∀ l : List ScoreMeasure,
      List.Forall₂ (fun a b => a = { b with no := a.no }) l l := by
    intro l
    induction l with
    | nil => exact List.Forall₂.nil
    | cons x xs ih => exact List.Forall₂.cons rfl ih
  intro l
  induction l with
  | nil => intro st; simp [mmRestRun]
  | cons x rest ih =>
      intro st
      unfold mmRestRun
      split_ifs with h1 h2 h3 h4
      · exact hrefl _
      · have := ih { st with pos := st.pos + 1, passed := st.passed ++ [x] }
        simpa using this
      · exact hrefl _
      · exact hrefl _
      · have := ih
          { n := st.n + 1
            len := st.len + x.len
            lmPos := st.pos
            pos := st.pos + 1
            measureNo := (adjustMeasureNo st.measureNo x).2
            passed := st.passed ++ [(adjustMeasureNo st.measureNo x).1] }
        simp only [List.append_assoc, List.singleton_append] at this
        refine forall2_trans (fun a b c hab hbc => by rw [hab, hbc]) this ?_
        apply List.rel_append (hrefl _)
        exact List.Forall₂.cons rfl (hrefl _)

/-- C20: with `createMultiMeasureRests` enabled, if the run of mergeable measures found
from the measure `m` has fewer than `minEmptyMeasures` measures, `getNextMeasure` creates
no replacement measure (no measure base gets one, and those behind `m` keep theirs and
their `mmRestCount`), removes the replacement measure `m` already has, sets the
`mmRestCount` of `m` to 0, keeps `m` itself as the current measure with `lc.nextMeasure`
as set before, and sets `lc.measureNo` back to the number found for `m`. -/
theorem getNextMeasure_short_run (showVBox : Bool) (minEmptyMeasures mno : Int)
    (m : ScoreMeasure) (rest next : List ScoreMeasure)
    (hshort : ((getNextMeasureMMRest showVBox minEmptyMeasures mno (m :: rest) next).n : Int)
      < minEmptyMeasures) :
    (getNextMeasureMMRest showVBox minEmptyMeasures mno (m :: rest) next).curMMRest = none ∧
    (getNextMeasureMMRest showVBox minEmptyMeasures mno (m :: rest) next).next = next ∧
    (getNextMeasureMMRest showVBox minEmptyMeasures mno (m :: rest) next).measureNo = mno ∧
    ∃ m1 rest1,
      (getNextMeasureMMRest showVBox minEmptyMeasures mno (m :: rest) next).measures
        = m1 :: rest1 ∧
      m1 = { m with no := m1.no, mmRest := none, mmRestCount := 0 } ∧
      List.Forall₂ (fun a b => a = { b with no := a.no }) rest1 rest := by
  have hframe := mmRestRun_frame showVBox (m :: rest) { measureNo := m.no }
  unfold getNextMeasureMMRest at hshort ⊢
  simp only [] at hshort ⊢
  by_cases hn : ((mmRestRun showVBox (m :: rest) { measureNo := m.no }).1.n : Int)
      ≥ minEmptyMeasures
  · simp only [hn, if_true] at hshort
    omega
  · simp only [hn, if_false]
    refine ⟨trivial, trivial, trivial, ?_⟩
    simp only [List.nil_append] at hframe
    revert hframe
    generalize (mmRestRun showVBox (m :: rest) { measureNo := m.no }).1.passed
      ++ (mmRestRun showVBox (m :: rest) { measureNo := m.no }).2 = ms1
    intro hframe
    cases hframe with
    | cons hab htl =>
        refine ⟨_, _, rfl, ?_, htl⟩
        rw [hab]

/-- Witness for C20: the eight empty measures followed by a measure with notes, with
`minEmptyMeasures = 9`. -/
theorem getNextMeasure_short_run_witness :
    (((getNextMeasureMMRest false 9 1 ({ id := 0, tick := 0 } ::
        (exampleEmptyMeasures.tail ++ [exampleFullMeasure])) []).n : Int) < 9) ∧
    ((getNextMeasureMMRest false 9 1 ({ id := 0, tick := 0 } ::
        (exampleEmptyMeasures.tail ++ [exampleFullMeasure])) []).curMMRest = none ∧
    (getNextMeasureMMRest false 9 1 ({ id := 0, tick := 0 } ::
        (exampleEmptyMeasures.tail ++ [exampleFullMeasure])) []).next = [] ∧
    (getNextMeasureMMRest false 9 1 ({ id := 0, tick := 0 } ::
        (exampleEmptyMeasures.tail ++ [exampleFullMeasure])) []).measureNo = 1 ∧
    ∃ m1 rest1,
      (getNextMeasureMMRest false 9 1 ({ id := 0, tick := 0 } ::
        (exampleEmptyMeasures.tail ++ [exampleFullMeasure])) []).measures = m1 :: rest1 ∧
      m1 = { ({ id := 0, tick := 0 } : ScoreMeasure) with
             no := m1.no, mmRest := none, mmRestCount := 0 } ∧
      List.Forall₂ (fun a b => a = { b with no := a.no }) rest1
        (exampleEmptyMeasures.tail ++ [exampleFullMeasure])) :=
  ⟨by decide,
    getNextMeasure_short_run false 9 1 { id := 0, tick := 0 }
      (exampleEmptyMeasures.tail ++ [exampleFullMeasure]) [] (by decide)⟩


/-! ## Accidental placement: the result of `resolveAccidentals` -/

theorem zigzagLoop_calls (env : Chords3Env) (leftNotes : List LeftNote) (colOffset : ℚ)
    (umi : List Nat) :
    ∀ (fuel i n me : Nat) (above below : Option Nat) (aclist : List AcEl),
      zigzagLoop env leftNotes colOffset umi fuel i n me above below aclist
        = (zigzagLoopCalls umi fuel i n me above).foldl
            (fun l c => placeAccidental env leftNotes colOffset l c.1 c.2.1 c.2.2) aclist := by
  intro fuel
  induction fuel with
  | zero => intros; rfl
  | succ fuel ih =>
    intro i n me above below aclist
    unfold zigzagLoop zigzagLoopCalls
    by_cases h1 : i < n
    · by_cases h2 : i = n - 1
      · simp only [h1, if_true, if_pos h2, List.foldl_cons, List.foldl_nil]
      · simp only [h1, if_true, if_neg h2, List.foldl_cons]
        rw [ih]
    · simp only [h1, if_false, List.foldl_nil]

theorem zigzagAccidentals_calls (env : Chords3Env) (leftNotes : List LeftNote)
    (colOffset : ℚ) (umi : List Nat) (aclist : List AcEl) :
    zigzagAccidentals env leftNotes colOffset umi aclist
      = (zigzagCalls umi).foldl
          (fun l c => placeAccidental env leftNotes colOffset l c.1 c.2.1 c.2.2) aclist := by
  unfold zigzagAccidentals zigzagCalls
  by_cases h0 : umi.length = 0
  · simp only [h0, if_true, List.foldl_nil]
  · by_cases h1 : umi.length - 1 > 0
    · by_cases h2 : umi.length - 1 > 1
      · simp only [h0, if_false, h1, if_true, h2, List.foldl_cons]
        rw [zigzagLoop_calls]
      · simp only [h0, if_false, h1, if_true, h2, List.foldl_cons, List.foldl_nil]
    · simp only [h0, if_false, h1, List.foldl_cons, List.foldl_nil]

theorem zigzagLoopCalls_order (umi : List Nat) (N : Nat) :
    ∀ (fuel i n me : Nat) (above : Option Nat), i + n = N → i ≤ n → n - i ≤ fuel →
      (zigzagLoopCalls umi fuel i n me above).map (fun c => c.1)
        = (List.range' (2 * i) (n - i)).map (fun k => umi.getD (zigzagIndex N k) 0) := by
  intro fuel
  induction fuel with
  | zero =>
    intro i n me above hN hle hf
    have : n - i = 0 := by omega
    rw [this]
    rfl
  | succ fuel ih =>
    intro i n me above hN hle hf
    unfold zigzagLoopCalls
    by_cases h1 : i < n
    · have hi0 : zigzagIndex N (2 * i) = i := by
        unfold zigzagIndex
        have : 2 * i % 2 = 0 := by omega
        rw [if_pos this]
        omega
      by_cases h2 : i = n - 1
      · have hlen : n - i = 1 := by omega
        simp only [h1, if_true, if_pos h2, hlen, List.map_cons, List.map_nil]
        simp only [List.range'_one, List.map_cons, List.map_nil, hi0]
      · have hlen : n - i = (n - 1 - (i + 1)) + 1 + 1 := by omega
        have hi1 : zigzagIndex N (2 * i + 1) = n - 1 := by
          unfold zigzagIndex
          have : ¬ (2 * i + 1) % 2 = 0 := by omega
          rw [if_neg this]
          omega
        simp only [h1, if_true, if_neg h2, List.map_cons]
        rw [ih (i + 1) (n - 1) _ _ (by omega) (by omega) (by omega), hlen,
          List.range'_succ, List.range'_succ]
        simp only [List.map_cons, hi0, hi1]
        have : 2 * i + 1 + 1 = 2 * (i + 1) := by ring
        rw [this]
    · have : n - i = 0 := by omega
      simp only [h1, if_false, this, List.range'_zero, List.map_nil]

theorem zigzagCalls_order (umi : List Nat) :
    (zigzagCalls umi).map (fun c => c.1)
      = (zigzagOrder umi.length).map (fun k => umi.getD k 0) := by
  unfold zigzagCalls zigzagOrder
  rw [List.map_map]
  by_cases h0 : umi.length = 0
  · simp [h0]
  · by_cases h1 : umi.length - 1 > 0
    · by_cases h2 : umi.length - 1 > 1
      · simp only [h0, if_false, h1, if_true, h2, List.map_cons]
        rw [zigzagLoopCalls_order umi umi.length _ 1 _ _ _ (by omega) (by omega) (by omega)]
        have hlen : umi.length = (umi.length - 1 - 1) + 1 + 1 := by omega
        have e0 : zigzagIndex umi.length 0 = 0 := by simp [zigzagIndex]
        have e1 : zigzagIndex umi.length 1 = umi.length - 1 := by simp [zigzagIndex]
        rw [List.range_eq_range']
        nth_rewrite 5 [hlen]
        rw [List.range'_succ, List.range'_succ]
        simp only [List.map_cons, Function.comp, e0, e1]
        rfl
      · have hlen : umi.length = 2 := by omega
        simp only [h0, if_false, h1, if_true, h2, List.map_cons, List.map_nil, hlen]
        simp [List.range_succ, zigzagIndex]
    · have hlen : umi.length = 1 := by omega
      simp only [h0, if_false, h1, List.map_cons, List.map_nil, hlen]
      simp [List.range_succ, zigzagIndex]

theorem zigzagIndex_lt (n k : Nat) (hk : k < n) : zigzagIndex n k < n := by
  unfold zigzagIndex
  split_ifs <;> omega

theorem zigzagIndex_inj (n k1 k2 : Nat) (h1 : k1 < n) (h2 : k2 < n)
    (h : zigzagIndex n k1 = zigzagIndex n k2) : k1 = k2 := by
  unfold zigzagIndex at h
  split_ifs at h <;> omega

theorem zigzagOrder_nodup (n : Nat) : (zigzagOrder n).Nodup := by
  unfold zigzagOrder
  refine List.Nodup.map_on ?_ (List.nodup_range n)
  intro x hx y hy hxy
  exact zigzagIndex_inj n x y (List.mem_range.mp hx) (List.mem_range.mp hy) hxy

theorem zigzagOrder_mem (n j : Nat) (hj : j < n) : j ∈ zigzagOrder n := by
  unfold zigzagOrder
  rw [List.mem_map]
  by_cases h : 2 * j < n
  · refine ⟨2 * j, List.mem_range.mpr h, ?_⟩
    unfold zigzagIndex
    have : 2 * j % 2 = 0 := by omega
    rw [if_pos this]
    omega
  · refine ⟨2 * (n - 1 - j) + 1, List.mem_range.mpr (by omega), ?_⟩
    unfold zigzagIndex
    have : ¬ (2 * (n - 1 - j) + 1) % 2 = 0 := by omega
    rw [if_neg this]
    omega

theorem zigzagLoopCalls_fuel_eq (umi : List Nat) :
    ∀ (f1 f2 i n me : Nat) (above : Option Nat), n - i ≤ f1 → n - i ≤ f2 →
      zigzagLoopCalls umi f1 i n me above = zigzagLoopCalls umi f2 i n me above := by
  intro f1
  induction f1 with
  | zero =>
    intro f2 i n me above h1 _
    have hn : ¬ i < n := by omega
    cases f2 with
    | zero => rfl
    | succ f2 =>
      unfold zigzagLoopCalls
      simp only [hn, if_false]
  | succ f1 ih =>
    intro f2 i n me above _ h2
    cases f2 with
    | zero =>
      have hn : ¬ i < n := by omega
      unfold zigzagLoopCalls
      simp only [hn, if_false]
    | succ f2 =>
      unfold zigzagLoopCalls
      by_cases hlt : i < n
      · by_cases he : i = n - 1
        · simp only [hlt, if_true, if_pos he]
        · simp only [hlt, if_true, if_neg he]
          rw [ih f2 (i + 1) (n - 1) _ _ (by omega) (by omega)]
      · simp only [hlt, if_false]

/-- C28: the zig-zag over the unmatched accidentals `umi` (positions 0, the topmost, to
n-1, the bottommost) is the sequence of calls of `layoutAccidental` listed by
`zigzagCalls`; the accidentals laid out by these calls are, in order, the ones at the
positions 0, n-1, 1, n-2, 2, … of `umi`; every position below n occurs exactly once in this
order, which has n entries; and the loop ends by its own condition `i < n`: every bound of
at least n-1 rounds gives the same calls. -/
theorem layoutChords3_zigzag_order (env : Chords3Env) (leftNotes : List LeftNote)
    (colOffset : ℚ) (umi : List Nat) (aclist : List AcEl) :
    zigzagAccidentals env leftNotes colOffset umi aclist
        = (zigzagCalls umi).foldl
            (fun l c => placeAccidental env leftNotes colOffset l c.1 c.2.1 c.2.2) aclist
      ∧ (zigzagCalls umi).map (fun c => c.1)
          = (zigzagOrder umi.length).map (fun k => umi.getD k 0)
      ∧ zigzagOrder umi.length
          = (List.range umi.length).map
              (fun k => if k % 2 = 0 then k / 2 else umi.length - 1 - k / 2)
      ∧ (zigzagOrder umi.length).length = umi.length
      ∧ (∀ j, j < umi.length → (zigzagOrder umi.length).count j = 1)
      ∧ (∀ j, j ∈ zigzagOrder umi.length → j < umi.length)
      ∧ (∀ fuel me above, umi.length - 1 - 1 ≤ fuel →
          zigzagLoopCalls umi fuel 1 (umi.length - 1) me above
            = zigzagLoopCalls umi (umi.length - 1) 1 (umi.length - 1) me above) := by
  refine ⟨zigzagAccidentals_calls env leftNotes colOffset umi aclist,
    zigzagCalls_order umi, rfl, ?_, ?_, ?_, ?_⟩
  · simp [zigzagOrder]
  · intro j hj
    exact List.count_eq_one_of_mem (zigzagOrder_nodup _) (zigzagOrder_mem _ j hj)
  · intro j hj
    unfold zigzagOrder at hj
    rw [List.mem_map] at hj
    obtain ⟨k, hk, rfl⟩ := hj
    exact zigzagIndex_lt _ k (List.mem_range.mp hk)
  · intro fuel me above hf
    exact zigzagLoopCalls_fuel_eq umi fuel _ 1 _ me above hf (by omega)

/-! ## Chord layout: mirroring in `layoutChords2` -/

theorem layoutChords2Loop_notes :
    ∀ (order : List Note) (st : Chords2State),
      List.Forall₂
        (fun n o => o = { n with hidden := false, dotsHidden := false, mirror := o.mirror }
          ∧ (n.userMirror = DirectionH.RIGHT → o.mirror = n.chord.up)
          ∧ (n.userMirror = DirectionH.LEFT → o.mirror = !n.chord.up))
        order (layoutChords2Loop st order).1 := by
  intro order
  induction order with
  | nil => intro st; exact List.Forall₂.nil
  | cons note rest ih =>
    intro st
    unfold layoutChords2Loop
    refine List.Forall₂.cons ⟨rfl, ?_, ?_⟩ (ih _)
    · intro h
      simp [layoutChords2Step, h]
    · intro h
      simp [layoutChords2Step, h]

theorem layoutChords2Loop_width :
    ∀ (order : List Note) (st : Chords2State),
      (layoutChords2Loop st order).2
        = (((layoutChords2Loop st order).1.filter (fun o => !o.mirror)).map
            (fun o => o.headWidth)).foldl max st.maxWidth := by
  intro order
  induction order with
  | nil => intro st; rfl
  | cons note rest ih =>
    intro st
    unfold layoutChords2Loop
    simp only []
    rw [ih]
    by_cases hm : (layoutChords2Step st note).1.mirror = true
    · have hw : (layoutChords2Step st note).2.maxWidth = st.maxWidth := by
        have hm2 := hm
        unfold layoutChords2Step at hm2 ⊢
        simp only [] at hm2 ⊢
        rw [hm2]
        rfl
      rw [List.filter_cons_of_neg (by simp [hm]), hw]
    · have hm1 : (layoutChords2Step st note).1.mirror = false := by
        simpa using hm
      have hw : (layoutChords2Step st note).2.maxWidth = max st.maxWidth note.headWidth := by
        have hm2 := hm1
        unfold layoutChords2Step at hm2 ⊢
        simp only [] at hm2 ⊢
        rw [hm2]
        rfl
      rw [List.filter_cons_of_pos (by simp [hm1]), hw]
      rfl

theorem foldl_max_ge (l : List ℚ) : ∀ a : ℚ, a ≤ l.foldl max a ∧ ∀ x ∈ l, x ≤ l.foldl max a := by
  induction l with
  | nil => intro a; exact ⟨le_refl _, fun x hx => absurd hx (List.not_mem_nil x)⟩
  | cons y l ih =>
    intro a
    have h := ih (max a y)
    refine ⟨le_trans (le_max_left a y) h.1, ?_⟩
    intro x hx
    rcases List.mem_cons.mp hx with rfl | hx
    · exact le_trans (le_max_right a x) h.1
    · exact h.2 x hx

theorem foldl_max_mem (l : List ℚ) : ∀ a : ℚ, l.foldl max a = a ∨ l.foldl max a ∈ l := by
  induction l with
  | nil => intro a; exact Or.inl rfl
  | cons y l ih =>
    intro a
    rcases ih (max a y) with h | h
    · rcases max_choice a y with hc | hc
      · left
        rw [List.foldl_cons, h, hc]
      · right
        rw [List.foldl_cons, h, hc]
        exact List.mem_cons_self _ _
    · right
      exact List.mem_cons_of_mem _ h

theorem layoutChords2_loop (notes : List Note) (up : Bool) (hne : notes ≠ []) :
    ∃ st : Chords2State, st.lvisible = false ∧ st.maxWidth = 0
      ∧ (∀ first ∈ (iterationOrder notes up).head?, st.isLeft = first.chord.up)
      ∧ (layoutChords2 notes up).2 = (layoutChords2Loop st (iterationOrder notes up)).2
      ∧ iterationOrder (layoutChords2 notes up).1 up
          = (layoutChords2Loop st (iterationOrder notes up)).1 := by
  unfold layoutChords2 iterationOrder
  cases up with
  | true =>
    simp only [if_true]
    cases notes with
    | nil => exact absurd rfl hne
    | cons first rest =>
      exact ⟨_, rfl, rfl, fun f hf => by simp at hf; rw [← hf], rfl, rfl⟩
  | false =>
    simp only [Bool.false_eq_true, if_false]
    have hr : notes.reverse ≠ [] := by simpa using hne
    generalize notes.reverse = order at hr
    cases order with
    | nil => exact absurd rfl hr
    | cons first rest =>
      exact ⟨_, rfl, rfl, fun f hf => by simp at hf; rw [← hf], rfl, by simp⟩

theorem layoutChords2Loop_chain (u : Bool) :
    ∀ (order : List Note) (st : Chords2State) (p : Note × Note),
      (∀ n ∈ order, n.chord.up = u ∧ n.userMirror = DirectionH.AUTO) →
      p.1.line = st.ll → p.1.visible = st.lvisible → p.1.chord.staffMove = st.lmove →
      p.2.mirror = (u != st.isLeft) →
      List.Chain (fun a b => b.2.mirror = (noteConflict a.1 b.1 && !a.2.mirror)) p
        (order.zip (layoutChords2Loop st order).1) := by
  intro order
  induction order with
  | nil => intro st p _ _ _ _ _; exact List.Chain.nil
  | cons note rest ih =>
    intro st p hall hl hv hm hmir
    have hn := hall note (List.mem_cons_self _ _)
    unfold layoutChords2Loop
    simp only [List.zip_cons_cons]
    have hstep : (layoutChords2Step st note).1.mirror
        = (u != (layoutChords2Step st note).2.isLeft) := by
      simp [layoutChords2Step, hn.1, hn.2]
    refine List.Chain.cons ?_ (ih _ (note, (layoutChords2Step st note).1)
      (fun n hn => hall n (List.mem_cons_of_mem _ hn)) rfl rfl rfl hstep)
    simp only []
    rw [hstep, hmir]
    unfold noteConflict layoutChords2Step
    simp only [hl, hv, hm, hn.1]
    cases u <;> cases st.isLeft <;>
      cases (decide ((st.ll - note.line).natAbs < 2) && (st.lmove == note.chord.staffMove)
        && note.visible && st.lvisible) <;> rfl

/-- C26: for a non-empty note list whose chords all have the stem direction `u` and whose
notes all have the user mirror property AUTO, `layoutChords2` returns the notes with their
flags `hidden` and `dotsHidden` cleared and, in iteration order, the mirror flag of a note is
set exactly when the note conflicts with the note before it (line distance below 2, same
staff move, both visible) and that note is not mirrored; the first note is not mirrored, and
two conflicting consecutive notes do not have the same mirror flag. -/
theorem layoutChords2_alternation (notes : List Note) (up u : Bool) (hne : notes ≠ [])
    (hall : ∀ n ∈ notes, n.chord.up = u ∧ n.userMirror = DirectionH.AUTO) :
    List.Forall₂
        (fun n o => o = { n with hidden := false, dotsHidden := false, mirror := o.mirror })
        (iterationOrder notes up) (iterationOrder (layoutChords2 notes up).1 up)
      ∧ List.Chain'
          (fun a b => b.2.mirror = (noteConflict a.1 b.1 && !a.2.mirror))
          ((iterationOrder notes up).zip (iterationOrder (layoutChords2 notes up).1 up))
      ∧ (∀ o ∈ (iterationOrder (layoutChords2 notes up).1 up).head?, o.mirror = false)
      ∧ List.Chain'
          (fun a b => noteConflict a.1 b.1 = true → a.2.mirror ≠ b.2.mirror)
          ((iterationOrder notes up).zip (iterationOrder (layoutChords2 notes up).1 up)) := by
  obtain ⟨st, hvis, _, hleft, _, hout⟩ := layoutChords2_loop notes up hne
  rw [hout]
  have hall2 : ∀ n ∈ iterationOrder notes up,
      n.chord.up = u ∧ n.userMirror = DirectionH.AUTO := by
    intro n hn
    unfold iterationOrder at hn
    cases up with
    | true => exact hall n hn
    | false => exact hall n (by simpa using hn)
  have hord : iterationOrder notes up ≠ [] := by
    unfold iterationOrder
    cases up with
    | true => exact hne
    | false => simpa using hne
  generalize iterationOrder notes up = order at hleft hall2 hord
  cases order with
  | nil => exact absurd rfl hord
  | cons first rest =>
    have hfl : st.isLeft = first.chord.up := hleft first (by simp)
    have hfu : first.chord.up = u := (hall2 first (List.mem_cons_self _ _)).1
    have hchain := layoutChords2Loop_chain u (first :: rest) st
      ({ first with line := st.ll, visible := st.lvisible,
                    chord := { first.chord with staffMove := st.lmove } },
       { first with mirror := false })
      hall2 rfl rfl rfl (by simp [hfl, hfu])
    have hc1 : List.Chain'
        (fun a b : Note × Note => b.2.mirror = (noteConflict a.1 b.1 && !a.2.mirror))
        ((first :: rest).zip (layoutChords2Loop st (first :: rest)).1) := by
      have h2 : List.Chain'
          (fun a b : Note × Note => b.2.mirror = (noteConflict a.1 b.1 && !a.2.mirror))
          (_ :: (first :: rest).zip (layoutChords2Loop st (first :: rest)).1) := hchain
      exact h2.tail
    have hhead : ∀ o ∈ (layoutChords2Loop st (first :: rest)).1.head?, o.mirror = false := by
      intro o ho
      unfold layoutChords2Loop at hchain ho
      simp only [List.zip_cons_cons, List.chain_cons] at hchain
      simp only [List.head?_cons, Option.mem_def, Option.some.injEq] at ho
      rw [← ho]
      have h1 := hchain.1
      simp only [noteConflict, hvis, Bool.and_false, Bool.false_and] at h1
      exact h1
    refine ⟨?_, hc1, hhead, ?_⟩
    · exact (layoutChords2Loop_notes (first :: rest) st).imp (fun _ _ h => h.1)
    · refine hc1.imp ?_
      intro a b hab hconf
      rw [hab, hconf]
      cases a.2.mirror <;> simp

theorem layoutChords2_clusterExample :
    layoutChords2 exampleClusterNotes true
      = ([ { id := 0, chord := { track := 0, up := true }, line := 4, headWidth := 3 / 2 },
           { id := 1, chord := { track := 0, up := true }, line := 3, headWidth := 2,
             mirror := true },
           { id := 2, chord := { track := 0, up := true }, line := 2, headWidth := 1 } ],
         3 / 2) := by
  simp [layoutChords2, layoutChords2Loop, layoutChords2Step, exampleClusterNotes]
  norm_num

theorem layoutChords2_alternation_witness :
    (exampleClusterNotes ≠ []
      ∧ ∀ n ∈ exampleClusterNotes, n.chord.up = true ∧ n.userMirror = DirectionH.AUTO)
    ∧ (List.Forall₂
        (fun n o => o = { n with hidden := false, dotsHidden := false, mirror := o.mirror })
        (iterationOrder exampleClusterNotes true)
        (iterationOrder (layoutChords2 exampleClusterNotes true).1 true)
      ∧ List.Chain'
          (fun a b => b.2.mirror = (noteConflict a.1 b.1 && !a.2.mirror))
          ((iterationOrder exampleClusterNotes true).zip
            (iterationOrder (layoutChords2 exampleClusterNotes true).1 true))
      ∧ (∀ o ∈ (iterationOrder (layoutChords2 exampleClusterNotes true).1 true).head?,
          o.mirror = false)
      ∧ List.Chain'
          (fun a b => noteConflict a.1 b.1 = true → a.2.mirror ≠ b.2.mirror)
          ((iterationOrder exampleClusterNotes true).zip
            (iterationOrder (layoutChords2 exampleClusterNotes true).1 true))) :=
  ⟨⟨by simp [exampleClusterNotes], by simp [exampleClusterNotes]⟩,
    layoutChords2_alternation exampleClusterNotes true true (by simp [exampleClusterNotes])
      (by simp [exampleClusterNotes])⟩

theorem forall2_mem_right {α β : Type} (R : α → β → Prop) (l1 : List α) (l2 : List β)
    (h : List.Forall₂ R l1 l2) : ∀ o ∈ l2, ∃ n ∈ l1, R n o := by
  induction h with
  | nil => intro o ho; exact absurd ho (List.not_mem_nil o)
  | cons hab _ ih =>
    intro o ho
    rcases List.mem_cons.mp ho with rfl | ho
    · exact ⟨_, List.mem_cons_self _ _, hab⟩
    · obtain ⟨n, hn, hr⟩ := ih o ho
      exact ⟨n, List.mem_cons_of_mem _ hn, hr⟩

theorem layoutChords2_notes (notes : List Note) (up : Bool) :
    List.Forall₂
      (fun n o => o = { n with hidden := false, dotsHidden := false, mirror := o.mirror }
        ∧ (n.userMirror = DirectionH.RIGHT → o.mirror = n.chord.up)
        ∧ (n.userMirror = DirectionH.LEFT → o.mirror = !n.chord.up))
      notes (layoutChords2 notes up).1 := by
  by_cases hne : notes = []
  · subst hne
    cases up <;> exact List.Forall₂.nil
  · obtain ⟨st, _, _, _, _, hout⟩ := layoutChords2_loop notes up hne
    have h := layoutChords2Loop_notes (iterationOrder notes up) st
    rw [← hout] at h
    unfold iterationOrder at h
    cases up with
    | true => exact h
    | false =>
      simp only [Bool.false_eq_true, if_false] at h
      exact List.forall₂_reverse_iff.mp h

theorem layoutChords2_width (notes : List Note) (up : Bool) :
    (layoutChords2 notes up).2
      = (((iterationOrder (layoutChords2 notes up).1 up).filter (fun o => !o.mirror)).map
          (fun o => o.headWidth)).foldl max 0 := by
  by_cases hne : notes = []
  · subst hne
    cases up <;> rfl
  · obtain ⟨st, _, hw, _, hwidth, hout⟩ := layoutChords2_loop notes up hne
    rw [hwidth, hout, layoutChords2Loop_width, hw]

/-- C27: in the result of `layoutChords2` a note whose user mirror property is RIGHT has
the mirror flag of its chord's stem direction and a note whose property is LEFT has the
opposite flag, whatever the other notes are; the returned width is the running maximum,
started at 0 in iteration order, of the head widths of the notes left unmirrored, which for
head widths that are not negative is 0 if no note is left unmirrored and else the greatest
head width among the unmirrored notes. -/
theorem layoutChords2_user_mirror_width (notes : List Note) (up : Bool) :
    List.Forall₂
        (fun n o => o = { n with hidden := false, dotsHidden := false, mirror := o.mirror }
          ∧ (n.userMirror = DirectionH.RIGHT → o.mirror = n.chord.up)
          ∧ (n.userMirror = DirectionH.LEFT → o.mirror = !n.chord.up))
        notes (layoutChords2 notes up).1
      ∧ (layoutChords2 notes up).2
          = (((iterationOrder (layoutChords2 notes up).1 up).filter (fun o => !o.mirror)).map
              (fun o => o.headWidth)).foldl max 0
      ∧ ((∀ n ∈ notes, 0 ≤ n.headWidth) →
          (∀ o ∈ (layoutChords2 notes up).1, o.mirror = false →
            o.headWidth ≤ (layoutChords2 notes up).2)
          ∧ ((∀ o ∈ (layoutChords2 notes up).1, o.mirror = true) →
              (layoutChords2 notes up).2 = 0)
          ∧ ((∃ o ∈ (layoutChords2 notes up).1, o.mirror = false) →
              ∃ o ∈ (layoutChords2 notes up).1, o.mirror = false
                ∧ (layoutChords2 notes up).2 = o.headWidth)) := by
  have hnotes := layoutChords2_notes notes up
  have hwidth := layoutChords2_width notes up
  have hmem : ∀ o, o ∈ iterationOrder (layoutChords2 notes up).1 up
      ↔ o ∈ (layoutChords2 notes up).1 := by
    intro o
    unfold iterationOrder
    cases up <;> simp
  refine ⟨hnotes, hwidth, ?_⟩
  intro hpos
  have hpos2 : ∀ o ∈ (layoutChords2 notes up).1, 0 ≤ o.headWidth := by
    intro o ho
    obtain ⟨n, hn, hr⟩ := forall2_mem_right _ _ _ hnotes o ho
    rw [hr.1]
    exact hpos n hn
  generalize hl : ((iterationOrder (layoutChords2 notes up).1 up).filter
    (fun o => !o.mirror)).map (fun o => o.headWidth) = l at hwidth
  have hlmem : ∀ x, x ∈ l ↔ ∃ o ∈ (layoutChords2 notes up).1,
      o.mirror = false ∧ o.headWidth = x := by
    intro x
    rw [← hl, List.mem_map]
    constructor
    · rintro ⟨o, ho, rfl⟩
      rw [List.mem_filter, hmem] at ho
      exact ⟨o, ho.1, by simpa using ho.2, rfl⟩
    · rintro ⟨o, ho, hm, rfl⟩
      exact ⟨o, List.mem_filter.mpr ⟨(hmem o).mpr ho, by simp [hm]⟩, rfl⟩
  refine ⟨?_, ?_, ?_⟩
  · intro o ho hm
    rw [hwidth]
    exact (foldl_max_ge l 0).2 _ ((hlmem _).mpr ⟨o, ho, hm, rfl⟩)
  · intro hallm
    have hnil : l = [] := by
      apply List.eq_nil_iff_forall_not_mem.mpr
      intro x hx
      obtain ⟨o, ho, hm, _⟩ := (hlmem x).mp hx
      rw [hallm o ho] at hm
      exact Bool.noConfusion hm
    rw [hwidth, hnil]
    rfl
  · rintro ⟨o, ho, hm⟩
    rcases foldl_max_mem l 0 with h0 | hin
    · have hge := (foldl_max_ge l 0).2 _ ((hlmem _).mpr ⟨o, ho, hm, rfl⟩)
      rw [h0] at hge
      refine ⟨o, ho, hm, ?_⟩
      rw [hwidth, h0]
      exact le_antisymm (hpos2 o ho) hge
    · obtain ⟨o2, ho2, hm2, hw2⟩ := (hlmem _).mp hin
      exact ⟨o2, ho2, hm2, by rw [hwidth, hw2]⟩

theorem layoutChords2_mirrorExample :
    layoutChords2 exampleMirrorNotes true
      = ([ { id := 0, chord := { track := 0, up := true }, line := 4, headWidth := 3 / 2 },
           { id := 1, chord := { track := 0, up := true }, line := 3, headWidth := 2,
             userMirror := DirectionH.RIGHT, mirror := true },
           { id := 2, chord := { track := 0, up := true }, line := 0, headWidth := 1 } ],
         3 / 2) := by
  simp [layoutChords2, layoutChords2Loop, layoutChords2Step, exampleMirrorNotes]
  norm_num

theorem layoutChords2_user_mirror_width_witness :
    (∀ n ∈ exampleMirrorNotes, 0 ≤ n.headWidth)
    ∧ (layoutChords2 exampleMirrorNotes true).2 = 3 / 2
    ∧ ((∀ o ∈ (layoutChords2 exampleMirrorNotes true).1, o.mirror = false →
            o.headWidth ≤ (layoutChords2 exampleMirrorNotes true).2)
        ∧ ((∀ o ∈ (layoutChords2 exampleMirrorNotes true).1, o.mirror = true) →
              (layoutChords2 exampleMirrorNotes true).2 = 0)
        ∧ ((∃ o ∈ (layoutChords2 exampleMirrorNotes true).1, o.mirror = false) →
              ∃ o ∈ (layoutChords2 exampleMirrorNotes true).1, o.mirror = false
                ∧ (layoutChords2 exampleMirrorNotes true).2 = o.headWidth)) :=
  ⟨by simp [exampleMirrorNotes]; norm_num, by rw [layoutChords2_mirrorExample],
    (layoutChords2_user_mirror_width exampleMirrorNotes true).2.2
      (by simp [exampleMirrorNotes]; norm_num)⟩

/-! ## Chord layout: a segment without both stem directions -/

theorem gatherChord_foldl_voices (cs : List Chord) :
    ∀ g : Chords1Groups,
      (cs.foldl gatherChord g).upVoices = g.upVoices + cs.countP (fun c => c.info.up) ∧
      (cs.foldl gatherChord g).downVoices = g.downVoices + cs.countP (fun c => !c.info.up) := by
  induction cs with
  | nil => intro g; exact ⟨rfl, rfl⟩
  | cons c rest ih =>
    intro g
    rw [List.foldl_cons]
    have h := ih (gatherChord g c)
    rw [h.1, h.2]
    have e1 : (gatherChord g c).upVoices = g.upVoices + (if c.info.up = true then 1 else 0) := by
      unfold gatherChord
      by_cases hc : c.info.up = true
      · simp only [hc, if_true]
      · simp only [hc, Bool.false_eq_true, if_false, Nat.add_zero]
    have e2 : (gatherChord g c).downVoices
        = g.downVoices + (if c.info.up = true then 0 else 1) := by
      unfold gatherChord
      by_cases hc : c.info.up = true
      · simp only [hc, if_true, Nat.add_zero]
      · simp only [hc, Bool.false_eq_true, if_false]
    rw [e1, e2, List.countP_cons, List.countP_cons]
    cases c.info.up <;> simp <;> omega

theorem gatherChords_upVoices (elements : List (Option Chord)) :
    (gatherChords elements).upVoices ≠ 0 ↔ ∃ c, some c ∈ elements ∧ c.info.up = true := by
  rw [gatherChords_filterMap, (gatherChord_foldl_voices _ _).1]
  have h0 : ({} : Chords1Groups).upVoices = 0 := rfl
  rw [h0, Nat.zero_add, Nat.ne_zero_iff_zero_lt, List.countP_pos_iff]
  simp

theorem gatherChords_downVoices (elements : List (Option Chord)) :
    (gatherChords elements).downVoices ≠ 0 ↔ ∃ c, some c ∈ elements ∧ c.info.up = false := by
  rw [gatherChords_filterMap, (gatherChord_foldl_voices _ _).2]
  have h0 : ({} : Chords1Groups).downVoices = 0 := rfl
  rw [h0, Nat.zero_add, Nat.ne_zero_iff_zero_lt, List.countP_pos_iff]
  simp

theorem singleChord_not_both (elements : List (Option Chord))
    (h : (elements.filterMap id).length ≤ 1) :
    ¬ ((∃ c, some c ∈ elements ∧ c.info.up = true)
      ∧ (∃ c, some c ∈ elements ∧ c.info.up = false)) := by
  rintro ⟨⟨c1, h1, hu1⟩, ⟨c2, h2, hu2⟩⟩
  have m1 : c1 ∈ elements.filterMap id := by simpa using h1
  have m2 : c2 ∈ elements.filterMap id := by simpa using h2
  generalize elements.filterMap id = l at h m1 m2
  match l, h, m1, m2 with
  | [], _, m1, _ => exact absurd m1 (List.not_mem_nil _)
  | [c], _, m1, m2 =>
    have e1 : c1 = c := by simpa using m1
    have e2 : c2 = c := by simpa using m2
    rw [e1] at hu1
    rw [e2, hu1] at hu2
    exact Bool.noConfusion hu2
  | _ :: _ :: _, h, _, _ => simp at h

/-- C21: on a staff that is not a tablature staff, when the chords of the segment do not
include both an up-stem chord and a down-stem chord, `layoutChords1` lays out nothing if
there is no chord at all, and else returns with the up-stem offset, the down-stem offset
and the dot adjustment zero, no dots hidden, and every chord at its position after
`layoutChords2` (0 for a chord with notes) plus its centering offset only: `centerUp` for an
up-stem chord, `centerDown` for a down-stem chord. -/
theorem layoutChords1_single_direction (env : Chords1Env) (elements : List (Option Chord))
    (htab : env.isTabStaff = false)
    (hnb : ¬ ((∃ c, some c ∈ elements ∧ c.info.up = true)
      ∧ (∃ c, some c ∈ elements ∧ c.info.up = false))) :
    ((∀ e ∈ elements, e = none) → layoutChords1 env elements = none)
    ∧ ((∃ c, some c ∈ elements) →
        ∃ r, layoutChords1 env elements = some r
          ∧ r.offsets.upOffset = 0 ∧ r.offsets.downOffset = 0 ∧ r.offsets.dotAdjust = 0
          ∧ r.offsets.hiddenDots = []
          ∧ r.chordX = elements.map (fun e => e.map (fun chord =>
              (if chord.notes = [] then chord.x else 0)
                + (if chord.info.up then r.centerUp else r.offsets.centerDown)))) := by
  have hboth : ¬ ((gatherChords elements).upVoices ≠ 0
      ∧ (gatherChords elements).downVoices ≠ 0) := by
    rw [gatherChords_upVoices, gatherChords_downVoices]
    exact hnb
  constructor
  · intro hnone
    have hu : ¬ (gatherChords elements).upVoices ≠ 0 := by
      rw [gatherChords_upVoices]
      rintro ⟨c, hc, _⟩
      exact Option.noConfusion (hnone _ hc)
    have hd : ¬ (gatherChords elements).downVoices ≠ 0 := by
      rw [gatherChords_downVoices]
      rintro ⟨c, hc, _⟩
      exact Option.noConfusion (hnone _ hc)
    have hv : (gatherChords elements).upVoices + (gatherChords elements).downVoices = 0 := by
      omega
    unfold layoutChords1
    simp only [htab, Bool.false_eq_true, if_false, hv, if_true]
  · rintro ⟨c, hc⟩
    have hv : ¬ ((gatherChords elements).upVoices + (gatherChords elements).downVoices = 0) := by
      by_cases hup : c.info.up = true
      · have := (gatherChords_upVoices elements).mpr ⟨c, hc, hup⟩
        omega
      · have := (gatherChords_downVoices elements).mpr ⟨c, hc, by simpa using hup⟩
        omega
    unfold layoutChords1
    simp only [htab, Bool.false_eq_true, if_false, hv, hboth]
    refine ⟨_, rfl, rfl, rfl, rfl, rfl, ?_⟩
    simp only []
    apply List.map_congr_left
    intro e _
    cases e with
    | none => rfl
    | some chord =>
      simp only [Option.map_some', Option.some.injEq]
      unfold applyChordOffset
      simp only [ne_eq, not_true_eq_false, if_false]
      by_cases hu : chord.info.up = true
      · simp only [hu, if_true]
      · simp only [hu, Bool.false_eq_true, if_false]

theorem layoutChords1_single_direction_witness :
    (exampleChordsEnv.isTabStaff = false
      ∧ ¬ ((∃ c, some c ∈ exampleSingleChordElements ∧ c.info.up = true)
        ∧ (∃ c, some c ∈ exampleSingleChordElements ∧ c.info.up = false)))
    ∧ (((∀ e ∈ exampleSingleChordElements, e = none) →
          layoutChords1 exampleChordsEnv exampleSingleChordElements = none)
      ∧ ((∃ c, some c ∈ exampleSingleChordElements) →
        ∃ r, layoutChords1 exampleChordsEnv exampleSingleChordElements = some r
          ∧ r.offsets.upOffset = 0 ∧ r.offsets.downOffset = 0 ∧ r.offsets.dotAdjust = 0
          ∧ r.offsets.hiddenDots = []
          ∧ r.chordX = exampleSingleChordElements.map (fun e => e.map (fun chord =>
              (if chord.notes = [] then chord.x else 0)
                + (if chord.info.up then r.centerUp else r.offsets.centerDown))))) :=
  ⟨⟨rfl, singleChord_not_both _ (by simp [exampleSingleChordElements])⟩,
    layoutChords1_single_direction exampleChordsEnv exampleSingleChordElements rfl
      (singleChord_not_both _ (by simp [exampleSingleChordElements]))⟩

/-! ## Search for a chord or rest -/

/-- What `searchNote` does when every chord or rest of the track lies before the tick:
the loop runs to its end and the function returns the null pointer. -/
theorem searchNoteLoop_all_before (tick : Int) (track : Nat) :
    ∀ (segments : List (List (Option ChordRest))) (ipe : Option ChordRest),
      (∀ seg ∈ segments, ∀ cr, seg.getD track none = some cr → cr.tick < tick) →
      searchNoteLoop tick track segments ipe = none := by
  intro segments
  induction segments with
  | nil => intro _ _; rfl
  | cons seg rest ih =>
    intro ipe h
    unfold searchNoteLoop
    cases hcr : seg.getD track none with
    | none => exact ih ipe (fun s hs => h s (List.mem_cons_of_mem _ hs))
    | some cr =>
      have hlt := h seg (List.mem_cons_self _ _) cr hcr
      have h1 : ¬ cr.tick = tick := by omega
      have h2 : ¬ cr.tick > tick := by omega
      simp only [h1, h2, if_false]
      exact ih _ (fun s hs => h s (List.mem_cons_of_mem _ hs))

/-- C24: for the score with one whole note at tick 0 in track 0, which is a chord or rest
of the track with a tick less than or equal to 480, `searchNote(480, 0)` returns the null
pointer and not that note. -/
theorem searchNote_returns_null_behind_last :
    (∃ seg ∈ exampleOneNoteSegments, ∃ cr, seg.getD 0 none = some cr ∧ cr.tick ≤ 480)
    ∧ searchNote exampleOneNoteSegments 480 0 = none := by
  refine ⟨⟨_, List.mem_cons_self _ _, _, rfl, by decide⟩, ?_⟩
  decide

/-! ## Multi-measure rests: a run of one measure -/

/-- C25: with `minEmptyMeasures` 1, for three measures of which only the first may be part
of a multi-measure rest, `getNextMeasure` calls `createMMRest(m, lm, len)` with `lm == m`
(the run has one measure, `lm` at position 0); the loop of `createMMRest` then runs to the
end of the score: the replacement measure gets `mmRestCount` 3, not 1, and the two
measures behind `m` get `mmRestCount` -1. -/
theorem createMMRest_single_measure_overrun :
    (mmRestRun false exampleLoneEmptyMeasure { measureNo := 0 }).1.n = 1
    ∧ (mmRestRun false exampleLoneEmptyMeasure { measureNo := 0 }).1.lmPos = 0
    ∧ (getNextMeasureMMRest false 1 0 exampleLoneEmptyMeasure
        (exampleLoneEmptyMeasure.drop 1)).measures.map
          (fun m => (m.mmRestCount, m.mmRest.map (fun r => r.mmRestCount)))
        = [(0, some 3), (-1, none), (-1, none)]
    ∧ (createMMRest exampleLoneEmptyMeasure 0 1).map
          (fun m => (m.mmRestCount, m.mmRest.map (fun r => r.mmRestCount)))
        = [(0, some 3), (-1, none), (-1, none)] := by
  refine ⟨by decide, by decide, ?_, ?_⟩
  · decide
  · decide

/-! ## Breaking a multi-measure rest: the bar line of the previous measure -/

theorem endBarLineLoop_first (elements : List (Option BarLine)) (bl : BarLine)
    (staffIdx : Nat)
    (hbl : elements.getD (staffIdx * VOICES) none = some bl)
    (h1 : bl.barLineType ≠ BarLineType.NORMAL) (h2 : bl.barLineType ≠ BarLineType.BROKEN)
    (h3 : bl.barLineType ≠ BarLineType.DOTTED) (hg : bl.generated = false) :
    ∀ (k a : Nat), a ≤ staffIdx → staffIdx < a + k →
      (∀ j, a ≤ j → j < staffIdx → elements.getD (j * VOICES) none = none) →
      endBarLineLoop elements (List.range' a k) = true := by
  intro k
  induction k with
  | zero => intro a h1 h2 _; omega
  | succ k ih =>
    intro a hle hlt hfirst
    rw [List.range'_succ]
    unfold endBarLineLoop
    by_cases hi : a = staffIdx
    · subst hi
      rw [hbl]
      simp only [ne_eq, h1, not_false_eq_true, h2, h3, hg, Bool.not_false, and_self, if_true]
    · rw [hfirst a (le_refl _) (by omega)]
      exact ih (a + 1) (by omega) (by omega) (fun j hj1 hj2 => hfirst j (by omega) hj2)

/-- C23 (as the code has it): `breakMultiMeasureRest(m)` returns true whenever the end bar
line segment of the previous measure holds, on the first staff on which it holds a bar line
at all, a bar line that is not generated and whose type is not NORMAL, BROKEN or DOTTED. -/
theorem breakMultiMeasureRest_first_barline (m : BreakMeasure) (pm : BreakPrevMeasure)
    (elements : List (Option BarLine)) (staffIdx : Nat) (bl : BarLine)
    (hpm : m.prev = some pm) (hseg : pm.endBarLine = some elements)
    (hidx : staffIdx < m.nstaves)
    (hbl : elements.getD (staffIdx * VOICES) none = some bl)
    (hfirst : ∀ j, j < staffIdx → elements.getD (j * VOICES) none = none)
    (hgen : bl.generated = false)
    (htype : bl.barLineType ≠ BarLineType.NORMAL ∧ bl.barLineType ≠ BarLineType.BROKEN
      ∧ bl.barLineType ≠ BarLineType.DOTTED) :
    breakMultiMeasureRest m = true := by
  have hloop : endBarLineLoop elements (List.range m.nstaves) = true := by
    rw [List.range_eq_range']
    exact endBarLineLoop_first elements bl staffIdx hbl htype.1 htype.2.1 htype.2.2 hgen
      m.nstaves 0 (Nat.zero_le _) (by omega) (fun j _ hj => hfirst j hj)
  unfold breakMultiMeasureRest
  simp only [hpm, hseg, hloop, if_true]
  split_ifs <;> rfl

theorem breakMultiMeasureRest_first_barline_witness :
    (exampleDoubleBarLine.prev = some exampleDoublePrev
      ∧ exampleDoublePrev.endBarLine = some exampleDoubleElements
      ∧ (0 : Nat) < exampleDoubleBarLine.nstaves
      ∧ exampleDoubleElements.getD (0 * VOICES) none
          = some (BarLine.mk BarLineType.DOUBLE false))
    ∧ breakMultiMeasureRest exampleDoubleBarLine = true :=
  ⟨⟨rfl, rfl, by decide, rfl⟩,
    breakMultiMeasureRest_first_barline exampleDoubleBarLine exampleDoublePrev
      exampleDoubleElements 0 (BarLine.mk BarLineType.DOUBLE false) rfl rfl (by decide) rfl
      (fun j hj => absurd hj (Nat.not_lt_zero j)) rfl ⟨by decide, by decide, by decide⟩⟩

/-- C23 (counterexample): the previous measure ends with a normal bar line on the first
staff and a bar line of type END that is not generated on the second staff, and
`breakMultiMeasureRest` returns false. -/
theorem breakMultiMeasureRest_later_staff_counterexample :
    (∃ pm elements staffIdx bl, exampleSecondStaffBarLine.prev = some pm
        ∧ pm.endBarLine = some elements
        ∧ staffIdx < exampleSecondStaffBarLine.nstaves
        ∧ elements.getD (staffIdx * VOICES) none = some bl
        ∧ bl.generated = false
        ∧ bl.barLineType ≠ BarLineType.NORMAL ∧ bl.barLineType ≠ BarLineType.BROKEN
        ∧ bl.barLineType ≠ BarLineType.DOTTED)
    ∧ breakMultiMeasureRest exampleSecondStaffBarLine = false := by
  refine ⟨⟨_, _, 1, BarLine.mk BarLineType.END false, rfl, rfl,
    by decide, rfl, rfl, by decide, by decide, by decide⟩, ?_⟩
  decide

/-! ## Distribution of the rest height -/

theorem layoutPageLoop_gaps (stretch maxDistance : ℚ) :
    ∀ (rest : List SystemRec) (s1 : SystemRec) (yoff : ℚ),
      systemGaps ({ s1 with pos := (s1.pos.1, s1.pos.2 + yoff) }
          :: layoutPageLoop stretch maxDistance
              { s1 with pos := (s1.pos.1, s1.pos.2 + yoff) } rest yoff)
        = stretchedGaps stretch maxDistance (s1 :: rest) := by
  intro rest
  induction rest with
  | nil => intro s1 yoff; rfl
  | cons s2 rest ih =>
    intro s1 yoff
    unfold layoutPageLoop
    simp only []
    unfold systemGaps stretchedGaps
    simp only []
    congr 1
    · by_cases hbox : s1.vbox.isSome = true ∨ s2.vbox.isSome = true
      · have hb : (!(s1.vbox.isSome || s2.vbox.isSome)) = false := by
          rcases hbox with h | h <;> simp [h]
        simp only [hb, Bool.false_eq_true, if_false, if_pos hbox]
        ring
      · have hb : (!(s1.vbox.isSome || s2.vbox.isSome)) = true := by
          simp only [not_or, Bool.not_eq_true] at hbox
          simp [hbox.1, hbox.2]
        simp only [hb, if_true, if_neg hbox]
        have hd : s2.pos.2 + yoff - (s1.pos.2 + yoff + s1.height)
            = s2.pos.2 - (s1.pos.2 + s1.height) := by ring
        rw [hd]
        generalize hdist : s2.pos.2 - (s1.pos.2 + s1.height) = dist
        by_cases h1 : dist + stretch > maxDistance
        · by_cases h2 : maxDistance - dist < 0
          · have h3 : dist > maxDistance := by linarith
            simp only [h1, if_true, h2, h3]
            linarith
          · have h3 : ¬ dist > maxDistance := by
              intro h
              exact h2 (by linarith)
            simp only [h1, if_true, h2, if_false, h3]
            linarith
        · simp only [h1, if_false]
          linarith
    · exact ih s2 _

theorem layoutPageLoop_frame (stretch maxDistance : ℚ) :
    ∀ (rest : List SystemRec) (s1 : SystemRec) (yoff : ℚ),
      (layoutPageLoop stretch maxDistance s1 rest yoff).map
          (fun s => (s.id, s.height, s.vbox, s.pos.1))
        = rest.map (fun s => (s.id, s.height, s.vbox, s.pos.1)) := by
  intro rest
  induction rest with
  | nil => intro s1 yoff; rfl
  | cons s2 rest ih =>
    intro s1 yoff
    unfold layoutPageLoop
    simp only [List.map_cons]
    rw [ih]

/-- C22 (as the code has it): with at least one gap between systems that are not boxes,
vertical stretch not switched off and a layout mode other than SYSTEM, `layoutPage` keeps
the first system, the heights and the horizontal positions, and changes the distances
between consecutive systems as follows: a gap next to a box is kept, every other gap grows
by `restHeight / gaps`, except that a gap whose distance plus that share exceeds
`maxSystemDistance` grows up to `maxSystemDistance` only, and not at all if it exceeds it
already. -/
theorem layoutPage_stretches_gaps (env : LayoutPageEnv) (systems : List SystemRec)
    (restHeight : ℚ) (hgaps : countGaps systems ≥ 1)
    (hstretch : env.noVerticalStretch = false)
    (hmode : env.layoutMode ≠ LayoutMode.SYSTEM) :
    systemGaps (layoutPage env systems restHeight)
        = stretchedGaps (restHeight / countGaps systems) env.maxSystemDistance systems
      ∧ (layoutPage env systems restHeight).head? = systems.head?
      ∧ (layoutPage env systems restHeight).map (fun s => (s.id, s.height, s.vbox, s.pos.1))
          = systems.map (fun s => (s.id, s.height, s.vbox, s.pos.1)) := by
  have hg : ¬ countGaps systems = 0 := by omega
  unfold layoutPage
  simp only [hg, hstretch, hmode, Bool.false_eq_true, or_self, if_false]
  cases systems with
  | nil => exact absurd rfl hg
  | cons s rest =>
    simp only []
    refine ⟨?_, rfl, ?_⟩
    · have h := layoutPageLoop_gaps (restHeight / countGaps (s :: rest)) env.maxSystemDistance
        rest s 0
      simp only [add_zero] at h
      exact h
    · rw [List.map_cons, List.map_cons, layoutPageLoop_frame]

theorem layoutPage_stretches_gaps_witness :
    (countGaps examplePageSystems ≥ 1
      ∧ (LayoutPageEnv.mk LayoutMode.PAGE false 40).noVerticalStretch = false
      ∧ (LayoutPageEnv.mk LayoutMode.PAGE false 40).layoutMode ≠ LayoutMode.SYSTEM)
    ∧ (systemGaps (layoutPage (LayoutPageEnv.mk LayoutMode.PAGE false 40) examplePageSystems 20)
        = stretchedGaps (20 / countGaps examplePageSystems)
            (LayoutPageEnv.mk LayoutMode.PAGE false 40).maxSystemDistance examplePageSystems
      ∧ (layoutPage (LayoutPageEnv.mk LayoutMode.PAGE false 40) examplePageSystems 20).head?
          = examplePageSystems.head?
      ∧ (layoutPage (LayoutPageEnv.mk LayoutMode.PAGE false 40) examplePageSystems 20).map
            (fun s => (s.id, s.height, s.vbox, s.pos.1))
          = examplePageSystems.map (fun s => (s.id, s.height, s.vbox, s.pos.1))) :=
  ⟨⟨by decide, rfl, by decide⟩,
    layoutPage_stretches_gaps (LayoutPageEnv.mk LayoutMode.PAGE false 40) examplePageSystems 20
      (by decide) rfl (by decide)⟩

/-- C22 (counterexample): in the layout mode SYSTEM, with two gaps between systems that
are not boxes, vertical stretch not switched off and a rest height of 20, `layoutPage`
leaves the systems where they are: the gaps stay 5 and 35, while a growth by
`restHeight / gaps` up to the maximum distance 40 would make them 15 and 40. -/
theorem layoutPage_system_mode_counterexample :
    countGaps examplePageSystems = 2
    ∧ (LayoutPageEnv.mk LayoutMode.SYSTEM false 40).noVerticalStretch = false
    ∧ layoutPage (LayoutPageEnv.mk LayoutMode.SYSTEM false 40) examplePageSystems 20
        = examplePageSystems
    ∧ systemGaps (layoutPage (LayoutPageEnv.mk LayoutMode.SYSTEM false 40) examplePageSystems 20)
        = [5, 35]
    ∧ stretchedGaps (20 / 2) 40 examplePageSystems = [15, 40] := by
  have h : layoutPage (LayoutPageEnv.mk LayoutMode.SYSTEM false 40) examplePageSystems 20
      = examplePageSystems := by
    unfold layoutPage
    simp
  refine ⟨by decide, rfl, h, ?_, ?_⟩
  · rw [h]
    simp [systemGaps, examplePageSystems]
    norm_num
  · simp [stretchedGaps, examplePageSystems]
    norm_num

/-! ## Minimum width of a measure: the look-back correction -/

theorem lookBack_spec (env : MinWidthEnv) (st : MinWidthState) (ss ns : Nat) (w : ℚ) :
    ∀ (fuel ps0 n0 ps n : Nat) (ww : ℚ), 0 < ps0 →
      lookBack env st ss ns w fuel ps0 n0 = some (ps, n, ww) →
      ps < ps0
        ∧ n = n0 + (List.range' ps (ps0 - ps)).countP env.isChordRestType
        ∧ ww = env.minHorizontalDistance ps ns false - (st.xpos ss - st.xpos ps)
        ∧ ww > w
        ∧ ∀ q, ps < q → q < ps0 →
            ¬ (env.minHorizontalDistance q ns false - (st.xpos ss - st.xpos q) > w) := by
  intro fuel
  induction fuel with
  | zero =>
    intro ps0 n0 ps n ww _ h
    exact Option.noConfusion h
  | succ fuel ih =>
    intro ps0 n0 ps n ww hpos h
    unfold lookBack at h
    have hne : ¬ ps0 = 0 := by omega
    simp only [hne, if_false] at h
    by_cases hww : env.minHorizontalDistance (ps0 - 1) ns false
        - (st.xpos ss - st.xpos (ps0 - 1)) > w
    · simp only [hww, if_true, Option.some.injEq, Prod.mk.injEq] at h
      obtain ⟨h1, h2, h3⟩ := h
      subst h1
      have hlen : ps0 - (ps0 - 1) = 1 := by omega
      refine ⟨by omega, ?_, h3.symm, ?_, ?_⟩
      · rw [hlen, List.range'_one, List.countP_singleton, ← h2]
        split_ifs <;> rfl
      · rw [← h3]
        exact hww
      · intro q hq1 hq2
        omega
    · simp only [hww, if_false] at h
      by_cases hp0 : ps0 - 1 = 0
      · simp only [hp0, if_true] at h
        exact Option.noConfusion h
      · simp only [hp0, if_false] at h
        obtain ⟨a1, a2, a3, a4, a5⟩ := ih (ps0 - 1) _ ps n ww (by omega) h
        refine ⟨by omega, ?_, a3, a4, ?_⟩
        · have hlen : ps0 - ps = (ps0 - 1 - ps) + 1 := by omega
          have hidx : ps + (ps0 - 1 - ps) = ps0 - 1 := by omega
          rw [hlen, List.range'_1_concat, List.countP_append, List.countP_singleton, hidx, a2]
          split_ifs <;> omega
        · intro q hq1 hq2
          by_cases hq : q = ps0 - 1
          · rw [hq]
            exact hww
          · exact a5 q hq1 (by omega)

theorem positions_sum (st : MinWidthState) :
    ∀ (m ps : Nat), (∀ k, ps ≤ k → k < ps + m → st.xpos (k + 1) = st.xpos k + st.width k) →
      st.xpos (ps + m) = st.xpos ps + ((List.range' ps m).map st.width).sum := by
  intro m
  induction m with
  | zero => intro ps _; simp
  | succ m ih =>
    intro ps h
    rw [List.range'_succ, List.map_cons, List.sum_cons]
    have h1 := ih (ps + 1) (fun k hk1 hk2 => h k (by omega) (by omega))
    have h2 := h ps (le_refl _) (by omega)
    have e : ps + (m + 1) = ps + 1 + m := by omega
    rw [e, h1, h2]
    ring

theorem widenStep_spec (env : MinWidthEnv) (d : ℚ) (s : Nat) (st : MinWidthState) (xx : ℚ) :
    (∀ k, (widenStep env d s st xx).1.width k
        = if k = s ∧ env.isChordRestType k = true then st.width k + d else st.width k)
      ∧ (∀ k, (widenStep env d s st xx).1.xpos k
        = if k = s + 1 then (widenStep env d s st xx).2 else st.xpos k)
      ∧ (widenStep env d s st xx).2 = xx + (widenStep env d s st xx).1.width s := by
  unfold widenStep
  by_cases hc : env.isChordRestType s = true
  · simp only [hc, if_true]
    refine ⟨?_, ?_, ?_⟩
    · intro k
      by_cases hk : k = s
      · subst hk
        simp [hc]
      · simp [hk, Function.update_noteq hk]
    · intro k
      by_cases hk : k = s + 1
      · subst hk
        simp
      · simp [hk, Function.update_noteq hk]
    · simp
  · simp only [hc, Bool.false_eq_true, if_false]
    refine ⟨?_, ?_, ?_⟩
    rotate_left 2
    · first | rfl | trivial
    · intro k
      by_cases hk : k = s
      · subst hk
        simp [hc]
      · simp [hk]
    · intro k
      by_cases hk : k = s + 1
      · subst hk
        simp
      · simp [hk, Function.update_noteq hk]

theorem widenLoop_spec (env : MinWidthEnv) (d : ℚ) :
    ∀ (count s : Nat) (st : MinWidthState) (xx : ℚ),
      (widenLoop env d count s st xx).2
          = xx + ((List.range' s count).map st.width).sum
              + d * ((List.range' s count).countP env.isChordRestType : ℕ)
        ∧ (∀ k, (widenLoop env d count s st xx).1.width k
            = if s ≤ k ∧ k < s + count ∧ env.isChordRestType k = true
              then st.width k + d else st.width k)
        ∧ (∀ k, k ≤ s → (widenLoop env d count s st xx).1.xpos k = st.xpos k)
        ∧ (∀ k, s + count < k → (widenLoop env d count s st xx).1.xpos k = st.xpos k)
        ∧ (0 < count → (widenLoop env d count s st xx).1.xpos (s + count)
            = (widenLoop env d count s st xx).2)
        ∧ (xx = st.xpos s → ∀ k, s ≤ k → k < s + count →
            (widenLoop env d count s st xx).1.xpos (k + 1)
              = (widenLoop env d count s st xx).1.xpos k
                + (widenLoop env d count s st xx).1.width k) := by
  intro count
  induction count with
  | zero =>
    intro s st xx
    unfold widenLoop
    refine ⟨by simp, ?_, fun _ _ => rfl, fun _ _ => rfl, fun h => absurd h (lt_irrefl 0), ?_⟩
    · intro k
      have : ¬ (s ≤ k ∧ k < s + 0 ∧ env.isChordRestType k = true) := by omega
      rw [if_neg this]
    · intro _ k h1 h2
      omega
  | succ count ih =>
    intro s st xx
    unfold widenLoop
    simp only []
    obtain ⟨hw1, hx1, hxx1⟩ := widenStep_spec env d s st xx
    generalize (widenStep env d s st xx).1 = st1 at hw1 hx1 hxx1 ⊢
    generalize (widenStep env d s st xx).2 = xx1 at hx1 hxx1 ⊢
    subst hxx1
    obtain ⟨i1, i2, i3, i4, i5, i6⟩ := ih (s + 1) st1 (xx + st1.width s)
    refine ⟨?_, ?_, ?_, ?_, ?_, ?_⟩
    · rw [i1, List.range'_succ, List.map_cons, List.sum_cons, List.countP_cons]
      have hm : (List.range' (s + 1) count).map st1.width
          = (List.range' (s + 1) count).map st.width := by
        apply List.map_congr_left
        intro k hk
        have hk1 : s + 1 ≤ k := (List.mem_range'_1.mp hk).1
        rw [hw1 k]
        have : ¬ (k = s ∧ env.isChordRestType k = true) := by omega
        rw [if_neg this]
      rw [hm, hw1 s]
      by_cases hc : env.isChordRestType s = true
      · rw [if_pos ⟨rfl, hc⟩, if_pos hc]
        push_cast
        ring
      · rw [if_neg (fun h => hc h.2), if_neg hc]
        push_cast
        ring
    · intro k
      rw [i2 k, hw1 k]
      by_cases hc : env.isChordRestType k = true
      · by_cases hk : k = s
        · have h1 : ¬ (s + 1 ≤ k ∧ k < s + 1 + count ∧ env.isChordRestType k = true) := by
            omega
          have h2 : s ≤ k ∧ k < s + (count + 1) ∧ env.isChordRestType k = true :=
            ⟨by omega, by omega, hc⟩
          rw [if_neg h1, if_pos ⟨hk, hc⟩, if_pos h2]
        · have h0 : ¬ (k = s ∧ env.isChordRestType k = true) := fun h => hk h.1
          rw [if_neg h0]
          by_cases hr : s + 1 ≤ k ∧ k < s + 1 + count
          · rw [if_pos ⟨hr.1, hr.2, hc⟩, if_pos ⟨by omega, by omega, hc⟩]
          · have h1 : ¬ (s + 1 ≤ k ∧ k < s + 1 + count ∧ env.isChordRestType k = true) :=
              fun h => hr ⟨h.1, h.2.1⟩
            have h2 : ¬ (s ≤ k ∧ k < s + (count + 1) ∧ env.isChordRestType k = true) := by
              intro h
              apply hr
              omega
            rw [if_neg h1, if_neg h2]
      · have h0 : ¬ (k = s ∧ env.isChordRestType k = true) := fun h => hc h.2
        have h1 : ¬ (s + 1 ≤ k ∧ k < s + 1 + count ∧ env.isChordRestType k = true) :=
          fun h => hc h.2.2
        have h2 : ¬ (s ≤ k ∧ k < s + (count + 1) ∧ env.isChordRestType k = true) :=
          fun h => hc h.2.2
        rw [if_neg h1, if_neg h0, if_neg h2]
    · intro k hk
      rw [i3 k (by omega), hx1 k]
      have : ¬ k = s + 1 := by omega
      rw [if_neg this]
    · intro k hk
      rw [i4 k (by omega), hx1 k]
      have : ¬ k = s + 1 := by omega
      rw [if_neg this]
    · intro _
      have e : s + (count + 1) = s + 1 + count := by omega
      rw [e]
      by_cases hc0 : 0 < count
      · exact i5 hc0
      · have hz : count = 0 := by omega
        subst hz
        rw [i3 (s + 1 + 0) (by omega), i1, hx1]
        simp
    · intro hxx k hk1 hk2
      by_cases hk : k = s
      · subst hk
        rw [i3 (k + 1) (le_refl _), i3 k (by omega), hx1 (k + 1), hx1 k, i2 k]
        have h1 : ¬ (k + 1 ≤ k ∧ k < k + 1 + count ∧ env.isChordRestType k = true) := by
          omega
        have h2 : ¬ k = k + 1 := by omega
        rw [if_pos rfl, if_neg h2, if_neg h1, hxx]
      · have hx : xx + st1.width s = st1.xpos (s + 1) := by
          rw [hx1 (s + 1), if_pos rfl]
        exact i6 hx k (by omega) (by omega)

theorem positionsFollow_sum (st : MinWidthState) (ss ps : Nat) (x : ℚ)
    (hfollow : positionsFollow st ss x) (hps : ps ≤ ss) :
    x = (Function.update st.xpos ss x) ps
      + ((List.range' ps (ss - ps)).map st.width).sum := by
  have hcons : ∀ k, ps ≤ k → k < ps + (ss - ps) →
      (Function.update st.xpos ss x) (k + 1)
        = (Function.update st.xpos ss x) k + st.width k := by
    intro k _ hk2
    have hk : k ≠ ss := by omega
    rw [Function.update_noteq hk]
    by_cases hlast : k + 1 = ss
    · rw [hlast, Function.update_same]
      have h := hfollow.2 (by omega)
      have e : ss - 1 = k := by omega
      rw [e] at h
      exact h
    · rw [Function.update_noteq hlast]
      exact hfollow.1 k (by omega)
  have h := positions_sum { xpos := Function.update st.xpos ss x, width := st.width }
    (ss - ps) ps hcons
  have h2 : (Function.update st.xpos ss x) (ps + (ss - ps)) = x := by
    have e : ps + (ss - ps) = ss := by omega
    rw [e, Function.update_same]
  exact h2.symm.trans h

/-- The look-back correction of one round of the loop of `computeMinWidth`: what the
round does when the look-back finds an earlier segment `ps` with `ww > w`. -/
theorem computeMinWidthStep_correction (env : MinWidthEnv) (st : MinWidthState) (ss : Nat)
    (x w : ℚ) (isSystemHeader : Bool) (ps n : Nat) (ww : ℚ)
    (hfollow : positionsFollow st ss x)
    (hns : ss + 1 < env.segments.length)
    (hw : w = env.minHorizontalDistance ss (ss + 1)
      (isSystemHeader && env.isChordRestType (ss + 1)))
    (hlb : lookBack env { st with xpos := Function.update st.xpos ss x } ss (ss + 1) w
      (ss + 1) ss 1 = some (ps, n, ww))
    (hps : ps < ss) :
    (ww = env.minHorizontalDistance ps (ss + 1) false - (x - st.xpos ps) ∧ ww > w
        ∧ ∀ q, ps < q → q < ss →
            env.minHorizontalDistance q (ss + 1) false - (x - st.xpos q) ≤ w)
      ∧ (n = 1 + (List.range' ps (ss - ps)).countP env.isChordRestType ∧ n ≥ 1)
      ∧ (∀ k, (computeMinWidthStep env st ss x isSystemHeader).1.width k
          = if k = ss then w + (ww - w) / n
            else if ps ≤ k ∧ k < ss ∧ env.isChordRestType k = true
              then st.width k + (ww - w) / n
            else st.width k)
      ∧ (computeMinWidthStep env st ss x isSystemHeader).1.xpos ps = st.xpos ps
      ∧ (computeMinWidthStep env st ss x isSystemHeader).2.1
          - (computeMinWidthStep env st ss x isSystemHeader).1.xpos ps
          = env.minHorizontalDistance ps (ss + 1) false
      ∧ ((List.range' ps (ss - ps)).countP env.isChordRestType = 0 →
          (computeMinWidthStep env st ss x isSystemHeader).1.width ss = w + (ww - w)
          ∧ ∀ k, k ≠ ss →
              (computeMinWidthStep env st ss x isSystemHeader).1.width k = st.width k)
      ∧ positionsFollow (computeMinWidthStep env st ss x isSystemHeader).1 (ss + 1)
          (computeMinWidthStep env st ss x isSystemHeader).2.1 := by
  obtain ⟨a1, a2, a3, a4, a5⟩ :=
    lookBack_spec env { st with xpos := Function.update st.xpos ss x } ss (ss + 1) w
      (ss + 1) ss 1 ps n ww (by omega) hlb
  have hne : ps ≠ ss := by omega
  simp only [Function.update_same, Function.update_noteq hne] at a3
  have hsum := positionsFollow_sum st ss ps x hfollow (le_of_lt hps)
  rw [Function.update_noteq hne] at hsum
  obtain ⟨i1, i2, i3, _, i5, i6⟩ := widenLoop_spec env ((ww - w) / n) (ss - ps) ps
    { st with xpos := Function.update st.xpos ss x }
    ((Function.update st.xpos ss x) ps)
  have hstep : computeMinWidthStep env st ss x isSystemHeader
      = ({ (widenLoop env ((ww - w) / n) (ss - ps) ps
              { st with xpos := Function.update st.xpos ss x }
              ((Function.update st.xpos ss x) ps)).1 with
            width := Function.update (widenLoop env ((ww - w) / n) (ss - ps) ps
              { st with xpos := Function.update st.xpos ss x }
              ((Function.update st.xpos ss x) ps)).1.width ss (w + (ww - w) / n) },
          (widenLoop env ((ww - w) / n) (ss - ps) ps
              { st with xpos := Function.update st.xpos ss x }
              ((Function.update st.xpos ss x) ps)).2 + (w + (ww - w) / n),
          if (isSystemHeader && env.isChordRestType (ss + 1)) = true then false
            else isSystemHeader) := by
    unfold computeMinWidthStep
    simp only [hns, if_true, ← hw, hlb]
  rw [hstep]
  generalize hr : widenLoop env ((ww - w) / n) (ss - ps) ps
    { st with xpos := Function.update st.xpos ss x }
    ((Function.update st.xpos ss x) ps) = r at i1 i2 i3 i5 i6
  have hend : ps + (ss - ps) = ss := by omega
  rw [hend] at i2 i5 i6
  simp only [] at i1 i2 i3 i5 i6
  have hn1 : (n : ℚ) ≠ 0 := by
    have : 0 < n := by omega
    exact_mod_cast this.ne'
  have hx2 : r.2 = x + ((ww - w) / n) * ((n : ℚ) - 1) := by
    rw [i1, Function.update_noteq hne, a2]
    push_cast
    linarith
  have hxps : r.1.xpos ps = st.xpos ps := by
    rw [i3 ps (le_refl _), Function.update_noteq hne]
  have hmul : (ww - w) / n * (n : ℚ) = ww - w := div_mul_cancel₀ _ hn1
  refine ⟨⟨a3, a4, ?_⟩, ⟨a2, by omega⟩, ?_, hxps, ?_, ?_, ?_, ?_⟩
  · intro q hq1 hq2
    have h := a5 q hq1 hq2
    have hq : q ≠ ss := by omega
    simp only [Function.update_same, Function.update_noteq hq] at h
    exact not_lt.mp h
  · intro k
    simp only []
    by_cases hk : k = ss
    · subst hk
      rw [Function.update_same, if_pos rfl]
    · rw [Function.update_noteq hk, if_neg hk, i2 k]
  · simp only []
    have : (ww - w) / n * ((n : ℚ) - 1) = (ww - w) - (ww - w) / n := by
      rw [mul_sub, hmul, mul_one]
    rw [hx2, hxps, this]
    linarith
  · intro hzero
    have hn : n = 1 := by omega
    constructor
    · simp only [Function.update_same, hn, Nat.cast_one, div_one]
    · intro k hk
      simp only []
      rw [Function.update_noteq hk, i2 k]
      by_cases hin : ps ≤ k ∧ k < ss ∧ env.isChordRestType k = true
      · exfalso
        have hmem : k ∈ List.range' ps (ss - ps) := by
          rw [List.mem_range'_1]
          omega
        have hpos : 0 < (List.range' ps (ss - ps)).countP env.isChordRestType :=
          List.countP_pos_iff.mpr ⟨k, hmem, hin.2.2⟩
        omega
      · rw [if_neg hin]
  · intro k hk
    simp only []
    have hkss : k ≠ ss := by omega
    rw [Function.update_noteq hkss]
    by_cases hkp : k < ps
    · have h1 : ¬ (ps ≤ k ∧ k < ss ∧ env.isChordRestType k = true) := by omega
      have hk1 : k + 1 ≠ ss := by omega
      rw [i3 (k + 1) (by omega), i3 k (by omega), i2 k, if_neg h1,
        Function.update_noteq hk1, Function.update_noteq hkss]
      exact hfollow.1 k (by omega)
    · exact i6 trivial k (by omega) (by omega)
  · intro _
    have e : r.1.xpos ss = r.2 := i5 (by omega)
    simp [e]

/-! ## Minimum width of a measure: the look-back correction in double precision -/

/-- The look-back in double precision: `lookBackDouble` finds the nearest earlier segment
`ps` whose minimum distance to `ns` exceeds the space laid out so far, and counts the
chord/rest segments from `ps` on. -/
theorem lookBackDouble_spec (env : MinWidthEnv) (st : MinWidthState) (ss ns : Nat) (w : ℚ) :
    ∀ (fuel ps0 n0 ps n : Nat) (ww : ℚ), 0 < ps0 →
      lookBackDouble env st ss ns w fuel ps0 n0 = some (ps, n, ww) →
      ps < ps0
        ∧ n = n0 + (List.range' ps (ps0 - ps)).countP env.isChordRestType
        ∧ ww = subDouble (env.minHorizontalDistance ps ns false)
            (subDouble (st.xpos ss) (st.xpos ps))
        ∧ ww > w
        ∧ ∀ q, ps < q → q < ps0 →
            ¬ (subDouble (env.minHorizontalDistance q ns false)
                (subDouble (st.xpos ss) (st.xpos q)) > w) := by
  intro fuel
  induction fuel with
  | zero =>
    intro ps0 n0 ps n ww _ h
    exact Option.noConfusion h
  | succ fuel ih =>
    intro ps0 n0 ps n ww hpos h
    unfold lookBackDouble at h
    have hne : ¬ ps0 = 0 := by omega
    simp only [hne, if_false] at h
    by_cases hww : subDouble (env.minHorizontalDistance (ps0 - 1) ns false)
        (subDouble (st.xpos ss) (st.xpos (ps0 - 1))) > w
    · simp only [hww, if_true, Option.some.injEq, Prod.mk.injEq] at h
      obtain ⟨h1, h2, h3⟩ := h
      subst h1
      have hlen : ps0 - (ps0 - 1) = 1 := by omega
      refine ⟨by omega, ?_, h3.symm, ?_, ?_⟩
      · rw [hlen, List.range'_one, List.countP_singleton, ← h2]
        split_ifs <;> rfl
      · rw [← h3]
        exact hww
      · intro q hq1 hq2
        omega
    · simp only [hww, if_false] at h
      by_cases hp0 : ps0 - 1 = 0
      · simp only [hp0, if_true] at h
        exact Option.noConfusion h
      · simp only [hp0, if_false] at h
        obtain ⟨a1, a2, a3, a4, a5⟩ := ih (ps0 - 1) _ ps n ww (by omega) h
        refine ⟨by omega, ?_, a3, a4, ?_⟩
        · have hlen : ps0 - ps = (ps0 - 1 - ps) + 1 := by omega
          have hidx : ps + (ps0 - 1 - ps) = ps0 - 1 := by omega
          rw [hlen, List.range'_1_concat, List.countP_append, List.countP_singleton, hidx, a2]
          split_ifs <;> omega
        · intro q hq1 hq2
          by_cases hq : q = ps0 - 1
          · rw [hq]
            exact hww
          · exact a5 q hq1 (by omega)

theorem widenStepDouble_spec (env : MinWidthEnv) (d : ℚ) (s : Nat) (st : MinWidthState)
    (xx : ℚ) :
    (∀ k, (widenStepDouble env d s st xx).1.width k
        = if k = s ∧ env.isChordRestType k = true then addDouble (st.width k) d
          else st.width k)
      ∧ (∀ k, (widenStepDouble env d s st xx).1.xpos k
        = if k = s + 1 then (widenStepDouble env d s st xx).2 else st.xpos k)
      ∧ (widenStepDouble env d s st xx).2
          = addDouble xx ((widenStepDouble env d s st xx).1.width s) := by
  unfold widenStepDouble
  by_cases hc : env.isChordRestType s = true
  · simp only [hc, if_true]
    refine ⟨?_, ?_, ?_⟩
    · intro k
      by_cases hk : k = s
      · subst hk
        simp [hc]
      · simp [hk, Function.update_noteq hk]
    · intro k
      by_cases hk : k = s + 1
      · subst hk
        simp
      · simp [hk, Function.update_noteq hk]
    · simp
  · simp only [hc, Bool.false_eq_true, if_false]
    refine ⟨?_, ?_, ?_⟩
    rotate_left 2
    · first | rfl | trivial
    · intro k
      by_cases hk : k = s
      · subst hk
        simp [hc]
      · simp [hk]
    · intro k
      by_cases hk : k = s + 1
      · subst hk
        simp
      · simp [hk, Function.update_noteq hk]

/-- The loop that distributes the extra space in double precision: the chord/rest segments
of the range get their width plus `d`, rounded, the positions up to the first segment of
the range stay, and the final `xx` is the rounded sum of `xx` and the new widths. -/
theorem widenLoopDouble_spec (env : MinWidthEnv) (d : ℚ) :
    ∀ (count s : Nat) (st : MinWidthState) (xx : ℚ),
      (widenLoopDouble env d count s st xx).2
          = (List.range' s count).foldl (fun acc k => addDouble acc
              (if env.isChordRestType k = true then addDouble (st.width k) d
                else st.width k)) xx
        ∧ (∀ k, (widenLoopDouble env d count s st xx).1.width k
            = if s ≤ k ∧ k < s + count ∧ env.isChordRestType k = true
              then addDouble (st.width k) d else st.width k)
        ∧ (∀ k, k ≤ s → (widenLoopDouble env d count s st xx).1.xpos k = st.xpos k) := by
  intro count
  induction count with
  | zero =>
    intro s st xx
    unfold widenLoopDouble
    refine ⟨by simp, ?_, fun _ _ => rfl⟩
    intro k
    have : ¬ (s ≤ k ∧ k < s + 0 ∧ env.isChordRestType k = true) := by omega
    rw [if_neg this]
  | succ count ih =>
    intro s st xx
    unfold widenLoopDouble
    simp only []
    obtain ⟨hw1, hx1, hxx1⟩ := widenStepDouble_spec env d s st xx
    generalize (widenStepDouble env d s st xx).1 = st1 at hw1 hx1 hxx1 ⊢
    generalize (widenStepDouble env d s st xx).2 = xx1 at hx1 hxx1 ⊢
    subst hxx1
    obtain ⟨i1, i2, i3⟩ := ih (s + 1) st1 (addDouble xx (st1.width s))
    refine ⟨?_, ?_, ?_⟩
    · rw [i1, List.range'_succ, List.foldl_cons]
      have hs : st1.width s = (if env.isChordRestType s = true then addDouble (st.width s) d
          else st.width s) := by
        rw [hw1 s]
        by_cases hc : env.isChordRestType s = true
        · rw [if_pos ⟨rfl, hc⟩, if_pos hc]
        · rw [if_neg (fun h => hc h.2), if_neg hc]
      rw [hs]
      apply List.foldl_ext
      intro acc k hk
      have hk1 : s + 1 ≤ k := (List.mem_range'_1.mp hk).1
      rw [hw1 k]
      have : ¬ (k = s ∧ env.isChordRestType k = true) := by omega
      rw [if_neg this]
    · intro k
      rw [i2 k, hw1 k]
      by_cases hc : env.isChordRestType k = true
      · by_cases hk : k = s
        · have h1 : ¬ (s + 1 ≤ k ∧ k < s + 1 + count ∧ env.isChordRestType k = true) := by
            omega
          have h2 : s ≤ k ∧ k < s + (count + 1) ∧ env.isChordRestType k = true :=
            ⟨by omega, by omega, hc⟩
          rw [if_neg h1, if_pos ⟨hk, hc⟩, if_pos h2]
        · have h0 : ¬ (k = s ∧ env.isChordRestType k = true) := fun h => hk h.1
          rw [if_neg h0]
          by_cases hr : s + 1 ≤ k ∧ k < s + 1 + count
          · rw [if_pos ⟨hr.1, hr.2, hc⟩, if_pos ⟨by omega, by omega, hc⟩]
          · have h1 : ¬ (s + 1 ≤ k ∧ k < s + 1 + count ∧ env.isChordRestType k = true) :=
              fun h => hr ⟨h.1, h.2.1⟩
            have h2 : ¬ (s ≤ k ∧ k < s + (count + 1) ∧ env.isChordRestType k = true) := by
              intro h
              apply hr
              omega
            rw [if_neg h1, if_neg h2]
      · have h0 : ¬ (k = s ∧ env.isChordRestType k = true) := fun h => hc h.2
        have h1 : ¬ (s + 1 ≤ k ∧ k < s + 1 + count ∧ env.isChordRestType k = true) :=
          fun h => hc h.2.2
        have h2 : ¬ (s ≤ k ∧ k < s + (count + 1) ∧ env.isChordRestType k = true) :=
          fun h => hc h.2.2
        rw [if_neg h1, if_neg h0, if_neg h2]
    · intro k hk
      rw [i3 k (by omega), hx1 k]
      have : ¬ k = s + 1 := by omega
      rw [if_neg this]

theorem positionsDouble_foldl (xpos width : Nat → ℚ) :
    ∀ (m ps : Nat), (∀ k, ps ≤ k → k < ps + m → xpos (k + 1) = addDouble (xpos k) (width k)) →
      xpos (ps + m) = (List.range' ps m).foldl (fun a k => addDouble a (width k)) (xpos ps) := by
  intro m
  induction m with
  | zero => intro ps _; simp
  | succ m ih =>
    intro ps h
    rw [List.range'_succ, List.foldl_cons]
    have h1 := ih (ps + 1) (fun k hk1 hk2 => h k (by omega) (by omega))
    have h2 := h ps (le_refl _) (by omega)
    have e : ps + (m + 1) = ps + 1 + m := by omega
    rw [e, h1, h2]

/-- With positions that follow from the widths in double precision, the current position
`x` is the position of an earlier segment `ps` plus the widths from `ps` on, up to one
rounding per segment. -/
theorem positionsFollowDouble_rounded (st : MinWidthState) (ss ps : Nat) (x : ℚ)
    (hfollow : positionsFollowDouble st ss x) (hps : ps < ss) (hp : 0 ≤ st.xpos ps)
    (hwidth : ∀ k, ps ≤ k → k < ss → 0 ≤ st.width k) :
    RoundedFrom (ss - ps) x (st.xpos ps + ((List.range' ps (ss - ps)).map st.width).sum) := by
  have hcons : ∀ k, ps ≤ k → k < ps + (ss - ps) →
      (Function.update st.xpos ss x) (k + 1)
        = addDouble ((Function.update st.xpos ss x) k) (st.width k) := by
    intro k _ hk2
    have hk : k ≠ ss := by omega
    rw [Function.update_noteq hk]
    by_cases hlast : k + 1 = ss
    · rw [hlast, Function.update_same]
      have h := hfollow.2 (by omega)
      have e : ss - 1 = k := by omega
      rw [e] at h
      exact h
    · rw [Function.update_noteq hlast]
      exact hfollow.1 k (by omega)
  have h := positionsDouble_foldl (Function.update st.xpos ss x) st.width (ss - ps) ps hcons
  have e : ps + (ss - ps) = ss := by omega
  have hne : ps ≠ ss := by omega
  rw [e, Function.update_same, Function.update_noteq hne] at h
  have hr := foldl_addDouble_rounded st.width st.width 0 (List.range' ps (ss - ps))
    (fun k hk => roundedFrom_refl _
      (hwidth k (List.mem_range'_1.mp hk).1 (by have := (List.mem_range'_1.mp hk).2; omega)))
    0 (st.xpos ps) (st.xpos ps) (roundedFrom_refl _ hp)
  rw [← h, List.length_range'] at hr
  simpa using hr

theorem sum_range_widened (env : MinWidthEnv) (width : Nat → ℚ) (dE : ℚ) :
    ∀ (m ps : Nat),
      ((List.range' ps m).map
        (fun k => width k + (if env.isChordRestType k = true then dE else 0))).sum
      = ((List.range' ps m).map width).sum
        + ((List.range' ps m).countP env.isChordRestType : ℕ) * dE := by
  intro m
  induction m with
  | zero => intro ps; simp
  | succ m ih =>
    intro ps
    rw [List.range'_succ, List.map_cons, List.sum_cons, List.map_cons, List.sum_cons,
      List.countP_cons, ih (ps + 1)]
    by_cases hc : env.isChordRestType ps = true
    · rw [if_pos hc, if_pos hc]
      push_cast
      ring
    · rw [if_neg hc, if_neg hc]
      push_cast
      ring

/-- The look-back correction of one round of the loop of `computeMinWidth` in double
precision: what the round does when the look-back finds an earlier segment `ps` with
`ww > w`. The segment `ps` is the nearest one whose minimum distance to `ns` exceeds the
space laid out so far, `n` is 1 plus the number of chord/rest segments from `ps` up to but
excluding `ss`, these segments and `ss` get their width plus the share
`d = (ww - w) / n`, no other width changes and `ps` keeps its position; with no chord/rest
segment in the range `ss` takes the whole shortfall. When the positions follow from the
widths and positions and widths are not negative, the position that `ns` gets and the
position of `ps` plus its minimum distance to `ns` agree up to `2 * (ss - ps) + 5`
roundings. -/
theorem computeMinWidthStepDouble_correction (env : MinWidthEnv) (st : MinWidthState)
    (ss : Nat) (x w : ℚ) (isSystemHeader : Bool) (ps n : Nat) (ww : ℚ)
    (hns : ss + 1 < env.segments.length)
    (hw : w = env.minHorizontalDistance ss (ss + 1)
      (isSystemHeader && env.isChordRestType (ss + 1)))
    (hlb : lookBackDouble env { st with xpos := Function.update st.xpos ss x } ss (ss + 1) w
      (ss + 1) ss 1 = some (ps, n, ww))
    (hps : ps < ss) :
    (ww = subDouble (env.minHorizontalDistance ps (ss + 1) false) (subDouble x (st.xpos ps))
        ∧ ww > w
        ∧ ∀ q, ps < q → q < ss →
            ¬ (subDouble (env.minHorizontalDistance q (ss + 1) false)
                (subDouble x (st.xpos q)) > w))
      ∧ (n = 1 + (List.range' ps (ss - ps)).countP env.isChordRestType ∧ n ≥ 1)
      ∧ (∀ k, (computeMinWidthStepDouble env st ss x isSystemHeader).1.width k
          = if k = ss then addDouble w (divDouble (subDouble ww w) n)
            else if ps ≤ k ∧ k < ss ∧ env.isChordRestType k = true
              then addDouble (st.width k) (divDouble (subDouble ww w) n)
            else st.width k)
      ∧ (computeMinWidthStepDouble env st ss x isSystemHeader).1.xpos ps = st.xpos ps
      ∧ ((List.range' ps (ss - ps)).countP env.isChordRestType = 0 →
          (computeMinWidthStepDouble env st ss x isSystemHeader).1.width ss
            = addDouble w (subDouble ww w)
          ∧ ∀ k, k ≠ ss →
              (computeMinWidthStepDouble env st ss x isSystemHeader).1.width k = st.width k)
      ∧ (positionsFollowDouble st ss x → 0 ≤ st.xpos ps → st.xpos ps ≤ x →
          (∀ k, ps ≤ k → k < ss → 0 ≤ st.width k) → 0 ≤ w →
          RoundedFrom (2 * (ss - ps) + 5)
            (computeMinWidthStepDouble env st ss x isSystemHeader).2.1
            (st.xpos ps + env.minHorizontalDistance ps (ss + 1) false)) := by
  obtain ⟨a1, a2, a3, a4, a5⟩ :=
    lookBackDouble_spec env { st with xpos := Function.update st.xpos ss x } ss (ss + 1) w
      (ss + 1) ss 1 ps n ww (by omega) hlb
  have hne : ps ≠ ss := by omega
  simp only [Function.update_same, Function.update_noteq hne] at a3
  obtain ⟨i1, i2, i3⟩ := widenLoopDouble_spec env (divDouble (subDouble ww w) n) (ss - ps) ps
    { st with xpos := Function.update st.xpos ss x }
    ((Function.update st.xpos ss x) ps)
  have hstep : computeMinWidthStepDouble env st ss x isSystemHeader
      = ({ (widenLoopDouble env (divDouble (subDouble ww w) n) (ss - ps) ps
              { st with xpos := Function.update st.xpos ss x }
              ((Function.update st.xpos ss x) ps)).1 with
            width := Function.update (widenLoopDouble env (divDouble (subDouble ww w) n)
              (ss - ps) ps { st with xpos := Function.update st.xpos ss x }
              ((Function.update st.xpos ss x) ps)).1.width ss
                (addDouble w (divDouble (subDouble ww w) n)) },
          addDouble (widenLoopDouble env (divDouble (subDouble ww w) n) (ss - ps) ps
              { st with xpos := Function.update st.xpos ss x }
              ((Function.update st.xpos ss x) ps)).2
            (addDouble w (divDouble (subDouble ww w) n)),
          if (isSystemHeader && env.isChordRestType (ss + 1)) = true then false
            else isSystemHeader) := by
    unfold computeMinWidthStepDouble
    simp only [hns, if_true, ← hw, hlb]
  rw [hstep]
  generalize hr : widenLoopDouble env (divDouble (subDouble ww w) n) (ss - ps) ps
    { st with xpos := Function.update st.xpos ss x }
    ((Function.update st.xpos ss x) ps) = r at i1 i2 i3
  have hend : ps + (ss - ps) = ss := by omega
  rw [hend] at i2
  rw [Function.update_noteq hne] at i1
  simp only [] at i1 i2 i3
  have hcount : n = 1 + (List.range' ps (ss - ps)).countP env.isChordRestType := by
    have e : ss - ps = ss - ps := rfl
    rw [a2]
  refine ⟨⟨a3, a4, ?_⟩, ⟨hcount, by omega⟩, ?_, ?_, ?_, ?_⟩
  · intro q hq1 hq2
    have h := a5 q hq1 hq2
    have hq : q ≠ ss := by omega
    simp only [Function.update_same, Function.update_noteq hq] at h
    exact h
  · intro k
    simp only []
    by_cases hk : k = ss
    · subst hk
      rw [if_pos rfl, Function.update_same]
    · rw [if_neg hk, Function.update_noteq hk, i2 k]
  · simp only []
    rw [i3 ps (le_refl _), Function.update_noteq hne]
  · intro h0
    have hn1 : n = 1 := by omega
    have hd : divDouble (subDouble ww w) n = subDouble ww w := by
      rw [hn1]
      unfold divDouble subDouble
      simp only [Nat.cast_one, div_one]
      exact roundDouble_idem _
    refine ⟨?_, ?_⟩
    · simp only []
      rw [Function.update_same, hd]
    · intro k hk
      simp only []
      rw [Function.update_noteq hk, i2 k]
      have hnot : ¬ (ps ≤ k ∧ k < ss ∧ env.isChordRestType k = true) := by
        rintro ⟨h1, h2, h3⟩
        have hmem : k ∈ List.range' ps (ss - ps) := by
          rw [List.mem_range'_1]
          omega
        have hpos : 0 < (List.range' ps (ss - ps)).countP env.isChordRestType :=
          List.countP_pos_iff.mpr ⟨k, hmem, h3⟩
        omega
      rw [if_neg hnot]
  · intro hfollow hp hpx hwidth hw0
    simp only []
    -- the shortfall and the share
    have hww0 : 0 < ww := lt_of_le_of_lt hw0 a4
    have hsx : RoundedFrom 1 (subDouble x (st.xpos ps)) (x - st.xpos ps) :=
      roundedFrom_subDouble _ _ hpx
    have hB : 0 < env.minHorizontalDistance ps (ss + 1) false - subDouble x (st.xpos ps) := by
      rw [a3] at hww0
      exact roundDouble_pos_of_pos _ hww0
    have hwwB : RoundedFrom 1 ww
        (env.minHorizontalDistance ps (ss + 1) false - subDouble x (st.xpos ps)) := by
      rw [a3]
      exact roundedFrom_subDouble _ _ (by linarith)
    have hc : RoundedFrom 1 (subDouble ww w) (ww - w) :=
      roundedFrom_subDouble _ _ (le_of_lt a4)
    have hnpos : (0 : ℚ) < (n : ℚ) := by
      have : 0 < n := by omega
      exact_mod_cast this
    have hd : RoundedFrom 2 (divDouble (subDouble ww w) n) ((ww - w) / n) := by
      unfold divDouble
      have h := roundedFrom_div hc (roundedFrom_refl (n : ℚ) hnpos.le) hnpos hnpos
      exact roundedFrom_round h
    -- the new widths and the position of `ss`
    have hwD : ∀ k ∈ List.range' ps (ss - ps), RoundedFrom 3
        (if env.isChordRestType k = true
          then addDouble (st.width k) (divDouble (subDouble ww w) n) else st.width k)
        (st.width k + (if env.isChordRestType k = true then (ww - w) / n else 0)) := by
      intro k hk
      have hk1 := List.mem_range'_1.mp hk
      have hwk : 0 ≤ st.width k := hwidth k hk1.1 (by omega)
      by_cases hcr : env.isChordRestType k = true
      · rw [if_pos hcr, if_pos hcr]
        exact roundedFrom_addDouble
          (roundedFrom_mono (roundedFrom_refl _ hwk) (Nat.zero_le _)) hd
      · rw [if_neg hcr, if_neg hcr, add_zero]
        exact roundedFrom_mono (roundedFrom_refl _ hwk) (Nat.zero_le _)
    have hxx := foldl_addDouble_rounded
      (fun k => if env.isChordRestType k = true
        then addDouble (st.width k) (divDouble (subDouble ww w) n) else st.width k)
      (fun k => st.width k + (if env.isChordRestType k = true then (ww - w) / n else 0))
      3 (List.range' ps (ss - ps)) hwD 0 (st.xpos ps) (st.xpos ps)
      (roundedFrom_mono (roundedFrom_refl _ hp) (Nat.zero_le _))
    rw [← i1, List.length_range', sum_range_widened] at hxx
    have hw' : RoundedFrom (3 + 0 + (ss - ps)) (addDouble w (divDouble (subDouble ww w) n))
        (w + (ww - w) / n) :=
      roundedFrom_mono (roundedFrom_addDouble
        (roundedFrom_mono (roundedFrom_refl _ hw0) (Nat.zero_le _)) hd) (by omega)
    have hns1 := roundedFrom_addDouble hxx hw'
    have hexact : st.xpos ps + (((List.range' ps (ss - ps)).map st.width).sum
        + ((List.range' ps (ss - ps)).countP env.isChordRestType : ℕ) * ((ww - w) / n))
        + (w + (ww - w) / n)
        = (st.xpos ps + ((List.range' ps (ss - ps)).map st.width).sum) + ww := by
      have hn2 : (n : ℚ) = 1 + ((List.range' ps (ss - ps)).countP env.isChordRestType : ℕ) := by
        exact_mod_cast hcount
      have hne0 : (n : ℚ) ≠ 0 := hnpos.ne'
      have hq : ((List.range' ps (ss - ps)).countP env.isChordRestType : ℕ) * ((ww - w) / n)
          + (ww - w) / n = ww - w := by
        have : ((List.range' ps (ss - ps)).countP env.isChordRestType : ℕ) * ((ww - w) / n)
            + (ww - w) / n = (n : ℚ) * ((ww - w) / n) := by
          rw [hn2]
          ring
        rw [this]
        field_simp
      linarith
    rw [hexact] at hns1
    -- the current position and the widths
    have hx := positionsFollowDouble_rounded st ss ps x hfollow hps hp hwidth
    have h2 : RoundedFrom (ss - ps)
        (st.xpos ps + ((List.range' ps (ss - ps)).map st.width).sum + ww) (x + ww) :=
      roundedFrom_add (roundedFrom_symm hx)
        (roundedFrom_mono (roundedFrom_refl _ hww0.le) (Nat.zero_le _))
    -- the minimum distance
    have h3 : RoundedFrom 1 (x + ww)
        (st.xpos ps + env.minHorizontalDistance ps (ss + 1) false) := by
      have e1 : x + ww = st.xpos ps + ((x - st.xpos ps) + ww) := by ring
      have e2 : st.xpos ps + env.minHorizontalDistance ps (ss + 1) false
          = st.xpos ps + (subDouble x (st.xpos ps)
            + (env.minHorizontalDistance ps (ss + 1) false - subDouble x (st.xpos ps))) := by
        ring
      rw [e1, e2]
      exact roundedFrom_add (roundedFrom_mono (roundedFrom_refl _ hp) (Nat.zero_le _))
        (roundedFrom_add (roundedFrom_symm hsx) hwwB)
    exact roundedFrom_mono (roundedFrom_trans (roundedFrom_trans hns1 h2) h3) (by omega)

/-- The positions that the loop that distributes the extra space sets in double precision:
positions behind the range stay, the position behind the last segment of the range is the
final `xx`, and within the range every position is the rounded sum of the position and the
new width of the segment in front of it. -/
theorem widenLoopDouble_positions (env : MinWidthEnv) (d : ℚ) :
    ∀ (count s : Nat) (st : MinWidthState) (xx : ℚ),
      (∀ k, s + count < k → (widenLoopDouble env d count s st xx).1.xpos k = st.xpos k)
        ∧ (0 < count → (widenLoopDouble env d count s st xx).1.xpos (s + count)
            = (widenLoopDouble env d count s st xx).2)
        ∧ (xx = st.xpos s → ∀ k, s ≤ k → k < s + count →
            (widenLoopDouble env d count s st xx).1.xpos (k + 1)
              = addDouble ((widenLoopDouble env d count s st xx).1.xpos k)
                  ((widenLoopDouble env d count s st xx).1.width k)) := by
  intro count
  induction count with
  | zero =>
    intro s st xx
    unfold widenLoopDouble
    refine ⟨fun _ _ => rfl, fun h => absurd h (lt_irrefl 0), ?_⟩
    intro _ k h1 h2
    omega
  | succ count ih =>
    intro s st xx
    obtain ⟨j1, j2, j3⟩ := widenLoopDouble_spec env d (count + 1) s st xx
    unfold widenLoopDouble at j1 j2 j3 ⊢
    simp only [] at j1 j2 j3 ⊢
    obtain ⟨hw1, hx1, hxx1⟩ := widenStepDouble_spec env d s st xx
    generalize (widenStepDouble env d s st xx).1 = st1 at hw1 hx1 hxx1 j1 j2 j3 ⊢
    generalize (widenStepDouble env d s st xx).2 = xx1 at hx1 hxx1 j1 j2 j3 ⊢
    subst hxx1
    obtain ⟨i4, i5, i6⟩ := ih (s + 1) st1 (addDouble xx (st1.width s))
    obtain ⟨k1, k2, k3⟩ := widenLoopDouble_spec env d count (s + 1) st1
      (addDouble xx (st1.width s))
    refine ⟨?_, ?_, ?_⟩
    · intro k hk
      rw [i4 k (by omega), hx1 k]
      have : ¬ k = s + 1 := by omega
      rw [if_neg this]
    · intro _
      have e : s + (count + 1) = s + 1 + count := by omega
      rw [e]
      by_cases hc0 : 0 < count
      · exact i5 hc0
      · have hz : count = 0 := by omega
        subst hz
        rw [k3 (s + 1 + 0) (by omega), k1, hx1]
        simp
    · intro hxx k hk1 hk2
      by_cases hk : k = s
      · subst hk
        rw [k3 (k + 1) (le_refl _), k3 k (by omega), hx1 (k + 1), hx1 k, k2 k]
        have h1 : ¬ (k + 1 ≤ k ∧ k < k + 1 + count ∧ env.isChordRestType k = true) := by
          omega
        have h2 : ¬ k = k + 1 := by omega
        rw [if_pos rfl, if_neg h2, if_neg h1, hxx]
      · have hx : addDouble xx (st1.width s) = st1.xpos (s + 1) := by
          rw [hx1 (s + 1), if_pos rfl]
        exact i6 hx k (by omega) (by omega)

theorem lookBackDouble_first (env : MinWidthEnv) (st : MinWidthState) (ns : Nat) (w : ℚ)
    (fuel n0 ps n : Nat) (ww : ℚ)
    (h : lookBackDouble env st 0 ns w fuel 0 n0 = some (ps, n, ww)) : ps = 0 := by
  cases fuel with
  | zero => exact Option.noConfusion h
  | succ fuel =>
    unfold lookBackDouble at h
    simp only [if_true] at h
    split_ifs at h
    simp only [Option.some.injEq, Prod.mk.injEq] at h
    exact h.1.symm

/-- Every round of the loop of `computeMinWidth` in double precision keeps the positions in
line with the widths; before the first round (`ss = 0`) they are so for every state. -/
theorem computeMinWidthStepDouble_follow (env : MinWidthEnv) (st : MinWidthState) (ss : Nat)
    (x : ℚ) (isSystemHeader : Bool) (hfollow : positionsFollowDouble st ss x) :
    positionsFollowDouble (computeMinWidthStepDouble env st ss x isSystemHeader).1 (ss + 1)
      (computeMinWidthStepDouble env st ss x isSystemHeader).2.1 := by
  have hplain : ∀ w : ℚ,
      positionsFollowDouble { xpos := Function.update st.xpos ss x,
                              width := Function.update st.width ss w } (ss + 1)
        (addDouble x w) := by
    intro w
    constructor
    · intro k hk
      have hk1 : k ≠ ss := by omega
      simp only []
      rw [Function.update_noteq hk1, Function.update_noteq hk1]
      by_cases hlast : k + 1 = ss
      · rw [hlast, Function.update_same]
        have h := hfollow.2 (by omega)
        have e : ss - 1 = k := by omega
        rw [e] at h
        exact h
      · rw [Function.update_noteq hlast]
        exact hfollow.1 k (by omega)
    · intro _
      have e : ss + 1 - 1 = ss := by omega
      simp [e]
  by_cases hns : ss + 1 < env.segments.length
  · cases hlb : lookBackDouble env { st with xpos := Function.update st.xpos ss x } ss (ss + 1)
        (env.minHorizontalDistance ss (ss + 1)
          (isSystemHeader && env.isChordRestType (ss + 1))) (ss + 1) ss 1 with
    | none =>
      have hstep : computeMinWidthStepDouble env st ss x isSystemHeader
          = ({ xpos := Function.update st.xpos ss x,
               width := Function.update st.width ss (env.minHorizontalDistance ss (ss + 1)
                 (isSystemHeader && env.isChordRestType (ss + 1))) },
             addDouble x (env.minHorizontalDistance ss (ss + 1)
                 (isSystemHeader && env.isChordRestType (ss + 1))),
             if (isSystemHeader && env.isChordRestType (ss + 1)) = true then false
               else isSystemHeader) := by
        unfold computeMinWidthStepDouble
        simp only [hns, if_true, hlb]
      rw [hstep]
      exact hplain _
    | some res =>
      obtain ⟨ps, n, ww⟩ := res
      by_cases hss : ss = 0
      · subst hss
        have hps : ps = 0 := lookBackDouble_first env _ _ _ _ _ _ _ _ hlb
        subst hps
        have hstep : computeMinWidthStepDouble env st 0 x isSystemHeader
            = ({ xpos := Function.update st.xpos 0 x,
                 width := Function.update st.width 0
                   (addDouble (env.minHorizontalDistance 0 (0 + 1)
                     (isSystemHeader && env.isChordRestType (0 + 1)))
                     (divDouble (subDouble ww (env.minHorizontalDistance 0 (0 + 1)
                       (isSystemHeader && env.isChordRestType (0 + 1)))) n)) },
               addDouble x (addDouble (env.minHorizontalDistance 0 (0 + 1)
                     (isSystemHeader && env.isChordRestType (0 + 1)))
                     (divDouble (subDouble ww (env.minHorizontalDistance 0 (0 + 1)
                       (isSystemHeader && env.isChordRestType (0 + 1)))) n)),
               if (isSystemHeader && env.isChordRestType (0 + 1)) = true then false
                 else isSystemHeader) := by
          unfold computeMinWidthStepDouble
          simp only [hns, if_true, hlb, Nat.sub_self, widenLoopDouble, Function.update_same]
        rw [hstep]
        exact hplain _
      · have hsp := lookBackDouble_spec env { st with xpos := Function.update st.xpos ss x }
          ss (ss + 1) _ (ss + 1) ss 1 ps n ww (by omega) hlb
        have hps : ps < ss := by omega
        have hne : ps ≠ ss := by omega
        obtain ⟨i1, i2, i3⟩ := widenLoopDouble_spec env
          (divDouble (subDouble ww (env.minHorizontalDistance ss (ss + 1)
            (isSystemHeader && env.isChordRestType (ss + 1)))) n) (ss - ps) ps
          { st with xpos := Function.update st.xpos ss x }
          ((Function.update st.xpos ss x) ps)
        obtain ⟨i4, i5, i6⟩ := widenLoopDouble_positions env
          (divDouble (subDouble ww (env.minHorizontalDistance ss (ss + 1)
            (isSystemHeader && env.isChordRestType (ss + 1)))) n) (ss - ps) ps
          { st with xpos := Function.update st.xpos ss x }
          ((Function.update st.xpos ss x) ps)
        have hstep : computeMinWidthStepDouble env st ss x isSystemHeader
            = ({ (widenLoopDouble env
                    (divDouble (subDouble ww (env.minHorizontalDistance ss (ss + 1)
                      (isSystemHeader && env.isChordRestType (ss + 1)))) n) (ss - ps) ps
                    { st with xpos := Function.update st.xpos ss x }
                    ((Function.update st.xpos ss x) ps)).1 with
                  width := Function.update (widenLoopDouble env
                    (divDouble (subDouble ww (env.minHorizontalDistance ss (ss + 1)
                      (isSystemHeader && env.isChordRestType (ss + 1)))) n) (ss - ps) ps
                    { st with xpos := Function.update st.xpos ss x }
                    ((Function.update st.xpos ss x) ps)).1.width ss
                      (addDouble (env.minHorizontalDistance ss (ss + 1)
                        (isSystemHeader && env.isChordRestType (ss + 1)))
                        (divDouble (subDouble ww (env.minHorizontalDistance ss (ss + 1)
                          (isSystemHeader && env.isChordRestType (ss + 1)))) n)) },
                addDouble (widenLoopDouble env
                    (divDouble (subDouble ww (env.minHorizontalDistance ss (ss + 1)
                      (isSystemHeader && env.isChordRestType (ss + 1)))) n) (ss - ps) ps
                    { st with xpos := Function.update st.xpos ss x }
                    ((Function.update st.xpos ss x) ps)).2
                  (addDouble (env.minHorizontalDistance ss (ss + 1)
                    (isSystemHeader && env.isChordRestType (ss + 1)))
                    (divDouble (subDouble ww (env.minHorizontalDistance ss (ss + 1)
                      (isSystemHeader && env.isChordRestType (ss + 1)))) n)),
                if (isSystemHeader && env.isChordRestType (ss + 1)) = true then false
                  else isSystemHeader) := by
          unfold computeMinWidthStepDouble
          simp only [hns, if_true, hlb]
        rw [hstep]
        generalize hr : widenLoopDouble env
          (divDouble (subDouble ww (env.minHorizontalDistance ss (ss + 1)
            (isSystemHeader && env.isChordRestType (ss + 1)))) n) (ss - ps) ps
          { st with xpos := Function.update st.xpos ss x }
          ((Function.update st.xpos ss x) ps) = r at i1 i2 i3 i4 i5 i6
        have hend : ps + (ss - ps) = ss := by omega
        rw [hend] at i2 i5 i6
        simp only [] at i2 i3 i5 i6
        constructor
        · intro k hk
          simp only []
          have hkss : k ≠ ss := by omega
          rw [Function.update_noteq hkss]
          by_cases hkp : k < ps
          · have h1 : ¬ (ps ≤ k ∧ k < ss ∧ env.isChordRestType k = true) := by omega
            have hk1 : k + 1 ≠ ss := by omega
            rw [i3 (k + 1) (by omega), i3 k (by omega), i2 k, if_neg h1,
              Function.update_noteq hk1, Function.update_noteq hkss]
            exact hfollow.1 k (by omega)
          · exact i6 trivial k (by omega) (by omega)
        · intro _
          have e : r.1.xpos ss = r.2 := i5 (by omega)
          simp [e]
  · have hstep : computeMinWidthStepDouble env st ss x isSystemHeader
        = ({ xpos := Function.update st.xpos ss x,
             width := Function.update st.width ss (match env.segments.get? ss with
               | some s => if s.type = WidthSegmentType.EndBarLine then 0 else s.minRight
               | none => 0) },
           addDouble x (match env.segments.get? ss with
               | some s => if s.type = WidthSegmentType.EndBarLine then 0 else s.minRight
               | none => 0),
           isSystemHeader) := by
      unfold computeMinWidthStepDouble
      simp only [hns, if_false]
    rw [hstep]
    exact hplain _

theorem positionsFollowDouble_start (st : MinWidthState) (x : ℚ) :
    positionsFollowDouble st 0 x :=
  ⟨fun _ hk => absurd hk (Nat.not_lt_zero _), fun h => absurd h (lt_irrefl 0)⟩

/-- C30 (amended): the look-back correction. In a round of the loop of `computeMinWidth`
for the segment `ss` with a next segment `ns`, let the look-back find the earlier segment
`ps` with `ww > w`. In rational arithmetic (the operations on `qreal` taken as those of the
rationals, no rounding), entered with positions that follow from the widths: `ps` is the
nearest earlier segment whose minimum horizontal distance to `ns` exceeds the space from
`ps` to `ss` plus `w`; `n` is 1 plus the number of chord/rest segments from `ps` up to but
excluding `ss`, so at least 1; with the share `d = (ww - w) / n` every chord/rest segment
from `ps` up to but excluding `ss` gets its width plus `d`, `ss` gets the width `w + d`, and
no other width changes; `ps` keeps its position and the position that `ns` gets is the
position of `ps` plus the minimum horizontal distance of `ps` to `ns`; with no chord/rest
segment in that range `ss` gets the width `w + (ww - w)` and no other width changes; and the
new positions follow from the new widths. In double precision (`computeMinWidthStepDouble`,
with the segment `ps` that `lookBackDouble` finds) the same holds with every sum, difference
and quotient rounded, but for the position of `ns`: with positions that follow from the
widths and positions and widths that are not negative, it differs from the position of `ps`
plus the minimum distance by at most the fraction `(2 * (ss - ps) + 5) / 2 ^ 51` of the
larger of the two. -/
theorem computeMinWidth_lookBack (env : MinWidthEnv) (st : MinWidthState) (ss : Nat)
    (x w : ℚ) (isSystemHeader : Bool) (ps n : Nat) (ww : ℚ)
    (hfollow : positionsFollow st ss x)
    (hns : ss + 1 < env.segments.length)
    (hw : w = env.minHorizontalDistance ss (ss + 1)
      (isSystemHeader && env.isChordRestType (ss + 1)))
    (hlb : lookBack env { st with xpos := Function.update st.xpos ss x } ss (ss + 1) w
      (ss + 1) ss 1 = some (ps, n, ww))
    (hps : ps < ss) :
    (ww = env.minHorizontalDistance ps (ss + 1) false - (x - st.xpos ps) ∧ ww > w
        ∧ ∀ q, ps < q → q < ss →
            env.minHorizontalDistance q (ss + 1) false - (x - st.xpos q) ≤ w)
      ∧ (n = 1 + (List.range' ps (ss - ps)).countP env.isChordRestType ∧ n ≥ 1)
      ∧ (∀ k, (computeMinWidthStep env st ss x isSystemHeader).1.width k
          = if k = ss then w + (ww - w) / n
            else if ps ≤ k ∧ k < ss ∧ env.isChordRestType k = true
              then st.width k + (ww - w) / n
            else st.width k)
      ∧ (computeMinWidthStep env st ss x isSystemHeader).1.xpos ps = st.xpos ps
      ∧ (computeMinWidthStep env st ss x isSystemHeader).2.1
          - (computeMinWidthStep env st ss x isSystemHeader).1.xpos ps
          = env.minHorizontalDistance ps (ss + 1) false
      ∧ ((List.range' ps (ss - ps)).countP env.isChordRestType = 0 →
          (computeMinWidthStep env st ss x isSystemHeader).1.width ss = w + (ww - w)
          ∧ ∀ k, k ≠ ss →
              (computeMinWidthStep env st ss x isSystemHeader).1.width k = st.width k)
      ∧ positionsFollow (computeMinWidthStep env st ss x isSystemHeader).1 (ss + 1)
          (computeMinWidthStep env st ss x isSystemHeader).2.1
      ∧ (∀ (pd nd : Nat) (wd : ℚ),
          lookBackDouble env { st with xpos := Function.update st.xpos ss x } ss (ss + 1) w
            (ss + 1) ss 1 = some (pd, nd, wd) →
          pd < ss →
          (wd = subDouble (env.minHorizontalDistance pd (ss + 1) false)
                (subDouble x (st.xpos pd))
            ∧ wd > w
            ∧ ∀ q, pd < q → q < ss →
                ¬ (subDouble (env.minHorizontalDistance q (ss + 1) false)
                    (subDouble x (st.xpos q)) > w))
          ∧ (nd = 1 + (List.range' pd (ss - pd)).countP env.isChordRestType ∧ nd ≥ 1)
          ∧ (∀ k, (computeMinWidthStepDouble env st ss x isSystemHeader).1.width k
              = if k = ss then addDouble w (divDouble (subDouble wd w) nd)
                else if pd ≤ k ∧ k < ss ∧ env.isChordRestType k = true
                  then addDouble (st.width k) (divDouble (subDouble wd w) nd)
                else st.width k)
          ∧ (computeMinWidthStepDouble env st ss x isSystemHeader).1.xpos pd = st.xpos pd
          ∧ ((List.range' pd (ss - pd)).countP env.isChordRestType = 0 →
              (computeMinWidthStepDouble env st ss x isSystemHeader).1.width ss
                = addDouble w (subDouble wd w)
              ∧ ∀ k, k ≠ ss →
                  (computeMinWidthStepDouble env st ss x isSystemHeader).1.width k
                    = st.width k)
          ∧ (positionsFollowDouble st ss x → 0 ≤ st.xpos pd → st.xpos pd ≤ x →
              (∀ k, pd ≤ k → k < ss → 0 ≤ st.width k) → 0 ≤ w →
              2 * (ss - pd) + 5 ≤ 2 ^ 51 →
              |(computeMinWidthStepDouble env st ss x isSystemHeader).2.1
                  - (st.xpos pd + env.minHorizontalDistance pd (ss + 1) false)|
                ≤ ((2 * (ss - pd) + 5 : ℕ) : ℚ) / 2 ^ 51
                  * max (computeMinWidthStepDouble env st ss x isSystemHeader).2.1
                      (st.xpos pd + env.minHorizontalDistance pd (ss + 1) false))) := by
  obtain ⟨c1, c2, c3, c4, c5, c6, c7⟩ :=
    computeMinWidthStep_correction env st ss x w isSystemHeader ps n ww hfollow hns hw hlb hps
  refine ⟨c1, c2, c3, c4, c5, c6, c7, ?_⟩
  intro pd nd wd hlbd hpd
  obtain ⟨d1, d2, d3, d4, d5, d6⟩ :=
    computeMinWidthStepDouble_correction env st ss x w isSystemHeader pd nd wd hns hw hlbd hpd
  exact ⟨d1, d2, d3, d4, d5, fun hf hp hpx hwd hw0 hK =>
    roundedFrom_abs (d6 hf hp hpx hwd hw0) hK⟩

theorem lookBack_first (env : MinWidthEnv) (st : MinWidthState) (ns : Nat) (w : ℚ)
    (fuel n0 ps n : Nat) (ww : ℚ)
    (h : lookBack env st 0 ns w fuel 0 n0 = some (ps, n, ww)) : ps = 0 := by
  cases fuel with
  | zero => exact Option.noConfusion h
  | succ fuel =>
    unfold lookBack at h
    simp only [if_true] at h
    split_ifs at h
    simp only [Option.some.injEq, Prod.mk.injEq] at h
    exact h.1.symm

/-- Every round of the loop of `computeMinWidth` keeps the positions in line with the
widths; before the first round (`ss = 0`) they are so for every state. -/
theorem computeMinWidthStep_follow (env : MinWidthEnv) (st : MinWidthState) (ss : Nat)
    (x : ℚ) (isSystemHeader : Bool) (hfollow : positionsFollow st ss x) :
    positionsFollow (computeMinWidthStep env st ss x isSystemHeader).1 (ss + 1)
      (computeMinWidthStep env st ss x isSystemHeader).2.1 := by
  have hplain : ∀ w : ℚ,
      positionsFollow { xpos := Function.update st.xpos ss x,
                        width := Function.update st.width ss w } (ss + 1) (x + w) := by
    intro w
    constructor
    · intro k hk
      have hk1 : k ≠ ss := by omega
      simp only []
      rw [Function.update_noteq hk1, Function.update_noteq hk1]
      by_cases hlast : k + 1 = ss
      · rw [hlast, Function.update_same]
        have h := hfollow.2 (by omega)
        have e : ss - 1 = k := by omega
        rw [e] at h
        exact h
      · rw [Function.update_noteq hlast]
        exact hfollow.1 k (by omega)
    · intro _
      have e : ss + 1 - 1 = ss := by omega
      simp [e]
  by_cases hns : ss + 1 < env.segments.length
  · cases hlb : lookBack env { st with xpos := Function.update st.xpos ss x } ss (ss + 1)
        (env.minHorizontalDistance ss (ss + 1)
          (isSystemHeader && env.isChordRestType (ss + 1))) (ss + 1) ss 1 with
    | none =>
      have hstep : computeMinWidthStep env st ss x isSystemHeader
          = ({ xpos := Function.update st.xpos ss x,
               width := Function.update st.width ss (env.minHorizontalDistance ss (ss + 1)
                 (isSystemHeader && env.isChordRestType (ss + 1))) },
             x + env.minHorizontalDistance ss (ss + 1)
                 (isSystemHeader && env.isChordRestType (ss + 1)),
             if (isSystemHeader && env.isChordRestType (ss + 1)) = true then false
               else isSystemHeader) := by
        unfold computeMinWidthStep
        simp only [hns, if_true, hlb]
      rw [hstep]
      exact hplain _
    | some res =>
      obtain ⟨ps, n, ww⟩ := res
      by_cases hss : ss = 0
      · subst hss
        have hps : ps = 0 := lookBack_first env _ _ _ _ _ _ _ _ hlb
        subst hps
        have hstep : computeMinWidthStep env st 0 x isSystemHeader
            = ({ xpos := Function.update st.xpos 0 x,
                 width := Function.update st.width 0 (env.minHorizontalDistance 0 (0 + 1)
                   (isSystemHeader && env.isChordRestType (0 + 1))
                   + (ww - env.minHorizontalDistance 0 (0 + 1)
                   (isSystemHeader && env.isChordRestType (0 + 1))) / n) },
               x + (env.minHorizontalDistance 0 (0 + 1)
                   (isSystemHeader && env.isChordRestType (0 + 1))
                   + (ww - env.minHorizontalDistance 0 (0 + 1)
                   (isSystemHeader && env.isChordRestType (0 + 1))) / n),
               if (isSystemHeader && env.isChordRestType (0 + 1)) = true then false
                 else isSystemHeader) := by
          unfold computeMinWidthStep
          simp only [hns, if_true, hlb, Nat.sub_self, widenLoop, Function.update_same]
        rw [hstep]
        exact hplain _
      · have hsp := lookBack_spec env { st with xpos := Function.update st.xpos ss x } ss
          (ss + 1) _ (ss + 1) ss 1 ps n ww (by omega) hlb
        exact (computeMinWidthStep_correction env st ss x _ isSystemHeader ps n ww hfollow hns
          rfl hlb hsp.1).2.2.2.2.2.2
  · have hstep : computeMinWidthStep env st ss x isSystemHeader
        = ({ xpos := Function.update st.xpos ss x,
             width := Function.update st.width ss (match env.segments.get? ss with
               | some s => if s.type = WidthSegmentType.EndBarLine then 0 else s.minRight
               | none => 0) },
           x + (match env.segments.get? ss with
               | some s => if s.type = WidthSegmentType.EndBarLine then 0 else s.minRight
               | none => 0),
           isSystemHeader) := by
      unfold computeMinWidthStep
      simp only [hns, if_false]
    rw [hstep]
    exact hplain _

theorem positionsFollow_start (st : MinWidthState) (x : ℚ) : positionsFollow st 0 x :=
  ⟨fun _ hk => absurd hk (Nat.not_lt_zero _), fun h => absurd h (lt_irrefl 0)⟩

theorem computeMinWidth_example_lookBack :
    lookBack exampleWidthEnv
        { exampleWidthState with xpos := Function.update exampleWidthState.xpos 1 10 }
        1 (1 + 1) 10 (1 + 1) 1 1 = some (0, 2, 20) := by
  simp [lookBack, exampleWidthEnv, exampleWidthState, MinWidthEnv.isChordRestType,
    Function.update]
  norm_num

theorem computeMinWidth_example_lookBackDouble :
    lookBackDouble exampleWidthEnv
        { exampleWidthState with xpos := Function.update exampleWidthState.xpos 1 10 }
        1 (1 + 1) 10 (1 + 1) 1 1 = some (0, 2, 20) := by
  decide!

theorem computeMinWidth_example_followDouble : positionsFollowDouble exampleWidthState 1 10 :=
  ⟨fun _ hk => absurd hk (by omega), fun _ => by decide!⟩

theorem computeMinWidth_lookBack_witness :
    (positionsFollow exampleWidthState 1 10
      ∧ 1 + 1 < exampleWidthEnv.segments.length
      ∧ (10 : ℚ) = exampleWidthEnv.minHorizontalDistance 1 (1 + 1)
          (false && exampleWidthEnv.isChordRestType (1 + 1))
      ∧ lookBack exampleWidthEnv
          { exampleWidthState with xpos := Function.update exampleWidthState.xpos 1 10 }
          1 (1 + 1) 10 (1 + 1) 1 1 = some (0, 2, 20)
      ∧ 0 < 1)
    ∧ ((2 = 1 + (List.range' 0 (1 - 0)).countP exampleWidthEnv.isChordRestType ∧ 2 ≥ 1)
      ∧ (computeMinWidthStep exampleWidthEnv exampleWidthState 1 10 false).2.1
          - (computeMinWidthStep exampleWidthEnv exampleWidthState 1 10 false).1.xpos 0
          = exampleWidthEnv.minHorizontalDistance 0 (1 + 1) false)
    ∧ (lookBackDouble exampleWidthEnv
          { exampleWidthState with xpos := Function.update exampleWidthState.xpos 1 10 }
          1 (1 + 1) 10 (1 + 1) 1 1 = some (0, 2, 20)
      ∧ positionsFollowDouble exampleWidthState 1 10)
    ∧ |(computeMinWidthStepDouble exampleWidthEnv exampleWidthState 1 10 false).2.1
          - (exampleWidthState.xpos 0 + exampleWidthEnv.minHorizontalDistance 0 (1 + 1) false)|
        ≤ ((2 * (1 - 0) + 5 : ℕ) : ℚ) / 2 ^ 51
          * max (computeMinWidthStepDouble exampleWidthEnv exampleWidthState 1 10 false).2.1
              (exampleWidthState.xpos 0
                + exampleWidthEnv.minHorizontalDistance 0 (1 + 1) false) :=
  ⟨⟨⟨fun _ hk => absurd hk (by omega), fun _ => by simp [exampleWidthState]⟩,
      by decide, by simp [exampleWidthEnv], computeMinWidth_example_lookBack, by decide⟩,
    ⟨(computeMinWidth_lookBack exampleWidthEnv exampleWidthState 1 10 10 false 0 2 20
        ⟨fun _ hk => absurd hk (by omega), fun _ => by simp [exampleWidthState]⟩
        (by decide) (by simp [exampleWidthEnv]) computeMinWidth_example_lookBack
        (by decide)).2.1,
      (computeMinWidth_lookBack exampleWidthEnv exampleWidthState 1 10 10 false 0 2 20
        ⟨fun _ hk => absurd hk (by omega), fun _ => by simp [exampleWidthState]⟩
        (by decide) (by simp [exampleWidthEnv]) computeMinWidth_example_lookBack
        (by decide)).2.2.2.2.1⟩,
    ⟨computeMinWidth_example_lookBackDouble, computeMinWidth_example_followDouble⟩,
    ((computeMinWidth_lookBack exampleWidthEnv exampleWidthState 1 10 10 false 0 2 20
        ⟨fun _ hk => absurd hk (by omega), fun _ => by simp [exampleWidthState]⟩
        (by decide) (by simp [exampleWidthEnv]) computeMinWidth_example_lookBack
        (by decide)).2.2.2.2.2.2.2 0 2 20 computeMinWidth_example_lookBackDouble
        (by decide)).2.2.2.2.2 computeMinWidth_example_followDouble
      (by simp [exampleWidthState]) (by simp [exampleWidthState])
      (fun k _ _ => by simp only [exampleWidthState]; split <;> norm_num) (by norm_num)
      (by norm_num)⟩

/-! ## Multi-measure rests: where a run starts and ends -/

/-- C31: in the run loop of `getNextMeasure`, entered at the measure `m` with the count 0,
the measure `m` is accepted whenever it is valid for a multi-measure rest, whether
`breakMultiMeasureRest` holds for it or not; the run goes on over the valid measures `tl`
for which `breakMultiMeasureRest` is false, and a following measure `x` for which it is
true ends the run and is not part of it: the run has the count 1 plus the length of `tl`,
its last measure is the last of `tl`, and the loop stops in front of `x`. -/
theorem getNextMeasure_run_start_and_break (showVBox : Bool) (m x : ScoreMeasure)
    (tl rest : List ScoreMeasure)
    (hm : m.isMeasure = true ∧ m.valid = true)
    (htl : ∀ y ∈ tl, y.isMeasure = true ∧ y.valid = true ∧ y.breaks = false)
    (hx : x.isMeasure = true ∧ x.breaks = true) :
    (mmRestRun showVBox (m :: tl ++ x :: rest) { measureNo := m.no }).2 = x :: rest
      ∧ (mmRestRun showVBox (m :: tl ++ x :: rest) { measureNo := m.no }).1.n = 1 + tl.length
      ∧ (mmRestRun showVBox (m :: tl ++ x :: rest) { measureNo := m.no }).1.lmPos = tl.length
      ∧ (mmRestRun showVBox (m :: tl ++ x :: rest) { measureNo := m.no }).1.passed
          = (renumberRun m.no (m :: tl)).1
      ∧ (mmRestRun showVBox (m :: tl ++ x :: rest) { measureNo := m.no }).1.len
          = ((m :: tl).map fun y => y.len).sum := by
  have h := mmRestRun_run showVBox (x :: rest)
    (Or.inr ⟨x, rest, rfl, hx.1, Or.inr hx.2⟩) (m :: tl) { measureNo := m.no }
    (by
      intro y hy
      rcases List.mem_cons.mp hy with rfl | hy
      · exact hm
      · exact ⟨(htl y hy).1, (htl y hy).2.1⟩)
    (fun y hy => (htl y hy).2.2)
    (fun _ => List.cons_ne_nil _ _)
    (fun h0 => absurd rfl h0)
  rw [h]
  refine ⟨rfl, ?_, ?_, ?_, ?_⟩
  · simp only [List.length_cons]
    omega
  · simp
  · simp
  · simp

theorem getNextMeasure_run_start_and_break_witness :
    (((exampleBreakingRun.getD 0 {id := 0}).isMeasure = true
        ∧ (exampleBreakingRun.getD 0 {id := 0}).valid = true)
      ∧ (exampleBreakingRun.getD 0 {id := 0}).breaks = true)
    ∧ (mmRestRun false exampleBreakingRun { measureNo := 4 }).2 = exampleBreakingRun.drop 2
    ∧ (mmRestRun false exampleBreakingRun { measureNo := 4 }).1.n = 1 + 1 :=
  ⟨⟨⟨rfl, rfl⟩, rfl⟩,
    (getNextMeasure_run_start_and_break false { id := 0, no := 4, breaks := true }
      { id := 2, tick := 3840, breaks := true } [{ id := 1, tick := 1920 }]
      [{ id := 3, tick := 5760, valid := false }] ⟨rfl, rfl⟩
      (by intro y hy; simp at hy; subst hy; exact ⟨rfl, rfl, rfl⟩) ⟨rfl, rfl⟩).1,
    (getNextMeasure_run_start_and_break false { id := 0, no := 4, breaks := true }
      { id := 2, tick := 3840, breaks := true } [{ id := 1, tick := 1920 }]
      [{ id := 3, tick := 5760, valid := false }] ⟨rfl, rfl⟩
      (by intro y hy; simp at hy; subst hy; exact ⟨rfl, rfl, rfl⟩) ⟨rfl, rfl⟩).2.1⟩

/-! ## Chord layout: only one group is displaced -/

theorem overlapOffsets_one_zero (env : Chords1Env) (g : Chords1Groups) (st : OverlapState)
    (overlapNotes : List Note) (bu td : Note) (mu md : ℚ) (o : Chords1Offsets)
    (hu : o.upOffset = 0) (hd : o.downOffset = 0) :
    (overlapOffsets env g st overlapNotes bu td mu md o).upOffset = 0
      ∨ (overlapOffsets env g st overlapNotes bu td mu md o).downOffset = 0 := by
  unfold overlapOffsets
  simp only []
  by_cases h1 : st.shareHeads = true
  · simp only [h1, if_true]
    exact Or.inl hu
  · simp only [h1, if_false]
    by_cases h2 : (st.conflictUnison && decide (o.separation = 0)
        && (!g.downGrace || g.upGrace)) = true
    · simp only [h2, if_true]
      exact Or.inl hu
    · simp only [h2, if_false]
      by_cases h3 : st.conflictUnison = true
      · simp only [h3, if_true]
        exact Or.inr hd
      · simp only [h3, if_false]
        by_cases h4 : st.conflictSecondUpHigher = true
        · simp only [h4, if_true]
          exact Or.inr hd
        · simp only [h4, if_false]
          by_cases h5 : ((g.downHooks && !g.upHooks)
              && !(decide (g.upDots ≠ 0) && decide (g.downDots = 0))) = true
          · simp only [h5, if_true]
            exact Or.inl hu
          · simp only [h5, if_false]
            by_cases h6 : st.conflictSecondDownHigher = true
            · simp only [h6, if_true]
              by_cases h7 : (decide (g.downDots ≠ 0) && decide (g.upDots = 0)) = true
              · simp only [h7, if_true]
                exact Or.inl hu
              · simp only [h7, if_false]
                exact Or.inr hd
            · simp only [h6, if_false]
              by_cases h8 : o.centerDown > 0
              · simp only [h8, if_true]
                exact Or.inr hd
              · simp only [h8, if_false]
                exact Or.inr hd

theorem chordConflict_one_zero (env : Chords1Env) (g : Chords1Groups) (up down : List Note)
    (mu md cdn cau : ℚ) (o : Chords1Offsets)
    (h : chordConflict env g up down mu md cdn cau = some o) :
    o.upOffset = 0 ∨ o.downOffset = 0 := by
  unfold chordConflict at h
  cases hbu : up.head? with
  | none => simp [hbu] at h
  | some bu =>
      cases htd : down.getLast? with
      | none => simp [hbu, htd] at h
      | some td =>
          simp only [hbu, htd] at h
          generalize hs : (if bu.chord.staffMove = td.chord.staffMove then td.line - bu.line
            else 2) = sep at h
          by_cases h1 : sep = 1
          · simp only [h1, if_true, Option.some.injEq] at h
            subst h
            exact Or.inl rfl
          · simp only [h1, if_false] at h
            by_cases h2 : sep < 1
            · simp only [h2, if_true] at h
              cases hn : overlapNature sep (overlapNotesOf up down bu td) with
              | none => simp [hn] at h
              | some st =>
                  simp only [hn, Option.some.injEq] at h
                  subst h
                  exact overlapOffsets_one_zero env g st _ bu td mu md _ rfl rfl
            · simp only [h2, if_false, Option.some.injEq] at h
              subst h
              exact Or.inl rfl

/-- C34: whenever `layoutChords1` lays out the chords of a segment, at most one of the
up-stem offset and the down-stem offset of its collision resolution is not zero. -/
theorem layoutChords1_one_offset (env : Chords1Env) (elements : List (Option Chord))
    (r : Chords1Result) (h : layoutChords1 env elements = some r) :
    r.offsets.upOffset = 0 ∨ r.offsets.downOffset = 0 := by
  by_cases hboth : (gatherChords elements).upVoices ≠ 0
      ∧ (gatherChords elements).downVoices ≠ 0
  · obtain ⟨up2, down2, cdown, cadj, hc, _, _, _⟩ :=
      layoutChords1_inv env elements r h hboth.1 hboth.2
    exact chordConflict_one_zero env _ up2 down2 _ _ cdown cadj r.offsets hc
  · unfold layoutChords1 at h
    by_cases htab : env.isTabStaff = true
    · simp [htab] at h
    · simp only [htab, if_false] at h
      by_cases hv : (gatherChords elements).upVoices + (gatherChords elements).downVoices = 0
      · simp [hv] at h
      · simp only [hv, if_false, hboth, Bool.false_eq_true, Option.some.injEq] at h
        subst h
        exact Or.inl rfl

theorem layoutChords1_one_offset_witness :
    layoutChords1 exampleChordsEnv [some exampleUpChord, some exampleSecondDownChord, none, none]
        = some exampleSecondResult
    ∧ (exampleSecondResult.offsets.upOffset = 0 ∨ exampleSecondResult.offsets.downOffset = 0) :=
  ⟨layoutChords1_example_second,
    layoutChords1_one_offset exampleChordsEnv
      [some exampleUpChord, some exampleSecondDownChord, none, none] exampleSecondResult
      layoutChords1_example_second⟩

/-! ## Chord layout: the overlapping notes -/

theorem sortByLineDesc_mem (n : Note) (l : List Note) : n ∈ sortByLineDesc l ↔ n ∈ l := by
  unfold sortByLineDesc
  exact (List.perm_insertionSort _ l).mem_iff

theorem overlapNotesOf_mem (up down : List Note) (bu td : Note)
    (hbu : up.head? = some bu) (htd : down.getLast? = some td)
    (hsep : noteSeparation bu td < 1) :
    bu ∈ overlapNotesOf up down bu td ∧ td ∈ overlapNotesOf up down bu td := by
  have hline : td.line - bu.line < 1 := by
    unfold noteSeparation at hsep
    split_ifs at hsep
    · exact hsep
    · omega
  unfold overlapNotesOf
  rw [sortByLineDesc_mem, sortByLineDesc_mem]
  constructor
  · apply List.mem_append_left
    cases up with
    | nil => simp at hbu
    | cons a rest =>
      simp only [List.head?_cons, Option.some.injEq] at hbu
      subst hbu
      have hp : decide (a.line ≥ td.line - 1) = true := by
        rw [decide_eq_true_iff]
        omega
      simp only [List.takeWhile_cons, hp, if_true]
      exact List.mem_cons_self _ _
  · apply List.mem_append_right
    have hrev : down.reverse.head? = some td := by
      rw [List.head?_reverse]
      exact htd
    generalize down.reverse = dr at hrev
    cases dr with
    | nil => simp at hrev
    | cons a rest =>
      simp only [List.head?_cons, Option.some.injEq] at hrev
      subst hrev
      have hp : decide (a.line ≤ bu.line + 1) = true := by
        rw [decide_eq_true_iff]
        omega
      simp only [List.takeWhile_cons, hp, if_true]
      exact List.mem_cons_self _ _

theorem chordConflict_separation (env : Chords1Env) (g : Chords1Groups) (up down : List Note)
    (mu md cdn cau : ℚ) (bu td : Note)
    (hbu : up.head? = some bu) (htd : down.getLast? = some td)
    (hsep : noteSeparation bu td < 1) :
    chordConflict env g up down mu md cdn cau
      = (overlapNature (noteSeparation bu td) (overlapNotesOf up down bu td)).map
          (fun st =>
            let o := overlapOffsets env g st (overlapNotesOf up down bu td) bu td mu md
              { separation := noteSeparation bu td, centerDown := cdn, centerAdjustUp := cau,
                downDots := g.downDots }
            { o with dotAdjust := dotAdjustOf env g o }) := by
  unfold chordConflict
  simp only [hbu, htd]
  have hs : (if bu.chord.staffMove = td.chord.staffMove then td.line - bu.line else 2)
      = noteSeparation bu td := rfl
  rw [hs]
  have h1 : ¬ noteSeparation bu td = 1 := by omega
  simp only [h1, if_false, hsep, if_true]
  cases overlapNature (noteSeparation bu td) (overlapNotesOf up down bu td) <;> rfl

/-- C37: in `layoutChords1`, for the bottom up-stem note (the first of the up-stem notes)
and the top down-stem note (the last of the down-stem notes) with a separation below 1, the
list of overlapping notes holds both notes and is not empty, the loop that reads its
element 0 has a result, the conflict handling is that of the overlap branch and returns
offsets. -/
theorem layoutChords1_overlap_nonempty (env : Chords1Env) (g : Chords1Groups)
    (up down : List Note) (mu md cdn cau : ℚ) (bu td : Note)
    (hbu : up.head? = some bu) (htd : down.getLast? = some td)
    (hsep : noteSeparation bu td < 1) :
    overlapNotesOf up down bu td ≠ []
      ∧ bu ∈ overlapNotesOf up down bu td
      ∧ td ∈ overlapNotesOf up down bu td
      ∧ (overlapNature (noteSeparation bu td) (overlapNotesOf up down bu td)).isSome = true
      ∧ chordConflict env g up down mu md cdn cau
          = (overlapNature (noteSeparation bu td) (overlapNotesOf up down bu td)).map
              (fun st =>
                let o := overlapOffsets env g st (overlapNotesOf up down bu td) bu td mu md
                  { separation := noteSeparation bu td, centerDown := cdn,
                    centerAdjustUp := cau, downDots := g.downDots }
                { o with dotAdjust := dotAdjustOf env g o })
      ∧ (chordConflict env g up down mu md cdn cau).isSome = true := by
  have hmem := overlapNotesOf_mem up down bu td hbu htd hsep
  have hne : overlapNotesOf up down bu td ≠ [] := List.ne_nil_of_mem hmem.1
  have hnat : (overlapNature (noteSeparation bu td) (overlapNotesOf up down bu td)).isSome
      = true := by
    unfold overlapNature
    cases hl : overlapNotesOf up down bu td with
    | nil => exact absurd hl hne
    | cons a rest => rfl
  have hcc := chordConflict_separation env g up down mu md cdn cau bu td hbu htd hsep
  refine ⟨hne, hmem.1, hmem.2, hnat, hcc, ?_⟩
  rw [hcc, Option.isSome_map']
  exact hnat

theorem layoutChords1_overlap_nonempty_witness :
    ([exampleUnisonUp].head? = some exampleUnisonUp
      ∧ [exampleUnisonDown].getLast? = some exampleUnisonDown
      ∧ noteSeparation exampleUnisonUp exampleUnisonDown < 1)
    ∧ overlapNotesOf [exampleUnisonUp] [exampleUnisonDown] exampleUnisonUp exampleUnisonDown ≠ []
    ∧ exampleUnisonUp
        ∈ overlapNotesOf [exampleUnisonUp] [exampleUnisonDown] exampleUnisonUp exampleUnisonDown :=
  ⟨⟨rfl, rfl, by decide⟩,
    (layoutChords1_overlap_nonempty exampleChordsEnv {} [exampleUnisonUp] [exampleUnisonDown]
      0 0 0 0 exampleUnisonUp exampleUnisonDown rfl rfl (by decide)).1,
    (layoutChords1_overlap_nonempty exampleChordsEnv {} [exampleUnisonUp] [exampleUnisonDown]
      0 0 0 0 exampleUnisonUp exampleUnisonDown rfl rfl (by decide)).2.1⟩

/-! ## Distribution of the rest height: how far the systems move -/

theorem getLast?_cons_of_ne_nil {α : Type} (a : α) (l : List α) (h : l ≠ []) :
    (a :: l).getLast? = l.getLast? := by
  cases l with
  | nil => exact absurd rfl h
  | cons b t => rw [List.getLast?_cons_cons]

theorem countGaps_cons (s1 s2 : SystemRec) (rest : List SystemRec) :
    countGaps (s1 :: s2 :: rest)
      = (if (s1.vbox.isSome || s2.vbox.isSome) = true then 0 else 1)
          + countGaps (s2 :: rest) := rfl

theorem layoutPageLoop_cons (stretch maxDistance : ℚ) (s1 s2 : SystemRec)
    (rest : List SystemRec) (yoff : ℚ) :
    layoutPageLoop stretch maxDistance s1 (s2 :: rest) yoff
      = { s2 with pos := (s2.pos.1, s2.pos.2 +
            (if (!(s1.vbox.isSome || s2.vbox.isSome)) = true then
              yoff + (if (s2.pos.2 + yoff) - (s1.pos.2 + s1.height) + stretch > maxDistance then
                (if maxDistance - ((s2.pos.2 + yoff) - (s1.pos.2 + s1.height)) < 0 then 0
                  else maxDistance - ((s2.pos.2 + yoff) - (s1.pos.2 + s1.height)))
                else stretch)
            else yoff)) }
          :: layoutPageLoop stretch maxDistance
              { s2 with pos := (s2.pos.1, s2.pos.2 +
                (if (!(s1.vbox.isSome || s2.vbox.isSome)) = true then
                  yoff + (if (s2.pos.2 + yoff) - (s1.pos.2 + s1.height) + stretch > maxDistance then
                    (if maxDistance - ((s2.pos.2 + yoff) - (s1.pos.2 + s1.height)) < 0 then 0
                      else maxDistance - ((s2.pos.2 + yoff) - (s1.pos.2 + s1.height)))
                    else stretch)
                else yoff)) } rest
              (if (!(s1.vbox.isSome || s2.vbox.isSome)) = true then
                yoff + (if (s2.pos.2 + yoff) - (s1.pos.2 + s1.height) + stretch > maxDistance then
                  (if maxDistance - ((s2.pos.2 + yoff) - (s1.pos.2 + s1.height)) < 0 then 0
                    else maxDistance - ((s2.pos.2 + yoff) - (s1.pos.2 + s1.height)))
                  else stretch)
              else yoff) := rfl

theorem layoutPageLoop_moves (stretch maxDistance : ℚ) (hs : 0 ≤ stretch) :
    ∀ (rest : List SystemRec) (s1 : SystemRec) (yoff : ℚ),
      (layoutPageLoop stretch maxDistance
          { s1 with pos := (s1.pos.1, s1.pos.2 + yoff) } rest yoff).length = rest.length
      ∧ (∀ x ∈ systemMoves rest (layoutPageLoop stretch maxDistance
            { s1 with pos := (s1.pos.1, s1.pos.2 + yoff) } rest yoff),
          yoff ≤ x ∧ x ≤ yoff + stretch * (countGaps (s1 :: rest) : ℚ))
      ∧ List.Chain (fun a b : ℚ => a ≤ b) yoff
          (systemMoves rest (layoutPageLoop stretch maxDistance
            { s1 with pos := (s1.pos.1, s1.pos.2 + yoff) } rest yoff))
      ∧ (List.Chain (gapBelowCap stretch maxDistance) s1 rest → rest ≠ [] →
          (systemMoves rest (layoutPageLoop stretch maxDistance
            { s1 with pos := (s1.pos.1, s1.pos.2 + yoff) } rest yoff)).getLast?
            = some (yoff + stretch * (countGaps (s1 :: rest) : ℚ))) := by
  intro rest
  induction rest with
  | nil =>
    intro s1 yoff
    refine ⟨rfl, ?_, List.Chain.nil, fun _ h => absurd rfl h⟩
    intro x hx
    simp [layoutPageLoop, systemMoves] at hx
  | cons s2 rest ih =>
    intro s1 yoff
    have hfacts : ∃ Y : ℚ, ∃ c : ℕ,
        layoutPageLoop stretch maxDistance { s1 with pos := (s1.pos.1, s1.pos.2 + yoff) }
            (s2 :: rest) yoff
          = { s2 with pos := (s2.pos.1, s2.pos.2 + Y) }
              :: layoutPageLoop stretch maxDistance
                  { s2 with pos := (s2.pos.1, s2.pos.2 + Y) } rest Y
        ∧ countGaps (s1 :: s2 :: rest) = c + countGaps (s2 :: rest)
        ∧ yoff ≤ Y ∧ Y ≤ yoff + stretch * (c : ℚ)
        ∧ (gapBelowCap stretch maxDistance s1 s2 → Y = yoff + stretch * (c : ℚ)) := by
      by_cases hbox : (s1.vbox.isSome || s2.vbox.isSome) = true
      · refine ⟨yoff, 0, ?_, ?_, le_refl _, by simp, fun _ => by simp⟩
        · rw [layoutPageLoop_cons]
          simp only [hbox, Bool.not_true, Bool.false_eq_true, if_false]
        · rw [countGaps_cons, if_pos hbox]
      · have hd : s2.pos.2 + yoff - (s1.pos.2 + yoff + s1.height)
            = s2.pos.2 - (s1.pos.2 + s1.height) := by ring
        have hbf : (s1.vbox.isSome || s2.vbox.isSome) = false := by simpa using hbox
        refine ⟨yoff + (if s2.pos.2 - (s1.pos.2 + s1.height) + stretch > maxDistance then
            (if maxDistance - (s2.pos.2 - (s1.pos.2 + s1.height)) < 0 then 0
              else maxDistance - (s2.pos.2 - (s1.pos.2 + s1.height)))
            else stretch), 1, ?_, ?_, ?_, ?_, ?_⟩
        · rw [layoutPageLoop_cons]
          simp only [hbf, Bool.not_false, if_true, hd]
        · rw [countGaps_cons, if_neg hbox]
        · split_ifs <;> linarith
        · push_cast
          split_ifs <;> linarith
        · intro hcap
          have hle : s2.pos.2 - (s1.pos.2 + s1.height) + stretch ≤ maxDistance := by
            rcases hcap with h | h | h
            · simp [h] at hbf
            · simp [h] at hbf
            · exact h
          have hn : ¬ (s2.pos.2 - (s1.pos.2 + s1.height) + stretch > maxDistance) :=
            not_lt.mpr hle
          rw [if_neg hn]
          push_cast
          ring
    obtain ⟨Y, c, hloop, hcount, hy1, hy2, hy3⟩ := hfacts
    obtain ⟨i1, i2, i3, i4⟩ := ih s2 Y
    rw [hloop, hcount]
    have hmoves : systemMoves (s2 :: rest)
        ({ s2 with pos := (s2.pos.1, s2.pos.2 + Y) }
          :: layoutPageLoop stretch maxDistance
              { s2 with pos := (s2.pos.1, s2.pos.2 + Y) } rest Y)
        = Y :: systemMoves rest (layoutPageLoop stretch maxDistance
              { s2 with pos := (s2.pos.1, s2.pos.2 + Y) } rest Y) := by
      unfold systemMoves
      simp only [List.zipWith_cons_cons]
      congr 1
      ring
    rw [hmoves]
    have hcg : (0 : ℚ) ≤ stretch * (countGaps (s2 :: rest) : ℚ) :=
      mul_nonneg hs (Nat.cast_nonneg _)
    have hc0 : (0 : ℚ) ≤ stretch * (c : ℚ) := mul_nonneg hs (Nat.cast_nonneg _)
    refine ⟨by simp [i1], ?_, List.Chain.cons hy1 i3, ?_⟩
    · intro x hx
      push_cast
      rcases List.mem_cons.mp hx with rfl | hx
      · constructor
        · exact hy1
        · linarith
      · have h := i2 x hx
        constructor
        · linarith
        · have := h.2
          linarith
    · intro hchain _
      rw [List.chain_cons] at hchain
      have hY := hy3 hchain.1
      by_cases hr : rest = []
      · subst hr
        simp only [layoutPageLoop, systemMoves, List.zipWith_nil_left, List.getLast?_singleton,
          Option.some.injEq]
        rw [hY]
        simp [countGaps]
      · rw [getLast?_cons_of_ne_nil]
        · rw [i4 hchain.2 hr, hY]
          push_cast
          congr 1
          ring
        · intro hnil
          have hlen : (systemMoves rest (layoutPageLoop stretch maxDistance
              { s2 with pos := (s2.pos.1, s2.pos.2 + Y) } rest Y)).length = rest.length := by
            unfold systemMoves
            rw [List.length_zipWith, i1, min_self]
          rw [hnil] at hlen
          exact hr (List.length_eq_zero.mp hlen.symm)

/-- C38 (amended): the moves of `layoutPage`. With a rest height that is not negative, at
least one gap between systems that are not boxes, vertical stretch not switched off and a
layout mode other than SYSTEM (the stretch path), every system is moved down by an amount
that is not negative: so it is in rational arithmetic, and so it is in double precision
(`layoutPageDouble`) when the positions of the systems are values of double precision. In
rational arithmetic (the operations on `qreal` taken as those of the rationals, no rounding)
the amount is at most `restHeight`, the amounts do not decrease from the top of the page to
the bottom, and the last system is moved by exactly `restHeight` when no gap between two
systems that are not boxes hits the limit `maxSystemDistance`. -/
theorem layoutPage_moves_bounded (env : LayoutPageEnv) (systems : List SystemRec)
    (restHeight : ℚ) (hrest : 0 ≤ restHeight) (hgaps : countGaps systems ≥ 1)
    (hstretch : env.noVerticalStretch = false)
    (hmode : env.layoutMode ≠ LayoutMode.SYSTEM) :
    (layoutPage env systems restHeight).length = systems.length
      ∧ (∀ x ∈ systemMoves systems (layoutPage env systems restHeight),
          0 ≤ x ∧ x ≤ restHeight)
      ∧ List.Chain' (fun a b : ℚ => a ≤ b)
          (systemMoves systems (layoutPage env systems restHeight))
      ∧ (List.Chain' (gapBelowCap (restHeight / countGaps systems) env.maxSystemDistance)
            systems →
          (systemMoves systems (layoutPage env systems restHeight)).getLast?
            = some restHeight)
      ∧ ((∀ s ∈ systems, roundDouble s.pos.2 = s.pos.2) →
          ∀ x ∈ systemMoves systems (layoutPageDouble env systems restHeight), 0 ≤ x) := by
  have hdouble := layoutPageDouble_moves_nonneg env systems restHeight hrest hgaps hstretch
    hmode
  have hg : ¬ countGaps systems = 0 := by omega
  have hgq : (countGaps systems : ℚ) ≠ 0 := by exact_mod_cast hg
  have hs : 0 ≤ restHeight / (countGaps systems : ℚ) :=
    div_nonneg hrest (Nat.cast_nonneg _)
  have hmul : restHeight / (countGaps systems : ℚ) * (countGaps systems : ℚ) = restHeight :=
    div_mul_cancel₀ _ hgq
  unfold layoutPage
  simp only [hg, hstretch, hmode, Bool.false_eq_true, or_self, if_false]
  cases systems with
  | nil => exact absurd rfl hg
  | cons s rest =>
    simp only []
    obtain ⟨i1, i2, i3, i4⟩ := layoutPageLoop_moves (restHeight / (countGaps (s :: rest) : ℚ))
      env.maxSystemDistance hs rest s 0
    simp only [add_zero, zero_add] at i1 i2 i3 i4
    rw [hmul] at i2 i4
    have hmoves : systemMoves (s :: rest)
        (s :: layoutPageLoop (restHeight / (countGaps (s :: rest) : ℚ))
          env.maxSystemDistance s rest 0)
        = 0 :: systemMoves rest
            (layoutPageLoop (restHeight / (countGaps (s :: rest) : ℚ))
              env.maxSystemDistance s rest 0) := by
      unfold systemMoves
      simp only [List.zipWith_cons_cons, sub_self]
    rw [hmoves]
    refine ⟨by simp [i1], ?_, i3, ?_, hdouble⟩
    · intro x hx
      rcases List.mem_cons.mp hx with rfl | hx
      · exact ⟨le_refl _, hrest⟩
      · exact i2 x hx
    · intro hchain
      have hr : rest ≠ [] := by
        intro h
        subst h
        exact hg rfl
      rw [getLast?_cons_of_ne_nil]
      · exact i4 hchain hr
      · intro hnil
        have hlen : (systemMoves rest
            (layoutPageLoop (restHeight / (countGaps (s :: rest) : ℚ))
              env.maxSystemDistance s rest 0)).length = rest.length := by
          unfold systemMoves
          rw [List.length_zipWith, i1, min_self]
        rw [hnil] at hlen
        exact hr (List.length_eq_zero.mp hlen.symm)

theorem layoutPage_moves_example :
    systemMoves examplePageSystems
      (layoutPage (LayoutPageEnv.mk LayoutMode.PAGE false 40) examplePageSystems 20)
      = [0, 10, 15] := by
  simp [systemMoves, layoutPage, layoutPageLoop, countGaps, examplePageSystems]
  norm_num

theorem layoutPage_moves_bounded_witness :
    ((0 : ℚ) ≤ 20 ∧ countGaps examplePageSystems ≥ 1
      ∧ (LayoutPageEnv.mk LayoutMode.PAGE false 40).noVerticalStretch = false
      ∧ (LayoutPageEnv.mk LayoutMode.PAGE false 40).layoutMode ≠ LayoutMode.SYSTEM)
    ∧ ((layoutPage (LayoutPageEnv.mk LayoutMode.PAGE false 40) examplePageSystems 20).length
        = examplePageSystems.length
      ∧ (∀ x ∈ systemMoves examplePageSystems
            (layoutPage (LayoutPageEnv.mk LayoutMode.PAGE false 40) examplePageSystems 20),
          0 ≤ x ∧ x ≤ 20)
      ∧ List.Chain' (fun a b : ℚ => a ≤ b)
          (systemMoves examplePageSystems
            (layoutPage (LayoutPageEnv.mk LayoutMode.PAGE false 40) examplePageSystems 20))
      ∧ (∀ s ∈ examplePageSystems, roundDouble s.pos.2 = s.pos.2)
      ∧ ∀ x ∈ systemMoves examplePageSystems
            (layoutPageDouble (LayoutPageEnv.mk LayoutMode.PAGE false 40) examplePageSystems
              20), 0 ≤ x) :=
  ⟨⟨by norm_num, by decide, rfl, by decide⟩,
    (layoutPage_moves_bounded (LayoutPageEnv.mk LayoutMode.PAGE false 40) examplePageSystems 20
      (by norm_num) (by decide) rfl (by decide)).1,
    (layoutPage_moves_bounded (LayoutPageEnv.mk LayoutMode.PAGE false 40) examplePageSystems 20
      (by norm_num) (by decide) rfl (by decide)).2.1,
    (layoutPage_moves_bounded (LayoutPageEnv.mk LayoutMode.PAGE false 40) examplePageSystems 20
      (by norm_num) (by decide) rfl (by decide)).2.2.1,
    by decide!,
    (layoutPage_moves_bounded (LayoutPageEnv.mk LayoutMode.PAGE false 40) examplePageSystems 20
      (by norm_num) (by decide) rfl (by decide)).2.2.2.2 (by decide!)⟩

/-! ## Bar line spans -/

theorem updateBarLineSpansStaff_span (from1 to1 idx linesOld linesNew sIdx : Int)
    (staff : BarLineStaff) :
    (updateBarLineSpansStaff from1 to1 idx linesOld linesNew sIdx staff).barLineSpan
      = staff.barLineSpan := by
  unfold updateBarLineSpansStaff
  simp only []
  split_ifs <;> rfl

theorem updateBarLineSpansStaff_from (from1 to1 idx linesOld linesNew sIdx : Int)
    (staff : BarLineStaff) :
    (updateBarLineSpansStaff from1 to1 idx linesOld linesNew sIdx staff).barLineFrom
      = if sIdx = idx then
          if staff.barLineSpan = 0 then staff.barLineFrom
          else if linesNew = 1 then from1
          else if linesOld = 1 then 0
          else if staff.barLineFrom > linesOld - 1 then
            staff.barLineFrom + (linesNew - linesOld) * 2
          else staff.barLineFrom
        else staff.barLineFrom := by
  unfold updateBarLineSpansStaff
  simp only []
  split_ifs <;> rfl

theorem updateBarLineSpansLoop_get (from1 to1 idx linesOld linesNew : Int) :
    ∀ (staves : List BarLineStaff) (sIdx k : Nat),
      (updateBarLineSpansLoop from1 to1 idx linesOld linesNew sIdx staves).get? k
        = (staves.get? k).map
            (updateBarLineSpansStaff from1 to1 idx linesOld linesNew ((sIdx + k : Nat) : Int)) := by
  intro staves
  induction staves with
  | nil => intro sIdx k; rfl
  | cons s rest ih =>
    intro sIdx k
    unfold updateBarLineSpansLoop
    cases k with
    | zero => rfl
    | succ k =>
      simp only [List.get?_cons_succ]
      rw [ih (sIdx + 1) k]
      have e : sIdx + 1 + k = sIdx + (k + 1) := by omega
      rw [e]

/-- C32: `updateBarLineSpans(idx, linesOld, linesNew)` keeps the number of staves and the
`barLineSpan` of every staff; for the modified staff with a span that is not zero and
`linesOld != 1` and `linesNew != 1`, a `barLineFrom` greater than `linesOld - 1` keeps its
offset to the bottom staff line, `newFrom - 2 * (linesNew - 1) == oldFrom - 2 * (linesOld - 1)`,
and a `barLineFrom` of at most `linesOld - 1` is unchanged. -/
theorem updateBarLineSpans_from (from1 to1 : Int) (staves : List BarLineStaff)
    (idx : Nat) (linesOld linesNew : Int) :
    (updateBarLineSpans from1 to1 staves idx linesOld linesNew).map (fun s => s.barLineSpan)
        = staves.map (fun s => s.barLineSpan)
      ∧ ∀ staff, staves.get? idx = some staff → staff.barLineSpan ≠ 0 →
          linesOld ≠ 1 → linesNew ≠ 1 →
          ∃ staff1, (updateBarLineSpans from1 to1 staves idx linesOld linesNew).get? idx
              = some staff1
            ∧ (staff.barLineFrom > linesOld - 1 →
                staff1.barLineFrom - 2 * (linesNew - 1)
                  = staff.barLineFrom - 2 * (linesOld - 1))
            ∧ (staff.barLineFrom ≤ linesOld - 1 → staff1.barLineFrom = staff.barLineFrom) := by
  constructor
  · unfold updateBarLineSpans
    generalize (0 : Nat) = sIdx
    induction staves generalizing sIdx with
    | nil => rfl
    | cons s rest ih =>
      unfold updateBarLineSpansLoop
      simp only [List.map_cons]
      rw [ih (sIdx + 1), updateBarLineSpansStaff_span]
  · intro staff hget hspan hold hnew
    refine ⟨updateBarLineSpansStaff from1 to1 idx linesOld linesNew idx staff, ?_, ?_, ?_⟩
    · unfold updateBarLineSpans
      rw [updateBarLineSpansLoop_get, hget]
      simp
    · intro hfrom
      rw [updateBarLineSpansStaff_from]
      simp only [if_true, hspan, hnew, hold, if_false, hfrom]
      ring
    · intro hfrom
      rw [updateBarLineSpansStaff_from]
      have hn : ¬ staff.barLineFrom > linesOld - 1 := not_lt.mpr hfrom
      simp only [if_true, hspan, hnew, hold, if_false, hn]

theorem updateBarLineSpans_from_witness :
    (exampleBarLineStaves.get? 1 = some (BarLineStaff.mk 1 6 8)
      ∧ (BarLineStaff.mk 1 6 8).barLineSpan ≠ 0 ∧ (5 : Int) ≠ 1 ∧ (3 : Int) ≠ 1)
    ∧ ∃ staff1, (updateBarLineSpans (-2) 2 exampleBarLineStaves (1 : Nat) 5 3).get? 1
          = some staff1
        ∧ ((BarLineStaff.mk 1 6 8).barLineFrom > 5 - 1 →
            staff1.barLineFrom - 2 * (3 - 1) = (BarLineStaff.mk 1 6 8).barLineFrom - 2 * (5 - 1))
        ∧ ((BarLineStaff.mk 1 6 8).barLineFrom ≤ 5 - 1 →
            staff1.barLineFrom = (BarLineStaff.mk 1 6 8).barLineFrom) :=
  ⟨⟨rfl, by decide, by decide, by decide⟩,
    (updateBarLineSpans_from (-2) 2 exampleBarLineStaves 1 5 3).2 (BarLineStaff.mk 1 6 8) rfl
      (by decide) (by decide) (by decide)⟩

/-! ## Hiding empty staves -/

theorem hideEmptyStavesLoop_spec (env : HideEnv) (staves : Nat) (isFirstSystem : Bool)
    (measures : List HideMeasure) :
    ∀ (l : List HideStaff) (staffIdx : Nat) (systemIsEmpty : Bool),
      (hideEmptyStavesLoop env staves isFirstSystem measures staffIdx l systemIsEmpty).1.length
          = l.length
        ∧ ((hideEmptyStavesLoop env staves isFirstSystem measures staffIdx l systemIsEmpty).2
            = false →
          systemIsEmpty = false
            ∨ true ∈ (hideEmptyStavesLoop env staves isFirstSystem measures staffIdx l
                systemIsEmpty).1) := by
  intro l
  induction l with
  | nil => intro staffIdx e; exact ⟨rfl, fun h => Or.inl h⟩
  | cons staff rest ih =>
    intro staffIdx e
    unfold hideEmptyStavesLoop
    simp only [List.length_cons]
    obtain ⟨i1, i2⟩ := ih (staffIdx + 1)
      (hideEmptyStaff env staves isFirstSystem measures staffIdx staff e).2
    refine ⟨by rw [i1], ?_⟩
    intro h
    rcases i2 h with h2 | h2
    · have hstep : e = false
          ∨ (hideEmptyStaff env staves isFirstSystem measures staffIdx staff e).1 = true := by
        unfold hideEmptyStaff at h2 ⊢
        split_ifs at h2 ⊢ with hc
        · simp only [] at h2 ⊢
          split_ifs at h2 ⊢ <;> simp_all
        · exact Or.inr rfl
      rcases hstep with h3 | h3
      · exact Or.inl h3
      · right
        rw [← h3]
        exact List.mem_cons_self _ _
    · exact Or.inr (List.mem_cons_of_mem _ h2)

theorem showIfEmptyLoop_spec :
    ∀ (l : List HideStaff) (shows : List Bool) (systemIsEmpty : Bool),
      (showIfEmptyLoop l shows systemIsEmpty).1.length = shows.length
        ∧ ((showIfEmptyLoop l shows systemIsEmpty).2 = false →
          systemIsEmpty = false ∨ true ∈ (showIfEmptyLoop l shows systemIsEmpty).1) := by
  intro l
  induction l with
  | nil =>
    intro shows e
    unfold showIfEmptyLoop
    exact ⟨rfl, fun h => Or.inl h⟩
  | cons staff rest ih =>
    intro shows e
    cases shows with
    | nil =>
      unfold showIfEmptyLoop
      exact ⟨rfl, fun h => Or.inl h⟩
    | cons ss shows =>
      unfold showIfEmptyLoop
      simp only [List.length_cons]
      obtain ⟨i1, i2⟩ := ih shows (if (staff.showIfEmpty && !ss) = true then false else e)
      refine ⟨by rw [i1], ?_⟩
      intro h
      rcases i2 h with h2 | h2
      · by_cases hit : (staff.showIfEmpty && !ss) = true
        · right
          simp only [hit, if_true]
          exact List.mem_cons_self _ _
        · simp only [hit, if_false] at h2
          exact Or.inl h2
      · exact Or.inr (List.mem_cons_of_mem _ h2)

/-- C33: for a score with at least one staff, after `hideEmptyStaves` the system has as
many staves as the score and at least one of them has `show()` true. -/
theorem hideEmptyStaves_not_empty (env : HideEnv) (stavesList : List HideStaff)
    (measures : List HideMeasure) (isFirstSystem : Bool) (hne : stavesList ≠ []) :
    (hideEmptyStaves env stavesList measures isFirstSystem).length = stavesList.length
      ∧ true ∈ hideEmptyStaves env stavesList measures isFirstSystem := by
  obtain ⟨a1, a2⟩ := hideEmptyStavesLoop_spec env stavesList.length isFirstSystem measures
    stavesList 0 true
  unfold hideEmptyStaves
  simp only []
  generalize hideEmptyStavesLoop env stavesList.length isFirstSystem measures 0 stavesList true
    = r at a1 a2
  by_cases h1 : r.2 = true
  · simp only [h1, if_true]
    obtain ⟨b1, b2⟩ := showIfEmptyLoop_spec stavesList r.1 true
    generalize showIfEmptyLoop stavesList r.1 true = r2 at b1 b2
    by_cases h2 : r2.2 = true
    · simp only [h2, if_true]
      have hlen : r2.1.length = stavesList.length := by rw [b1, a1]
      cases hr : r2.1 with
      | nil =>
        rw [hr] at hlen
        exact absurd (List.length_eq_zero.mp hlen.symm) hne
      | cons x shows =>
        rw [hr] at hlen
        exact ⟨hlen, List.mem_cons_self _ _⟩
    · have h2f : r2.2 = false := by simpa using h2
      simp only [h2f, Bool.false_eq_true, if_false]
      refine ⟨by rw [b1, a1], ?_⟩
      rcases b2 h2f with h3 | h3
      · exact Bool.noConfusion h3
      · exact h3
  · have h1f : r.2 = false := by simpa using h1
    simp only [h1f, Bool.false_eq_true, if_false]
    refine ⟨a1, ?_⟩
    rcases a2 h1f with h3 | h3
    · exact Bool.noConfusion h3
    · exact h3

theorem hideEmptyStaves_not_empty_witness :
    exampleHideStaves ≠ []
    ∧ ((hideEmptyStaves {} exampleHideStaves [exampleRestMeasure] false).length
        = exampleHideStaves.length
      ∧ true ∈ hideEmptyStaves {} exampleHideStaves [exampleRestMeasure] false) :=
  ⟨by decide, hideEmptyStaves_not_empty {} exampleHideStaves [exampleRestMeasure] false
    (by decide)⟩

theorem hideEmptyStaves_example :
    hideEmptyStaves {} exampleHideStaves [exampleRestMeasure] false = [true, false] := by
  decide

/-! ## Measure numbers with and without multi-measure rests -/

/-- What the numbering part of `getNextMeasure` does without the style
`createMultiMeasureRests`: the measure gets the number `measureNo + noOffset`. -/
theorem getNextMeasureNumbering_plain (showVBox : Bool) (minEmptyMeasures measureNo : Int)
    (m : ScoreMeasure) (rest next : List ScoreMeasure) :
    getNextMeasureNumbering false showVBox minEmptyMeasures measureNo (m :: rest) next
      = ((adjustMeasureNo measureNo m).1 :: rest, (adjustMeasureNo measureNo m).2) := by
  unfold getNextMeasureNumbering
  simp

/-- C35: for an empty measure with the measure number offset 1 that is followed by a
measure with notes, entered with the measure number 4 and `minEmptyMeasures` 2, the run
that starts at the measure has one measure, so nothing collapses, and the running measure
number afterwards is 6 with and without `createMultiMeasureRests`; but the measure gets the
number 5 without the style and the number 6 with it: the run loop applies the offset of
the measure a second time. -/
theorem getNextMeasure_numbering_differs :
    (mmRestRun false ((adjustMeasureNo 4 { id := 0, noOffset := 1 }).1
        :: exampleOffsetMeasures.drop 1) { measureNo := 5 }).1.n = 1
    ∧ (getNextMeasureNumbering false false 2 4 exampleOffsetMeasures
        (exampleOffsetMeasures.drop 1)).2 = 6
    ∧ (getNextMeasureNumbering true false 2 4 exampleOffsetMeasures
        (exampleOffsetMeasures.drop 1)).2 = 6
    ∧ (getNextMeasureNumbering false false 2 4 exampleOffsetMeasures
        (exampleOffsetMeasures.drop 1)).1.map (fun m => (m.no, m.mmRest.isSome))
        = [(5, false), (0, false)]
    ∧ (getNextMeasureNumbering true false 2 4 exampleOffsetMeasures
        (exampleOffsetMeasures.drop 1)).1.map (fun m => (m.no, m.mmRest.isSome))
        = [(6, false), (0, false)] := by
  refine ⟨by decide, by decide, by decide, by decide, by decide⟩

/-! ## Page collection: the systems of a page -/

theorem collectPageLoop_order (env : PageEnv) :
    ∀ (stream : List SystemRec) (s1 : Option SystemRec) (s2 : SystemRec) (y : ℚ)
      (systems : List SystemRec),
      ∃ k, (collectPageLoop env stream s1 s2 y systems).systems.map (fun s => s.id)
            = systems.map (fun s => s.id) ++ ((s2 :: stream).take (k + 1)).map (fun s => s.id)
        ∧ (collectPageLoop env stream s1 s2 y systems).curSystem
            = ((s2 :: stream).drop (k + 1)).head?
        ∧ (collectPageLoop env stream s1 s2 y systems).stream
            = ((s2 :: stream).drop (k + 1)).tail := by
  intro stream
  induction stream with
  | nil =>
    intro s1 s2 y systems
    exact ⟨0, by simp [collectPageLoop], by simp [collectPageLoop], by simp [collectPageLoop]⟩
  | cons s3 rest ih =>
    intro s1 s2 y systems
    obtain ⟨k, h1, h2, h3⟩ := ih (some { s2 with pos := (env.lm, y + systemDistance env s1 s2) })
      s3 (y + systemDistance env s1 s2 + s2.height)
      (systems ++ [{ s2 with pos := (env.lm, y + systemDistance env s1 s2) }])
    unfold collectPageLoop
    simp only []
    split_ifs
    all_goals first
      | (refine ⟨0, ?_, ?_, ?_⟩ <;> (simp; done))
      | (refine ⟨k + 1, ?_, ?_, ?_⟩
         · rw [h1]; simp
         · rw [h2]; simp
         · rw [h3]; simp)

theorem layoutPageLoop_ids (stretch maxDistance : ℚ) :
    ∀ (rest : List SystemRec) (s1 : SystemRec) (yoff : ℚ),
      (layoutPageLoop stretch maxDistance s1 rest yoff).map (fun s => s.id)
        = rest.map (fun s => s.id) := by
  intro rest
  induction rest with
  | nil => intro s1 yoff; rfl
  | cons s2 rest ih =>
    intro s1 yoff
    unfold layoutPageLoop
    simp only [List.map_cons]
    rw [ih]

theorem layoutPage_ids (env : LayoutPageEnv) (systems : List SystemRec) (restHeight : ℚ) :
    (layoutPage env systems restHeight).map (fun s => s.id) = systems.map (fun s => s.id) := by
  unfold layoutPage
  simp only []
  split_ifs
  · simp [List.map_map, Function.comp]
  · rfl
  · cases systems with
    | nil => rfl
    | cons s rest =>
      simp only [List.map_cons]
      rw [layoutPageLoop_ids]

theorem getEmptyPage_spec (st : PagesState) :
    (getEmptyPage st).1.curPage = st.curPage + 1
      ∧ (getEmptyPage st).2 < (getEmptyPage st).1.pages.length
      ∧ (getEmptyPage st).2 = min st.curPage st.pages.length := by
  unfold getEmptyPage
  split_ifs with h
  · refine ⟨rfl, by simp, ?_⟩
    simp only []
    omega
  · refine ⟨rfl, ?_, ?_⟩
    · simp only [List.length_set]
      omega
    · simp only []
      omega

/-- C36: `collectPage` returns false exactly when there is no current system, and then
leaves the pages and the page counter as they are; a call that returns true advances the
page counter by one and fills the page at the index `min(curPage, _pages.size())` with at
least one system: the current system first, then the systems in the order in which the
following calls of `collectSystem` deliver them, and the systems not placed stay for the
next call. -/
theorem collectPage_appends_in_order (env : PageEnv) (lpenv : LayoutPageEnv) (st : PagesState)
    (curSystem : Option SystemRec) (stream : List SystemRec) :
    ((collectPageCall env lpenv st curSystem stream).returned = false ↔ curSystem = none)
      ∧ ((collectPageCall env lpenv st curSystem stream).returned = false →
          (collectPageCall env lpenv st curSystem stream).state = st)
      ∧ ((collectPageCall env lpenv st curSystem stream).returned = true →
          (collectPageCall env lpenv st curSystem stream).state.curPage = st.curPage + 1
          ∧ ∃ systems k,
              (collectPageCall env lpenv st curSystem stream).state.pages.get?
                  (min st.curPage st.pages.length) = some systems
              ∧ systems ≠ []
              ∧ systems.map (fun s => s.id)
                  = ((curSystem.toList ++ stream).take (k + 1)).map (fun s => s.id)
              ∧ (collectPageCall env lpenv st curSystem stream).curSystem
                  = ((curSystem.toList ++ stream).drop (k + 1)).head?
              ∧ (collectPageCall env lpenv st curSystem stream).stream
                  = ((curSystem.toList ++ stream).drop (k + 1)).tail) := by
  cases curSystem with
  | none =>
    refine ⟨⟨fun _ => rfl, fun _ => rfl⟩, fun _ => rfl, ?_⟩
    intro h
    exact Bool.noConfusion h
  | some s2 =>
    refine ⟨⟨fun h => Bool.noConfusion h, fun h => Option.noConfusion h⟩,
      fun h => Bool.noConfusion h, ?_⟩
    intro _
    obtain ⟨k, h1, h2, h3⟩ := collectPageLoop_order env stream none s2 env.tm []
    obtain ⟨e1, e2, e3⟩ := getEmptyPage_spec st
    unfold collectPageCall
    simp only []
    refine ⟨e1, layoutPage lpenv (collectPageLoop env stream none s2 env.tm []).systems
      (collectPageLoop env stream none s2 env.tm []).restHeight, k, ?_, ?_, ?_, h2, h3⟩
    · rw [← e3, List.get?_eq_getElem?, List.getElem?_set_self e2]
    · intro hnil
      have hlen := congrArg List.length (layoutPage_ids lpenv
        (collectPageLoop env stream none s2 env.tm []).systems
        (collectPageLoop env stream none s2 env.tm []).restHeight)
      rw [hnil, h1] at hlen
      simp at hlen
    · rw [layoutPage_ids, h1]
      simp

theorem collectPage_example :
    (collectPageCall examplePageEnv (LayoutPageEnv.mk LayoutMode.PAGE false 40) ⟨[], 0⟩
        (exampleTallSystems.head?) exampleTallSystems.tail).state.pages.map
          (fun p => p.map (fun s => s.id)) = [[0, 1]]
      ∧ (collectPageCall examplePageEnv (LayoutPageEnv.mk LayoutMode.PAGE false 40) ⟨[], 0⟩
        (exampleTallSystems.head?) exampleTallSystems.tail).curSystem.map (fun s => s.id)
          = some 2 := by
  have h : collectPageLoop examplePageEnv [{ id := 1, height := 25 }, { id := 2, height := 40 }]
      none { id := 0, height := 30 } examplePageEnv.tm []
      = { systems := [{ id := 0, height := 30, pos := (5, 17) },
                      { id := 1, height := 25, pos := (5, 55) }],
          restHeight := 3,
          curSystem := some { id := 2, height := 40 },
          stream := [] } := by
    simp [collectPageLoop, examplePageEnv, systemDistance, bottomClearance]
    norm_num
  constructor
  · simp only [collectPageCall, getEmptyPage, exampleTallSystems, List.head?_cons, List.tail_cons]
    rw [h]
    simp [layoutPage_ids]
  · simp only [collectPageCall, exampleTallSystems, List.head?_cons, List.tail_cons]
    rw [h]
    rfl

theorem collectPage_appends_in_order_witness :
    (collectPageCall examplePageEnv (LayoutPageEnv.mk LayoutMode.PAGE false 40) ⟨[], 0⟩
        (some (SystemRec.mk 0 40 none 0 0 false (0, 0))) []).returned = true
    ∧ (collectPageCall examplePageEnv (LayoutPageEnv.mk LayoutMode.PAGE false 40) ⟨[], 0⟩
        (some (SystemRec.mk 0 40 none 0 0 false (0, 0))) []).state.curPage = 0 + 1 :=
  ⟨rfl,
    ((collectPage_appends_in_order examplePageEnv (LayoutPageEnv.mk LayoutMode.PAGE false 40)
      ⟨[], 0⟩ (some (SystemRec.mk 0 40 none 0 0 false (0, 0))) []).2.2 rfl).1⟩

/-! ## Arithmetic of double precision: where the exact equalities fail -/

/-- The values of double precision nearest to 1/10 and to the sum of the doubles nearest to
1/10 and 2/10, as `roundDouble` gives them. -/
theorem roundDouble_example :
    roundDouble (1 / 10) = 3602879701896397 / 36028797018963968
      ∧ addDouble (roundDouble (1 / 10)) (roundDouble (2 / 10))
          = 1351079888211149 / 4503599627370496
      ∧ roundDouble 200 = 200 ∧ divDouble 1 3 = 6004799503160661 / 18014398509481984 := by
  decide!

/-- C2 (counterexample): in double precision the width distribution misses the system
width. For a system of width 200 without left margin that holds three measures of 1920
ticks with the widths 20, 30 and 25 (positive total weight, no horizontal box, not ragged,
outside line mode, horizontal stretch enabled), the left margin plus the widths handed to
`stretchMeasure` is less than the system width, and so is the final `pos.x()`, which is
`200 - 2^-45`. -/
theorem collectSystem_width_closure_double_counterexample :
    0 < (systemMinWidthWeightDouble 0 exampleDoubleMeasures).2
    ∧ (∀ mb ∈ exampleDoubleMeasures, mb.type ≠ ElementType.HBOX)
    ∧ 0 + ((distributeSystemWidthDouble false false false 0 200
        exampleDoubleMeasures).widths).sum ≠ 200
    ∧ (distributeSystemWidthDouble false false false 0 200 exampleDoubleMeasures).posX
        = 200 - 1 / 2 ^ 45
    ∧ (distributeSystemWidthDouble false false false 0 200 exampleDoubleMeasures).posX
        ≠ (distributeSystemWidthDouble false false false 0 200
            exampleDoubleMeasures).systemWidth := by
  decide!

/-- C30 (counterexample): in double precision the look-back correction misses the minimum
distance. In the round for the third of four chord/rest segments at the positions 0, 10
and 20, of which the first needs the distance 56 to the fourth, the look-back finds the
first segment with the shortfall 36 and `n = 3`, and after the round the position of the
fourth segment minus the position of the first is `56 - 2^-47`, less than the minimum
horizontal distance. -/
theorem computeMinWidth_lookBack_double_counterexample :
    positionsFollow exampleDoubleWidthState 2 20
    ∧ 2 + 1 < exampleDoubleWidthEnv.segments.length
    ∧ (10 : ℚ) = exampleDoubleWidthEnv.minHorizontalDistance 2 (2 + 1)
        (false && exampleDoubleWidthEnv.isChordRestType (2 + 1))
    ∧ lookBackDouble exampleDoubleWidthEnv
        { exampleDoubleWidthState with xpos := Function.update exampleDoubleWidthState.xpos 2 20 }
        2 (2 + 1) 10 (2 + 1) 2 1 = some (0, 3, 36)
    ∧ (computeMinWidthStepDouble exampleDoubleWidthEnv exampleDoubleWidthState 2 20 false).2.1
        - (computeMinWidthStepDouble exampleDoubleWidthEnv exampleDoubleWidthState 2 20
            false).1.xpos 0
      = 56 - 1 / 2 ^ 47
    ∧ (computeMinWidthStepDouble exampleDoubleWidthEnv exampleDoubleWidthState 2 20 false).2.1
        - (computeMinWidthStepDouble exampleDoubleWidthEnv exampleDoubleWidthState 2 20
            false).1.xpos 0
      ≠ exampleDoubleWidthEnv.minHorizontalDistance 0 (2 + 1) false := by
  refine ⟨⟨fun k hk => ?_, fun _ => by decide!⟩, by decide!, by decide!, by decide!, by decide!,
    by decide!⟩
  obtain rfl : k = 0 := by omega
  decide!

/-- The moves of `layoutPage` in double precision for the page of `exampleDoubleBoxPage`
with the rest height 10: the second system is moved by `10 + 2^-49`, the box behind it by
10. -/
theorem exampleDoubleBox_moves :
    systemMoves exampleDoubleBoxPage
        (layoutPageDouble (LayoutPageEnv.mk LayoutMode.PAGE false 1000) exampleDoubleBoxPage
          10) = [0, 10 + 1 / 2 ^ 49, 10] := by
  decide!

/-- C38 (counterexample): in double precision a system moves by more than the rest height
and the amounts decrease. For a page of three systems of height 10 at the positions 0,
15.1 and 30.2 (no box, so two gaps), the rest height 10 and the limit 1000 for the distance
of two systems, which no gap hits, on the stretch path, the last system is moved by
`10 + 2^-48`: the amount is not the rest height and not bounded by it. For a page of two
systems of height 10 at the positions 0 and 15.1 and a box at 40.1 (one gap), with the same
rest height and limit, the second system is moved by `10 + 2^-49` and the box behind it by
10: the amounts decrease. -/
theorem layoutPage_moves_double_counterexample :
    ((0 : ℚ) ≤ 10 ∧ countGaps exampleDoublePage ≥ 1
    ∧ (LayoutPageEnv.mk LayoutMode.PAGE false 1000).noVerticalStretch = false
    ∧ (LayoutPageEnv.mk LayoutMode.PAGE false 1000).layoutMode ≠ LayoutMode.SYSTEM
    ∧ (∀ s ∈ exampleDoublePage, s.vbox = none)
    ∧ List.Chain' (gapBelowCap (10 / (countGaps exampleDoublePage : ℚ)) 1000)
        exampleDoublePage
    ∧ (systemMoves exampleDoublePage
        (layoutPageDouble (LayoutPageEnv.mk LayoutMode.PAGE false 1000) exampleDoublePage
          10)).getLast? = some (10 + 1 / 2 ^ 48)
    ∧ (systemMoves exampleDoublePage
        (layoutPageDouble (LayoutPageEnv.mk LayoutMode.PAGE false 1000) exampleDoublePage
          10)).getLast? ≠ some 10
    ∧ ∃ x ∈ systemMoves exampleDoublePage
        (layoutPageDouble (LayoutPageEnv.mk LayoutMode.PAGE false 1000) exampleDoublePage 10),
      ¬ x ≤ 10)
    ∧ (countGaps exampleDoubleBoxPage ≥ 1
      ∧ systemMoves exampleDoubleBoxPage
          (layoutPageDouble (LayoutPageEnv.mk LayoutMode.PAGE false 1000) exampleDoubleBoxPage
            10) = [0, 10 + 1 / 2 ^ 49, 10]
      ∧ ¬ List.Chain' (fun a b : ℚ => a ≤ b)
          (systemMoves exampleDoubleBoxPage
            (layoutPageDouble (LayoutPageEnv.mk LayoutMode.PAGE false 1000)
              exampleDoubleBoxPage 10))) := by
  refine ⟨⟨by decide!, by decide!, by decide!, by decide!, by decide!, ?_, by decide!,
    by decide!, by decide!⟩, by decide!, exampleDoubleBox_moves, ?_⟩
  · unfold exampleDoublePage
    refine List.Chain'.cons ?_ (List.Chain'.cons ?_ (List.chain'_singleton _)) <;>
      (unfold gapBelowCap; decide!)
  · rw [exampleDoubleBox_moves]
    intro hc
    have h := (List.chain'_cons.mp (List.chain'_cons.mp hc).2).1
    norm_num at h

end MuseScore
